import Mathlib

/-!
Buzz parser: a shallow embedding of `buzzparser.c`

The parser of `buzzparser.c` is a single-pass recursive-descent compiler: every
grammar rule consumes tokens, consults the stack of symbol tables and appends
assembly text to the current chunk.  The embedding below follows the C file
function by function.

Conventions of the embedding

* A C string is a `List Char` (one `Char` per byte) without the closing NUL;
  `strlen` is `List.length`.
* The lexer is an external collaborator.  It is represented by the list of the
  tokens it will still deliver (`buzzparser_s.lex`).  A token keeps its kind and
  its text; line and column only occur in diagnostics and are left out.
* `PARSE_OK` / `PARSE_ERROR` become the constructors `presult.ok` /
  `presult.error`.  The diagnostics printed on `stderr` become the error value.
* Recursion of the grammar rules and every `while` loop is bounded by a fuel
  argument; `presult.nofuel` is returned when the fuel is used up, and is
  different from both outcomes of the C code.
* Pointers to heap objects become indices (`buzzparser_s.chunk` is the position
  of the current chunk in the chunk list) or the value pointed to (a chunk keeps
  the symbol record its `sym` pointer referred to when the chunk was created,
  `parse_idref` keeps the record returned by `sym_lookup`).
* The two functions that write the output read memory that the parse does not
  determine.  `chunk_register` reads the flag and the slot of a symbol through
  the pointer `c->sym`, whose target may have been replaced or removed since the
  chunk was created; `chunk_print` prints the buffer of a chunk as a C string,
  and the buffer of the global chunk is never NUL-terminated.  What memory
  holds there is a parameter of these functions and of `buzzparser_parse`
  (`heap` and `mem`); statements about the output hold for all values of the
  parameters unless they say otherwise.
* `par->syms` always points to the last table pushed on `par->symstack`; the
  stack is a list whose head is that table.
* `par->labels` is a `uint32_t`: it is a `Nat` reduced modulo `2^32` on every
  update.  Table sizes and slot numbers are far below every machine bound and
  are plain `Nat`.
-/

namespace Buzz

/-- C strings. -/
abbrev cstr := List Char

/-- Modelled from the spec: the token kinds of the lexer (`buzzlex.h` is not
among the sources); one constructor per `BUZZTOK_*` name used by the parser. -/
inductive buzztok_type_e
  | BUZZTOK_ID | BUZZTOK_CONST | BUZZTOK_STRING | BUZZTOK_BOOL
  | BUZZTOK_FUN | BUZZTOK_IF | BUZZTOK_ELSE | BUZZTOK_FOR | BUZZTOK_WHILE
  | BUZZTOK_RETURN | BUZZTOK_STATEND
  | BUZZTOK_BLOCKOPEN | BUZZTOK_BLOCKCLOSE
  | BUZZTOK_PAROPEN | BUZZTOK_PARCLOSE
  | BUZZTOK_IDXOPEN | BUZZTOK_IDXCLOSE
  | BUZZTOK_DOT | BUZZTOK_LISTSEP | BUZZTOK_ASSIGN
  | BUZZTOK_ANDOR | BUZZTOK_NOT | BUZZTOK_CMP
  | BUZZTOK_ADDSUB | BUZZTOK_MULDIV | BUZZTOK_MOD | BUZZTOK_POW
  deriving DecidableEq, Repr, Inhabited

open buzztok_type_e

/-- Modelled from the spec: a token is a kind and a text (`value` may be `NULL`,
as for a statement end that is a newline). -/
structure buzztok_s where
  type : buzztok_type_e
  value : Option cstr
  deriving DecidableEq, Repr, Inhabited

/-- The diagnostics of the parser, one constructor per message. -/
inductive perr
  /-- Message "expected token, found EOF" (`fetchtok`, `match`). -/
  | eof
  /-- Message "expected %s, found %s" (`match`). -/
  | expected (want found : buzztok_type_e)
  /-- Message "Undefined symbol %s" (`parse_idref`). -/
  | undefined (sym : cstr)
  /-- Message "can not have a function call as lvalue" (`parse_command`). -/
  | call_lvalue
  /-- Message "expected function call or assignment" (`parse_command`). -/
  | not_call_or_assignment
  /-- Failure of `parse_statlist`, which returns `PARSE_ERROR` without a message. -/
  | statlist
  /-- Message "Empty file" (`parse_script`). -/
  | empty_file
  /-- A rule read `par->tok->type` while `par->tok` was `NULL`. -/
  | null_tok
  deriving DecidableEq, Repr

/-- Outcome of a grammar rule. -/
inductive presult (α : Type)
  | ok (a : α)
  | error (e : perr)
  | nofuel
  deriving DecidableEq, Repr

/-- Sequencing of rules: the first failure is returned at once. -/
def presult.bind {α β : Type} (x : presult α) (f : α → presult β) : presult β :=
  match x with
  | .ok a => f a
  | .error e => .error e
  | .nofuel => .nofuel

instance : Monad presult where
  pure := presult.ok
  bind := presult.bind

/-! ## Symbols -/

def TYPE_BASIC : Int := -1
def TYPE_CLOSURE : Int := -2
def TYPE_TABLE : Int := -3

/-- Record `struct sym_s`. -/
structure sym_s where
  pos : Nat
  type : Int
  global : Bool
  deriving DecidableEq, Repr, Inhabited

/-- Modelled from the spec: `buzzdict_t` with string keys (`buzzdict.h` is not
among the sources), "a native ordered-insertion mapping from name to Symbol"
in which "duplicate-name rebinding in the same table silently replaces the
previous entry". -/
abbrev buzzdict_t := List (cstr × sym_s)

/-- Modelled from the spec: `buzzdict_get`, the record stored under a key. -/
def buzzdict_get (dt : buzzdict_t) (key : cstr) : Option sym_s :=
  (dt.find? (fun e => decide (e.1 = key))).map Prod.snd

/-- Modelled from the spec: `buzzdict_size`, the number of entries. -/
def buzzdict_size (dt : buzzdict_t) : Nat := dt.length

/-- Modelled from the spec: `buzzdict_set`, last write wins. -/
def buzzdict_set (dt : buzzdict_t) (key : cstr) (data : sym_s) : buzzdict_t :=
  if dt.any (fun e => decide (e.1 = key)) then
    dt.map (fun e => if e.1 = key then (key, data) else e)
  else dt ++ [(key, data)]

/-- Modelled from the spec: `buzzdict_remove`. -/
def buzzdict_remove (dt : buzzdict_t) (key : cstr) : buzzdict_t :=
  dt.filter (fun e => !decide (e.1 = key))

/-- Function `sym_lookup`: the tables are scanned from the last pushed one to
the first. -/
def sym_lookup (sym : cstr) (symstack : List buzzdict_t) : Option sym_s :=
  match symstack with
  | [] => none
  | st :: rest =>
    match buzzdict_get st sym with
    | some symdata => some symdata
    | none => sym_lookup sym rest

/-- Record `struct idrefinfo_s`. -/
structure idrefinfo_s where
  info : Int
  global : Bool
  deriving DecidableEq, Repr, Inhabited

/-! ## Chunks -/

def LABELREF : cstr := "@__label_".toList

/-- Conversions `%u`, `%lld` and `%d` of a non-negative number. -/
def fmt_u (n : Nat) : cstr := Nat.toDigits 10 n

/-- Record `struct chunk_s`.  `code` holds the bytes written to the buffer, and
the NUL that `chunk_finalize` puts after them; what memory holds beyond is not
part of the record.  `sym` stands for the pointer `c->sym`: `none` for `NULL`,
otherwise the symbol record the pointer pointed to when the chunk was created.
What is found there later is not part of the record, see `chunk_register`. -/
structure chunk_s where
  label : Nat
  code : cstr
  sym : Option sym_s
  csize : Nat
  ccap : Nat
  deriving DecidableEq, Repr, Inhabited

def chunk_new (label : Nat) (sym : Option sym_s) : chunk_s :=
  { label := label, csize := 0, ccap := 10, code := [], sym := sym }

/-- The loop `do { c->ccap *= 2; } while(c->csize + l >= c->ccap);` of
`chunk_addcode`; `need` is `c->csize + l`. -/
def chunk_grow : Nat → Nat → Nat → Nat
  | 0, _, ccap => ccap
  | fuel + 1, need, ccap =>
    let ccap := ccap * 2
    if need ≥ ccap then chunk_grow fuel need ccap else ccap

def chunk_addcode (c : chunk_s) (code : cstr) : chunk_s :=
  let l := code.length
  let ccap :=
    if c.csize + l ≥ c.ccap then chunk_grow (c.csize + l + 1) (c.csize + l) c.ccap
    else c.ccap
  { c with ccap := ccap, code := c.code.take c.csize ++ code, csize := c.csize + l }

def chunk_finalize (c : chunk_s) : chunk_s :=
  { c with ccap := c.csize + 1, code := c.code.take c.csize ++ [Char.ofNat 0] }

/-- The code of a chunk: the `csize` bytes written to its buffer. -/
def chunk_text (c : chunk_s) : cstr := c.code.take c.csize

/-- Conversion `%lld` of a 64-bit integer. -/
def fmt_lld (z : Int) : cstr :=
  if z < 0 then '-' :: fmt_u z.natAbs else fmt_u z.natAbs

/-- Function `chunk_register`; the stream is the text written so far.  The
function runs at the end of the parse and reads `c->sym->global` and
`c->sym->pos` through the pointer stored when the chunk was created.  `heap c`
is what memory holds at that address then: the flag as a truth value and the
slot as a 64-bit integer.  It is the symbol of the function as long as the
entry of that symbol was neither replaced nor removed from its table and the
table was not popped; otherwise the pointer dangles and the values are not
determined by the parse. -/
def chunk_register (heap : chunk_s → Bool × Int) (f : cstr) (c : chunk_s) : cstr :=
  match c.sym with
  | some _ =>
    let f := f ++ ("\tpushi ".toList ++ LABELREF ++ fmt_u c.label ++ "\n".toList)
    let f := f ++ "\tpushcn\n".toList
    if (heap c).1 then f ++ ("\tgstore ".toList ++ fmt_lld (heap c).2 ++ "\n".toList)
    else f ++ ("\tlstore ".toList ++ fmt_lld (heap c).2 ++ "\n".toList)
  | none => f

/-- The store line of a registration, for the flag and the slot that
`chunk_register` reads through the owner pointer. -/
def store_line (v : Bool × Int) : cstr :=
  (if v.1 then "\tgstore ".toList else "\tlstore ".toList) ++ fmt_lld v.2 ++ "\n".toList

/-- The bytes that `fprintf(f, "%s", c->code)` prints after the `csize` bytes
the chunk has written: what the buffer holds from there on, then the memory
`mem` that follows, up to the first NUL.  After `chunk_finalize` the first of
them is NUL and nothing more is printed; for a chunk that was not finalized
they are whatever memory holds. -/
def stray_bytes (c : chunk_s) (mem : cstr) : cstr :=
  (c.code.drop c.csize ++ mem).takeWhile (fun b => b ≠ Char.ofNat 0)

/-- Function `chunk_print`.  The `csize` bytes written hold no NUL, since
`chunk_addcode` copies C strings over their `strlen`, so `%s` prints them all
and goes on with `stray_bytes`; `mem c` is what memory holds after the bytes of
the buffer that the record of `c` keeps. -/
def chunk_print (mem : chunk_s → cstr) (f : cstr) (c : chunk_s) : cstr :=
  let f := f ++ ("\n".toList ++ LABELREF ++ fmt_u c.label ++ "\n".toList)
  f ++ (chunk_text c ++ stray_bytes c (mem c))

/-- Modelled from the spec: `buzzdarray_foreach` over the chunk list, in
creation order, with the output stream as parameter. -/
def buzzdarray_foreach (chunks : List chunk_s) (fn : cstr → chunk_s → cstr)
    (f : cstr) : cstr :=
  chunks.foldl fn f

/-! ## Parser state -/

/-- Record `struct buzzparser_s` (the output stream is handled by
`buzzparser_parse`). -/
structure buzzparser_s where
  /-- The tokens the lexer `par->lex` has not delivered yet. -/
  lex : List buzztok_s
  /-- The current token, `none` for `NULL`. -/
  tok : Option buzztok_s
  /-- The stack of symbol tables; the head is `par->syms`. -/
  symstack : List buzzdict_t
  /-- The chunk list in creation order. -/
  chunks : List chunk_s
  /-- The current chunk `par->chunk`, as a position in `chunks`. -/
  chunk : Nat
  /-- The label counter. -/
  labels : Nat
  deriving DecidableEq, Repr, Inhabited

/-- The table `par->syms`. -/
def cur_syms (par : buzzparser_s) : buzzdict_t := par.symstack.headD []

/-- Macro `sym_add`. -/
def sym_add (par : buzzparser_s) (SYM : cstr) : buzzparser_s :=
  match par.symstack with
  | [] => par
  | syms :: rest =>
    let symdata : sym_s :=
      { pos := buzzdict_size syms
        type := TYPE_BASIC
        global := decide (par.symstack.length = 1) }
    { par with symstack := buzzdict_set syms SYM symdata :: rest }

/-- Macro `symt_push`. -/
def symt_push (par : buzzparser_s) : buzzparser_s :=
  { par with symstack := [] :: par.symstack }

/-- Macro `symt_pop`. -/
def symt_pop (par : buzzparser_s) : buzzparser_s :=
  { par with symstack := par.symstack.tail }

/-- The chunk at position `i` of the chunk list updated by `fn`. -/
def chunks_update (chunks : List chunk_s) (i : Nat) (fn : chunk_s → chunk_s) :
    List chunk_s :=
  match chunks[i]? with
  | some c => chunks.set i (fn c)
  | none => chunks

/-- Macro `chunk_append`: the formatted text goes to the current chunk. -/
def chunk_append (par : buzzparser_s) (str : cstr) : buzzparser_s :=
  { par with chunks := chunks_update par.chunks par.chunk (fun c => chunk_addcode c str) }

/-- Macro `chunk_push` (the saved `oldc` is kept by the calling rule). -/
def chunk_push (par : buzzparser_s) (SYM : Option sym_s) : buzzparser_s :=
  { par with
    chunk := par.chunks.length
    chunks := par.chunks ++ [chunk_new par.labels SYM]
    labels := (par.labels + 1) % 2 ^ 32 }

/-- Macro `chunk_pop`. -/
def chunk_pop (par : buzzparser_s) (oldc : Nat) : buzzparser_s :=
  { par with chunks := chunks_update par.chunks par.chunk chunk_finalize, chunk := oldc }

/-- The call `buzzlex_nexttok` after `buzzlex_destroytok`. -/
def nexttok (par : buzzparser_s) : buzzparser_s :=
  { par with tok := par.lex.head?, lex := par.lex.tail }

/-- Macro `fetchtok`. -/
def fetchtok (par : buzzparser_s) : presult buzzparser_s :=
  match par.lex with
  | [] => .error .eof
  | t :: rest => .ok { par with tok := some t, lex := rest }

/-- Function `match` with the macro `tokmatch`. -/
def tokmatch (par : buzzparser_s) (type : buzztok_type_e) : presult Unit :=
  match par.tok with
  | none => .error .eof
  | some t => if t.type = type then .ok () else .error (.expected type t.type)

/-- Reading `par->tok`. -/
def curtok (par : buzzparser_s) : presult buzztok_s :=
  match par.tok with
  | some t => .ok t
  | none => .error .null_tok

/-- The text of a token, empty for `NULL`. -/
def tokval (t : buzztok_s) : cstr := t.value.getD []

/-- The character `par->tok->value[0]`. -/
def tokop (t : buzztok_s) : Option Char := (tokval t).head?

/-- The `strcmp` cascade of `parse_comparison`. -/
def cmp_op (v : cstr) : cstr :=
  if v = "==".toList then "eq".toList
  else if v = "!=".toList then "neq".toList
  else if v = "<".toList then "lt".toList
  else if v = "<=".toList then "lte".toList
  else if v = ">".toList then "gt".toList
  else if v = ">=".toList then "gte".toList
  else []

/-- The removal of the variables of a block in `parse_block`:
`buzzparser_symtodel` collects the keys, `buzzparser_symdel` removes them. -/
def buzzparser_symtodel (maxpos : Nat) (dellist : List cstr) (e : cstr × sym_s) :
    List cstr :=
  if e.2.pos ≥ maxpos then dellist ++ [e.1] else dellist

def block_cleanup (par : buzzparser_s) (numvars : Nat) : buzzparser_s :=
  match par.symstack with
  | [] => par
  | syms :: rest =>
    let dellist := syms.foldl (buzzparser_symtodel numvars) []
    { par with symstack := dellist.foldl buzzdict_remove syms :: rest }

/-- The load of a variable in `parse_idref`. -/
def load_text (s : sym_s) : cstr :=
  if s.global then "\tgload ".toList ++ fmt_u s.pos ++ "\n".toList
  else "\tlload ".toList ++ fmt_u s.pos ++ "\n".toList

/-- The flush of the current reference in `parse_idref`. -/
def idref_flush (par : buzzparser_s) (s : sym_s) (info : Int) : buzzparser_s :=
  if info ≥ 0 then chunk_append par (load_text s)
  else if info = TYPE_TABLE then chunk_append par "\ttget\n".toList
  else if info = TYPE_CLOSURE then chunk_append par "\tcallc\n".toList
  else par

/-! ## Grammar rules -/

mutual

def parse_statlist : Nat → buzzparser_s → presult buzzparser_s
  | 0, _ => .nofuel
  | n + 1, par => do
    let par ← parse_stat n par
    let par ← parse_statlist_loop n par
    match par.tok with
    | none => .ok par
    | some t => if t.type = BUZZTOK_BLOCKCLOSE then .ok par else .error .statlist

/-- The `while` loop of `parse_statlist`. -/
def parse_statlist_loop : Nat → buzzparser_s → presult buzzparser_s
  | 0, _ => .nofuel
  | n + 1, par =>
    match par.tok with
    | none => .ok par
    | some t =>
      if t.type = BUZZTOK_STATEND then do
        let par := nexttok par
        let par ← (match par.tok with
          | some _ => parse_stat n par
          | none => .ok par)
        parse_statlist_loop n par
      else .ok par

def parse_stat : Nat → buzzparser_s → presult buzzparser_s
  | 0, _ => .nofuel
  | n + 1, par => do
    let t ← curtok par
    if t.type = BUZZTOK_STATEND ∨ t.type = BUZZTOK_BLOCKCLOSE then .ok par
    else if t.type = BUZZTOK_FUN then parse_fun n par
    else if t.type = BUZZTOK_IF then parse_if n par
    else if t.type = BUZZTOK_FOR then parse_for n par
    else if t.type = BUZZTOK_WHILE then parse_while n par
    else parse_command n par

def parse_block : Nat → buzzparser_s → presult buzzparser_s
  | 0, _ => .nofuel
  | n + 1, par => do
    tokmatch par BUZZTOK_BLOCKOPEN
    let par ← fetchtok par
    let t ← curtok par
    if t.type = BUZZTOK_BLOCKCLOSE then fetchtok par
    else do
      let numvars := buzzdict_size (cur_syms par)
      let par ← parse_statlist n par
      tokmatch par BUZZTOK_BLOCKCLOSE
      let par ← fetchtok par
      .ok (block_cleanup par numvars)

def parse_fun : Nat → buzzparser_s → presult buzzparser_s
  | 0, _ => .nofuel
  | n + 1, par => do
    tokmatch par BUZZTOK_FUN
    let par ← fetchtok par
    tokmatch par BUZZTOK_ID
    let t ← curtok par
    let par := sym_add par (tokval t)
    let oldc := par.chunk
    let par := chunk_push par (sym_lookup (tokval t) par.symstack)
    let par ← fetchtok par
    tokmatch par BUZZTOK_PAROPEN
    let par ← fetchtok par
    let par := symt_push par
    let par ← parse_idlist n par
    tokmatch par BUZZTOK_PARCLOSE
    let par ← fetchtok par
    let par ← parse_block n par
    let par := symt_pop par
    .ok (chunk_pop par oldc)

def parse_if : Nat → buzzparser_s → presult buzzparser_s
  | 0, _ => .nofuel
  | n + 1, par => do
    let lab1 := par.labels
    let lab2 := (par.labels + 1) % 2 ^ 32
    let par := { par with labels := (par.labels + 2) % 2 ^ 32 }
    tokmatch par BUZZTOK_IF
    let par ← fetchtok par
    tokmatch par BUZZTOK_PAROPEN
    let par ← fetchtok par
    let par ← parse_condition n par
    tokmatch par BUZZTOK_PARCLOSE
    let par ← fetchtok par
    let par := chunk_append par ("\tjumpz ".toList ++ LABELREF ++ fmt_u lab1 ++ "\n".toList)
    let par ← parse_block n par
    let par ← parse_if_newlines n par
    let t ← curtok par
    if t.type = BUZZTOK_ELSE then do
      let par ← fetchtok par
      let par := chunk_append par ("\tjump ".toList ++ LABELREF ++ fmt_u lab2 ++ "\n".toList)
      let par := chunk_append par (LABELREF ++ fmt_u lab1 ++ "\n".toList)
      let par ← parse_block n par
      .ok (chunk_append par (LABELREF ++ fmt_u lab2 ++ "\n".toList))
    else
      .ok (chunk_append par (LABELREF ++ fmt_u lab1 ++ "\n".toList))

/-- The loop of `parse_if` that eats the newlines after the true block. -/
def parse_if_newlines : Nat → buzzparser_s → presult buzzparser_s
  | 0, _ => .nofuel
  | n + 1, par => do
    let t ← curtok par
    if t.type = BUZZTOK_STATEND ∧ t.value = none then do
      let par ← fetchtok par
      parse_if_newlines n par
    else .ok par

def parse_for : Nat → buzzparser_s → presult buzzparser_s
  | 0, _ => .nofuel
  | n + 1, par => do
    tokmatch par BUZZTOK_FOR
    let par ← fetchtok par
    tokmatch par BUZZTOK_PAROPEN
    let par ← fetchtok par
    let (par, _) ← parse_idref n par true
    tokmatch par BUZZTOK_ASSIGN
    let par ← fetchtok par
    let par ← parse_expression n par
    tokmatch par BUZZTOK_LISTSEP
    let par ← fetchtok par
    let par ← parse_condition n par
    tokmatch par BUZZTOK_LISTSEP
    let par ← fetchtok par
    let (par, _) ← parse_idref n par true
    tokmatch par BUZZTOK_ASSIGN
    let par ← fetchtok par
    let par ← parse_expression n par
    tokmatch par BUZZTOK_PARCLOSE
    let par ← fetchtok par
    parse_block n par

def parse_while : Nat → buzzparser_s → presult buzzparser_s
  | 0, _ => .nofuel
  | n + 1, par => do
    tokmatch par BUZZTOK_WHILE
    let par ← fetchtok par
    tokmatch par BUZZTOK_PAROPEN
    let par ← fetchtok par
    let par ← parse_condition n par
    tokmatch par BUZZTOK_PARCLOSE
    let par ← fetchtok par
    parse_block n par

/-- Rule `parse_conditionlist`; the second component is `*numargs`. -/
def parse_conditionlist : Nat → buzzparser_s → presult (buzzparser_s × Nat)
  | 0, _ => .nofuel
  | n + 1, par => do
    let t ← curtok par
    if t.type = BUZZTOK_PARCLOSE then .ok (par, 0)
    else do
      let par ← parse_condition n par
      parse_conditionlist_loop n par 1

/-- The `while` loop of `parse_conditionlist`. -/
def parse_conditionlist_loop : Nat → buzzparser_s → Nat → presult (buzzparser_s × Nat)
  | 0, _, _ => .nofuel
  | n + 1, par, numargs => do
    let t ← curtok par
    if t.type = BUZZTOK_LISTSEP then do
      let par ← fetchtok par
      let par ← parse_condition n par
      parse_conditionlist_loop n par (numargs + 1)
    else .ok (par, numargs)

def parse_condition : Nat → buzzparser_s → presult buzzparser_s
  | 0, _ => .nofuel
  | n + 1, par => do
    let par ← parse_comparison n par
    parse_condition_loop n par

/-- The `while` loop of `parse_condition`. -/
def parse_condition_loop : Nat → buzzparser_s → presult buzzparser_s
  | 0, _ => .nofuel
  | n + 1, par => do
    let t ← curtok par
    if t.type = BUZZTOK_ANDOR then do
      let op := tokval t
      let par ← fetchtok par
      let par ← parse_comparison n par
      let par := chunk_append par ("\t".toList ++ op ++ "\n".toList)
      parse_condition_loop n par
    else .ok par

def parse_comparison : Nat → buzzparser_s → presult buzzparser_s
  | 0, _ => .nofuel
  | n + 1, par => do
    let t ← curtok par
    if t.type = BUZZTOK_PAROPEN then do
      let par ← fetchtok par
      let par ← parse_condition n par
      tokmatch par BUZZTOK_PARCLOSE
      fetchtok par
    else if t.type = BUZZTOK_NOT then do
      let par ← fetchtok par
      let par ← parse_comparison n par
      .ok (chunk_append par "\tnot\n".toList)
    else do
      let par ← parse_expression n par
      let t ← curtok par
      if t.type = BUZZTOK_CMP then do
        let op := cmp_op (tokval t)
        let par ← fetchtok par
        let par ← parse_expression n par
        .ok (chunk_append par ("\t".toList ++ op ++ "\n".toList))
      else .ok par

def parse_expression : Nat → buzzparser_s → presult buzzparser_s
  | 0, _ => .nofuel
  | n + 1, par => do
    let t ← curtok par
    if t.type = BUZZTOK_BLOCKOPEN then do
      let par ← fetchtok par
      tokmatch par BUZZTOK_BLOCKCLOSE
      let par ← fetchtok par
      .ok (chunk_append par "\tpusht\n".toList)
    else do
      let par ← parse_product n par
      parse_expression_loop n par

/-- The `while` loop of `parse_expression`. -/
def parse_expression_loop : Nat → buzzparser_s → presult buzzparser_s
  | 0, _ => .nofuel
  | n + 1, par => do
    let t ← curtok par
    if t.type = BUZZTOK_ADDSUB then do
      let op := tokop t
      let par ← fetchtok par
      let par ← parse_product n par
      let par :=
        if op = some '+' then chunk_append par "\tadd\n".toList
        else if op = some '-' then chunk_append par "\tsub\n".toList
        else par
      parse_expression_loop n par
    else .ok par

def parse_product : Nat → buzzparser_s → presult buzzparser_s
  | 0, _ => .nofuel
  | n + 1, par => do
    let par ← parse_modulo n par
    parse_product_loop n par

/-- The `while` loop of `parse_product`. -/
def parse_product_loop : Nat → buzzparser_s → presult buzzparser_s
  | 0, _ => .nofuel
  | n + 1, par => do
    let t ← curtok par
    if t.type = BUZZTOK_MULDIV then do
      let op := tokop t
      let par ← fetchtok par
      let par ← parse_modulo n par
      let par :=
        if op = some '*' then chunk_append par "\tmul\n".toList
        else if op = some '/' then chunk_append par "\tdiv\n".toList
        else par
      parse_product_loop n par
    else .ok par

def parse_modulo : Nat → buzzparser_s → presult buzzparser_s
  | 0, _ => .nofuel
  | n + 1, par => do
    let par ← parse_power n par
    parse_modulo_loop n par

/-- The `while` loop of `parse_modulo`. -/
def parse_modulo_loop : Nat → buzzparser_s → presult buzzparser_s
  | 0, _ => .nofuel
  | n + 1, par => do
    let t ← curtok par
    if t.type = BUZZTOK_MOD then do
      let par ← fetchtok par
      let par ← parse_power n par
      let par := chunk_append par "\tmod\n".toList
      parse_modulo_loop n par
    else .ok par

def parse_power : Nat → buzzparser_s → presult buzzparser_s
  | 0, _ => .nofuel
  | n + 1, par => do
    let par ← parse_operand n par
    parse_powerrest n par

def parse_powerrest : Nat → buzzparser_s → presult buzzparser_s
  | 0, _ => .nofuel
  | n + 1, par => do
    let t ← curtok par
    if t.type = BUZZTOK_POW then do
      let par ← fetchtok par
      let par ← parse_power n par
      .ok (chunk_append par "\tpow\n".toList)
    else .ok par

def parse_operand : Nat → buzzparser_s → presult buzzparser_s
  | 0, _ => .nofuel
  | n + 1, par => do
    let t ← curtok par
    if t.type = BUZZTOK_FUN then do
      let par := chunk_append par ("\tpushi ".toList ++ LABELREF ++ fmt_u par.labels ++ "\n".toList)
      let par := chunk_append par "\tpushcn\n".toList
      parse_lambda n par
    else if t.type = BUZZTOK_BOOL then fetchtok par
    else if t.type = BUZZTOK_CONST then do
      let par :=
        if '.' ∈ tokval t then chunk_append par ("\tpushf ".toList ++ tokval t ++ "\n".toList)
        else chunk_append par ("\tpushi ".toList ++ tokval t ++ "\n".toList)
      fetchtok par
    else if t.type = BUZZTOK_STRING then fetchtok par
    else if t.type = BUZZTOK_PAROPEN then do
      let par ← fetchtok par
      let par ← parse_expression n par
      tokmatch par BUZZTOK_PARCLOSE
      fetchtok par
    else if t.type = BUZZTOK_ADDSUB then do
      let op := (tokop t).toList
      let par ← fetchtok par
      let t ← curtok par
      if t.type = BUZZTOK_CONST then do
        let par :=
          if '.' ∈ tokval t then
            chunk_append par ("\tpushf ".toList ++ op ++ tokval t ++ "\n".toList)
          else chunk_append par ("\tpushi ".toList ++ op ++ tokval t ++ "\n".toList)
        fetchtok par
      else do
        let par ← parse_power n par
        if op = ['-'] then .ok (chunk_append par "\tunm\n".toList) else .ok par
    else do
      let (par, _) ← parse_idref n par false
      .ok par

def parse_command : Nat → buzzparser_s → presult buzzparser_s
  | 0, _ => .nofuel
  | n + 1, par => do
    let t ← curtok par
    if t.type = BUZZTOK_RETURN then do
      let par ← fetchtok par
      let t ← curtok par
      if t.type = BUZZTOK_STATEND ∨ t.type = BUZZTOK_BLOCKCLOSE then
        .ok (chunk_append par "\tret0\n".toList)
      else do
        let par ← parse_expression n par
        .ok (chunk_append par "\tret1\n".toList)
    else do
      let (par, idrefinfo) ← parse_idref n par true
      let t ← curtok par
      if t.type = BUZZTOK_ASSIGN then
        if idrefinfo.info = TYPE_CLOSURE then .error .call_lvalue
        else do
          let par ← fetchtok par
          let par ← parse_expression n par
          if idrefinfo.info ≥ 0 then
            if idrefinfo.global then
              .ok (chunk_append par ("\tgstore ".toList ++ fmt_u idrefinfo.info.toNat ++ "\n".toList))
            else
              .ok (chunk_append par ("\tlstore ".toList ++ fmt_u idrefinfo.info.toNat ++ "\n".toList))
          else if idrefinfo.info = TYPE_TABLE then .ok (chunk_append par "\ttset\n".toList)
          else if idrefinfo.info = TYPE_CLOSURE then .ok (chunk_append par "\tcallc\n".toList)
          else .ok par
      else if idrefinfo.info = TYPE_CLOSURE then .ok par
      else .error .not_call_or_assignment

def parse_idlist : Nat → buzzparser_s → presult buzzparser_s
  | 0, _ => .nofuel
  | n + 1, par => do
    let t ← curtok par
    if t.type = BUZZTOK_PARCLOSE then .ok par
    else do
      tokmatch par BUZZTOK_ID
      let par :=
        match sym_lookup (tokval t) par.symstack with
        | none => sym_add par (tokval t)
        | some sym => if sym.global then sym_add par (tokval t) else par
      let par ← fetchtok par
      parse_idlist_loop n par

/-- The `while` loop of `parse_idlist`. -/
def parse_idlist_loop : Nat → buzzparser_s → presult buzzparser_s
  | 0, _ => .nofuel
  | n + 1, par => do
    let t ← curtok par
    if t.type = BUZZTOK_LISTSEP then do
      let par ← fetchtok par
      tokmatch par BUZZTOK_ID
      let t ← curtok par
      let par :=
        match sym_lookup (tokval t) par.symstack with
        | none => sym_add par (tokval t)
        | some sym => if sym.global then sym_add par (tokval t) else par
      let par ← fetchtok par
      parse_idlist_loop n par
    else .ok par

/-- Rule `parse_idref`; the second component is `*idrefinfo`. -/
def parse_idref : Nat → buzzparser_s → Bool → presult (buzzparser_s × idrefinfo_s)
  | 0, _, _ => .nofuel
  | n + 1, par, lvalue => do
    tokmatch par BUZZTOK_ID
    let t ← curtok par
    match sym_lookup (tokval t) par.symstack with
    | none =>
      if lvalue = false ∨ (t.type = BUZZTOK_DOT ∨ t.type = BUZZTOK_IDXOPEN ∨
          t.type = BUZZTOK_PAROPEN) then
        .error (.undefined (tokval t))
      else do
        let idrefinfo : idrefinfo_s :=
          { info := (buzzdict_size (cur_syms par) : Nat)
            global := decide (par.symstack.length = 1) }
        let par := sym_add par (tokval t)
        let par ← fetchtok par
        .ok (par, idrefinfo)
    | some s => do
      let idrefinfo : idrefinfo_s := { info := (s.pos : Nat), global := s.global }
      let par ← fetchtok par
      let (par, idrefinfo) ← parse_idref_loop n par s idrefinfo
      if lvalue = false then .ok (idref_flush par s idrefinfo.info, idrefinfo)
      else .ok (par, idrefinfo)

/-- The `while` loop of `parse_idref` over the suffixes of a reference. -/
def parse_idref_loop : Nat → buzzparser_s → sym_s → idrefinfo_s →
    presult (buzzparser_s × idrefinfo_s)
  | 0, _, _, _ => .nofuel
  | n + 1, par, s, idrefinfo => do
    let t ← curtok par
    if t.type = BUZZTOK_DOT ∨ t.type = BUZZTOK_IDXOPEN ∨ t.type = BUZZTOK_PAROPEN then do
      let par := idref_flush par s idrefinfo.info
      let (par, idrefinfo) ←
        (if t.type = BUZZTOK_DOT then do
          let idrefinfo := { idrefinfo with info := TYPE_TABLE }
          let par ← fetchtok par
          tokmatch par BUZZTOK_ID
          let t ← curtok par
          let par := chunk_append par ("\tpushs ".toList ++ tokval t ++ "\n".toList)
          let par ← fetchtok par
          .ok (par, idrefinfo)
        else .ok (par, idrefinfo) : presult (buzzparser_s × idrefinfo_s))
      let t ← curtok par
      if t.type = BUZZTOK_IDXOPEN then do
        let idrefinfo := { idrefinfo with info := TYPE_TABLE }
        let par ← fetchtok par
        let par ← parse_expression n par
        tokmatch par BUZZTOK_IDXCLOSE
        let par ← fetchtok par
        parse_idref_loop n par s idrefinfo
      else if t.type = BUZZTOK_PAROPEN then do
        let idrefinfo := { idrefinfo with info := TYPE_CLOSURE }
        let par ← fetchtok par
        let (par, numargs) ← parse_conditionlist n par
        tokmatch par BUZZTOK_PARCLOSE
        let par ← fetchtok par
        let par := chunk_append par ("\tpushi ".toList ++ fmt_u numargs ++ "\n".toList)
        parse_idref_loop n par s idrefinfo
      else parse_idref_loop n par s idrefinfo
    else .ok (par, idrefinfo)

def parse_lambda : Nat → buzzparser_s → presult buzzparser_s
  | 0, _ => .nofuel
  | n + 1, par => do
    tokmatch par BUZZTOK_FUN
    let par ← fetchtok par
    let oldc := par.chunk
    let par := chunk_push par none
    tokmatch par BUZZTOK_PAROPEN
    let par ← fetchtok par
    let par ← parse_idlist n par
    tokmatch par BUZZTOK_PARCLOSE
    let par ← fetchtok par
    let par ← parse_block n par
    .ok (chunk_pop par oldc)

end

/-- Rule `parse_script`. -/
def parse_script (fuel : Nat) (par : buzzparser_s) : presult buzzparser_s :=
  let par := nexttok par
  match par.tok with
  | none => .error .empty_file
  | some _ => do
    let par := symt_push par
    let par := chunk_push par none
    let par ← parse_statlist fuel par
    let par := chunk_append par "\n@__exitpoint\n".toList
    let par := chunk_append par "\tdone\n".toList
    .ok par

/-- The state built by `buzzparser_new` for a script whose tokens are `toks`. -/
def buzzparser_new (toks : List buzztok_s) : buzzparser_s :=
  { lex := toks, tok := none, symstack := [], chunks := [], chunk := 0, labels := 0 }

/-- Function `buzzparser_parse`: the outcome and the text written to
`par->asmstream` by this call.  `heap` and `mem` are what memory holds where
`chunk_register` and `chunk_print` read it. -/
def buzzparser_parse (heap : chunk_s → Bool × Int) (mem : chunk_s → cstr) (fuel : Nat)
    (par : buzzparser_s) : presult buzzparser_s × cstr :=
  match parse_script fuel par with
  | .ok par =>
    let f := buzzdarray_foreach par.chunks (chunk_register heap) []
    let f := buzzdarray_foreach par.chunks (chunk_print mem) f
    (.ok par, f)
  | .error e => (.error e, [])
  | .nofuel => (.nofuel, [])

/-! ## Notions used in the statements -/

/-- The text of the chunk at position `i` of a chunk list. -/
def text_at (chunks : List chunk_s) (i : Nat) : cstr :=
  match chunks[i]? with
  | some c => chunk_text c
  | none => []

/-- The tokens of a state that are still to be parsed: the current one and
those the lexer has not delivered yet. -/
def toks (par : buzzparser_s) : List buzztok_s := par.tok.toList ++ par.lex

/-- The state of `parse_if` after `par->labels += 2`. -/
def labels_bump (par : buzzparser_s) : buzzparser_s :=
  { par with labels := (par.labels + 2) % 2 ^ 32 }

/-- The instructions without operand. -/
def fixed_instrs : List cstr :=
  ["\tnot\n".toList, "\tpusht\n".toList, "\tadd\n".toList, "\tsub\n".toList,
   "\tmul\n".toList, "\tdiv\n".toList, "\tmod\n".toList, "\tpow\n".toList,
   "\tpushcn\n".toList, "\tunm\n".toList, "\tret0\n".toList, "\tret1\n".toList,
   "\ttset\n".toList, "\ttget\n".toList, "\tcallc\n".toList]

/-- The instructions whose operand is a number printed by the parser. -/
def num_prefixes : List cstr :=
  ["\tgload ".toList, "\tlload ".toList, "\tgstore ".toList, "\tlstore ".toList,
   "\tpushi ".toList]

/-- The instructions whose operand is the text of a token. -/
def tok_prefixes : List cstr :=
  ["\t".toList, "\tpushi ".toList, "\tpushf ".toList, "\tpushs ".toList]

/-- Texts appended by the rules that mention neither a token nor a label. -/
def Plain (txt : cstr) : Prop :=
  txt ∈ fixed_instrs ∨ (∃ v, txt = "\t".toList ++ cmp_op v ++ "\n".toList) ∨
    ∃ pre, pre ∈ num_prefixes ∧ ∃ n, txt = pre ++ fmt_u n ++ "\n".toList

/-- Texts appended by the rules that carry the text of the token `t`, after an
optional sign `sg`. -/
def TokFmt (sg : cstr) (t : buzztok_s) (txt : cstr) : Prop :=
  ∃ pre, pre ∈ tok_prefixes ∧ txt = pre ++ sg ++ tokval t ++ "\n".toList

/-- Relation `Reach p q`: the state `q` is obtained from `p` by the elementary
steps the grammar rules are made of.  The steps that only make sense in pairs
(opening and closing a symbol table, opening and closing a chunk, reserving the
labels of an `if` and using them) are single constructors, and a step that
takes labels from the counter comes with the token it consumes. -/
inductive Reach : buzzparser_s → buzzparser_s → Prop
  | refl (p : buzzparser_s) : Reach p p
  | trans {p q r : buzzparser_s} : Reach p q → Reach q r → Reach p r
  | fetch {p q : buzzparser_s} : fetchtok p = .ok q → Reach p q
  | next (p : buzzparser_s) : Reach p (nexttok p)
  | bind (p : buzzparser_s) (t : buzztok_s) : p.tok = some t → Reach p (sym_add p (tokval t))
  | cleanup {p q : buzzparser_s} :
      Reach p q → Reach p (block_cleanup q (buzzdict_size (cur_syms p)))
  | plain (p : buzzparser_s) (txt : cstr) : Plain txt → Reach p (chunk_append p txt)
  | tokfmt {p q : buzzparser_s} (t : buzztok_s) (txt : cstr) :
      p.tok = some t → t.type ≠ BUZZTOK_STRING → Reach p q → TokFmt [] t txt →
      Reach p (chunk_append q txt)
  | signed {p q : buzzparser_s} (t1 t2 : buzztok_s) (txt : cstr) :
      p.tok = some t1 → t1.type ≠ BUZZTOK_STRING → fetchtok p = .ok q → q.tok = some t2 →
      t2.type ≠ BUZZTOK_STRING → TokFmt (tokop t1).toList t2 txt → Reach p (chunk_append q txt)
  | symt {p q : buzzparser_s} : Reach (symt_push p) q → Reach p (symt_pop q)
  | func {p a q : buzzparser_s} (t : buzztok_s) (sym : Option sym_s) :
      fetchtok p = .ok a → a.tok = some t →
      Reach (chunk_push (sym_add a (tokval t)) sym) q → Reach p (chunk_pop q p.chunk)
  | lam {p a q : buzzparser_s} :
      fetchtok p = .ok a → Reach (chunk_push a none) q → Reach p (chunk_pop q p.chunk)
  | lambda {p a q : buzzparser_s} :
      fetchtok (chunk_append
        (chunk_append p ("\tpushi ".toList ++ LABELREF ++ fmt_u p.labels ++ "\n".toList))
        "\tpushcn\n".toList) = .ok a →
      Reach (chunk_push a none) q → Reach p (chunk_pop q p.chunk)
  | if_then {p a c b : buzzparser_s} :
      fetchtok (labels_bump p) = .ok a → Reach a c →
      Reach (chunk_append c ("\tjumpz ".toList ++ LABELREF ++ fmt_u p.labels ++ "\n".toList)) b →
      Reach p (chunk_append b (LABELREF ++ fmt_u p.labels ++ "\n".toList))
  | if_else {p a c b e : buzzparser_s} :
      fetchtok (labels_bump p) = .ok a → Reach a c →
      Reach (chunk_append c ("\tjumpz ".toList ++ LABELREF ++ fmt_u p.labels ++ "\n".toList)) b →
      Reach (chunk_append
        (chunk_append b
          ("\tjump ".toList ++ LABELREF ++ fmt_u ((p.labels + 1) % 2 ^ 32) ++ "\n".toList))
        (LABELREF ++ fmt_u p.labels ++ "\n".toList)) e →
      Reach p (chunk_append e (LABELREF ++ fmt_u ((p.labels + 1) % 2 ^ 32) ++ "\n".toList))

/-- A relation between states holds from the entry to the successful exit of
every grammar rule run with fuel `n`. -/
structure AllRules (P : buzzparser_s → buzzparser_s → Prop) (n : Nat) : Prop where
  statlist : ∀ p q, parse_statlist n p = .ok q → P p q
  statlist_loop : ∀ p q, parse_statlist_loop n p = .ok q → P p q
  stat : ∀ p q, parse_stat n p = .ok q → P p q
  block : ∀ p q, parse_block n p = .ok q → P p q
  func : ∀ p q, parse_fun n p = .ok q → P p q
  cond_if : ∀ p q, parse_if n p = .ok q → P p q
  if_newlines : ∀ p q, parse_if_newlines n p = .ok q → P p q
  for_loop : ∀ p q, parse_for n p = .ok q → P p q
  while_loop : ∀ p q, parse_while n p = .ok q → P p q
  conditionlist : ∀ p q k, parse_conditionlist n p = .ok (q, k) → P p q
  conditionlist_loop : ∀ p m q k, parse_conditionlist_loop n p m = .ok (q, k) → P p q
  condition : ∀ p q, parse_condition n p = .ok q → P p q
  condition_loop : ∀ p q, parse_condition_loop n p = .ok q → P p q
  comparison : ∀ p q, parse_comparison n p = .ok q → P p q
  expression : ∀ p q, parse_expression n p = .ok q → P p q
  expression_loop : ∀ p q, parse_expression_loop n p = .ok q → P p q
  product : ∀ p q, parse_product n p = .ok q → P p q
  product_loop : ∀ p q, parse_product_loop n p = .ok q → P p q
  modulo : ∀ p q, parse_modulo n p = .ok q → P p q
  modulo_loop : ∀ p q, parse_modulo_loop n p = .ok q → P p q
  power : ∀ p q, parse_power n p = .ok q → P p q
  powerrest : ∀ p q, parse_powerrest n p = .ok q → P p q
  operand : ∀ p q, parse_operand n p = .ok q → P p q
  command : ∀ p q, parse_command n p = .ok q → P p q
  idlist : ∀ p q, parse_idlist n p = .ok q → P p q
  idlist_loop : ∀ p q, parse_idlist_loop n p = .ok q → P p q
  idref : ∀ p lv q i, parse_idref n p lv = .ok (q, i) → P p q
  idref_loop : ∀ p s i q j, parse_idref_loop n p s i = .ok (q, j) → P p q
  lambda : ∀ p q, parse_lambda n p = .ok q → P p q

/-- A chunk whose `csize` bytes are all in the buffer. -/
def chunk_wf (c : chunk_s) : Prop := c.csize ≤ c.code.length

/-- Relation `Ext p q`: from `p` to `q` the current chunk is still the same one
and only received more text, the other chunks that existed in `p` are
untouched, and every chunk added since is well formed. -/
def Ext (p q : buzzparser_s) : Prop :=
  q.chunk = p.chunk ∧ p.chunks.length ≤ q.chunks.length ∧
  (∀ i, i < p.chunks.length → i ≠ p.chunk → q.chunks[i]? = p.chunks[i]?) ∧
  (∀ c, p.chunks[p.chunk]? = some c → ∃ c' t, q.chunks[p.chunk]? = some c' ∧
    c'.label = c.label ∧ c'.sym = c.sym ∧ chunk_text c' = chunk_text c ++ t ∧
    (chunk_wf c → chunk_wf c')) ∧
  (∀ i c, p.chunks.length ≤ i → q.chunks[i]? = some c → chunk_wf c)

/-- The text that was appended to the current chunk of `p` on the way to `q`. -/
def emitted (p q : buzzparser_s) : cstr :=
  (text_at q.chunks p.chunk).drop (text_at p.chunks p.chunk).length

/-! ## States used as examples -/

/-- The state in which `parse_script` meets `function f(a,b) { return a + b }`
followed by a newline, as the first statement of a script. -/
def c2_state : buzzparser_s :=
  { lex := [⟨BUZZTOK_ID, some "f".toList⟩, ⟨BUZZTOK_PAROPEN, none⟩,
      ⟨BUZZTOK_ID, some "a".toList⟩, ⟨BUZZTOK_LISTSEP, none⟩, ⟨BUZZTOK_ID, some "b".toList⟩,
      ⟨BUZZTOK_PARCLOSE, none⟩, ⟨BUZZTOK_BLOCKOPEN, none⟩, ⟨BUZZTOK_RETURN, none⟩,
      ⟨BUZZTOK_ID, some "a".toList⟩, ⟨BUZZTOK_ADDSUB, some "+".toList⟩,
      ⟨BUZZTOK_ID, some "b".toList⟩, ⟨BUZZTOK_BLOCKCLOSE, none⟩, ⟨BUZZTOK_STATEND, none⟩]
    tok := some ⟨BUZZTOK_FUN, none⟩
    symstack := [[]], chunks := [chunk_new 0 none], chunk := 0, labels := 1 }

/-- The chunk of `f`. -/
def c2_chunk : chunk_s :=
  chunk_finalize (chunk_addcode (chunk_addcode (chunk_addcode (chunk_addcode
    (chunk_new 1 (some ⟨0, TYPE_BASIC, true⟩)) "\tlload 0\n".toList) "\tlload 1\n".toList)
    "\tadd\n".toList) "\tret1\n".toList)

/-- The state after the definition of `f`. -/
def c2_final : buzzparser_s :=
  { lex := [], tok := some ⟨BUZZTOK_STATEND, none⟩
    symstack := [[("f".toList, ⟨0, TYPE_BASIC, true⟩)]]
    chunks := [chunk_new 0 none, c2_chunk], chunk := 0, labels := 2 }

/-- The global table in which `t` is bound to slot 0. -/
def c5_syms : List buzzdict_t := [[("t".toList, ⟨0, TYPE_BASIC, true⟩)]]

/-- The global table in which `f` is bound to slot 0. -/
def c3_syms : List buzzdict_t := [[("f".toList, ⟨0, TYPE_BASIC, true⟩)]]

/-- The operand `function() {}` followed by a newline, at top level. -/
def c8_state : buzzparser_s :=
  ⟨[⟨BUZZTOK_PAROPEN, none⟩, ⟨BUZZTOK_PARCLOSE, none⟩, ⟨BUZZTOK_BLOCKOPEN, none⟩,
    ⟨BUZZTOK_BLOCKCLOSE, none⟩, ⟨BUZZTOK_STATEND, none⟩],
    some ⟨BUZZTOK_FUN, none⟩, [[]], [chunk_new 0 none], 0, 1⟩

/-- The state after the operand `function() {}`. -/
def c8_final : buzzparser_s :=
  ⟨[], some ⟨BUZZTOK_STATEND, none⟩, [[]],
    [chunk_addcode (chunk_addcode (chunk_new 0 none) "\tpushi @__label_1\n".toList)
      "\tpushcn\n".toList, chunk_finalize (chunk_new 1 none)], 0, 2⟩

/-- The tokens of the script `function f() {}` followed by a newline. -/
def c9_toks : List buzztok_s :=
  [⟨BUZZTOK_FUN, none⟩, ⟨BUZZTOK_ID, some "f".toList⟩, ⟨BUZZTOK_PAROPEN, none⟩,
    ⟨BUZZTOK_PARCLOSE, none⟩, ⟨BUZZTOK_BLOCKOPEN, none⟩, ⟨BUZZTOK_BLOCKCLOSE, none⟩,
    ⟨BUZZTOK_STATEND, none⟩]

/-- The state at the end of `parse_script` on `function f() {}`. -/
def c9_final : buzzparser_s :=
  ⟨[], none, [[("f".toList, ⟨0, TYPE_BASIC, true⟩)]],
    [chunk_addcode (chunk_addcode (chunk_new 0 none) "\n@__exitpoint\n".toList)
      "\tdone\n".toList,
     chunk_finalize (chunk_new 1 (some ⟨0, TYPE_BASIC, true⟩))], 0, 2⟩

/-- The tokens of the script `x`, which is not a statement. -/
def c10_toks : List buzztok_s := [⟨BUZZTOK_ID, some "x".toList⟩]

/-! ## Lines and labels of the generated text -/

/-- The value read back from a decimal numeral. -/
def dec_val (cs : cstr) : Nat := cs.foldl (fun acc c => 10 * acc + (c.toNat - 48)) 0

/-- The decimal digits. -/
def digit_chars : List Char := ['0', '1', '2', '3', '4', '5', '6', '7', '8', '9']

/-- The text whose lines are `ls`, each closed by a newline. -/
def unlines : List cstr → cstr
  | [] => []
  | l :: ls => l ++ '\n' :: unlines ls

/-- The lines of a text, without the newlines that close them. -/
def split_lines : cstr → List cstr
  | [] => []
  | c :: rest =>
    if c = '\n' then [] :: split_lines rest
    else
      match split_lines rest with
      | [] => [[c]]
      | l :: ls => (c :: l) :: ls

/-- The label counter does not wrap while the tokens still in the lexer are
parsed: each label taken from the counter comes with a token, and no token
takes more than two. -/
def NoWrap (par : buzzparser_s) : Prop := par.labels + 2 * par.lex.length < 2 ^ 32

/-- The text of a token holds neither a newline nor the character `@`. -/
def tokval_ok (t : buzztok_s) : Prop := '\n' ∉ tokval t ∧ '@' ∉ tokval t

/-- The tokens of a state have a plain text, string literals apart (the rules
never print the text of a string literal). -/
def TokWF (par : buzzparser_s) : Prop :=
  ∀ t ∈ toks par, t.type ≠ BUZZTOK_STRING → tokval_ok t

/-- A line of generated code: it holds no newline, and if it holds the
character `@` it ends with the reference to a label that is at least `lo`. -/
def LineOK (lo : Nat) (l : cstr) : Prop :=
  '\n' ∉ l ∧ ('@' ∈ l → ∃ pre m, l = pre ++ LABELREF ++ fmt_u m ∧ lo ≤ m)

/-- A text made of lines of generated code. -/
def LinesOK (lo : Nat) (txt : cstr) : Prop :=
  ∃ ls, txt = unlines ls ∧ ∀ l ∈ ls, LineOK lo l

/-- Relation `Lab p q`: on the way from `p` to `q` no token appeared, the label
counter only grew, by at most two per token read, and the lines appended to the
current chunk refer to labels taken from the counter on the way. -/
structure Lab (p q : buzzparser_s) : Prop where
  toks_sub : ∀ t ∈ toks q, t ∈ toks p
  labels_le : NoWrap p →
    p.labels ≤ q.labels ∧ q.labels + 2 * q.lex.length ≤ p.labels + 2 * p.lex.length
  lines : p.chunk < p.chunks.length → TokWF p → NoWrap p → LinesOK p.labels (emitted p q)

/-- The statement `if (1) { if (2) {} ; } ;` at top level, the label counter at 1. -/
def c6_state : buzzparser_s :=
  ⟨[⟨BUZZTOK_PAROPEN, none⟩, ⟨BUZZTOK_CONST, some "1".toList⟩, ⟨BUZZTOK_PARCLOSE, none⟩,
    ⟨BUZZTOK_BLOCKOPEN, none⟩, ⟨BUZZTOK_IF, none⟩, ⟨BUZZTOK_PAROPEN, none⟩,
    ⟨BUZZTOK_CONST, some "2".toList⟩, ⟨BUZZTOK_PARCLOSE, none⟩, ⟨BUZZTOK_BLOCKOPEN, none⟩,
    ⟨BUZZTOK_BLOCKCLOSE, none⟩, ⟨BUZZTOK_STATEND, some ";".toList⟩,
    ⟨BUZZTOK_BLOCKCLOSE, none⟩, ⟨BUZZTOK_STATEND, some ";".toList⟩],
    some ⟨BUZZTOK_IF, none⟩, [[]], [chunk_new 0 none], 0, 1⟩

/-- The state after `if (1) { if (2) {} ; } ;`. -/
def c6_final : buzzparser_s :=
  chunk_append (chunk_append (chunk_append (chunk_append (chunk_append (chunk_append
    ⟨[], some ⟨BUZZTOK_STATEND, some ";".toList⟩, [[]], [chunk_new 0 none], 0, 5⟩
    "\tpushi 1\n".toList) "\tjumpz @__label_1\n".toList) "\tpushi 2\n".toList)
    "\tjumpz @__label_3\n".toList) "@__label_3\n".toList) "@__label_1\n".toList

/-- The statement `if (1) {} else {} ;` at top level, the label counter at 1. -/
def c6_else_state : buzzparser_s :=
  ⟨[⟨BUZZTOK_PAROPEN, none⟩, ⟨BUZZTOK_CONST, some "1".toList⟩, ⟨BUZZTOK_PARCLOSE, none⟩,
    ⟨BUZZTOK_BLOCKOPEN, none⟩, ⟨BUZZTOK_BLOCKCLOSE, none⟩, ⟨BUZZTOK_ELSE, none⟩,
    ⟨BUZZTOK_BLOCKOPEN, none⟩, ⟨BUZZTOK_BLOCKCLOSE, none⟩,
    ⟨BUZZTOK_STATEND, some ";".toList⟩],
    some ⟨BUZZTOK_IF, none⟩, [[]], [chunk_new 0 none], 0, 1⟩

/-- The statement `x.y = 1` at top level, `x` not bound. -/
def c11_state : buzzparser_s :=
  ⟨[⟨BUZZTOK_DOT, none⟩, ⟨BUZZTOK_ID, some "y".toList⟩, ⟨BUZZTOK_ASSIGN, none⟩,
    ⟨BUZZTOK_CONST, some "1".toList⟩, ⟨BUZZTOK_STATEND, none⟩],
    some ⟨BUZZTOK_ID, some "x".toList⟩, [[]], [chunk_new 0 none], 0, 1⟩

/-- The state after the reference `x` of `x.y = 1` in lvalue position. -/
def c11_final : buzzparser_s :=
  ⟨[⟨BUZZTOK_ID, some "y".toList⟩, ⟨BUZZTOK_ASSIGN, none⟩,
    ⟨BUZZTOK_CONST, some "1".toList⟩, ⟨BUZZTOK_STATEND, none⟩],
    some ⟨BUZZTOK_DOT, none⟩, [[("x".toList, ⟨0, TYPE_BASIC, true⟩)]], [chunk_new 0 none], 0, 1⟩

/-- The lambda `function(p) {}` followed by `;`, at top level. -/
def c17_state : buzzparser_s :=
  ⟨[⟨BUZZTOK_PAROPEN, none⟩, ⟨BUZZTOK_ID, some "p".toList⟩, ⟨BUZZTOK_PARCLOSE, none⟩,
    ⟨BUZZTOK_BLOCKOPEN, none⟩, ⟨BUZZTOK_BLOCKCLOSE, none⟩, ⟨BUZZTOK_STATEND, some ";".toList⟩],
    some ⟨BUZZTOK_FUN, none⟩, [[]], [chunk_new 0 none], 0, 1⟩

/-- The state after the lambda `function(p) {}`. -/
def c17_final : buzzparser_s :=
  ⟨[], some ⟨BUZZTOK_STATEND, some ";".toList⟩, [[("p".toList, ⟨0, TYPE_BASIC, true⟩)]],
    [chunk_new 0 none, chunk_finalize (chunk_new 1 none)], 0, 2⟩

/-- The definition `function f(p) {}` followed by `;`, at top level. -/
def c17_fun_state : buzzparser_s :=
  ⟨[⟨BUZZTOK_ID, some "f".toList⟩, ⟨BUZZTOK_PAROPEN, none⟩, ⟨BUZZTOK_ID, some "p".toList⟩,
    ⟨BUZZTOK_PARCLOSE, none⟩, ⟨BUZZTOK_BLOCKOPEN, none⟩, ⟨BUZZTOK_BLOCKCLOSE, none⟩,
    ⟨BUZZTOK_STATEND, some ";".toList⟩],
    some ⟨BUZZTOK_FUN, none⟩, [[]], [chunk_new 0 none], 0, 1⟩

/-- The state after the definition `function f(p) {}`. -/
def c17_fun_final : buzzparser_s :=
  ⟨[], some ⟨BUZZTOK_STATEND, some ";".toList⟩, [[("f".toList, ⟨0, TYPE_BASIC, true⟩)]],
    [chunk_new 0 none, chunk_finalize (chunk_new 1 (some ⟨0, TYPE_BASIC, true⟩))], 0, 2⟩

/-- The lambda `function(p) { return p }` followed by `;`, at top level. -/
def c18_state : buzzparser_s :=
  ⟨[⟨BUZZTOK_PAROPEN, none⟩, ⟨BUZZTOK_ID, some "p".toList⟩, ⟨BUZZTOK_PARCLOSE, none⟩,
    ⟨BUZZTOK_BLOCKOPEN, none⟩, ⟨BUZZTOK_RETURN, none⟩, ⟨BUZZTOK_ID, some "p".toList⟩,
    ⟨BUZZTOK_BLOCKCLOSE, none⟩, ⟨BUZZTOK_STATEND, some ";".toList⟩],
    some ⟨BUZZTOK_FUN, none⟩, [[]], [chunk_new 0 none], 0, 1⟩

/-- The state after the lambda `function(p) { return p }`. -/
def c18_final : buzzparser_s :=
  ⟨[], some ⟨BUZZTOK_STATEND, some ";".toList⟩, [[("p".toList, ⟨0, TYPE_BASIC, true⟩)]],
    [chunk_new 0 none, chunk_finalize (chunk_addcode (chunk_addcode (chunk_new 1 none)
      "\tgload 0\n".toList) "\tret1\n".toList)], 0, 2⟩

/-- The definition `function f(p) { return p }` followed by `;`, at top level. -/
def c18_fun_state : buzzparser_s :=
  ⟨[⟨BUZZTOK_ID, some "f".toList⟩, ⟨BUZZTOK_PAROPEN, none⟩, ⟨BUZZTOK_ID, some "p".toList⟩,
    ⟨BUZZTOK_PARCLOSE, none⟩, ⟨BUZZTOK_BLOCKOPEN, none⟩, ⟨BUZZTOK_RETURN, none⟩,
    ⟨BUZZTOK_ID, some "p".toList⟩, ⟨BUZZTOK_BLOCKCLOSE, none⟩,
    ⟨BUZZTOK_STATEND, some ";".toList⟩],
    some ⟨BUZZTOK_FUN, none⟩, [[]], [chunk_new 0 none], 0, 1⟩

/-- The state after the definition `function f(p) { return p }`. -/
def c18_fun_final : buzzparser_s :=
  ⟨[], some ⟨BUZZTOK_STATEND, some ";".toList⟩, [[("f".toList, ⟨0, TYPE_BASIC, true⟩)]],
    [chunk_new 0 none, chunk_finalize (chunk_addcode (chunk_addcode
      (chunk_new 1 (some ⟨0, TYPE_BASIC, true⟩))
      "\tlload 0\n".toList) "\tret1\n".toList)], 0, 2⟩

/-- The block `{ function a() {} ; if (1) { y = 1 } ; z = 2 }` followed by `;`,
at top level, `a` bound at global slot 0. -/
def c14_state : buzzparser_s :=
  ⟨[⟨BUZZTOK_FUN, none⟩, ⟨BUZZTOK_ID, some "a".toList⟩, ⟨BUZZTOK_PAROPEN, none⟩,
    ⟨BUZZTOK_PARCLOSE, none⟩, ⟨BUZZTOK_BLOCKOPEN, none⟩, ⟨BUZZTOK_BLOCKCLOSE, none⟩,
    ⟨BUZZTOK_STATEND, some ";".toList⟩,
    ⟨BUZZTOK_IF, none⟩, ⟨BUZZTOK_PAROPEN, none⟩, ⟨BUZZTOK_CONST, some "1".toList⟩,
    ⟨BUZZTOK_PARCLOSE, none⟩, ⟨BUZZTOK_BLOCKOPEN, none⟩,
    ⟨BUZZTOK_ID, some "y".toList⟩, ⟨BUZZTOK_ASSIGN, none⟩, ⟨BUZZTOK_CONST, some "1".toList⟩,
    ⟨BUZZTOK_BLOCKCLOSE, none⟩, ⟨BUZZTOK_STATEND, some ";".toList⟩,
    ⟨BUZZTOK_ID, some "z".toList⟩, ⟨BUZZTOK_ASSIGN, none⟩, ⟨BUZZTOK_CONST, some "2".toList⟩,
    ⟨BUZZTOK_BLOCKCLOSE, none⟩, ⟨BUZZTOK_STATEND, some ";".toList⟩],
    some ⟨BUZZTOK_BLOCKOPEN, none⟩, [[("a".toList, ⟨0, TYPE_BASIC, true⟩)]],
    [chunk_new 0 none], 0, 1⟩

/-- The state after that block. -/
def c14_final : buzzparser_s :=
  chunk_append (chunk_append (chunk_append (chunk_append (chunk_append (chunk_append
    (chunk_append
    ⟨[], some ⟨BUZZTOK_STATEND, some ";".toList⟩, [[("z".toList, ⟨0, TYPE_BASIC, true⟩)]],
      [chunk_new 0 none, chunk_finalize (chunk_new 1 (some ⟨1, TYPE_BASIC, true⟩))], 0, 4⟩
    "\tpushi 1\n".toList) "\tjumpz @__label_2\n".toList) "\tpushi 1\n".toList)
    "\tgstore 1\n".toList) "@__label_2\n".toList) "\tpushi 2\n".toList)
    "\tgstore 0\n".toList

/-- The state of `x.y = 1` after the reference `x`, for any token `t` in the
place of the dot and any tokens `rest` after it. -/
def c11_after (t : buzztok_s) (rest : List buzztok_s) : buzzparser_s :=
  ⟨rest, some t, [[("x".toList, ⟨0, TYPE_BASIC, true⟩)]], [chunk_new 0 none], 0, 1⟩

/-- The instruction `parse_expression` appends for the operator `+` or `-`. -/
def addsub_instr (op : Char) : cstr :=
  if op = '+' then "\tadd\n".toList else "\tsub\n".toList

/-- The instruction `parse_product` appends for the operator `*` or `/`. -/
def muldiv_instr (op : Char) : cstr :=
  if op = '*' then "\tmul\n".toList else "\tdiv\n".toList

/-- The state at top level whose current and next tokens are `toks` and whose
current chunk received the texts `txt`, in order. -/
def ex_at (toks : List buzztok_s) (txt : List cstr) : buzzparser_s :=
  txt.foldl chunk_append ⟨toks.tail, toks.head?, [[]], [chunk_new 0 none], 0, 1⟩

/-- The token of the integer constant `v`. -/
def ex_const (v : String) : buzztok_s := ⟨BUZZTOK_CONST, some v.toList⟩

/-- The token of kind `ty` with text `v`. -/
def ex_op (ty : buzztok_type_e) (v : String) : buzztok_s := ⟨ty, some v.toList⟩

/-- The state after the right-hand side of `x = 1` at top level. -/
def c13_top : buzzparser_s :=
  chunk_append ⟨[], some ⟨BUZZTOK_STATEND, some ";".toList⟩,
    [[("x".toList, ⟨0, TYPE_BASIC, true⟩)]], [chunk_new 0 none], 0, 1⟩ "\tpushi 1\n".toList

/-- The state after the right-hand side of `x = 1` in the body of a function
with one parameter `p`. -/
def c13_body : buzzparser_s :=
  chunk_append ⟨[], some ⟨BUZZTOK_STATEND, some ";".toList⟩,
    [[("p".toList, ⟨0, TYPE_BASIC, false⟩), ("x".toList, ⟨1, TYPE_BASIC, false⟩)], []],
    [chunk_new 0 none, chunk_new 1 none], 1, 2⟩ "\tpushi 1\n".toList

/-! ## Notions and states for the scope stack -/

/-- The global flags of a scope stack agree with the places of the symbols: the
symbols of the bottom table, the last of the list, are global and those of
every other table are not. -/
def GlobalOK : List buzzdict_t → Prop
  | [] => True
  | [g] => ∀ e ∈ g, e.2.global = true
  | t :: r :: rest => (∀ e ∈ t, e.2.global = false) ∧ GlobalOK (r :: rest)

/-- The state in the body of a function `f` defined at top level, before any
name is bound there. -/
def c16_body : buzzparser_s :=
  ⟨[], none, [[], [("f".toList, ⟨0, TYPE_BASIC, true⟩)]], [chunk_new 0 none, chunk_new 1 none],
    1, 2⟩

/-- The statements `if (1) { x = 1 } ; y = 2 ;` at top level, nothing bound. -/
def c15_state : buzzparser_s :=
  ⟨[⟨BUZZTOK_PAROPEN, none⟩, ⟨BUZZTOK_CONST, some "1".toList⟩,
    ⟨BUZZTOK_PARCLOSE, none⟩, ⟨BUZZTOK_BLOCKOPEN, none⟩,
    ⟨BUZZTOK_ID, some "x".toList⟩, ⟨BUZZTOK_ASSIGN, none⟩, ⟨BUZZTOK_CONST, some "1".toList⟩,
    ⟨BUZZTOK_BLOCKCLOSE, none⟩, ⟨BUZZTOK_STATEND, some ";".toList⟩,
    ⟨BUZZTOK_ID, some "y".toList⟩, ⟨BUZZTOK_ASSIGN, none⟩, ⟨BUZZTOK_CONST, some "2".toList⟩,
    ⟨BUZZTOK_STATEND, some ";".toList⟩],
    some ⟨BUZZTOK_IF, none⟩, [[]], [chunk_new 0 none], 0, 1⟩

/-- The state after those statements. -/
def c15_final : buzzparser_s :=
  chunk_append (chunk_append (chunk_append (chunk_append (chunk_append (chunk_append
    (chunk_append
    ⟨[], none, [[("y".toList, ⟨0, TYPE_BASIC, true⟩)]], [chunk_new 0 none], 0, 3⟩
    "\tpushi 1\n".toList) "\tjumpz @__label_1\n".toList) "\tpushi 1\n".toList)
    "\tgstore 0\n".toList) "@__label_1\n".toList) "\tpushi 2\n".toList)
    "\tgstore 0\n".toList

/-- The state of `c15_state` inside the block, before `x` is bound. -/
def c15_block : buzzparser_s :=
  ⟨[⟨BUZZTOK_ASSIGN, none⟩, ⟨BUZZTOK_CONST, some "1".toList⟩,
    ⟨BUZZTOK_BLOCKCLOSE, none⟩, ⟨BUZZTOK_STATEND, some ";".toList⟩,
    ⟨BUZZTOK_ID, some "y".toList⟩, ⟨BUZZTOK_ASSIGN, none⟩, ⟨BUZZTOK_CONST, some "2".toList⟩,
    ⟨BUZZTOK_STATEND, some ";".toList⟩],
    some ⟨BUZZTOK_ID, some "x".toList⟩, [[]],
    [chunk_addcode (chunk_addcode (chunk_new 0 none) "\tpushi 1\n".toList)
      "\tjumpz @__label_1\n".toList], 0, 3⟩

/-- The state of `c15_block` after the reference `x` in lvalue position. -/
def c15_bound : buzzparser_s :=
  ⟨[⟨BUZZTOK_CONST, some "1".toList⟩,
    ⟨BUZZTOK_BLOCKCLOSE, none⟩, ⟨BUZZTOK_STATEND, some ";".toList⟩,
    ⟨BUZZTOK_ID, some "y".toList⟩, ⟨BUZZTOK_ASSIGN, none⟩, ⟨BUZZTOK_CONST, some "2".toList⟩,
    ⟨BUZZTOK_STATEND, some ";".toList⟩],
    some ⟨BUZZTOK_ASSIGN, none⟩, [[("x".toList, ⟨0, TYPE_BASIC, true⟩)]],
    [chunk_addcode (chunk_addcode (chunk_new 0 none) "\tpushi 1\n".toList)
      "\tjumpz @__label_1\n".toList], 0, 3⟩

/-- A state at top level with the names `a` and `b` bound at the slots 0 and 1. -/
def c15_two : buzzparser_s :=
  ⟨[], none, [[("a".toList, ⟨0, TYPE_BASIC, true⟩), ("b".toList, ⟨1, TYPE_BASIC, true⟩)]],
    [chunk_new 0 none], 0, 1⟩

/-- A table whose entries carry the slots 0, 1, 2, ... in their order, under
keys that are all different. -/
def WellNumbered (syms : buzzdict_t) : Prop :=
  syms.map (fun e => e.2.pos) = List.range syms.length ∧ (syms.map Prod.fst).Nodup

/-- The statement `f() = )` at top level, `f` bound at global slot 0: what
follows `=` is not an expression. -/
def c12_state : buzzparser_s :=
  ⟨[⟨BUZZTOK_PAROPEN, none⟩, ⟨BUZZTOK_PARCLOSE, none⟩, ⟨BUZZTOK_ASSIGN, none⟩,
    ⟨BUZZTOK_PARCLOSE, none⟩], some ⟨BUZZTOK_ID, some "f".toList⟩, c3_syms,
    [chunk_new 0 none], 0, 1⟩

/-- The state after the reference `f()` of `c12_state`. -/
def c12_after : buzzparser_s :=
  chunk_append (chunk_append
    ⟨[⟨BUZZTOK_PARCLOSE, none⟩], some ⟨BUZZTOK_ASSIGN, none⟩, c3_syms, [chunk_new 0 none], 0, 1⟩
    "\tgload 0\n".toList) "\tpushi 0\n".toList

/-! ## Notions and states for operands, chunks and the end of the script -/

/-- The instruction `parse_operand` appends for a numeric literal with text
`v` after the sign `sg` (empty when there is none): `pushf` when the text
holds a decimal point, `pushi` otherwise. -/
def num_instr (sg v : cstr) : cstr :=
  (if '.' ∈ v then "\tpushf ".toList else "\tpushi ".toList) ++ sg ++ v ++ "\n".toList

/-- The statements `function f() {} ; function f() {} ; x = 1 ;` at top
level, nothing bound. -/
def c26_state : buzzparser_s :=
  ⟨[⟨BUZZTOK_ID, some "f".toList⟩, ⟨BUZZTOK_PAROPEN, none⟩, ⟨BUZZTOK_PARCLOSE, none⟩,
    ⟨BUZZTOK_BLOCKOPEN, none⟩, ⟨BUZZTOK_BLOCKCLOSE, none⟩, ⟨BUZZTOK_STATEND, some ";".toList⟩,
    ⟨BUZZTOK_FUN, none⟩, ⟨BUZZTOK_ID, some "f".toList⟩, ⟨BUZZTOK_PAROPEN, none⟩,
    ⟨BUZZTOK_PARCLOSE, none⟩, ⟨BUZZTOK_BLOCKOPEN, none⟩, ⟨BUZZTOK_BLOCKCLOSE, none⟩,
    ⟨BUZZTOK_STATEND, some ";".toList⟩,
    ⟨BUZZTOK_ID, some "x".toList⟩, ⟨BUZZTOK_ASSIGN, none⟩, ⟨BUZZTOK_CONST, some "1".toList⟩,
    ⟨BUZZTOK_STATEND, some ";".toList⟩],
    some ⟨BUZZTOK_FUN, none⟩, [[]], [chunk_new 0 none], 0, 1⟩

/-- The state after those statements. -/
def c26_final : buzzparser_s :=
  chunk_append (chunk_append
    ⟨[], none, [[("f".toList, ⟨1, TYPE_BASIC, true⟩), ("x".toList, ⟨1, TYPE_BASIC, true⟩)]],
      [chunk_new 0 none, chunk_finalize (chunk_new 1 (some ⟨0, TYPE_BASIC, true⟩)),
        chunk_finalize (chunk_new 2 (some ⟨1, TYPE_BASIC, true⟩))], 0, 3⟩
    "\tpushi 1\n".toList) "\tgstore 1\n".toList

/-- A statement-end token whose text is absent: a newline. -/
def is_newline (t : buzztok_s) : Prop := t.type = BUZZTOK_STATEND ∧ t.value = none

/-- The statement `if (1) {}` at top level followed by the tokens `tl`, the
label counter at 1. -/
def c28_state (tl : List buzztok_s) : buzzparser_s :=
  ⟨[⟨BUZZTOK_PAROPEN, none⟩, ⟨BUZZTOK_CONST, some "1".toList⟩, ⟨BUZZTOK_PARCLOSE, none⟩,
    ⟨BUZZTOK_BLOCKOPEN, none⟩, ⟨BUZZTOK_BLOCKCLOSE, none⟩] ++ tl,
    some ⟨BUZZTOK_IF, none⟩, [[]], [chunk_new 0 none], 0, 1⟩

/-- The chunk list of `c28_state` after the true block. -/
def c28_chunks : List chunk_s :=
  [chunk_addcode (chunk_addcode (chunk_new 0 none) "\tpushi 1\n".toList)
    "\tjumpz @__label_1\n".toList]

/-- Two newlines and the statement `x = 1 ;`. -/
def c28_tail : List buzztok_s :=
  [⟨BUZZTOK_STATEND, none⟩, ⟨BUZZTOK_STATEND, none⟩, ⟨BUZZTOK_ID, some "x".toList⟩,
    ⟨BUZZTOK_ASSIGN, none⟩, ⟨BUZZTOK_CONST, some "1".toList⟩, ⟨BUZZTOK_STATEND, some ";".toList⟩]

/-- The tokens of the script `x = 1 } y = 2`. -/
def c29_toks : List buzztok_s :=
  [⟨BUZZTOK_ID, some "x".toList⟩, ⟨BUZZTOK_ASSIGN, none⟩, ⟨BUZZTOK_CONST, some "1".toList⟩,
    ⟨BUZZTOK_BLOCKCLOSE, none⟩, ⟨BUZZTOK_ID, some "y".toList⟩, ⟨BUZZTOK_ASSIGN, none⟩,
    ⟨BUZZTOK_CONST, some "2".toList⟩]

/-- The state at the end of `parse_script` on `x = 1 } y = 2`. -/
def c29_final : buzzparser_s :=
  chunk_append (chunk_append (chunk_append (chunk_append
    ⟨[⟨BUZZTOK_ID, some "y".toList⟩, ⟨BUZZTOK_ASSIGN, none⟩, ⟨BUZZTOK_CONST, some "2".toList⟩],
      some ⟨BUZZTOK_BLOCKCLOSE, none⟩, [[("x".toList, ⟨0, TYPE_BASIC, true⟩)]],
      [chunk_new 0 none], 0, 1⟩
    "\tpushi 1\n".toList) "\tgstore 0\n".toList) "\n@__exitpoint\n".toList) "\tdone\n".toList

/-! ## Notions for the labels marked in the code -/

/-- The label a line of text marks: the number after `@__label_` when the line
starts with `@__label_`, nothing otherwise. -/
def line_mark (l : cstr) : Option Nat :=
  if LABELREF <+: l then some (dec_val (l.drop LABELREF.length)) else none

/-- The labels marked in a text, line by line. -/
def text_marks (txt : cstr) : List Nat := (split_lines txt).filterMap line_mark

/-- The labels marked by a chunk in the output: its own label, printed by
`chunk_print`, and those marked in its code. -/
def chunk_marks (c : chunk_s) : List Nat := c.label :: text_marks (chunk_text c)

/-- The labels marked on the way from `p` to `q`: in the text appended to the
current chunk and by the chunks created since. -/
def new_marks (p q : buzzparser_s) : List Nat :=
  text_marks (emitted p q) ++ (q.chunks.drop p.chunks.length).flatMap chunk_marks

/-- A text made of whole lines, each closed by a newline. -/
def Whole (txt : cstr) : Prop := ∃ ls, txt = unlines ls ∧ ∀ l ∈ ls, '\n' ∉ l

/-- Relation `Fresh S p q`: when `p` has a current chunk, plain token texts and
a counter that does not wrap, the labels marked on the way from `p` to `q` are
pairwise different, satisfy `S` and are below the counter of `q`; the chunks
created on the way carry increasing labels, and their code is made of whole
lines. -/
def Fresh (S : Nat → Prop) (p q : buzzparser_s) : Prop :=
  p.chunk < p.chunks.length → TokWF p → NoWrap p →
    (new_marks p q).Nodup ∧ (∀ m ∈ new_marks p q, S m ∧ m < q.labels) ∧
    ((q.chunks.drop p.chunks.length).map (fun c => c.label)).Pairwise (· < ·) ∧
    ∀ c ∈ q.chunks.drop p.chunks.length, Whole (chunk_text c)

/-- Relation `Inc lo p q`: the chunks created on the way from `p` to `q` carry
labels in increasing order, none below `lo` and all below the counter of `q`. -/
def Inc (lo : Nat) (p q : buzzparser_s) : Prop :=
  p.chunk < p.chunks.length → NoWrap p →
    ((q.chunks.drop p.chunks.length).map (fun c => c.label)).Pairwise (· < ·) ∧
    ∀ c ∈ q.chunks.drop p.chunks.length, lo ≤ c.label ∧ c.label < q.labels

/-! ## Notions and states for the text written at the end -/

/-- Relation `Done p q`: the chunks created on the way from `p` to `q` were
finalized, a NUL follows their code in the buffer. -/
def Done (p q : buzzparser_s) : Prop :=
  p.chunk < p.chunks.length →
    ∀ c ∈ q.chunks.drop p.chunks.length, c.code.drop c.csize = [Char.ofNat 0]

/-- The tokens of the script `if (1) {} ;`. -/
def c24_toks : List buzztok_s :=
  [⟨BUZZTOK_IF, none⟩, ⟨BUZZTOK_PAROPEN, none⟩, ⟨BUZZTOK_CONST, some "1".toList⟩,
    ⟨BUZZTOK_PARCLOSE, none⟩, ⟨BUZZTOK_BLOCKOPEN, none⟩, ⟨BUZZTOK_BLOCKCLOSE, none⟩,
    ⟨BUZZTOK_STATEND, some ";".toList⟩]

/-- The global chunk at the end of `parse_script` on `if (1) {} ;`. -/
def c24_chunk : chunk_s :=
  chunk_addcode (chunk_addcode (chunk_addcode (chunk_addcode (chunk_addcode (chunk_new 0 none)
    "\tpushi 1\n".toList) "\tjumpz @__label_1\n".toList) "@__label_1\n".toList)
    "\n@__exitpoint\n".toList) "\tdone\n".toList

/-- The state at the end of `parse_script` on `if (1) {} ;`. -/
def c24_final : buzzparser_s := ⟨[], none, [[]], [c24_chunk], 0, 3⟩

/-- The tokens of the script `if (1) { function g() {} } ;`. -/
def c2_block_toks : List buzztok_s :=
  [⟨BUZZTOK_IF, none⟩, ⟨BUZZTOK_PAROPEN, none⟩, ⟨BUZZTOK_CONST, some "1".toList⟩,
    ⟨BUZZTOK_PARCLOSE, none⟩, ⟨BUZZTOK_BLOCKOPEN, none⟩,
    ⟨BUZZTOK_FUN, none⟩, ⟨BUZZTOK_ID, some "g".toList⟩, ⟨BUZZTOK_PAROPEN, none⟩,
    ⟨BUZZTOK_PARCLOSE, none⟩, ⟨BUZZTOK_BLOCKOPEN, none⟩, ⟨BUZZTOK_BLOCKCLOSE, none⟩,
    ⟨BUZZTOK_BLOCKCLOSE, none⟩, ⟨BUZZTOK_STATEND, some ";".toList⟩]

/-- The chunk of `g` at the end of `parse_script` on
`if (1) { function g() {} } ;`: its owner pointer was set to the entry of `g`,
global slot 0. -/
def c2_block_chunk : chunk_s := chunk_finalize (chunk_new 3 (some ⟨0, TYPE_BASIC, true⟩))

/-- The state at the end of `parse_script` on `if (1) { function g() {} } ;`:
the only table is empty. -/
def c2_block_final : buzzparser_s := ⟨[], none, [[]], [c24_chunk, c2_block_chunk], 0, 4⟩

/-- The tokens of the script `function f() {} ; function f() {} ;`. -/
def c2_redef_toks : List buzztok_s :=
  [⟨BUZZTOK_FUN, none⟩, ⟨BUZZTOK_ID, some "f".toList⟩, ⟨BUZZTOK_PAROPEN, none⟩,
    ⟨BUZZTOK_PARCLOSE, none⟩, ⟨BUZZTOK_BLOCKOPEN, none⟩, ⟨BUZZTOK_BLOCKCLOSE, none⟩,
    ⟨BUZZTOK_STATEND, some ";".toList⟩,
    ⟨BUZZTOK_FUN, none⟩, ⟨BUZZTOK_ID, some "f".toList⟩, ⟨BUZZTOK_PAROPEN, none⟩,
    ⟨BUZZTOK_PARCLOSE, none⟩, ⟨BUZZTOK_BLOCKOPEN, none⟩, ⟨BUZZTOK_BLOCKCLOSE, none⟩,
    ⟨BUZZTOK_STATEND, some ";".toList⟩]

/-- The global chunk of a script without top-level code. -/
def exit_chunk : chunk_s :=
  chunk_addcode (chunk_addcode (chunk_new 0 none) "\n@__exitpoint\n".toList) "\tdone\n".toList

/-- The state at the end of `parse_script` on
`function f() {} ; function f() {} ;`: the table holds `f` at slot 1, the chunk
of the first definition was created with the entry of `f` at slot 0. -/
def c2_redef_final : buzzparser_s :=
  ⟨[], none, [[("f".toList, ⟨1, TYPE_BASIC, true⟩)]],
    [exit_chunk, chunk_finalize (chunk_new 1 (some ⟨0, TYPE_BASIC, true⟩)),
      chunk_finalize (chunk_new 2 (some ⟨1, TYPE_BASIC, true⟩))], 0, 3⟩

/-! ## Basic facts -/

@[simp] theorem presult_bind_ok {α β : Type} (a : α) (f : α → presult β) :
    (presult.ok a >>= f) = f a := rfl
@[simp] theorem presult_bind_error {α β : Type} (e : perr) (f : α → presult β) :
    (presult.error e >>= f) = presult.error e := rfl
@[simp] theorem presult_bind_nofuel {α β : Type} (f : α → presult β) :
    ((presult.nofuel : presult α) >>= f) = presult.nofuel := rfl
@[simp] theorem presult_pure {α : Type} (a : α) : (pure a : presult α) = presult.ok a := rfl

theorem bind_eq_ok {α β : Type} {x : presult α} {f : α → presult β} {b : β} :
    (x >>= f) = .ok b ↔ ∃ a, x = .ok a ∧ f a = .ok b := by
  cases x <;> simp

theorem curtok_eq_ok {p : buzzparser_s} {t : buzztok_s} :
    curtok p = .ok t ↔ p.tok = some t := by
  unfold curtok
  cases p.tok <;> simp

theorem tokmatch_eq_ok {p : buzzparser_s} {ty : buzztok_type_e} {u : Unit} :
    tokmatch p ty = .ok u ↔ ∃ t, p.tok = some t ∧ t.type = ty := by
  unfold tokmatch
  cases h : p.tok with
  | none => simp
  | some t => by_cases ht : t.type = ty <;> simp [ht]


/-! ## Every rule is a sequence of elementary steps -/

theorem reach_fixed (p : buzzparser_s) (txt : cstr) (h : txt ∈ fixed_instrs) :
    Reach p (chunk_append p txt) := Reach.plain p txt (Or.inl h)

theorem reach_num (p : buzzparser_s) (pre : cstr) (n : Nat) (h : pre ∈ num_prefixes) :
    Reach p (chunk_append p (pre ++ fmt_u n ++ "\n".toList)) :=
  Reach.plain p _ (Or.inr (Or.inr ⟨pre, h, n, rfl⟩))

theorem reach_cmp (p : buzzparser_s) (v : cstr) :
    Reach p (chunk_append p ("\t".toList ++ cmp_op v ++ "\n".toList)) :=
  Reach.plain p _ (Or.inr (Or.inl ⟨v, rfl⟩))

theorem reach_tok {p q : buzzparser_s} (t : buzztok_s) (pre : cstr) (ht : p.tok = some t)
    (hty : t.type ≠ BUZZTOK_STRING) (h : Reach p q) (hpre : pre ∈ tok_prefixes) :
    Reach p (chunk_append q (pre ++ tokval t ++ "\n".toList)) :=
  Reach.tokfmt t _ ht hty h ⟨pre, hpre, by simp⟩

theorem reach_flush (p : buzzparser_s) (s : sym_s) (info : Int) :
    Reach p (idref_flush p s info) := by
  unfold idref_flush
  split
  · unfold load_text
    split
    · exact reach_num p _ _ (by simp [num_prefixes])
    · exact reach_num p _ _ (by simp [num_prefixes])
  · split
    · exact reach_fixed p _ (by simp [fixed_instrs])
    · split
      · exact reach_fixed p _ (by simp [fixed_instrs])
      · exact Reach.refl p

theorem reach_param (p : buzzparser_s) (t : buzztok_s) (ht : p.tok = some t) :
    Reach p (match sym_lookup (tokval t) p.symstack with
      | none => sym_add p (tokval t)
      | some sym => if sym.global then sym_add p (tokval t) else p) := by
  split
  · exact Reach.bind p t ht
  · split
    · exact Reach.bind p t ht
    · exact Reach.refl p

theorem fetchtok_chunk {p q : buzzparser_s} (h : fetchtok p = .ok q) : q.chunk = p.chunk := by
  unfold fetchtok at h
  split at h
  · cases h
  · cases h; rfl

theorem rules_reach : ∀ n, AllRules Reach n := by
  intro n
  induction n using Nat.strong_induction_on with
  | _ n ihs =>
  cases n with
  | zero =>
    constructor <;> intros <;> simp_all [parse_statlist, parse_statlist_loop, parse_stat, parse_block,
      parse_fun, parse_if, parse_if_newlines, parse_for, parse_while, parse_conditionlist,
      parse_conditionlist_loop, parse_condition, parse_condition_loop, parse_comparison,
      parse_expression, parse_expression_loop, parse_product, parse_product_loop, parse_modulo,
      parse_modulo_loop, parse_power, parse_powerrest, parse_operand, parse_command, parse_idlist,
      parse_idlist_loop, parse_idref, parse_idref_loop, parse_lambda]
  | succ n =>
    have ih := ihs n (Nat.lt_succ_self n)
    constructor
    · -- statlist
      intro p q h
      rw [parse_statlist] at h
      obtain ⟨p1, h1, h⟩ := bind_eq_ok.mp h
      obtain ⟨p2, h2, h⟩ := bind_eq_ok.mp h
      have e : Reach p p2 := (ih.stat _ _ h1).trans (ih.statlist_loop _ _ h2)
      split at h
      · cases h; exact e
      · split at h
        · cases h; exact e
        · cases h
    · -- statlist_loop
      intro p q h
      rw [parse_statlist_loop] at h
      split at h
      · cases h; exact Reach.refl _
      · split at h
        · obtain ⟨p1, h1, h⟩ := bind_eq_ok.mp h
          have e1 : Reach p p1 := by
            split at h1
            · exact (Reach.next p).trans (ih.stat _ _ h1)
            · cases h1; exact Reach.next p
          exact e1.trans (ih.statlist_loop _ _ h)
        · cases h; exact Reach.refl _
    · -- stat
      intro p q h
      rw [parse_stat] at h
      obtain ⟨t, ht, h⟩ := bind_eq_ok.mp h
      split_ifs at h
      · cases h; exact Reach.refl _
      · exact ih.func _ _ h
      · exact ih.cond_if _ _ h
      · exact ih.for_loop _ _ h
      · exact ih.while_loop _ _ h
      · exact ih.command _ _ h
    · -- block
      intro p q h
      rw [parse_block] at h
      obtain ⟨u, hu, h⟩ := bind_eq_ok.mp h
      obtain ⟨p1, h1, h⟩ := bind_eq_ok.mp h
      obtain ⟨t, ht, h⟩ := bind_eq_ok.mp h
      split at h
      · exact (Reach.fetch h1).trans (Reach.fetch h)
      · obtain ⟨p2, h2, h⟩ := bind_eq_ok.mp h
        obtain ⟨u2, hu2, h⟩ := bind_eq_ok.mp h
        obtain ⟨p3, h3, h⟩ := bind_eq_ok.mp h
        cases h
        exact (Reach.fetch h1).trans (Reach.cleanup ((ih.statlist _ _ h2).trans (Reach.fetch h3)))
    · -- func
      intro p q h
      rw [parse_fun] at h
      obtain ⟨u, hu, h⟩ := bind_eq_ok.mp h
      obtain ⟨p1, h1, h⟩ := bind_eq_ok.mp h
      obtain ⟨u1, hu1, h⟩ := bind_eq_ok.mp h
      obtain ⟨t, ht, h⟩ := bind_eq_ok.mp h
      obtain ⟨p4, h4, h⟩ := bind_eq_ok.mp h
      obtain ⟨u4, hu4, h⟩ := bind_eq_ok.mp h
      obtain ⟨p5, h5, h⟩ := bind_eq_ok.mp h
      obtain ⟨p7, h7, h⟩ := bind_eq_ok.mp h
      obtain ⟨u7, hu7, h⟩ := bind_eq_ok.mp h
      obtain ⟨p8, h8, h⟩ := bind_eq_ok.mp h
      obtain ⟨p9, h9, h⟩ := bind_eq_ok.mp h
      cases h
      have e1 : Reach (symt_push p5) p9 :=
        (ih.idlist _ _ h7).trans ((Reach.fetch h8).trans (ih.block _ _ h9))
      have e2 := ((Reach.fetch h4).trans (Reach.fetch h5)).trans (Reach.symt e1)
      have hc : (sym_add p1 (tokval t)).chunk = p.chunk := by
        rw [← fetchtok_chunk h1]
        unfold sym_add
        split <;> rfl
      rw [hc]
      exact Reach.func t _ h1 (curtok_eq_ok.mp ht) e2
    · -- cond_if
      intro p q h
      rw [parse_if] at h
      obtain ⟨u, hu, h⟩ := bind_eq_ok.mp h
      obtain ⟨p1, h1, h⟩ := bind_eq_ok.mp h
      obtain ⟨u1, hu1, h⟩ := bind_eq_ok.mp h
      obtain ⟨p2, h2, h⟩ := bind_eq_ok.mp h
      obtain ⟨p3, h3, h⟩ := bind_eq_ok.mp h
      obtain ⟨u3, hu3, h⟩ := bind_eq_ok.mp h
      obtain ⟨p4, h4, h⟩ := bind_eq_ok.mp h
      obtain ⟨p5, h5, h⟩ := bind_eq_ok.mp h
      obtain ⟨p6, h6, h⟩ := bind_eq_ok.mp h
      obtain ⟨t, ht, h⟩ := bind_eq_ok.mp h
      have ec : Reach p1 p4 :=
        (Reach.fetch h2).trans ((ih.condition _ _ h3).trans (Reach.fetch h4))
      have eb := (ih.block _ _ h5).trans (ih.if_newlines _ _ h6)
      split at h
      · obtain ⟨p7, h7, h⟩ := bind_eq_ok.mp h
        obtain ⟨p8, h8, h⟩ := bind_eq_ok.mp h
        cases h
        exact Reach.if_else h1 ec (eb.trans (Reach.fetch h7)) (ih.block _ _ h8)
      · cases h
        exact Reach.if_then h1 ec eb
    · -- if_newlines
      intro p q h
      rw [parse_if_newlines] at h
      obtain ⟨t, ht, h⟩ := bind_eq_ok.mp h
      split at h
      · obtain ⟨p1, h1, h⟩ := bind_eq_ok.mp h
        exact (Reach.fetch h1).trans (ih.if_newlines _ _ h)
      · cases h; exact Reach.refl _
    · -- for_loop
      intro p q h
      rw [parse_for] at h
      obtain ⟨u, hu, h⟩ := bind_eq_ok.mp h
      obtain ⟨p1, h1, h⟩ := bind_eq_ok.mp h
      obtain ⟨u1, hu1, h⟩ := bind_eq_ok.mp h
      obtain ⟨p2, h2, h⟩ := bind_eq_ok.mp h
      obtain ⟨⟨p3, i3⟩, h3, h⟩ := bind_eq_ok.mp h
      obtain ⟨u3, hu3, h⟩ := bind_eq_ok.mp h
      obtain ⟨p4, h4, h⟩ := bind_eq_ok.mp h
      obtain ⟨p5, h5, h⟩ := bind_eq_ok.mp h
      obtain ⟨u5, hu5, h⟩ := bind_eq_ok.mp h
      obtain ⟨p6, h6, h⟩ := bind_eq_ok.mp h
      obtain ⟨p7, h7, h⟩ := bind_eq_ok.mp h
      obtain ⟨u7, hu7, h⟩ := bind_eq_ok.mp h
      obtain ⟨p8, h8, h⟩ := bind_eq_ok.mp h
      obtain ⟨⟨p9, i9⟩, h9, h⟩ := bind_eq_ok.mp h
      obtain ⟨u9, hu9, h⟩ := bind_eq_ok.mp h
      obtain ⟨p10, h10, h⟩ := bind_eq_ok.mp h
      obtain ⟨p11, h11, h⟩ := bind_eq_ok.mp h
      obtain ⟨u11, hu11, h⟩ := bind_eq_ok.mp h
      obtain ⟨p12, h12, h⟩ := bind_eq_ok.mp h
      exact (Reach.fetch h1).trans <| (Reach.fetch h2).trans <| (ih.idref _ _ _ _ h3).trans <|
        (Reach.fetch h4).trans <| (ih.expression _ _ h5).trans <| (Reach.fetch h6).trans <|
        (ih.condition _ _ h7).trans <| (Reach.fetch h8).trans <| (ih.idref _ _ _ _ h9).trans <|
        (Reach.fetch h10).trans <| (ih.expression _ _ h11).trans <| (Reach.fetch h12).trans <|
        ih.block _ _ h
    · -- while_loop
      intro p q h
      rw [parse_while] at h
      obtain ⟨u, hu, h⟩ := bind_eq_ok.mp h
      obtain ⟨p1, h1, h⟩ := bind_eq_ok.mp h
      obtain ⟨u1, hu1, h⟩ := bind_eq_ok.mp h
      obtain ⟨p2, h2, h⟩ := bind_eq_ok.mp h
      obtain ⟨p3, h3, h⟩ := bind_eq_ok.mp h
      obtain ⟨u3, hu3, h⟩ := bind_eq_ok.mp h
      obtain ⟨p4, h4, h⟩ := bind_eq_ok.mp h
      exact (Reach.fetch h1).trans <| (Reach.fetch h2).trans <| (ih.condition _ _ h3).trans <|
        (Reach.fetch h4).trans <| ih.block _ _ h
    · -- conditionlist
      intro p q k h
      rw [parse_conditionlist] at h
      obtain ⟨t, ht, h⟩ := bind_eq_ok.mp h
      split at h
      · cases h; exact Reach.refl _
      · obtain ⟨p1, h1, h⟩ := bind_eq_ok.mp h
        exact (ih.condition _ _ h1).trans (ih.conditionlist_loop _ _ _ _ h)
    · -- conditionlist_loop
      intro p m q k h
      rw [parse_conditionlist_loop] at h
      obtain ⟨t, ht, h⟩ := bind_eq_ok.mp h
      split at h
      · obtain ⟨p1, h1, h⟩ := bind_eq_ok.mp h
        obtain ⟨p2, h2, h⟩ := bind_eq_ok.mp h
        exact (Reach.fetch h1).trans <| (ih.condition _ _ h2).trans <|
          ih.conditionlist_loop _ _ _ _ h
      · cases h; exact Reach.refl _
    · -- condition
      intro p q h
      rw [parse_condition] at h
      obtain ⟨p1, h1, h⟩ := bind_eq_ok.mp h
      exact (ih.comparison _ _ h1).trans (ih.condition_loop _ _ h)
    · -- condition_loop
      intro p q h
      rw [parse_condition_loop] at h
      obtain ⟨t, ht, h⟩ := bind_eq_ok.mp h
      split at h
      · obtain ⟨p1, h1, h⟩ := bind_eq_ok.mp h
        obtain ⟨p2, h2, h⟩ := bind_eq_ok.mp h
        exact (reach_tok t _ (curtok_eq_ok.mp ht) (by simp [*])
          ((Reach.fetch h1).trans (ih.comparison _ _ h2)) (by simp [tok_prefixes])).trans
          (ih.condition_loop _ _ h)
      · cases h; exact Reach.refl _
    · -- comparison
      intro p q h
      rw [parse_comparison] at h
      obtain ⟨t, ht, h⟩ := bind_eq_ok.mp h
      split at h
      · obtain ⟨p1, h1, h⟩ := bind_eq_ok.mp h
        obtain ⟨p2, h2, h⟩ := bind_eq_ok.mp h
        obtain ⟨u2, hu2, h⟩ := bind_eq_ok.mp h
        exact (Reach.fetch h1).trans <| (ih.condition _ _ h2).trans <| Reach.fetch h
      · split at h
        · obtain ⟨p1, h1, h⟩ := bind_eq_ok.mp h
          obtain ⟨p2, h2, h⟩ := bind_eq_ok.mp h
          cases h
          exact (Reach.fetch h1).trans <| (ih.comparison _ _ h2).trans <|
            reach_fixed _ _ (by simp [fixed_instrs])
        · obtain ⟨p1, h1, h⟩ := bind_eq_ok.mp h
          obtain ⟨t1, ht1, h⟩ := bind_eq_ok.mp h
          split at h
          · obtain ⟨p2, h2, h⟩ := bind_eq_ok.mp h
            obtain ⟨p3, h3, h⟩ := bind_eq_ok.mp h
            cases h
            exact (ih.expression _ _ h1).trans <| (Reach.fetch h2).trans <|
              (ih.expression _ _ h3).trans <| reach_cmp _ _
          · cases h; exact ih.expression _ _ h1
    · -- expression
      intro p q h
      rw [parse_expression] at h
      obtain ⟨t, ht, h⟩ := bind_eq_ok.mp h
      split at h
      · obtain ⟨p1, h1, h⟩ := bind_eq_ok.mp h
        obtain ⟨u1, hu1, h⟩ := bind_eq_ok.mp h
        obtain ⟨p2, h2, h⟩ := bind_eq_ok.mp h
        cases h
        exact (Reach.fetch h1).trans <| (Reach.fetch h2).trans <|
          reach_fixed _ _ (by simp [fixed_instrs])
      · obtain ⟨p1, h1, h⟩ := bind_eq_ok.mp h
        exact (ih.product _ _ h1).trans (ih.expression_loop _ _ h)
    · -- expression_loop
      intro p q h
      rw [parse_expression_loop] at h
      obtain ⟨t, ht, h⟩ := bind_eq_ok.mp h
      split at h
      · obtain ⟨p1, h1, h⟩ := bind_eq_ok.mp h
        obtain ⟨p2, h2, h⟩ := bind_eq_ok.mp h
        refine ((Reach.fetch h1).trans <| (ih.product _ _ h2).trans ?_).trans
          (ih.expression_loop _ _ h)
        split
        · exact reach_fixed _ _ (by simp [fixed_instrs])
        · split
          · exact reach_fixed _ _ (by simp [fixed_instrs])
          · exact Reach.refl _
      · cases h; exact Reach.refl _
    · -- product
      intro p q h
      rw [parse_product] at h
      obtain ⟨p1, h1, h⟩ := bind_eq_ok.mp h
      exact (ih.modulo _ _ h1).trans (ih.product_loop _ _ h)
    · -- product_loop
      intro p q h
      rw [parse_product_loop] at h
      obtain ⟨t, ht, h⟩ := bind_eq_ok.mp h
      split at h
      · obtain ⟨p1, h1, h⟩ := bind_eq_ok.mp h
        obtain ⟨p2, h2, h⟩ := bind_eq_ok.mp h
        refine ((Reach.fetch h1).trans <| (ih.modulo _ _ h2).trans ?_).trans
          (ih.product_loop _ _ h)
        split
        · exact reach_fixed _ _ (by simp [fixed_instrs])
        · split
          · exact reach_fixed _ _ (by simp [fixed_instrs])
          · exact Reach.refl _
      · cases h; exact Reach.refl _
    · -- modulo
      intro p q h
      rw [parse_modulo] at h
      obtain ⟨p1, h1, h⟩ := bind_eq_ok.mp h
      exact (ih.power _ _ h1).trans (ih.modulo_loop _ _ h)
    · -- modulo_loop
      intro p q h
      rw [parse_modulo_loop] at h
      obtain ⟨t, ht, h⟩ := bind_eq_ok.mp h
      split at h
      · obtain ⟨p1, h1, h⟩ := bind_eq_ok.mp h
        obtain ⟨p2, h2, h⟩ := bind_eq_ok.mp h
        exact ((Reach.fetch h1).trans <| (ih.power _ _ h2).trans <|
          reach_fixed _ _ (by simp [fixed_instrs])).trans (ih.modulo_loop _ _ h)
      · cases h; exact Reach.refl _
    · -- power
      intro p q h
      rw [parse_power] at h
      obtain ⟨p1, h1, h⟩ := bind_eq_ok.mp h
      exact (ih.operand _ _ h1).trans (ih.powerrest _ _ h)
    · -- powerrest
      intro p q h
      rw [parse_powerrest] at h
      obtain ⟨t, ht, h⟩ := bind_eq_ok.mp h
      split at h
      · obtain ⟨p1, h1, h⟩ := bind_eq_ok.mp h
        obtain ⟨p2, h2, h⟩ := bind_eq_ok.mp h
        cases h
        exact (Reach.fetch h1).trans <| (ih.power _ _ h2).trans <|
          reach_fixed _ _ (by simp [fixed_instrs])
      · cases h; exact Reach.refl _
    · -- operand
      intro p q h
      rw [parse_operand] at h
      obtain ⟨t, ht, h⟩ := bind_eq_ok.mp h
      have ht' := curtok_eq_ok.mp ht
      split at h
      · -- lambda
        cases n with
        | zero => simp [parse_lambda] at h
        | succ m =>
          have ihm := ihs m (by omega)
          rw [parse_lambda] at h
          obtain ⟨u, hu, h⟩ := bind_eq_ok.mp h
          obtain ⟨p1, h1, h⟩ := bind_eq_ok.mp h
          obtain ⟨u1, hu1, h⟩ := bind_eq_ok.mp h
          obtain ⟨p2, h2, h⟩ := bind_eq_ok.mp h
          obtain ⟨p3, h3, h⟩ := bind_eq_ok.mp h
          obtain ⟨u3, hu3, h⟩ := bind_eq_ok.mp h
          obtain ⟨p4, h4, h⟩ := bind_eq_ok.mp h
          obtain ⟨p5, h5, h⟩ := bind_eq_ok.mp h
          cases h
          have hc : p1.chunk = p.chunk := by
            rw [fetchtok_chunk h1]; rfl
          rw [hc]
          exact Reach.lambda h1 ((Reach.fetch h2).trans <| (ihm.idlist _ _ h3).trans <|
            (Reach.fetch h4).trans <| ihm.block _ _ h5)
      · split at h
        · exact Reach.fetch h
        · split at h
          · refine Reach.trans ?_ (Reach.fetch h)
            split
            · exact reach_tok t _ ht' (by simp [*]) (Reach.refl _) (by simp [tok_prefixes])
            · exact reach_tok t _ ht' (by simp [*]) (Reach.refl _) (by simp [tok_prefixes])
          · split at h
            · exact Reach.fetch h
            · split at h
              · obtain ⟨p1, h1, h⟩ := bind_eq_ok.mp h
                obtain ⟨p2, h2, h⟩ := bind_eq_ok.mp h
                obtain ⟨u2, hu2, h⟩ := bind_eq_ok.mp h
                exact (Reach.fetch h1).trans <| (ih.expression _ _ h2).trans <| Reach.fetch h
              · split at h
                · obtain ⟨p1, h1, h⟩ := bind_eq_ok.mp h
                  obtain ⟨t1, ht1, h⟩ := bind_eq_ok.mp h
                  split at h
                  · refine Reach.trans ?_ (Reach.fetch h)
                    split
                    · exact Reach.signed t t1 _ ht' (by simp [*]) h1 (curtok_eq_ok.mp ht1)
                        (by simp [*]) ⟨_, by simp [tok_prefixes], rfl⟩
                    · exact Reach.signed t t1 _ ht' (by simp [*]) h1 (curtok_eq_ok.mp ht1)
                        (by simp [*]) ⟨_, by simp [tok_prefixes], rfl⟩
                  · obtain ⟨p2, h2, h⟩ := bind_eq_ok.mp h
                    have e := (Reach.fetch h1).trans (ih.power _ _ h2)
                    split at h
                    · cases h
                      exact e.trans (reach_fixed _ _ (by simp [fixed_instrs]))
                    · cases h; exact e
                · obtain ⟨⟨p1, i1⟩, h1, h⟩ := bind_eq_ok.mp h
                  cases h
                  exact ih.idref _ _ _ _ h1
    · -- command
      intro p q h
      rw [parse_command] at h
      obtain ⟨t, ht, h⟩ := bind_eq_ok.mp h
      split at h
      · obtain ⟨p1, h1, h⟩ := bind_eq_ok.mp h
        obtain ⟨t1, ht1, h⟩ := bind_eq_ok.mp h
        split at h
        · cases h
          exact (Reach.fetch h1).trans (reach_fixed _ _ (by simp [fixed_instrs]))
        · obtain ⟨p2, h2, h⟩ := bind_eq_ok.mp h
          cases h
          exact (Reach.fetch h1).trans <| (ih.expression _ _ h2).trans <|
            reach_fixed _ _ (by simp [fixed_instrs])
      · obtain ⟨⟨p1, i1⟩, h1, h⟩ := bind_eq_ok.mp h
        obtain ⟨t1, ht1, h⟩ := bind_eq_ok.mp h
        have e1 := ih.idref _ _ _ _ h1
        split at h
        · split at h
          · cases h
          · obtain ⟨p2, h2, h⟩ := bind_eq_ok.mp h
            obtain ⟨p3, h3, h⟩ := bind_eq_ok.mp h
            have e3 := e1.trans ((Reach.fetch h2).trans (ih.expression _ _ h3))
            split_ifs at h <;> cases h
            · exact e3.trans (reach_num _ _ _ (by simp [num_prefixes]))
            · exact e3.trans (reach_num _ _ _ (by simp [num_prefixes]))
            · exact e3.trans (reach_fixed _ _ (by simp [fixed_instrs]))
            · exact e3
        · split at h
          · cases h; exact e1
          · cases h
    · -- idlist
      intro p q h
      rw [parse_idlist] at h
      obtain ⟨t, ht, h⟩ := bind_eq_ok.mp h
      split at h
      · cases h; exact Reach.refl _
      · obtain ⟨u, hu, h⟩ := bind_eq_ok.mp h
        obtain ⟨p1, h1, h⟩ := bind_eq_ok.mp h
        exact (reach_param p t (curtok_eq_ok.mp ht)).trans <| (Reach.fetch h1).trans <|
          ih.idlist_loop _ _ h
    · -- idlist_loop
      intro p q h
      rw [parse_idlist_loop] at h
      obtain ⟨t, ht, h⟩ := bind_eq_ok.mp h
      split at h
      · obtain ⟨p1, h1, h⟩ := bind_eq_ok.mp h
        obtain ⟨u, hu, h⟩ := bind_eq_ok.mp h
        obtain ⟨t1, ht1, h⟩ := bind_eq_ok.mp h
        obtain ⟨p2, h2, h⟩ := bind_eq_ok.mp h
        exact (Reach.fetch h1).trans <| (reach_param p1 t1 (curtok_eq_ok.mp ht1)).trans <|
          (Reach.fetch h2).trans <| ih.idlist_loop _ _ h
      · cases h; exact Reach.refl _
    · -- idref
      intro p lv q i h
      rw [parse_idref] at h
      obtain ⟨u, hu, h⟩ := bind_eq_ok.mp h
      obtain ⟨t, ht, h⟩ := bind_eq_ok.mp h
      split at h
      · split at h
        · cases h
        · obtain ⟨p1, h1, h⟩ := bind_eq_ok.mp h
          cases h
          exact (Reach.bind p t (curtok_eq_ok.mp ht)).trans (Reach.fetch h1)
      · obtain ⟨p1, h1, h⟩ := bind_eq_ok.mp h
        obtain ⟨⟨p2, i2⟩, h2, h⟩ := bind_eq_ok.mp h
        have e := (Reach.fetch h1).trans (ih.idref_loop _ _ _ _ _ h2)
        split_ifs at h <;> cases h
        · exact e.trans (reach_flush _ _ _)
        · exact e
    · -- idref_loop
      intro p s i q j h
      rw [parse_idref_loop] at h
      obtain ⟨t, ht, h⟩ := bind_eq_ok.mp h
      split at h
      · obtain ⟨⟨p1, i1⟩, h1, h⟩ := bind_eq_ok.mp h
        obtain ⟨t1, ht1, h⟩ := bind_eq_ok.mp h
        have e1 : Reach p p1 := by
          refine (reach_flush p s i.info).trans ?_
          split at h1
          · obtain ⟨a1, g1, h1⟩ := bind_eq_ok.mp h1
            obtain ⟨u, hu, h1⟩ := bind_eq_ok.mp h1
            obtain ⟨t2, ht2, h1⟩ := bind_eq_ok.mp h1
            obtain ⟨a2, g2, h1⟩ := bind_eq_ok.mp h1
            cases h1
            have hty : t2.type ≠ BUZZTOK_STRING := by
              obtain ⟨t3, ht3, hty3⟩ := tokmatch_eq_ok.mp hu
              have ht4 := curtok_eq_ok.mp ht2
              rw [ht3] at ht4
              cases ht4
              rw [hty3]
              decide
            exact (Reach.fetch g1).trans <|
              (reach_tok t2 _ (curtok_eq_ok.mp ht2) hty (Reach.refl _)
                (by simp [tok_prefixes])).trans <|
              Reach.fetch g2
          · cases h1; exact Reach.refl _
        split at h
        · obtain ⟨p2, h2, h⟩ := bind_eq_ok.mp h
          obtain ⟨p3, h3, h⟩ := bind_eq_ok.mp h
          obtain ⟨u3, hu3, h⟩ := bind_eq_ok.mp h
          obtain ⟨p4, h4, h⟩ := bind_eq_ok.mp h
          exact e1.trans <| (Reach.fetch h2).trans <| (ih.expression _ _ h3).trans <|
            (Reach.fetch h4).trans <| ih.idref_loop _ _ _ _ _ h
        · split at h
          · obtain ⟨p2, h2, h⟩ := bind_eq_ok.mp h
            obtain ⟨⟨p3, k3⟩, h3, h⟩ := bind_eq_ok.mp h
            obtain ⟨u3, hu3, h⟩ := bind_eq_ok.mp h
            obtain ⟨p4, h4, h⟩ := bind_eq_ok.mp h
            exact e1.trans <| (Reach.fetch h2).trans <| (ih.conditionlist _ _ _ h3).trans <|
              (Reach.fetch h4).trans <| (reach_num _ _ _ (by simp [num_prefixes])).trans <|
              ih.idref_loop _ _ _ _ _ h
          · exact e1.trans (ih.idref_loop _ _ _ _ _ h)
      · cases h; exact Reach.refl _
    · -- lambda
      intro p q h
      rw [parse_lambda] at h
      obtain ⟨u, hu, h⟩ := bind_eq_ok.mp h
      obtain ⟨p1, h1, h⟩ := bind_eq_ok.mp h
      obtain ⟨u1, hu1, h⟩ := bind_eq_ok.mp h
      obtain ⟨p2, h2, h⟩ := bind_eq_ok.mp h
      obtain ⟨p3, h3, h⟩ := bind_eq_ok.mp h
      obtain ⟨u3, hu3, h⟩ := bind_eq_ok.mp h
      obtain ⟨p4, h4, h⟩ := bind_eq_ok.mp h
      obtain ⟨p5, h5, h⟩ := bind_eq_ok.mp h
      cases h
      have hc : p1.chunk = p.chunk := by
        rw [fetchtok_chunk h1]
      rw [hc]
      exact Reach.lam h1 <| (Reach.fetch h2).trans <|
        (ih.idlist _ _ h3).trans <| (Reach.fetch h4).trans <| ih.block _ _ h5


/-! ## Frame of the chunk list -/

theorem chunk_text_addcode (c : chunk_s) (t : cstr) :
    chunk_text (chunk_addcode c t) = chunk_text c ++ t := by
  simp only [chunk_text, chunk_addcode]
  rw [List.take_append_eq_append_take]
  have h1 : (List.take c.csize c.code).length ≤ c.csize := by simp
  have h2 : List.take (c.csize + t.length) (List.take c.csize c.code) = List.take c.csize c.code := by
    apply List.take_of_length_le; omega
  rw [h2]
  have h3 : List.take (c.csize + t.length - (List.take c.csize c.code).length) t = t := by
    apply List.take_of_length_le; omega
  rw [h3]

theorem chunk_wf_addcode (c : chunk_s) (t : cstr) (h : chunk_wf c) :
    chunk_wf (chunk_addcode c t) := by
  unfold chunk_wf at *
  simp only [chunk_addcode, List.length_append, List.length_take]
  omega

theorem chunk_wf_finalize (c : chunk_s) (h : chunk_wf c) : chunk_wf (chunk_finalize c) := by
  unfold chunk_wf at *
  simp only [chunk_finalize, List.length_append, List.length_take]
  omega

theorem chunk_text_finalize (c : chunk_s) (h : chunk_wf c) :
    chunk_text (chunk_finalize c) = chunk_text c := by
  unfold chunk_wf at h
  simp only [chunk_text, chunk_finalize]
  rw [List.take_append_eq_append_take]
  have h1 : (List.take c.csize c.code).length = c.csize := by simp [h]
  simp [h1]

@[simp] theorem length_chunks_update (ch : List chunk_s) (i : Nat) (fn : chunk_s → chunk_s) :
    (chunks_update ch i fn).length = ch.length := by
  unfold chunks_update
  split <;> simp

theorem getElem?_chunks_update_ne (ch : List chunk_s) (i j : Nat) (fn : chunk_s → chunk_s)
    (h : j ≠ i) : (chunks_update ch i fn)[j]? = ch[j]? := by
  unfold chunks_update
  split
  · rw [List.getElem?_set_ne (Ne.symm h)]
  · rfl

theorem getElem?_chunks_update_self (ch : List chunk_s) (i : Nat) (fn : chunk_s → chunk_s)
    (c : chunk_s) (h : ch[i]? = some c) : (chunks_update ch i fn)[i]? = some (fn c) := by
  unfold chunks_update
  rw [h]
  have hi : i < ch.length := by
    by_contra hn
    rw [List.getElem?_eq_none (by omega)] at h
    cases h
  simp [hi]

theorem getElem?_chunks_update_none (ch : List chunk_s) (i : Nat) (fn : chunk_s → chunk_s)
    (h : ch[i]? = none) : chunks_update ch i fn = ch := by
  unfold chunks_update
  rw [h]

theorem Ext.refl (p : buzzparser_s) : Ext p p := by
  refine ⟨rfl, Nat.le_refl _, fun _ _ _ => rfl, fun c hc => ⟨c, [], hc, rfl, rfl, by simp, id⟩, ?_⟩
  intro i c hi hc
  rw [List.getElem?_eq_none hi] at hc
  cases hc

theorem Ext.trans {p q r : buzzparser_s} (h1 : Ext p q) (h2 : Ext q r) : Ext p r := by
  obtain ⟨a1, a2, a3, a4, a5⟩ := h1
  obtain ⟨b1, b2, b3, b4, b5⟩ := h2
  refine ⟨by rw [b1, a1], by omega, ?_, ?_, ?_⟩
  · intro i hi hne
    rw [b3 i (by omega) (by rw [a1]; exact hne), a3 i hi hne]
  · intro c hc
    obtain ⟨c1, t1, e1, l1, s1, x1, w1⟩ := a4 c hc
    rw [← a1] at e1
    obtain ⟨c2, t2, e2, l2, s2, x2, w2⟩ := b4 c1 e1
    rw [a1] at e2
    exact ⟨c2, t1 ++ t2, e2, by rw [l2, l1], by rw [s2, s1], by rw [x2, x1, List.append_assoc],
      fun h => w2 (w1 h)⟩
  · intro i c hi hc
    by_cases hq : q.chunks.length ≤ i
    · exact b5 i c hq hc
    · by_cases hcur : i = q.chunk
      · subst hcur
        cases hq0 : q.chunks[q.chunk]? with
        | none =>
          rw [List.getElem?_eq_none_iff] at hq0
          omega
        | some c0 =>
          obtain ⟨c2, t2, e2, l2, s2, x2, w2⟩ := b4 c0 hq0
          rw [e2] at hc
          cases hc
          exact w2 (a5 _ c0 hi hq0)
      · rw [b3 i (by omega) hcur] at hc
        exact a5 i c hi hc

theorem ext_of_eq {p q : buzzparser_s} (h1 : q.chunk = p.chunk) (h2 : q.chunks = p.chunks) :
    Ext p q := by
  have := Ext.refl p
  unfold Ext at *
  rw [h1, h2]
  exact this

theorem ext_fetch {p q : buzzparser_s} (h : fetchtok p = .ok q) : Ext p q := by
  unfold fetchtok at h
  split at h
  · cases h
  · cases h; exact ext_of_eq rfl rfl

theorem ext_append (p : buzzparser_s) (txt : cstr) : Ext p (chunk_append p txt) := by
  refine ⟨rfl, by simp [chunk_append], ?_, ?_, ?_⟩
  · intro i _ hne
    exact getElem?_chunks_update_ne _ _ _ _ hne
  · intro c hc
    exact ⟨chunk_addcode c txt, txt, getElem?_chunks_update_self _ _ _ _ hc, rfl, rfl,
      chunk_text_addcode c txt, chunk_wf_addcode c txt⟩
  · intro i c hi hc
    simp only [chunk_append] at hc
    rw [List.getElem?_eq_none (by simpa using hi)] at hc
    cases hc

theorem ext_bracket {p q : buzzparser_s} (sym : Option sym_s) (h : Ext (chunk_push p sym) q) :
    Ext p (chunk_pop q p.chunk) := by
  obtain ⟨a1, a2, a3, a4, a5⟩ := h
  simp only [chunk_push, List.length_append, List.length_singleton] at a1 a2 a3 a4 a5
  have hnew : (p.chunks ++ [chunk_new p.labels sym])[p.chunks.length]? =
      some (chunk_new p.labels sym) := by simp
  obtain ⟨c1, t1, e1, l1, s1, x1, w1⟩ := a4 _ hnew
  refine ⟨rfl, by simp [chunk_pop]; omega, ?_, ?_, ?_⟩
  · intro i hi hne
    simp only [chunk_pop, a1]
    rw [getElem?_chunks_update_ne _ _ _ _ (by omega), a3 i (by omega) (by omega)]
    exact List.getElem?_append_left hi
  · intro c hc
    have hlt : p.chunk < p.chunks.length := by
      by_contra hn
      rw [List.getElem?_eq_none (by omega)] at hc
      cases hc
    refine ⟨c, [], ?_, rfl, rfl, by simp, id⟩
    simp only [chunk_pop, a1]
    rw [getElem?_chunks_update_ne _ _ _ _ (by omega), a3 _ (by omega) (by omega),
      List.getElem?_append_left hlt, hc]
  · intro i c hi hc
    simp only [chunk_pop, a1] at hc
    by_cases hi2 : i = p.chunks.length
    · subst hi2
      rw [getElem?_chunks_update_self _ _ _ _ e1] at hc
      cases hc
      apply chunk_wf_finalize
      apply w1
      simp [chunk_wf, chunk_new]
    · rw [getElem?_chunks_update_ne _ _ _ _ hi2] at hc
      exact a5 i c (by omega) hc

theorem reach_ext {p q : buzzparser_s} (h : Reach p q) : Ext p q := by
  induction h with
  | refl p => exact Ext.refl p
  | trans _ _ ih1 ih2 => exact ih1.trans ih2
  | fetch h => exact ext_fetch h
  | next p => exact ext_of_eq rfl rfl
  | bind p t _ =>
    apply ext_of_eq <;> (unfold sym_add; split <;> rfl)
  | cleanup _ ih =>
    refine ih.trans (ext_of_eq ?_ ?_) <;> (unfold block_cleanup; split <;> rfl)
  | plain p txt _ => exact ext_append p txt
  | tokfmt t txt _ _ _ _ ih => exact ih.trans (ext_append _ txt)
  | signed t1 t2 txt _ _ hf _ _ _ => exact (ext_fetch hf).trans (ext_append _ txt)
  | symt _ ih =>
    exact (ext_of_eq (p := _) (q := symt_push _) rfl rfl).trans (ih.trans (ext_of_eq rfl rfl))
  | @func p a q t sym hf _ _ ih =>
    have e1 : Ext p (sym_add a (tokval t)) :=
      (ext_fetch hf).trans (by apply ext_of_eq <;> (unfold sym_add; split <;> rfl))
    have e2 := ext_bracket sym ih
    have hc : (sym_add a (tokval t)).chunk = p.chunk := e1.1
    rw [hc] at e2
    exact e1.trans e2
  | @lam p a q hf _ ih =>
    have e1 : Ext p a := ext_fetch hf
    have e2 := ext_bracket none ih
    have hc : a.chunk = p.chunk := e1.1
    rw [hc] at e2
    exact e1.trans e2
  | @lambda p a q hf _ ih =>
    have e1 : Ext p a := ((ext_append _ _).trans (ext_append _ _)).trans (ext_fetch hf)
    have e2 := ext_bracket none ih
    have hc : a.chunk = p.chunk := e1.1
    rw [hc] at e2
    exact e1.trans e2
  | @if_then p a c b hf _ _ ih1 ih2 =>
    exact ((ext_of_eq (q := labels_bump p) rfl rfl).trans (ext_fetch hf)).trans
      (ih1.trans ((ext_append _ _).trans (ih2.trans (ext_append _ _))))
  | @if_else p a c b e hf _ _ _ ih1 ih2 ih3 =>
    exact ((ext_of_eq (q := labels_bump p) rfl rfl).trans (ext_fetch hf)).trans
      (ih1.trans ((ext_append _ _).trans (ih2.trans
        ((ext_append _ _).trans ((ext_append _ _).trans (ih3.trans (ext_append _ _)))))))


/-! ## Evaluation on explicit states -/

@[simp] theorem chunk_append_mk (l : List buzztok_s) (t : Option buzztok_s) (ss : List buzzdict_t)
    (ch : List chunk_s) (ci lab : Nat) (str : cstr) :
    chunk_append ⟨l, t, ss, ch, ci, lab⟩ str =
      ⟨l, t, ss, chunks_update ch ci (fun c => chunk_addcode c str), ci, lab⟩ := rfl

@[simp] theorem fetchtok_mk (t0 : buzztok_s) (l : List buzztok_s) (t : Option buzztok_s)
    (ss : List buzzdict_t) (ch : List chunk_s) (ci lab : Nat) :
    fetchtok ⟨t0 :: l, t, ss, ch, ci, lab⟩ = .ok ⟨l, some t0, ss, ch, ci, lab⟩ := rfl

@[simp] theorem curtok_mk (t0 : buzztok_s) (l : List buzztok_s) (ss : List buzzdict_t)
    (ch : List chunk_s) (ci lab : Nat) :
    curtok ⟨l, some t0, ss, ch, ci, lab⟩ = .ok t0 := rfl

@[simp] theorem tokmatch_mk (t0 : buzztok_s) (l : List buzztok_s) (ss : List buzzdict_t)
    (ch : List chunk_s) (ci lab : Nat) (ty : buzztok_type_e) :
    tokmatch ⟨l, some t0, ss, ch, ci, lab⟩ ty =
      if t0.type = ty then .ok () else .error (.expected ty t0.type) := rfl

theorem buzzdict_set_new (dt : buzzdict_t) (key : cstr) (data : sym_s)
    (h : buzzdict_get dt key = none) : buzzdict_set dt key data = dt ++ [(key, data)] := by
  have hany : dt.any (fun e => decide (e.1 = key)) = false := by
    simp [buzzdict_get] at h
    simpa using fun a b hab => h a b hab
  simp [buzzdict_set, hany]

theorem text_at_update (ch : List chunk_s) (i : Nat) (txt : cstr) (h : i < ch.length) :
    text_at (chunks_update ch i (fun c => chunk_addcode c txt)) i = text_at ch i ++ txt := by
  have hc : ch[i]? = some ch[i] := List.getElem?_eq_getElem h
  unfold text_at
  rw [getElem?_chunks_update_self _ _ _ _ hc, hc]
  exact chunk_text_addcode _ _

theorem buzzdict_get_set_self (dt : buzzdict_t) (key : cstr) (data : sym_s) :
    buzzdict_get (buzzdict_set dt key data) key = some data := by
  unfold buzzdict_set
  split
  · rename_i h
    unfold buzzdict_get
    induction dt with
    | nil => simp at h
    | cons e r ih =>
      by_cases hk : e.1 = key
      · simp [List.find?, hk]
      · have hr : r.any (fun e => decide (e.1 = key)) = true := by
          simpa [hk] using h
        simp only [List.map_cons, hk, if_false, List.find?, decide_False]
        exact ih hr
  · rename_i h
    unfold buzzdict_get
    rw [List.find?_append]
    have : List.find? (fun e => decide (e.1 = key)) dt = none := by
      rw [List.find?_eq_none]
      intro e he
      simp only [Bool.not_eq_true, List.any_eq_false] at h
      simpa using h e he
    simp [this]

theorem fetchtok_eq_ok {p q : buzzparser_s} (h : fetchtok p = .ok q) :
    ∃ t r, p.lex = t :: r ∧ q = { p with tok := some t, lex := r } := by
  unfold fetchtok at h
  split at h
  · cases h
  · rename_i t r hl
    cases h
    exact ⟨t, r, hl, rfl⟩

theorem param_chunks (p : buzzparser_s) (name : cstr) :
    (match sym_lookup name p.symstack with
      | none => sym_add p name
      | some sym => if sym.global then sym_add p name else p).chunks = p.chunks ∧
    (match sym_lookup name p.symstack with
      | none => sym_add p name
      | some sym => if sym.global then sym_add p name else p).chunk = p.chunk := by
  have h : (sym_add p name).chunks = p.chunks ∧ (sym_add p name).chunk = p.chunk := by
    unfold sym_add; split <;> exact ⟨rfl, rfl⟩
  split
  · exact h
  · split
    · exact h
    · exact ⟨rfl, rfl⟩

theorem idlist_loop_chunks : ∀ n p q, parse_idlist_loop n p = .ok q →
    q.chunks = p.chunks ∧ q.chunk = p.chunk := by
  intro n
  induction n with
  | zero => intro p q h; simp [parse_idlist_loop] at h
  | succ n ih =>
    intro p q h
    rw [parse_idlist_loop] at h
    obtain ⟨t, ht, h⟩ := bind_eq_ok.mp h
    split at h
    · obtain ⟨p1, h1, h⟩ := bind_eq_ok.mp h
      obtain ⟨u, hu, h⟩ := bind_eq_ok.mp h
      obtain ⟨t1, ht1, h⟩ := bind_eq_ok.mp h
      obtain ⟨p2, h2, h⟩ := bind_eq_ok.mp h
      obtain ⟨a, r, _, rfl⟩ := fetchtok_eq_ok h1
      obtain ⟨a2, r2, _, rfl⟩ := fetchtok_eq_ok h2
      obtain ⟨e1, e2⟩ := ih _ _ h
      obtain ⟨f1, f2⟩ := param_chunks { p with tok := some a, lex := r } (tokval t1)
      exact ⟨by rw [e1]; exact f1, by rw [e2]; exact f2⟩
    · cases h; exact ⟨rfl, rfl⟩

theorem idlist_chunks (n : Nat) (p q : buzzparser_s) (h : parse_idlist n p = .ok q) :
    q.chunks = p.chunks ∧ q.chunk = p.chunk := by
  cases n with
  | zero => simp [parse_idlist] at h
  | succ n =>
    rw [parse_idlist] at h
    obtain ⟨t, ht, h⟩ := bind_eq_ok.mp h
    split at h
    · cases h; exact ⟨rfl, rfl⟩
    · obtain ⟨u, hu, h⟩ := bind_eq_ok.mp h
      obtain ⟨p1, h1, h⟩ := bind_eq_ok.mp h
      obtain ⟨a, r, _, rfl⟩ := fetchtok_eq_ok h1
      obtain ⟨e1, e2⟩ := idlist_loop_chunks _ _ _ h
      obtain ⟨f1, f2⟩ := param_chunks p (tokval t)
      exact ⟨by rw [e1]; exact f1, by rw [e2]; exact f2⟩

@[simp] theorem nexttok_mk (l : List buzztok_s) (t : Option buzztok_s)
    (ss : List buzzdict_t) (ch : List chunk_s) (ci lab : Nat) :
    nexttok ⟨l, t, ss, ch, ci, lab⟩ = ⟨l.tail, l.head?, ss, ch, ci, lab⟩ := rfl

theorem emitted_spec {p q : buzzparser_s} (h : Ext p q) (hv : p.chunk < p.chunks.length) :
    text_at q.chunks p.chunk = text_at p.chunks p.chunk ++ emitted p q := by
  obtain ⟨_, _, _, h4, _⟩ := h
  have hc : p.chunks[p.chunk]? = some p.chunks[p.chunk] := List.getElem?_eq_getElem hv
  obtain ⟨c', t, e1, _, _, e4, _⟩ := h4 _ hc
  simp [emitted, text_at, e1, hc, e4]

theorem text_at_append (p : buzzparser_s) (txt : cstr) (hv : p.chunk < p.chunks.length) :
    text_at (chunk_append p txt).chunks p.chunk = text_at p.chunks p.chunk ++ txt := by
  simp only [chunk_append]
  exact text_at_update _ _ _ hv

theorem c5_field (k : Nat) (t key : cstr) (vd va : Option cstr) (te : buzztok_s)
    (le : List buzztok_s) (ss : List buzzdict_t) (ch : List chunk_s) (ci lab : Nat) (sy : sym_s)
    (s3 : buzzparser_s)
    (hsym : sym_lookup t ss = some sy) (hci : ci < ch.length)
    (he : parse_expression (k + 3)
      (chunk_append (chunk_append ⟨le, some te, ss, ch, ci, lab⟩ (load_text sy))
        ("\tpushs ".toList ++ key ++ "\n".toList)) = .ok s3) :
    parse_command (k + 4)
      ⟨⟨BUZZTOK_DOT, vd⟩ :: ⟨BUZZTOK_ID, some key⟩ :: ⟨BUZZTOK_ASSIGN, va⟩ :: te :: le,
        some ⟨BUZZTOK_ID, some t⟩, ss, ch, ci, lab⟩ = .ok (chunk_append s3 "\ttset\n".toList) ∧
    text_at (chunk_append s3 "\ttset\n".toList).chunks ci =
      text_at ch ci ++ load_text sy ++ ("\tpushs ".toList ++ key ++ "\n".toList) ++
        emitted (chunk_append (chunk_append ⟨le, some te, ss, ch, ci, lab⟩ (load_text sy))
          ("\tpushs ".toList ++ key ++ "\n".toList)) s3 ++ "\ttset\n".toList := by
  have hext := reach_ext ((rules_reach _).expression _ _ he)
  have hpos : ¬ ((sy.pos : Int) < 0) := by omega
  constructor
  · rw [parse_command]; simp
    rw [parse_idref]; simp [tokval, hsym]
    rw [parse_idref_loop]; simp [idref_flush, tokval]
    rw [parse_idref_loop]; simp
    simp at he
    simp [he, TYPE_TABLE, TYPE_CLOSURE]
  · have h1 := hext.1
    have hlen : ci < s3.chunks.length :=
      Nat.lt_of_lt_of_le (by simp [chunk_append, hci]) hext.2.1
    have e := emitted_spec hext (by simp [chunk_append, hci])
    simp only [chunk_append] at h1 e ⊢
    rw [h1, text_at_update _ _ _ hlen, e, text_at_update _ _ _ (by simpa using hci),
      text_at_update _ _ _ hci]

theorem c5_index (k : Nat) (t : cstr) (vo vc va : Option cstr) (ti te : buzztok_s)
    (li le : List buzztok_s) (ss : List buzzdict_t) (ch : List chunk_s) (ci lab : Nat) (sy : sym_s)
    (s2 s4 : buzzparser_s)
    (hsym : sym_lookup t ss = some sy) (hci : ci < ch.length)
    (hi : parse_expression (k + 1)
      (chunk_append ⟨li, some ti, ss, ch, ci, lab⟩ (load_text sy)) = .ok s2)
    (htok : s2.tok = some ⟨BUZZTOK_IDXCLOSE, vc⟩)
    (hlex : s2.lex = ⟨BUZZTOK_ASSIGN, va⟩ :: te :: le)
    (he : parse_expression (k + 3) { s2 with tok := some te, lex := le } = .ok s4) :
    parse_command (k + 4)
      ⟨⟨BUZZTOK_IDXOPEN, vo⟩ :: ti :: li, some ⟨BUZZTOK_ID, some t⟩, ss, ch, ci, lab⟩ =
        .ok (chunk_append s4 "\ttset\n".toList) ∧
    text_at (chunk_append s4 "\ttset\n".toList).chunks ci =
      text_at ch ci ++ load_text sy ++
        emitted (chunk_append ⟨li, some ti, ss, ch, ci, lab⟩ (load_text sy)) s2 ++
        emitted { s2 with tok := some te, lex := le } s4 ++ "\ttset\n".toList := by
  have hx1 := reach_ext ((rules_reach _).expression _ _ hi)
  have hx2 := reach_ext ((rules_reach _).expression _ _ he)
  have hpos : ¬ ((sy.pos : Int) < 0) := by omega
  constructor
  · rw [parse_command]; simp
    rw [parse_idref]; simp [tokval, hsym]
    rw [parse_idref_loop]; simp [idref_flush]
    simp at hi
    simp [hi, tokmatch, htok, fetchtok, hlex]
    rw [parse_idref_loop]; simp
    simp [he, TYPE_TABLE, TYPE_CLOSURE]
  · have h1 := hx1.1
    have h2 := hx2.1
    have hl1 : ci < s2.chunks.length :=
      Nat.lt_of_lt_of_le (by simp [chunk_append, hci]) hx1.2.1
    have hl2 : ci < s4.chunks.length := Nat.lt_of_lt_of_le hl1 hx2.2.1
    have e1 := emitted_spec hx1 (by simp [chunk_append, hci])
    simp only [chunk_append] at h1 e1
    have e2 := emitted_spec hx2 (by simpa [h1] using hl1)
    simp only [h1] at h2 e2
    simp only [chunk_append]
    rw [h2, text_at_update _ _ _ hl2, e2, e1, text_at_update _ _ _ hci]
    simp [emitted, h1]

theorem emitted_trans {p q r : buzzparser_s} (h1 : Ext p q) (h2 : Ext q r)
    (hv : p.chunk < p.chunks.length) : emitted p r = emitted p q ++ emitted q r := by
  have hq : q.chunk = p.chunk := h1.1
  have hvq : q.chunk < q.chunks.length := by rw [hq]; exact Nat.lt_of_lt_of_le hv h1.2.1
  have e1 := emitted_spec h1 hv
  have e2 := emitted_spec h2 hvq
  have e3 := emitted_spec (h1.trans h2) hv
  rw [hq] at e2
  rw [e2, e1, List.append_assoc] at e3
  exact (List.append_cancel_left e3).symm

theorem emitted_congr {p p' : buzzparser_s} (q : buzzparser_s) (h1 : p'.chunks = p.chunks)
    (h2 : p'.chunk = p.chunk) : emitted p' q = emitted p q := by
  unfold emitted
  rw [h1, h2]

theorem ext_congr {p p' q : buzzparser_s} (h1 : p'.chunks = p.chunks)
    (h2 : p'.chunk = p.chunk) (h : Ext p' q) : Ext p q := by
  unfold Ext at *
  rw [h1, h2] at h
  exact h

theorem fetchtok_same {p q : buzzparser_s} (h : fetchtok p = .ok q) :
    q.chunks = p.chunks ∧ q.chunk = p.chunk := by
  obtain ⟨t, r, _, rfl⟩ := fetchtok_eq_ok h
  exact ⟨rfl, rfl⟩

theorem ext_valid {p q : buzzparser_s} (h : Ext p q) (hv : p.chunk < p.chunks.length) :
    q.chunk < q.chunks.length := by
  rw [h.1]; exact Nat.lt_of_lt_of_le hv h.2.1

theorem bracket_frame {p q : buzzparser_s} (sym : Option sym_s)
    (h : Ext (chunk_push p sym) q) :
    (∀ i, i < p.chunks.length → (chunk_pop q p.chunk).chunks[i]? = p.chunks[i]?) ∧
    q.chunk = p.chunks.length ∧
    ∃ c', q.chunks[p.chunks.length]? = some c' ∧
      (chunk_pop q p.chunk).chunks[p.chunks.length]? = some (chunk_finalize c') ∧
      c'.label = p.labels ∧ c'.sym = sym ∧ chunk_wf c' ∧
      chunk_text (chunk_finalize c') = text_at q.chunks p.chunks.length := by
  obtain ⟨a1, a2, a3, a4, a5⟩ := h
  simp only [chunk_push, List.length_append, List.length_singleton] at a1 a2 a3 a4 a5
  have hnew : (p.chunks ++ [chunk_new p.labels sym])[p.chunks.length]? =
      some (chunk_new p.labels sym) := by simp
  obtain ⟨c1, t1, e1, l1, s1, x1, w1⟩ := a4 _ hnew
  have hwf : chunk_wf c1 := w1 (by simp [chunk_wf, chunk_new])
  refine ⟨?_, a1, c1, e1, ?_, by simp [l1, chunk_new], by simp [s1, chunk_new], hwf, ?_⟩
  · intro i hi
    simp only [chunk_pop, a1]
    rw [getElem?_chunks_update_ne _ _ _ _ (by omega), a3 i (by omega) (by omega)]
    exact List.getElem?_append_left hi
  · simp only [chunk_pop, a1]
    exact getElem?_chunks_update_self _ _ _ _ e1
  · rw [chunk_text_finalize _ hwf]
    simp [text_at, e1]

theorem chunk_print_eq (mem : chunk_s → cstr) (f : cstr) (c : chunk_s) :
    chunk_print mem f c = f ++ chunk_print mem [] c := by
  simp [chunk_print]

theorem foreach_print_eq (mem : chunk_s → cstr) (chs : List chunk_s) (f : cstr) :
    buzzdarray_foreach chs (chunk_print mem) f =
      f ++ buzzdarray_foreach chs (chunk_print mem) [] := by
  unfold buzzdarray_foreach
  induction chs generalizing f with
  | nil => simp
  | cons c r ih =>
    simp only [List.foldl_cons]
    rw [ih (chunk_print mem f c), ih (chunk_print mem [] c), chunk_print_eq mem f c,
      List.append_assoc]

theorem foreach_print_append (mem : chunk_s → cstr) (a b : List chunk_s) :
    buzzdarray_foreach (a ++ b) (chunk_print mem) [] =
      buzzdarray_foreach a (chunk_print mem) [] ++ buzzdarray_foreach b (chunk_print mem) [] := by
  have h : buzzdarray_foreach (a ++ b) (chunk_print mem) [] =
      buzzdarray_foreach b (chunk_print mem) (buzzdarray_foreach a (chunk_print mem) []) := by
    simp [buzzdarray_foreach, List.foldl_append]
  rw [h, foreach_print_eq]

theorem foreach_print_cons (mem : chunk_s → cstr) (c : chunk_s) (r : List chunk_s) :
    buzzdarray_foreach (c :: r) (chunk_print mem) [] =
      chunk_print mem [] c ++ buzzdarray_foreach r (chunk_print mem) [] := by
  have := foreach_print_append mem [c] r
  simpa [buzzdarray_foreach] using this

theorem list_split_at {α : Type} (l : List α) (i : Nat) (x : α) (h : l[i]? = some x) :
    l = l.take i ++ x :: l.drop (i + 1) := by
  induction l generalizing i with
  | nil => simp at h
  | cons a r ih =>
    cases i with
    | zero => simp at h; simp [h]
    | succ i =>
      simp at h
      simp only [List.take_succ_cons, List.drop_succ_cons, List.cons_append]
      rw [← ih i h]

theorem print_order (mem : chunk_s → cstr) (chs : List chunk_s) (i j : Nat) (ci cj : chunk_s)
    (hij : i < j) (hi : chs[i]? = some ci) (hj : chs[j]? = some cj) :
    ∃ A B C, buzzdarray_foreach chs (chunk_print mem) [] =
      A ++ chunk_print mem [] ci ++ B ++ chunk_print mem [] cj ++ C := by
  have e1 := list_split_at chs i ci hi
  have hj' : (chs.drop (i + 1))[j - (i + 1)]? = some cj := by
    rw [List.getElem?_drop]
    have : i + 1 + (j - (i + 1)) = j := by omega
    rw [this]; exact hj
  have e2 := list_split_at _ _ cj hj'
  refine ⟨buzzdarray_foreach (chs.take i) (chunk_print mem) [],
    buzzdarray_foreach ((chs.drop (i + 1)).take (j - (i + 1))) (chunk_print mem) [],
    buzzdarray_foreach ((chs.drop (i + 1)).drop (j - (i + 1) + 1)) (chunk_print mem) [], ?_⟩
  conv_lhs => rw [e1]
  rw [foreach_print_append, foreach_print_cons]
  conv_lhs => rw [e2]
  rw [foreach_print_append, foreach_print_cons]
  simp only [List.append_assoc]

theorem c8_run : parse_operand 5 c8_state = .ok c8_final := by
  simp only [c8_state, c8_final]
  repeat
    (first
      | rw [parse_statlist] | rw [parse_statlist_loop] | rw [parse_stat] | rw [parse_block]
      | rw [parse_fun] | rw [parse_if] | rw [parse_if_newlines] | rw [parse_for]
      | rw [parse_while] | rw [parse_conditionlist] | rw [parse_conditionlist_loop]
      | rw [parse_condition] | rw [parse_condition_loop] | rw [parse_comparison]
      | rw [parse_expression] | rw [parse_expression_loop] | rw [parse_product]
      | rw [parse_product_loop] | rw [parse_modulo] | rw [parse_modulo_loop] | rw [parse_power]
      | rw [parse_powerrest] | rw [parse_operand] | rw [parse_command] | rw [parse_idlist]
      | rw [parse_idlist_loop] | rw [parse_idref] | rw [parse_idref_loop] | rw [parse_lambda])
    try simp [tokval, tokop, sym_add, sym_lookup, buzzdict_get, buzzdict_set, buzzdict_size,
      cur_syms, symt_push, symt_pop, chunk_push, chunk_pop, idref_flush, load_text,
      block_cleanup, buzzparser_symtodel, buzzdict_remove, TYPE_BASIC, TYPE_CLOSURE, TYPE_TABLE]
  all_goals rfl

theorem parse_script_ok {fuel : Nat} {par q : buzzparser_s} (h : parse_script fuel par = .ok q) :
    ∃ p, parse_statlist fuel (chunk_push (symt_push (nexttok par)) none) = .ok p ∧
      q = chunk_append (chunk_append p "\n@__exitpoint\n".toList) "\tdone\n".toList := by
  unfold parse_script at h
  simp only at h
  split at h
  · cases h
  · obtain ⟨p, h1, h⟩ := bind_eq_ok.mp h
    cases h
    exact ⟨p, h1, rfl⟩

theorem statlist_ext {fuel : Nat} {p q : buzzparser_s} (h : parse_statlist fuel p = .ok q) :
    Ext p q := reach_ext ((rules_reach fuel).statlist _ _ h)

theorem chunk_register_nil (heap : chunk_s → Bool × Int) (f : cstr) (c : chunk_s)
    (h : c.sym = none) : chunk_register heap f c = f := by
  simp [chunk_register, h]

theorem c9_script : parse_script 8 (buzzparser_new c9_toks) = .ok c9_final := by
  simp only [parse_script, buzzparser_new, c9_toks, c9_final, nexttok, List.head?, List.tail,
    symt_push, chunk_push, chunk_append]
  repeat
    (first
      | rw [parse_statlist] | rw [parse_statlist_loop] | rw [parse_stat] | rw [parse_block]
      | rw [parse_fun] | rw [parse_if] | rw [parse_if_newlines] | rw [parse_for]
      | rw [parse_while] | rw [parse_conditionlist] | rw [parse_conditionlist_loop]
      | rw [parse_condition] | rw [parse_condition_loop] | rw [parse_comparison]
      | rw [parse_expression] | rw [parse_expression_loop] | rw [parse_product]
      | rw [parse_product_loop] | rw [parse_modulo] | rw [parse_modulo_loop] | rw [parse_power]
      | rw [parse_powerrest] | rw [parse_operand] | rw [parse_command] | rw [parse_idlist]
      | rw [parse_idlist_loop] | rw [parse_idref] | rw [parse_idref_loop] | rw [parse_lambda])
    try simp [tokval, tokop, sym_add, sym_lookup, buzzdict_get, buzzdict_set, buzzdict_size,
      cur_syms, symt_push, symt_pop, chunk_push, chunk_pop, idref_flush, load_text,
      block_cleanup, buzzparser_symtodel, buzzdict_remove, TYPE_BASIC, TYPE_CLOSURE, TYPE_TABLE]
  all_goals rfl

theorem stray_final (c : chunk_s) (mem : cstr) (h : c.code.drop c.csize = [Char.ofNat 0]) :
    stray_bytes c mem = [] := by
  unfold stray_bytes
  rw [h]
  simp

theorem stray_open (c : chunk_s) (mem : cstr) (h : c.code.drop c.csize = []) :
    stray_bytes c mem = mem.takeWhile (fun b => b ≠ Char.ofNat 0) := by
  unfold stray_bytes
  rw [h]
  rfl

theorem finalize_tail (c : chunk_s) (h : chunk_wf c) :
    (chunk_finalize c).code.drop (chunk_finalize c).csize = [Char.ofNat 0] := by
  unfold chunk_wf at h
  show (c.code.take c.csize ++ [Char.ofNat 0]).drop c.csize = [Char.ofNat 0]
  rw [List.drop_left' (by simp [h])]

theorem addcode_tail (c : chunk_s) (txt : cstr) :
    (chunk_addcode c txt).code.drop (chunk_addcode c txt).csize = [] := by
  show (c.code.take c.csize ++ txt).drop (c.csize + txt.length) = []
  apply List.drop_eq_nil_of_le
  simp only [List.length_append, List.length_take]
  omega

/-- What `%s` prints for a chunk, read from the first byte of the buffer up to
the first NUL, is the code of the chunk followed by `stray_bytes` when the code
holds no NUL. -/
theorem c_string_eq (c : chunk_s) (mem : cstr) (hz : Char.ofNat 0 ∉ chunk_text c) :
    (c.code ++ mem).takeWhile (fun b => b ≠ Char.ofNat 0) =
      chunk_text c ++ stray_bytes c mem := by
  unfold stray_bytes chunk_text at *
  conv_lhs => rw [← List.take_append_drop c.csize c.code, List.append_assoc]
  rw [List.takeWhile_append_of_pos]
  intro b hb
  simp only [ne_eq, decide_not, Bool.not_eq_true', decide_eq_false_iff_not]
  intro e
  exact hz (e ▸ hb)

theorem register_owned (heap : chunk_s → Bool × Int) (f : cstr) (c : chunk_s) (s : sym_s)
    (h : c.sym = some s) :
    chunk_register heap f c = f ++ ("\tpushi ".toList ++ LABELREF ++ fmt_u c.label ++
      "\n".toList ++ "\tpushcn\n".toList ++ store_line (heap c)) := by
  simp only [chunk_register, h, store_line]
  by_cases hh : (heap c).1 = true <;> simp [hh]

theorem print_open (mem : chunk_s → cstr) (f : cstr) (c : chunk_s)
    (h : c.code.drop c.csize = []) :
    chunk_print mem f c = f ++ ("\n".toList ++ LABELREF ++ fmt_u c.label ++ "\n".toList ++
      chunk_text c ++ (mem c).takeWhile (fun b => b ≠ Char.ofNat 0)) := by
  unfold chunk_print
  rw [stray_open c _ h]
  simp only [List.append_assoc]

theorem print_final (mem : chunk_s → cstr) (f : cstr) (c : chunk_s)
    (h : c.code.drop c.csize = [Char.ofNat 0]) :
    chunk_print mem f c = f ++ ("\n".toList ++ LABELREF ++ fmt_u c.label ++ "\n".toList ++
      chunk_text c) := by
  unfold chunk_print
  rw [stray_final c _ h]
  simp only [List.append_assoc, List.append_nil]

theorem c10_script : parse_script 8 (buzzparser_new c10_toks) = .error .eof := by
  simp only [parse_script, buzzparser_new, c10_toks, nexttok, List.head?, List.tail,
    symt_push, chunk_push, chunk_append]
  repeat
    (first
      | rw [parse_statlist] | rw [parse_statlist_loop] | rw [parse_stat] | rw [parse_block]
      | rw [parse_fun] | rw [parse_if] | rw [parse_if_newlines] | rw [parse_for]
      | rw [parse_while] | rw [parse_conditionlist] | rw [parse_conditionlist_loop]
      | rw [parse_condition] | rw [parse_condition_loop] | rw [parse_comparison]
      | rw [parse_expression] | rw [parse_expression_loop] | rw [parse_product]
      | rw [parse_product_loop] | rw [parse_modulo] | rw [parse_modulo_loop] | rw [parse_power]
      | rw [parse_powerrest] | rw [parse_operand] | rw [parse_command] | rw [parse_idlist]
      | rw [parse_idlist_loop] | rw [parse_idref] | rw [parse_idref_loop] | rw [parse_lambda])
    try simp [tokval, tokop, sym_add, sym_lookup, buzzdict_get, buzzdict_set, buzzdict_size,
      cur_syms, symt_push, symt_pop, chunk_push, chunk_pop, idref_flush, load_text,
      block_cleanup, buzzparser_symtodel, buzzdict_remove, TYPE_BASIC, TYPE_CLOSURE, TYPE_TABLE]
  all_goals rfl

/-! ## Labels are fresh -/

theorem digitChar_mem (k : Nat) (h : k < 10) :
    Nat.digitChar k ∈ digit_chars ∧ (Nat.digitChar k).toNat - 48 = k := by
  interval_cases k <;> exact ⟨by decide, by decide⟩

theorem toDigitsCore_spec : ∀ (fuel n : Nat) (ds : cstr), n < fuel →
    ∃ pre, Nat.toDigitsCore 10 fuel n ds = pre ++ ds ∧ (∀ c ∈ pre, c ∈ digit_chars) ∧
      dec_val pre = n := by
  intro fuel
  induction fuel with
  | zero => intro n ds h; omega
  | succ f ih =>
    intro n ds h
    obtain ⟨m1, m2⟩ := digitChar_mem (n % 10) (Nat.mod_lt _ (by decide))
    simp only [Nat.toDigitsCore]
    split
    · rename_i h0
      refine ⟨[Nat.digitChar (n % 10)], rfl, ?_, ?_⟩
      · intro c hc
        simp only [List.mem_singleton] at hc
        rw [hc]; exact m1
      · simp only [dec_val, List.foldl_cons, List.foldl_nil, m2]
        omega
    · rename_i h0
      obtain ⟨pre, e1, e2, e3⟩ := ih (n / 10) (Nat.digitChar (n % 10) :: ds) (by omega)
      refine ⟨pre ++ [Nat.digitChar (n % 10)], by rw [e1]; simp, ?_, ?_⟩
      · intro c hc
        rcases List.mem_append.mp hc with hc | hc
        · exact e2 c hc
        · simp only [List.mem_singleton] at hc
          rw [hc]; exact m1
      · simp only [dec_val, List.foldl_append, List.foldl_cons, List.foldl_nil, m2] at e3 ⊢
        rw [e3]; omega

theorem fmt_u_digits (n : Nat) : ∀ c ∈ fmt_u n, c ∈ digit_chars := by
  obtain ⟨pre, e1, e2, _⟩ := toDigitsCore_spec (n + 1) n [] (by omega)
  intro c hc
  simp only [fmt_u, Nat.toDigits, e1, List.append_nil] at hc
  exact e2 c hc

theorem dec_val_fmt_u (n : Nat) : dec_val (fmt_u n) = n := by
  obtain ⟨pre, e1, _, e3⟩ := toDigitsCore_spec (n + 1) n [] (by omega)
  simp only [fmt_u, Nat.toDigits, e1, List.append_nil]
  exact e3

theorem fmt_u_no_at (n : Nat) : '@' ∉ fmt_u n := by
  intro h
  have := fmt_u_digits n _ h
  revert this; decide

theorem fmt_u_no_nl (n : Nat) : '\n' ∉ fmt_u n := by
  intro h
  have := fmt_u_digits n _ h
  revert this; decide

theorem unlines_append (a b : List cstr) : unlines (a ++ b) = unlines a ++ unlines b := by
  induction a with
  | nil => rfl
  | cons l ls ih => simp [unlines, ih]

theorem split_lines_line (l rest : cstr) (h : '\n' ∉ l) :
    split_lines (l ++ '\n' :: rest) = l :: split_lines rest := by
  induction l with
  | nil => simp [split_lines]
  | cons c l ih =>
    have hc : c ≠ '\n' := by
      intro e; apply h; simp [e]
    have hl : '\n' ∉ l := by
      intro e; apply h; simp [e]
    rw [List.cons_append, split_lines, if_neg hc, ih hl]

theorem split_lines_unlines (ls : List cstr) (h : ∀ l ∈ ls, '\n' ∉ l) :
    split_lines (unlines ls) = ls := by
  induction ls with
  | nil => rfl
  | cons l ls ih =>
    simp only [unlines]
    rw [split_lines_line l _ (h l (by simp)), ih (fun l hl => h l (by simp [hl]))]

theorem LinesOK.nil (lo : Nat) : LinesOK lo [] := ⟨[], rfl, by simp⟩

theorem LinesOK.cat {lo : Nat} {a b : cstr} (ha : LinesOK lo a) (hb : LinesOK lo b) :
    LinesOK lo (a ++ b) := by
  obtain ⟨la, ea, ha⟩ := ha
  obtain ⟨lb, eb, hb⟩ := hb
  refine ⟨la ++ lb, by rw [unlines_append, ea, eb], ?_⟩
  intro l hl
  rcases List.mem_append.mp hl with h | h
  · exact ha l h
  · exact hb l h

theorem LineOK.weaken {lo lo' : Nat} {l : cstr} (h : lo' ≤ lo) (hl : LineOK lo l) :
    LineOK lo' l := by
  refine ⟨hl.1, fun hat => ?_⟩
  obtain ⟨pre, m, e, hm⟩ := hl.2 hat
  exact ⟨pre, m, e, by omega⟩

theorem LinesOK.raise {lo lo' : Nat} {a : cstr} (h : lo' ≤ lo) (ha : LinesOK lo a) :
    LinesOK lo' a := by
  obtain ⟨la, ea, ha⟩ := ha
  exact ⟨la, ea, fun l hl => (ha l hl).weaken h⟩

theorem LinesOK.line {lo : Nat} {l : cstr} (h : LineOK lo l) :
    LinesOK lo (l ++ "\n".toList) :=
  ⟨[l], by simp [unlines], by simpa using h⟩

theorem lineOK_plain (lo : Nat) (l : cstr) (h1 : '\n' ∉ l) (h2 : '@' ∉ l) : LineOK lo l :=
  ⟨h1, fun h => absurd h h2⟩

theorem lineOK_label (lo m : Nat) (pre : cstr) (h1 : '\n' ∉ pre) (h : lo ≤ m) :
    LineOK lo (pre ++ LABELREF ++ fmt_u m) := by
  refine ⟨?_, fun _ => ⟨pre, m, rfl, h⟩⟩
  intro hn
  rcases List.mem_append.mp hn with hn | hn
  · rcases List.mem_append.mp hn with hn | hn
    · exact h1 hn
    · revert hn; decide
  · exact fmt_u_no_nl m hn

theorem fixed_lines : ∀ txt ∈ fixed_instrs,
    txt = txt.dropLast ++ "\n".toList ∧ '\n' ∉ txt.dropLast ∧ '@' ∉ txt.dropLast := by
  decide

theorem num_pre_plain : ∀ pre ∈ num_prefixes, '\n' ∉ pre ∧ '@' ∉ pre := by
  decide

theorem tok_pre_plain : ∀ pre ∈ tok_prefixes, '\n' ∉ pre ∧ '@' ∉ pre := by
  decide

theorem cmp_op_plain (v : cstr) : '\n' ∉ cmp_op v ∧ '@' ∉ cmp_op v := by
  unfold cmp_op
  split_ifs <;> decide

theorem plain_lines (lo : Nat) (txt : cstr) (h : Plain txt) : LinesOK lo txt := by
  rcases h with h | ⟨v, h⟩ | ⟨pre, hpre, n, h⟩
  · obtain ⟨e, h1, h2⟩ := fixed_lines txt h
    rw [e]
    exact LinesOK.line (lineOK_plain lo _ h1 h2)
  · rw [h]
    apply LinesOK.line
    apply lineOK_plain
    · intro hn
      rcases List.mem_append.mp hn with hn | hn
      · revert hn; decide
      · exact (cmp_op_plain v).1 hn
    · intro hn
      rcases List.mem_append.mp hn with hn | hn
      · revert hn; decide
      · exact (cmp_op_plain v).2 hn
  · rw [h]
    apply LinesOK.line
    apply lineOK_plain
    · intro hn
      rcases List.mem_append.mp hn with hn | hn
      · exact (num_pre_plain pre hpre).1 hn
      · exact fmt_u_no_nl n hn
    · intro hn
      rcases List.mem_append.mp hn with hn | hn
      · exact (num_pre_plain pre hpre).2 hn
      · exact fmt_u_no_at n hn

theorem tokfmt_lines (lo : Nat) (sg : cstr) (t : buzztok_s) (txt : cstr) (h : TokFmt sg t txt)
    (ht : tokval_ok t) (hs1 : '\n' ∉ sg) (hs2 : '@' ∉ sg) : LinesOK lo txt := by
  obtain ⟨pre, hpre, e⟩ := h
  rw [e]
  apply LinesOK.line
  apply lineOK_plain
  · intro hn
    rcases List.mem_append.mp hn with hn | hn
    · rcases List.mem_append.mp hn with hn | hn
      · exact (tok_pre_plain pre hpre).1 hn
      · exact hs1 hn
    · exact ht.1 hn
  · intro hn
    rcases List.mem_append.mp hn with hn | hn
    · rcases List.mem_append.mp hn with hn | hn
      · exact (tok_pre_plain pre hpre).2 hn
      · exact hs2 hn
    · exact ht.2 hn

theorem tokop_plain (t : buzztok_s) (h : tokval_ok t) :
    '\n' ∉ (tokop t).toList ∧ '@' ∉ (tokop t).toList := by
  unfold tokop
  cases hv : tokval t with
  | nil => simp
  | cons c r =>
    unfold tokval_ok at h
    rw [hv] at h
    simp only [List.head?_cons, Option.toList_some, List.mem_singleton]
    simp only [List.mem_cons, not_or] at h
    exact ⟨h.1.1, h.2.1⟩

theorem emitted_of_text {p q : buzzparser_s}
    (h : text_at q.chunks p.chunk = text_at p.chunks p.chunk) : emitted p q = [] := by
  simp [emitted, h]

theorem emitted_of_chunks {p q r : buzzparser_s} (h : r.chunks = q.chunks) :
    emitted p r = emitted p q := by
  simp [emitted, h]

theorem emitted_append_right {p q : buzzparser_s} (txt : cstr) (h : Ext p q)
    (hv : p.chunk < p.chunks.length) : emitted p (chunk_append q txt) = emitted p q ++ txt := by
  have hv2 := ext_valid h hv
  rw [emitted_trans h (ext_append q txt) hv]
  congr 1
  have := text_at_append q txt hv2
  simp [emitted, this]

theorem emitted_bracket {p a q : buzzparser_s} (sym : Option sym_s) (oldc : Nat)
    (h : Ext (chunk_push a sym) q) (h1 : a.chunks = p.chunks)
    (hv : p.chunk < p.chunks.length) : emitted p (chunk_pop q oldc) = [] := by
  apply emitted_of_text
  have := (bracket_frame sym h).1 p.chunk (by rw [h1]; exact hv)
  rw [h1] at this
  unfold text_at
  rw [show (chunk_pop q oldc).chunks = (chunk_pop q a.chunk).chunks from rfl, this]

theorem toks_fetch {p q : buzzparser_s} (h : fetchtok p = .ok q) :
    (∀ t ∈ toks q, t ∈ toks p) ∧ q.labels = p.labels ∧ q.lex.length + 1 = p.lex.length ∧
      q.chunks = p.chunks ∧ q.chunk = p.chunk := by
  obtain ⟨t, r, e1, e2⟩ := fetchtok_eq_ok h
  subst e2
  refine ⟨?_, rfl, by simp [e1], rfl, rfl⟩
  intro x hx
  simp only [toks, Option.toList_some, List.singleton_append] at hx
  simp only [toks, e1, List.mem_append]
  exact Or.inr hx

theorem toks_cur {p : buzzparser_s} {t : buzztok_s} (h : p.tok = some t) : t ∈ toks p := by
  simp [toks, h]

theorem sym_add_same (p : buzzparser_s) (v : cstr) :
    (sym_add p v).lex = p.lex ∧ (sym_add p v).tok = p.tok ∧ (sym_add p v).labels = p.labels ∧
      (sym_add p v).chunks = p.chunks ∧ (sym_add p v).chunk = p.chunk := by
  unfold sym_add
  split <;> exact ⟨rfl, rfl, rfl, rfl, rfl⟩

theorem block_cleanup_same (p : buzzparser_s) (k : Nat) :
    (block_cleanup p k).lex = p.lex ∧ (block_cleanup p k).tok = p.tok ∧
      (block_cleanup p k).labels = p.labels ∧
      (block_cleanup p k).chunks = p.chunks ∧ (block_cleanup p k).chunk = p.chunk := by
  unfold block_cleanup
  split <;> exact ⟨rfl, rfl, rfl, rfl, rfl⟩

theorem lab_silent {p q : buzzparser_s} (h1 : q.chunks = p.chunks)
    (h2 : q.labels = p.labels) (h3 : ∀ t ∈ toks q, t ∈ toks p)
    (h4 : q.lex.length ≤ p.lex.length) : Lab p q := by
  refine ⟨h3, fun _ => ⟨by omega, by omega⟩, fun _ _ _ => ?_⟩
  rw [emitted_of_text (by rw [h1])]
  exact LinesOK.nil _

theorem Lab.tokwf {p q : buzzparser_s} (h : Lab p q) (hw : TokWF p) : TokWF q :=
  fun t ht => hw t (h.toks_sub t ht)

theorem Lab.nowrap {p q : buzzparser_s} (h : Lab p q) (hw : NoWrap p) : NoWrap q := by
  have := (h.labels_le hw).2
  unfold NoWrap at *
  omega

theorem Lab.comp {p q r : buzzparser_s} (h1 : Lab p q) (h2 : Lab q r) (e1 : Ext p q)
    (e2 : Ext q r) : Lab p r := by
  refine ⟨fun t ht => h1.toks_sub t (h2.toks_sub t ht), fun hw => ?_, fun hv hw hn => ?_⟩
  · have a := h1.labels_le hw
    have b := h2.labels_le (h1.nowrap hw)
    omega
  · rw [emitted_trans e1 e2 hv]
    exact (h1.lines hv hw hn).cat
      ((h2.lines (ext_valid e1 hv) (h1.tokwf hw) (h1.nowrap hn)).raise (h1.labels_le hn).1)

/-- A step that leaves the tokens and the counter alone and appends `txt`. -/
theorem Lab.emit {p q : buzzparser_s} (txt : cstr) (h : Lab p q) (e : Ext p q)
    (ht : TokWF p → NoWrap p → LinesOK p.labels txt) : Lab p (chunk_append q txt) := by
  refine ⟨h.toks_sub, h.labels_le, fun hv hw hn => ?_⟩
  rw [emitted_append_right txt e hv]
  exact (h.lines hv hw hn).cat (ht hw hn)

theorem Lab.congr_left {p p' q : buzzparser_s} (h : Lab p' q) (h1 : p'.chunks = p.chunks)
    (h2 : p'.chunk = p.chunk) (h3 : ∀ t ∈ toks p', t ∈ toks p)
    (h4 : NoWrap p → NoWrap p' ∧ p.labels ≤ p'.labels ∧
      p'.labels + 2 * p'.lex.length ≤ p.labels + 2 * p.lex.length) : Lab p q := by
  refine ⟨fun t ht => h3 t (h.toks_sub t ht), fun hw => ?_, fun hv hw hn => ?_⟩
  · obtain ⟨a, b, c⟩ := h4 hw
    have := h.labels_le a
    omega
  · obtain ⟨a, b, c⟩ := h4 hn
    rw [← emitted_congr q h1 h2]
    exact (h.lines (by rw [h2, h1]; exact hv) (fun t ht => hw t (h3 t ht)) a).raise b

theorem Lab.same (p : buzzparser_s) : Lab p p :=
  lab_silent rfl rfl (fun _ h => h) (Nat.le_refl _)

theorem lab_fetch {p q : buzzparser_s} (h : fetchtok p = .ok q) : Lab p q := by
  obtain ⟨a, b, c, d, _⟩ := toks_fetch h
  exact lab_silent d b a (by omega)

theorem lab_bracket {p a q : buzzparser_s} (sym : Option sym_s) (oldc : Nat)
    (ih : Lab (chunk_push a sym) q) (e : Ext (chunk_push a sym) q) (h1 : a.chunks = p.chunks)
    (h3 : ∀ t ∈ toks a, t ∈ toks p) (h4 : a.labels = p.labels)
    (h5 : a.lex.length + 1 ≤ p.lex.length) : Lab p (chunk_pop q oldc) := by
  refine ⟨fun t ht => h3 t (ih.toks_sub t ht), fun hw => ?_, fun hv _ _ => ?_⟩
  · have hl : (chunk_push a sym).labels = p.labels + 1 := by
      show (a.labels + 1) % 2 ^ 32 = p.labels + 1
      rw [h4]
      apply Nat.mod_eq_of_lt
      unfold NoWrap at hw
      omega
    have hx : (chunk_push a sym).lex = a.lex := rfl
    have hn : NoWrap (chunk_push a sym) := by
      unfold NoWrap at *
      rw [hl, hx]
      omega
    have := ih.labels_le hn
    rw [hl, hx] at this
    show p.labels ≤ q.labels ∧ q.labels + 2 * q.lex.length ≤ p.labels + 2 * p.lex.length
    omega
  · rw [emitted_bracket sym oldc e h1 hv]
    exact LinesOK.nil _

theorem lab_bump {p a : buzzparser_s} (hf : fetchtok (labels_bump p) = .ok a) :
    a.chunks = p.chunks ∧ a.chunk = p.chunk ∧ (∀ t ∈ toks a, t ∈ toks p) ∧
    (NoWrap p → NoWrap a ∧ a.labels = p.labels + 2 ∧
      a.labels + 2 * a.lex.length ≤ p.labels + 2 * p.lex.length ∧
      (p.labels + 1) % 2 ^ 32 = p.labels + 1) := by
  obtain ⟨x1, x2, x3, x4, x5⟩ := toks_fetch hf
  refine ⟨x4, x5, x1, fun hw => ?_⟩
  have hlex : (labels_bump p).lex = p.lex := rfl
  rw [hlex] at x3
  have hl : a.labels = p.labels + 2 := by
    rw [x2]
    show (p.labels + 2) % 2 ^ 32 = p.labels + 2
    apply Nat.mod_eq_of_lt
    unfold NoWrap at hw
    omega
  have h1 : (p.labels + 1) % 2 ^ 32 = p.labels + 1 := by
    apply Nat.mod_eq_of_lt
    unfold NoWrap at hw
    omega
  unfold NoWrap at *
  refine ⟨by omega, hl, by omega, h1⟩

theorem nl_not_mem_jumpz : '\n' ∉ "\tjumpz ".toList ∧ '\n' ∉ "\tjump ".toList ∧
    '\n' ∉ "\tpushi ".toList ∧ '\n' ∉ ([] : cstr) := by decide

theorem reach_lab {p q : buzzparser_s} (h : Reach p q) : Lab p q := by
  induction h with
  | refl p => exact Lab.same p
  | trans h1 h2 ih1 ih2 => exact ih1.comp ih2 (reach_ext h1) (reach_ext h2)
  | fetch h => exact lab_fetch h
  | next p =>
    refine lab_silent rfl rfl ?_ (by simp [nexttok])
    intro t ht
    simp only [toks, nexttok] at ht ⊢
    apply List.mem_append_right
    cases hl : p.lex with
    | nil => simp [hl] at ht
    | cons a r => simpa [hl] using ht
  | bind p t _ =>
    obtain ⟨a, b, c, d, _⟩ := sym_add_same p (tokval t)
    exact lab_silent d c (by intro x hx; simpa [toks, a, b] using hx) (by rw [a])
  | @cleanup p q hr ih =>
    obtain ⟨a, b, c, d, e⟩ := block_cleanup_same q (buzzdict_size (cur_syms p))
    exact ih.comp (lab_silent d c (by intro x hx; simpa [toks, a, b] using hx) (by rw [a]))
      (reach_ext hr) (ext_of_eq e d)
  | plain p txt hpl =>
    exact (Lab.same p).emit txt (Ext.refl p) (fun _ _ => plain_lines _ _ hpl)
  | tokfmt t txt htok hty hr htf ih =>
    exact ih.emit txt (reach_ext hr) (fun hw _ =>
      tokfmt_lines _ [] t txt htf (hw t (toks_cur htok) hty) (by simp) (by simp))
  | signed t1 t2 txt h1 hty1 hf h2 hty2 htf =>
    exact (lab_fetch hf).emit txt (ext_fetch hf) (fun hw _ =>
      tokfmt_lines _ _ t2 txt htf (hw t2 ((toks_fetch hf).1 t2 (toks_cur h2)) hty2)
        (tokop_plain t1 (hw t1 (toks_cur h1) hty1)).1
        (tokop_plain t1 (hw t1 (toks_cur h1) hty1)).2)
  | @symt p q hr ih =>
    have e1 : Ext p q := @ext_congr p (symt_push p) q rfl rfl (reach_ext hr)
    have l1 : Lab p q := ih.congr_left rfl rfl (fun _ h => h)
      (fun hw => ⟨hw, Nat.le_refl _, Nat.le_refl _⟩)
    exact l1.comp (lab_silent rfl rfl (fun _ h => h) (Nat.le_refl _)) e1 (ext_of_eq rfl rfl)
  | @func p a q t sym hf ht hr ih =>
    obtain ⟨x1, x2, x3, x4, x5⟩ := toks_fetch hf
    obtain ⟨y1, y2, y3, y4, y5⟩ := sym_add_same a (tokval t)
    exact lab_bracket sym p.chunk ih (reach_ext hr) (by rw [y4, x4])
      (by intro x hx; apply x1; simpa [toks, y1, y2] using hx) (by rw [y3, x2])
      (by rw [y1]; omega)
  | @lam p a q hf hr ih =>
    obtain ⟨x1, x2, x3, x4, x5⟩ := toks_fetch hf
    exact lab_bracket none p.chunk ih (reach_ext hr) x4 x1 x2 (by omega)
  | @lambda p a q hf hr ih =>
    obtain ⟨x1, x2, x3, x4, x5⟩ := toks_fetch hf
    have l1 := (Lab.same p).emit
      ("\tpushi ".toList ++ LABELREF ++ fmt_u p.labels ++ "\n".toList) (Ext.refl p)
      (fun _ _ => LinesOK.line (lineOK_label p.labels p.labels _ nl_not_mem_jumpz.2.2.1
        (Nat.le_refl _)))
    have l2 := l1.emit "\tpushcn\n".toList (ext_append _ _)
      (fun _ _ => plain_lines _ _ (Or.inl (by simp [fixed_instrs])))
    have e2 := (ext_append p
      ("\tpushi ".toList ++ LABELREF ++ fmt_u p.labels ++ "\n".toList)).trans (ext_append _
        "\tpushcn\n".toList)
    have l3 := lab_bracket none p.chunk ih (reach_ext hr) x4 x1 x2 (by omega)
    have e3 := ext_bracket none (reach_ext hr)
    have hc : a.chunk = p.chunk := x5
    rw [hc] at e3
    exact l2.comp l3 e2 (ext_congr x4 x5 e3)
  | @if_then p a c b hf hr1 hr2 ih1 ih2 =>
    obtain ⟨x1, x2, x3, x4⟩ := lab_bump hf
    have l1 : Lab p c := ih1.congr_left x1 x2 x3
      (fun hw => ⟨(x4 hw).1, by have := (x4 hw).2.1; omega, (x4 hw).2.2.1⟩)
    have e1 : Ext p c := ext_congr x1 x2 (reach_ext hr1)
    have l2 := l1.emit ("\tjumpz ".toList ++ LABELREF ++ fmt_u p.labels ++ "\n".toList) e1
      (fun _ _ => LinesOK.line (lineOK_label p.labels p.labels _ nl_not_mem_jumpz.1
        (Nat.le_refl _)))
    have e2 := e1.trans (ext_append c
      ("\tjumpz ".toList ++ LABELREF ++ fmt_u p.labels ++ "\n".toList))
    have l3 := l2.comp ih2 e2 (reach_ext hr2)
    have e3 := e2.trans (reach_ext hr2)
    exact l3.emit (LABELREF ++ fmt_u p.labels ++ "\n".toList) e3
      (fun _ _ => by
        have := LinesOK.line (lineOK_label p.labels p.labels [] nl_not_mem_jumpz.2.2.2
          (Nat.le_refl _))
        simpa using this)
  | @if_else p a c b e hf hr1 hr2 hr3 ih1 ih2 ih3 =>
    obtain ⟨x1, x2, x3, x4⟩ := lab_bump hf
    have l1 : Lab p c := ih1.congr_left x1 x2 x3
      (fun hw => ⟨(x4 hw).1, by have := (x4 hw).2.1; omega, (x4 hw).2.2.1⟩)
    have e1 : Ext p c := ext_congr x1 x2 (reach_ext hr1)
    have l2 := l1.emit ("\tjumpz ".toList ++ LABELREF ++ fmt_u p.labels ++ "\n".toList) e1
      (fun _ _ => LinesOK.line (lineOK_label p.labels p.labels _ nl_not_mem_jumpz.1
        (Nat.le_refl _)))
    have e2 := e1.trans (ext_append c
      ("\tjumpz ".toList ++ LABELREF ++ fmt_u p.labels ++ "\n".toList))
    have l3 := l2.comp ih2 e2 (reach_ext hr2)
    have e3 := e2.trans (reach_ext hr2)
    have l4 := l3.emit
      ("\tjump ".toList ++ LABELREF ++ fmt_u ((p.labels + 1) % 2 ^ 32) ++ "\n".toList) e3
      (fun _ hn => LinesOK.line (lineOK_label p.labels _ _ nl_not_mem_jumpz.2.1
        (by rw [(x4 hn).2.2.2]; omega)))
    have e4 := e3.trans (ext_append b
      ("\tjump ".toList ++ LABELREF ++ fmt_u ((p.labels + 1) % 2 ^ 32) ++ "\n".toList))
    have l5 := l4.emit (LABELREF ++ fmt_u p.labels ++ "\n".toList) e4
      (fun _ _ => by
        have := LinesOK.line (lineOK_label p.labels p.labels [] nl_not_mem_jumpz.2.2.2
          (Nat.le_refl _))
        simpa using this)
    have e5 := e4.trans (ext_append _ (LABELREF ++ fmt_u p.labels ++ "\n".toList))
    have l6 := l5.comp ih3 e5 (reach_ext hr3)
    have e6 := e5.trans (reach_ext hr3)
    exact l6.emit (LABELREF ++ fmt_u ((p.labels + 1) % 2 ^ 32) ++ "\n".toList) e6
      (fun _ hn => by
        have := LinesOK.line (lineOK_label p.labels ((p.labels + 1) % 2 ^ 32) []
          nl_not_mem_jumpz.2.2.2 (by rw [(x4 hn).2.2.2]; omega))
        simpa using this)

theorem c6_run : parse_if 20 c6_state = .ok c6_final := by
  simp only [c6_state, c6_final, chunk_append]
  repeat
    (first
      | rw [parse_statlist] | rw [parse_statlist_loop] | rw [parse_stat] | rw [parse_block]
      | rw [parse_fun] | rw [parse_if] | rw [parse_if_newlines] | rw [parse_for]
      | rw [parse_while] | rw [parse_conditionlist] | rw [parse_conditionlist_loop]
      | rw [parse_condition] | rw [parse_condition_loop] | rw [parse_comparison]
      | rw [parse_expression] | rw [parse_expression_loop] | rw [parse_product]
      | rw [parse_product_loop] | rw [parse_modulo] | rw [parse_modulo_loop] | rw [parse_power]
      | rw [parse_powerrest] | rw [parse_operand] | rw [parse_command] | rw [parse_idlist]
      | rw [parse_idlist_loop] | rw [parse_idref] | rw [parse_idref_loop] | rw [parse_lambda])
    try simp [tokval, tokop, sym_add, sym_lookup, buzzdict_get, buzzdict_set, buzzdict_size,
      cur_syms, symt_push, symt_pop, chunk_push, chunk_pop, idref_flush, load_text,
      block_cleanup, buzzparser_symtodel, buzzdict_remove, TYPE_BASIC, TYPE_CLOSURE, TYPE_TABLE]
  all_goals rfl

theorem c6_nowrap : NoWrap c6_state ∧ NoWrap c6_else_state := by
  unfold NoWrap
  decide

theorem c6_tokwf : TokWF c6_state ∧ TokWF c6_else_state := by
  unfold TokWF tokval_ok
  decide

/-- The step `presult_bind_ok` as a rewrite whose use is checked by
congruence and not by unfolding the rule that follows. -/
theorem bind_ok_step {α β : Type} (a : α) (f : α → presult β) :
    (presult.ok a >>= f) = f a := by
  cases h : f a <;> simp [h]

theorem c11_any (t : buzztok_s) (rest : List buzztok_s) :
    parse_idref 1 ⟨t :: rest, some ⟨BUZZTOK_ID, some "x".toList⟩, [[]], [chunk_new 0 none], 0, 1⟩
      true = .ok (c11_after t rest, ⟨0, true⟩) := by
  simp only [c11_after]
  repeat
    (first
      | rw [parse_statlist] | rw [parse_statlist_loop] | rw [parse_stat] | rw [parse_block]
      | rw [parse_fun] | rw [parse_if] | rw [parse_if_newlines] | rw [parse_for]
      | rw [parse_while] | rw [parse_conditionlist] | rw [parse_conditionlist_loop]
      | rw [parse_condition] | rw [parse_condition_loop] | rw [parse_comparison]
      | rw [parse_expression] | rw [parse_expression_loop] | rw [parse_product]
      | rw [parse_product_loop] | rw [parse_modulo] | rw [parse_modulo_loop] | rw [parse_power]
      | rw [parse_powerrest] | rw [parse_operand] | rw [parse_command] | rw [parse_idlist]
      | rw [parse_idlist_loop] | rw [parse_idref] | rw [parse_idref_loop] | rw [parse_lambda])
    try simp [-presult_bind_ok, bind_ok_step, tokval, tokop, sym_add, sym_lookup, buzzdict_get, buzzdict_set, buzzdict_size,
      cur_syms, symt_push, symt_pop, chunk_push, chunk_pop, idref_flush, load_text,
      block_cleanup, buzzparser_symtodel, buzzdict_remove, TYPE_BASIC, TYPE_CLOSURE, TYPE_TABLE]

theorem c11_lvalue : parse_idref 5 c11_state true = .ok (c11_final, ⟨0, true⟩) := by
  simp only [c11_state, c11_final]
  repeat
    (first
      | rw [parse_statlist] | rw [parse_statlist_loop] | rw [parse_stat] | rw [parse_block]
      | rw [parse_fun] | rw [parse_if] | rw [parse_if_newlines] | rw [parse_for]
      | rw [parse_while] | rw [parse_conditionlist] | rw [parse_conditionlist_loop]
      | rw [parse_condition] | rw [parse_condition_loop] | rw [parse_comparison]
      | rw [parse_expression] | rw [parse_expression_loop] | rw [parse_product]
      | rw [parse_product_loop] | rw [parse_modulo] | rw [parse_modulo_loop] | rw [parse_power]
      | rw [parse_powerrest] | rw [parse_operand] | rw [parse_command] | rw [parse_idlist]
      | rw [parse_idlist_loop] | rw [parse_idref] | rw [parse_idref_loop] | rw [parse_lambda])
    try simp [tokval, tokop, sym_add, sym_lookup, buzzdict_get, buzzdict_set, buzzdict_size,
      cur_syms, symt_push, symt_pop, chunk_push, chunk_pop, idref_flush, load_text,
      block_cleanup, buzzparser_symtodel, buzzdict_remove, TYPE_BASIC, TYPE_CLOSURE, TYPE_TABLE]

theorem c11_rvalue : parse_idref 5 c11_state false = .error (.undefined "x".toList) := by
  simp only [c11_state]
  repeat
    (first
      | rw [parse_statlist] | rw [parse_statlist_loop] | rw [parse_stat] | rw [parse_block]
      | rw [parse_fun] | rw [parse_if] | rw [parse_if_newlines] | rw [parse_for]
      | rw [parse_while] | rw [parse_conditionlist] | rw [parse_conditionlist_loop]
      | rw [parse_condition] | rw [parse_condition_loop] | rw [parse_comparison]
      | rw [parse_expression] | rw [parse_expression_loop] | rw [parse_product]
      | rw [parse_product_loop] | rw [parse_modulo] | rw [parse_modulo_loop] | rw [parse_power]
      | rw [parse_powerrest] | rw [parse_operand] | rw [parse_command] | rw [parse_idlist]
      | rw [parse_idlist_loop] | rw [parse_idref] | rw [parse_idref_loop] | rw [parse_lambda])
    try simp [tokval, tokop, sym_add, sym_lookup, buzzdict_get, buzzdict_set, buzzdict_size,
      cur_syms, symt_push, symt_pop, chunk_push, chunk_pop, idref_flush, load_text,
      block_cleanup, buzzparser_symtodel, buzzdict_remove, TYPE_BASIC, TYPE_CLOSURE, TYPE_TABLE]

theorem c11_command : parse_command 6 c11_state = .error .not_call_or_assignment := by
  simp only [c11_state]
  repeat
    (first
      | rw [parse_statlist] | rw [parse_statlist_loop] | rw [parse_stat] | rw [parse_block]
      | rw [parse_fun] | rw [parse_if] | rw [parse_if_newlines] | rw [parse_for]
      | rw [parse_while] | rw [parse_conditionlist] | rw [parse_conditionlist_loop]
      | rw [parse_condition] | rw [parse_condition_loop] | rw [parse_comparison]
      | rw [parse_expression] | rw [parse_expression_loop] | rw [parse_product]
      | rw [parse_product_loop] | rw [parse_modulo] | rw [parse_modulo_loop] | rw [parse_power]
      | rw [parse_powerrest] | rw [parse_operand] | rw [parse_command] | rw [parse_idlist]
      | rw [parse_idlist_loop] | rw [parse_idref] | rw [parse_idref_loop] | rw [parse_lambda])
    try simp [tokval, tokop, sym_add, sym_lookup, buzzdict_get, buzzdict_set, buzzdict_size,
      cur_syms, symt_push, symt_pop, chunk_push, chunk_pop, idref_flush, load_text,
      block_cleanup, buzzparser_symtodel, buzzdict_remove, TYPE_BASIC, TYPE_CLOSURE, TYPE_TABLE]

theorem c17_run : parse_lambda 8 c17_state = .ok c17_final := by
  simp only [c17_state, c17_final]
  repeat
    (first
      | rw [parse_statlist] | rw [parse_statlist_loop] | rw [parse_stat] | rw [parse_block]
      | rw [parse_fun] | rw [parse_if] | rw [parse_if_newlines] | rw [parse_for]
      | rw [parse_while] | rw [parse_conditionlist] | rw [parse_conditionlist_loop]
      | rw [parse_condition] | rw [parse_condition_loop] | rw [parse_comparison]
      | rw [parse_expression] | rw [parse_expression_loop] | rw [parse_product]
      | rw [parse_product_loop] | rw [parse_modulo] | rw [parse_modulo_loop] | rw [parse_power]
      | rw [parse_powerrest] | rw [parse_operand] | rw [parse_command] | rw [parse_idlist]
      | rw [parse_idlist_loop] | rw [parse_idref] | rw [parse_idref_loop] | rw [parse_lambda])
    try simp [-presult_bind_ok, bind_ok_step, tokval, tokop, sym_add, sym_lookup, buzzdict_get, buzzdict_set, buzzdict_size,
      cur_syms, symt_push, symt_pop, chunk_push, chunk_pop, idref_flush, load_text,
      block_cleanup, buzzparser_symtodel, buzzdict_remove, TYPE_BASIC, TYPE_CLOSURE, TYPE_TABLE]
  all_goals rfl

theorem c17_fun_run : parse_fun 8 c17_fun_state = .ok c17_fun_final := by
  simp only [c17_fun_state, c17_fun_final]
  repeat
    (first
      | rw [parse_statlist] | rw [parse_statlist_loop] | rw [parse_stat] | rw [parse_block]
      | rw [parse_fun] | rw [parse_if] | rw [parse_if_newlines] | rw [parse_for]
      | rw [parse_while] | rw [parse_conditionlist] | rw [parse_conditionlist_loop]
      | rw [parse_condition] | rw [parse_condition_loop] | rw [parse_comparison]
      | rw [parse_expression] | rw [parse_expression_loop] | rw [parse_product]
      | rw [parse_product_loop] | rw [parse_modulo] | rw [parse_modulo_loop] | rw [parse_power]
      | rw [parse_powerrest] | rw [parse_operand] | rw [parse_command] | rw [parse_idlist]
      | rw [parse_idlist_loop] | rw [parse_idref] | rw [parse_idref_loop] | rw [parse_lambda])
    try simp [-presult_bind_ok, bind_ok_step, tokval, tokop, sym_add, sym_lookup, buzzdict_get, buzzdict_set, buzzdict_size,
      cur_syms, symt_push, symt_pop, chunk_push, chunk_pop, idref_flush, load_text,
      block_cleanup, buzzparser_symtodel, buzzdict_remove, TYPE_BASIC, TYPE_CLOSURE, TYPE_TABLE]
  all_goals rfl

theorem c18_run : parse_lambda 20 c18_state = .ok c18_final := by
  simp only [c18_state, c18_final]
  repeat
    (first
      | rw [parse_statlist] | rw [parse_statlist_loop] | rw [parse_stat] | rw [parse_block]
      | rw [parse_fun] | rw [parse_if] | rw [parse_if_newlines] | rw [parse_for]
      | rw [parse_while] | rw [parse_conditionlist] | rw [parse_conditionlist_loop]
      | rw [parse_condition] | rw [parse_condition_loop] | rw [parse_comparison]
      | rw [parse_expression] | rw [parse_expression_loop] | rw [parse_product]
      | rw [parse_product_loop] | rw [parse_modulo] | rw [parse_modulo_loop] | rw [parse_power]
      | rw [parse_powerrest] | rw [parse_operand] | rw [parse_command] | rw [parse_idlist]
      | rw [parse_idlist_loop] | rw [parse_idref] | rw [parse_idref_loop] | rw [parse_lambda])
    try simp [-presult_bind_ok, bind_ok_step, tokval, tokop, sym_add, sym_lookup, buzzdict_get, buzzdict_set, buzzdict_size,
      cur_syms, symt_push, symt_pop, chunk_push, chunk_pop, idref_flush, load_text,
      block_cleanup, buzzparser_symtodel, buzzdict_remove, TYPE_BASIC, TYPE_CLOSURE, TYPE_TABLE]
  all_goals rfl

theorem c18_fun_run : parse_fun 20 c18_fun_state = .ok c18_fun_final := by
  simp only [c18_fun_state, c18_fun_final]
  repeat
    (first
      | rw [parse_statlist] | rw [parse_statlist_loop] | rw [parse_stat] | rw [parse_block]
      | rw [parse_fun] | rw [parse_if] | rw [parse_if_newlines] | rw [parse_for]
      | rw [parse_while] | rw [parse_conditionlist] | rw [parse_conditionlist_loop]
      | rw [parse_condition] | rw [parse_condition_loop] | rw [parse_comparison]
      | rw [parse_expression] | rw [parse_expression_loop] | rw [parse_product]
      | rw [parse_product_loop] | rw [parse_modulo] | rw [parse_modulo_loop] | rw [parse_power]
      | rw [parse_powerrest] | rw [parse_operand] | rw [parse_command] | rw [parse_idlist]
      | rw [parse_idlist_loop] | rw [parse_idref] | rw [parse_idref_loop] | rw [parse_lambda])
    try simp [-presult_bind_ok, bind_ok_step, tokval, tokop, sym_add, sym_lookup, buzzdict_get, buzzdict_set, buzzdict_size,
      cur_syms, symt_push, symt_pop, chunk_push, chunk_pop, idref_flush, load_text,
      block_cleanup, buzzparser_symtodel, buzzdict_remove, TYPE_BASIC, TYPE_CLOSURE, TYPE_TABLE]
  all_goals rfl

theorem c14_run : parse_block 24 c14_state = .ok c14_final := by
  simp only [c14_state, c14_final, chunk_append]
  repeat
    (first
      | rw [parse_statlist] | rw [parse_statlist_loop] | rw [parse_stat] | rw [parse_block]
      | rw [parse_fun] | rw [parse_if] | rw [parse_if_newlines] | rw [parse_for]
      | rw [parse_while] | rw [parse_conditionlist] | rw [parse_conditionlist_loop]
      | rw [parse_condition] | rw [parse_condition_loop] | rw [parse_comparison]
      | rw [parse_expression] | rw [parse_expression_loop] | rw [parse_product]
      | rw [parse_product_loop] | rw [parse_modulo] | rw [parse_modulo_loop] | rw [parse_power]
      | rw [parse_powerrest] | rw [parse_operand] | rw [parse_command] | rw [parse_idlist]
      | rw [parse_idlist_loop] | rw [parse_idref] | rw [parse_idref_loop] | rw [parse_lambda])
    try simp [-presult_bind_ok, bind_ok_step, tokval, tokop, sym_add, sym_lookup, buzzdict_get, buzzdict_set, buzzdict_size,
      cur_syms, symt_push, symt_pop, chunk_push, chunk_pop, idref_flush, load_text,
      block_cleanup, buzzparser_symtodel, buzzdict_remove, TYPE_BASIC, TYPE_CLOSURE, TYPE_TABLE]
  all_goals rfl

theorem sym_lookup_none_head {x : cstr} {syms : buzzdict_t} {rest : List buzzdict_t}
    (h : sym_lookup x (syms :: rest) = none) : buzzdict_get syms x = none := by
  unfold sym_lookup at h
  cases hg : buzzdict_get syms x with
  | none => rfl
  | some s => simp [hg] at h

theorem length_one_iff (syms : buzzdict_t) (rest : List buzzdict_t) :
    decide ((syms :: rest).length = 1) = decide (rest = []) := by
  cases rest <;> simp

theorem c13_top_rhs : parse_expression 6
    ⟨[⟨BUZZTOK_STATEND, some ";".toList⟩], some ⟨BUZZTOK_CONST, some "1".toList⟩,
      [[("x".toList, ⟨0, TYPE_BASIC, true⟩)]], [chunk_new 0 none], 0, 1⟩ = .ok c13_top := by
  simp only [c13_top, chunk_append]
  repeat
    (first
      | rw [parse_statlist] | rw [parse_statlist_loop] | rw [parse_stat] | rw [parse_block]
      | rw [parse_fun] | rw [parse_if] | rw [parse_if_newlines] | rw [parse_for]
      | rw [parse_while] | rw [parse_conditionlist] | rw [parse_conditionlist_loop]
      | rw [parse_condition] | rw [parse_condition_loop] | rw [parse_comparison]
      | rw [parse_expression] | rw [parse_expression_loop] | rw [parse_product]
      | rw [parse_product_loop] | rw [parse_modulo] | rw [parse_modulo_loop] | rw [parse_power]
      | rw [parse_powerrest] | rw [parse_operand] | rw [parse_command] | rw [parse_idlist]
      | rw [parse_idlist_loop] | rw [parse_idref] | rw [parse_idref_loop] | rw [parse_lambda])
    try simp [-presult_bind_ok, bind_ok_step, tokval, tokop, sym_add, sym_lookup, buzzdict_get, buzzdict_set, buzzdict_size,
      cur_syms, symt_push, symt_pop, chunk_push, chunk_pop, idref_flush, load_text,
      block_cleanup, buzzparser_symtodel, buzzdict_remove, TYPE_BASIC, TYPE_CLOSURE, TYPE_TABLE]

theorem c13_body_rhs : parse_expression 6
    ⟨[⟨BUZZTOK_STATEND, some ";".toList⟩], some ⟨BUZZTOK_CONST, some "1".toList⟩,
      [[("p".toList, ⟨0, TYPE_BASIC, false⟩), ("x".toList, ⟨1, TYPE_BASIC, false⟩)], []],
      [chunk_new 0 none, chunk_new 1 none], 1, 2⟩ = .ok c13_body := by
  simp only [c13_body, chunk_append]
  repeat
    (first
      | rw [parse_statlist] | rw [parse_statlist_loop] | rw [parse_stat] | rw [parse_block]
      | rw [parse_fun] | rw [parse_if] | rw [parse_if_newlines] | rw [parse_for]
      | rw [parse_while] | rw [parse_conditionlist] | rw [parse_conditionlist_loop]
      | rw [parse_condition] | rw [parse_condition_loop] | rw [parse_comparison]
      | rw [parse_expression] | rw [parse_expression_loop] | rw [parse_product]
      | rw [parse_product_loop] | rw [parse_modulo] | rw [parse_modulo_loop] | rw [parse_power]
      | rw [parse_powerrest] | rw [parse_operand] | rw [parse_command] | rw [parse_idlist]
      | rw [parse_idlist_loop] | rw [parse_idref] | rw [parse_idref_loop] | rw [parse_lambda])
    try simp [-presult_bind_ok, bind_ok_step, tokval, tokop, sym_add, sym_lookup, buzzdict_get, buzzdict_set, buzzdict_size,
      cur_syms, symt_push, symt_pop, chunk_push, chunk_pop, idref_flush, load_text,
      block_cleanup, buzzparser_symtodel, buzzdict_remove, TYPE_BASIC, TYPE_CLOSURE, TYPE_TABLE]

theorem curtok_of_tok {p : buzzparser_s} {t : buzztok_s} (h : p.tok = some t) :
    curtok p = .ok t := curtok_eq_ok.mpr h

theorem tokmatch_of_tok {p : buzzparser_s} {t : buzztok_s} {ty : buzztok_type_e}
    (h : p.tok = some t) (hty : t.type = ty) : tokmatch p ty = .ok () :=
  tokmatch_eq_ok.mpr ⟨t, h, hty⟩

theorem fetchtok_chunk_append {p q : buzzparser_s} (txt : cstr) (h : fetchtok p = .ok q) :
    fetchtok (chunk_append p txt) = .ok (chunk_append q txt) := by
  obtain ⟨t, r, e1, e2⟩ := fetchtok_eq_ok h
  subst e2
  simp [fetchtok, chunk_append, e1]

@[simp] theorem curtok_chunk_append (p : buzzparser_s) (txt : cstr) :
    curtok (chunk_append p txt) = curtok p := rfl

@[simp] theorem tokmatch_chunk_append (p : buzzparser_s) (txt : cstr) (ty : buzztok_type_e) :
    tokmatch (chunk_append p txt) ty = tokmatch p ty := rfl

/-- Two consecutive pieces of a run: the second starts on the chunk list the
first one left. -/
theorem emitted_seg {s p p1 q : buzzparser_s} (h1 : Ext s p) (hc : p1.chunks = p.chunks)
    (hi : p1.chunk = p.chunk) (h2 : Ext p1 q) (hv : s.chunk < s.chunks.length) :
    Ext s q ∧ emitted s q = emitted s p ++ emitted p1 q := by
  have e1 : Ext s p1 := h1.trans (ext_of_eq hi hc)
  refine ⟨e1.trans h2, ?_⟩
  rw [emitted_trans e1 h2 hv, emitted_of_chunks hc]

theorem emitted_self (s : buzzparser_s) : emitted s s = [] := by
  simp [emitted]

theorem c19_chain (k : Nat) (s a1 b0 b1 c0 c1 : buzzparser_s) (ta tb tc : buzztok_s)
    (hv : s.chunk < s.chunks.length)
    (ha : parse_operand (k + 4) s = .ok a1) (hta : a1.tok = some ta)
    (hta2 : ta.type = BUZZTOK_POW) (hfa : fetchtok a1 = .ok b0)
    (hb : parse_operand (k + 2) b0 = .ok b1) (htb : b1.tok = some tb)
    (htb2 : tb.type = BUZZTOK_POW) (hfb : fetchtok b1 = .ok c0)
    (hc : parse_operand k c0 = .ok c1) (htc : c1.tok = some tc)
    (htc2 : tc.type ≠ BUZZTOK_POW) :
    parse_power (k + 5) s =
      .ok (chunk_append (chunk_append c1 "\tpow\n".toList) "\tpow\n".toList) ∧
    emitted s (chunk_append (chunk_append c1 "\tpow\n".toList) "\tpow\n".toList) =
      emitted s a1 ++ emitted b0 b1 ++ emitted c0 c1 ++ "\tpow\n".toList ++ "\tpow\n".toList := by
  constructor
  · cases k with
    | zero => rw [parse_operand] at hc; cases hc
    | succ m =>
      rw [parse_power]; simp only [ha, bind_ok_step]
      rw [parse_powerrest]; simp only [curtok_of_tok hta, bind_ok_step, hta2, if_true, hfa]
      rw [parse_power]; simp only [hb, bind_ok_step]
      rw [parse_powerrest]; simp only [curtok_of_tok htb, bind_ok_step, htb2, if_true, hfb]
      rw [parse_power]; simp only [hc, bind_ok_step]
      rw [parse_powerrest]; simp only [curtok_of_tok htc, bind_ok_step, htc2, if_false]
  · have ea := reach_ext ((rules_reach _).operand _ _ ha)
    have eb := reach_ext ((rules_reach _).operand _ _ hb)
    have ec := reach_ext ((rules_reach _).operand _ _ hc)
    obtain ⟨fa1, fa2⟩ := fetchtok_same hfa
    obtain ⟨fb1, fb2⟩ := fetchtok_same hfb
    obtain ⟨x1, y1⟩ := emitted_seg ea fa1 fa2 eb hv
    obtain ⟨x2, y2⟩ := emitted_seg x1 fb1 fb2 ec hv
    rw [emitted_append_right _ (x2.trans (ext_append _ _)) hv, emitted_append_right _ x2 hv,
      y2, y1]

theorem c19_paren (k : Nat) (s a1 p0 b0 b1 c0 c1 d0 : buzzparser_s)
    (ta tp t0 tb tc td : buzztok_s)
    (hv : s.chunk < s.chunks.length)
    (ha : parse_operand (k + 9) s = .ok a1) (hta : a1.tok = some ta)
    (hta2 : ta.type = BUZZTOK_POW) (hfa : fetchtok a1 = .ok p0)
    (htp : p0.tok = some tp) (htp2 : tp.type = BUZZTOK_PAROPEN) (hfp : fetchtok p0 = .ok b0)
    (ht0 : b0.tok = some t0) (ht02 : t0.type ≠ BUZZTOK_BLOCKOPEN)
    (hb : parse_operand (k + 2) b0 = .ok b1) (htb : b1.tok = some tb)
    (htb2 : tb.type = BUZZTOK_POW) (hfb : fetchtok b1 = .ok c0)
    (hc : parse_operand k c0 = .ok c1) (htc : c1.tok = some tc)
    (htc2 : tc.type = BUZZTOK_PARCLOSE) (hfc : fetchtok c1 = .ok d0)
    (htd : d0.tok = some td) (htd2 : td.type ≠ BUZZTOK_POW) :
    parse_power (k + 10) s =
      .ok (chunk_append (chunk_append d0 "\tpow\n".toList) "\tpow\n".toList) ∧
    emitted s (chunk_append (chunk_append d0 "\tpow\n".toList) "\tpow\n".toList) =
      emitted s a1 ++ emitted b0 b1 ++ emitted c0 c1 ++ "\tpow\n".toList ++ "\tpow\n".toList := by
  constructor
  · cases k with
    | zero => rw [parse_operand] at hc; cases hc
    | succ m =>
      have hd := fetchtok_chunk_append "\tpow\n".toList hfc
      have htd' : (chunk_append d0 "\tpow\n".toList).tok = some td := htd
      have htc' : (chunk_append c1 "\tpow\n".toList).tok = some tc := htc
      rw [parse_power]; simp only [ha, bind_ok_step]
      rw [parse_powerrest]; simp only [curtok_of_tok hta, bind_ok_step, hta2, if_true, hfa]
      rw [parse_power, parse_operand]
      simp only [curtok_of_tok htp, bind_ok_step, htp2, reduceCtorEq, if_false, if_true, hfp]
      rw [parse_expression]
      simp only [curtok_of_tok ht0, bind_ok_step, ht02, if_false]
      rw [parse_product, parse_modulo, parse_power]; simp only [hb, bind_ok_step]
      rw [parse_powerrest]; simp only [curtok_of_tok htb, bind_ok_step, htb2, if_true, hfb]
      rw [parse_power]; simp only [hc, bind_ok_step]
      rw [parse_powerrest]
      simp only [curtok_of_tok htc, bind_ok_step, htc2, reduceCtorEq, if_false]
      rw [parse_modulo_loop]
      simp only [curtok_of_tok htc', bind_ok_step, htc2, reduceCtorEq, if_false]
      rw [parse_product_loop]
      simp only [curtok_of_tok htc', bind_ok_step, htc2, reduceCtorEq, if_false]
      rw [parse_expression_loop]
      simp only [curtok_of_tok htc', bind_ok_step, htc2, reduceCtorEq, if_false,
        tokmatch_of_tok htc' htc2, hd]
      rw [parse_powerrest]
      simp only [curtok_of_tok htd', bind_ok_step, htd2, if_false]
  · have ea := reach_ext ((rules_reach _).operand _ _ ha)
    have eb := reach_ext ((rules_reach _).operand _ _ hb)
    have ec := reach_ext ((rules_reach _).operand _ _ hc)
    obtain ⟨fa1, fa2⟩ := fetchtok_same hfa
    obtain ⟨fp1, fp2⟩ := fetchtok_same hfp
    obtain ⟨fb1, fb2⟩ := fetchtok_same hfb
    obtain ⟨fc1, fc2⟩ := fetchtok_same hfc
    obtain ⟨x1, y1⟩ := emitted_seg ea (by rw [fp1, fa1]) (by rw [fp2, fa2]) eb hv
    obtain ⟨x2, y2⟩ := emitted_seg x1 fb1 fb2 ec hv
    have x3 : Ext s d0 := x2.trans (ext_of_eq fc2 fc1)
    rw [emitted_append_right _ (x3.trans (ext_append _ _)) hv, emitted_append_right _ x3 hv,
      emitted_of_chunks fc1, y2, y1]

theorem addsub_step (p : buzzparser_s) (o : Char) (h : o = '+' ∨ o = '-') :
    (if some o = some '+' then chunk_append p "\tadd\n".toList
      else if some o = some '-' then chunk_append p "\tsub\n".toList else p) =
      chunk_append p (addsub_instr o) := by
  rcases h with h | h <;> subst h <;> simp [addsub_instr]

theorem muldiv_step (p : buzzparser_s) (o : Char) (h : o = '*' ∨ o = '/') :
    (if some o = some '*' then chunk_append p "\tmul\n".toList
      else if some o = some '/' then chunk_append p "\tdiv\n".toList else p) =
      chunk_append p (muldiv_instr o) := by
  rcases h with h | h <;> subst h <;> simp [muldiv_instr]

theorem c20_addsub (k : Nat) (s a1 b0 b1 c0 c1 : buzzparser_s) (t0 ta tb tc : buzztok_s)
    (o1 o2 : Char) (hv : s.chunk < s.chunks.length)
    (ht0 : s.tok = some t0) (ht02 : t0.type ≠ BUZZTOK_BLOCKOPEN)
    (ha : parse_product (k + 2) s = .ok a1) (hta : a1.tok = some ta)
    (hta2 : ta.type = BUZZTOK_ADDSUB) (ho1 : tokop ta = some o1) (ho1' : o1 = '+' ∨ o1 = '-')
    (hfa : fetchtok a1 = .ok b0)
    (hb : parse_product (k + 1) b0 = .ok b1) (htb : b1.tok = some tb)
    (htb2 : tb.type = BUZZTOK_ADDSUB) (ho2 : tokop tb = some o2) (ho2' : o2 = '+' ∨ o2 = '-')
    (hfb : fetchtok (chunk_append b1 (addsub_instr o1)) = .ok c0)
    (hc : parse_product k c0 = .ok c1) (htc : c1.tok = some tc)
    (htc2 : tc.type ≠ BUZZTOK_ADDSUB) :
    parse_expression (k + 3) s = .ok (chunk_append c1 (addsub_instr o2)) ∧
    emitted s (chunk_append c1 (addsub_instr o2)) =
      emitted s a1 ++ emitted b0 b1 ++ addsub_instr o1 ++ emitted c0 c1 ++ addsub_instr o2 := by
  constructor
  · cases k with
    | zero => rw [parse_product] at hc; cases hc
    | succ m =>
      have htb' : (chunk_append b1 (addsub_instr o1)).tok = some tb := htb
      have htc' : (chunk_append c1 (addsub_instr o2)).tok = some tc := htc
      rw [parse_expression]
      simp only [curtok_of_tok ht0, bind_ok_step, ht02, if_false, ha]
      rw [parse_expression_loop]
      simp only [curtok_of_tok hta, bind_ok_step, hta2, if_true, hfa, hb, ho1,
        addsub_step _ _ ho1']
      rw [parse_expression_loop]
      simp only [curtok_of_tok htb', bind_ok_step, htb2, if_true, hfb, hc, ho2,
        addsub_step _ _ ho2']
      rw [parse_expression_loop]
      simp only [curtok_of_tok htc', bind_ok_step, htc2, if_false]
  · have ea := reach_ext ((rules_reach _).product _ _ ha)
    have eb := reach_ext ((rules_reach _).product _ _ hb)
    have ec := reach_ext ((rules_reach _).product _ _ hc)
    obtain ⟨fa1, fa2⟩ := fetchtok_same hfa
    obtain ⟨fb1, fb2⟩ := fetchtok_same hfb
    obtain ⟨x1, y1⟩ := emitted_seg ea fa1 fa2 eb hv
    have x1' := x1.trans (ext_append b1 (addsub_instr o1))
    obtain ⟨x2, y2⟩ := emitted_seg x1' fb1 fb2 ec hv
    rw [emitted_append_right _ x2 hv, y2, emitted_append_right _ x1 hv, y1]

theorem c20_addsub_paren (k : Nat) (s a0 a1 b0 b1 d0 c0 c1 : buzzparser_s)
    (tp t0 ta tb td tc : buzztok_s) (o1 o2 : Char) (hv : s.chunk < s.chunks.length)
    (htp : s.tok = some tp) (htp2 : tp.type = BUZZTOK_PAROPEN) (hfp : fetchtok s = .ok a0)
    (ht0 : a0.tok = some t0) (ht02 : t0.type ≠ BUZZTOK_BLOCKOPEN)
    (ha : parse_product (k + 1) a0 = .ok a1) (hta : a1.tok = some ta)
    (hta2 : ta.type = BUZZTOK_ADDSUB) (ho1 : tokop ta = some o1) (ho1' : o1 = '+' ∨ o1 = '-')
    (hfa : fetchtok a1 = .ok b0)
    (hb : parse_product k b0 = .ok b1) (htb : b1.tok = some tb)
    (htb2 : tb.type = BUZZTOK_PARCLOSE)
    (hfb : fetchtok (chunk_append b1 (addsub_instr o1)) = .ok d0)
    (htd : d0.tok = some td) (htd2 : td.type = BUZZTOK_ADDSUB) (ho2 : tokop td = some o2)
    (ho2' : o2 = '+' ∨ o2 = '-') (hfd : fetchtok d0 = .ok c0)
    (hc : parse_product (k + 5) c0 = .ok c1) (htc : c1.tok = some tc)
    (htc2 : tc.type ≠ BUZZTOK_ADDSUB) :
    parse_expression (k + 7) s = .ok (chunk_append c1 (addsub_instr o2)) ∧
    emitted s (chunk_append c1 (addsub_instr o2)) =
      emitted a0 a1 ++ emitted b0 b1 ++ addsub_instr o1 ++ emitted c0 c1 ++ addsub_instr o2 := by
  constructor
  · cases k with
    | zero => rw [parse_product] at hb; cases hb
    | succ m =>
      have htb' : (chunk_append b1 (addsub_instr o1)).tok = some tb := htb
      have htc' : (chunk_append c1 (addsub_instr o2)).tok = some tc := htc
      have hne : tp.type ≠ BUZZTOK_BLOCKOPEN := by rw [htp2]; decide
      rw [parse_expression]
      simp only [curtok_of_tok htp, bind_ok_step, hne, if_false]
      rw [parse_product, parse_modulo, parse_power, parse_operand]
      simp only [curtok_of_tok htp, bind_ok_step, htp2, reduceCtorEq, if_false, if_true, hfp]
      rw [parse_expression]
      simp only [curtok_of_tok ht0, bind_ok_step, ht02, if_false, ha]
      rw [parse_expression_loop]
      simp only [curtok_of_tok hta, bind_ok_step, hta2, if_true, hfa, hb, ho1,
        addsub_step _ _ ho1']
      rw [parse_expression_loop]
      simp only [curtok_of_tok htb', bind_ok_step, htb2, reduceCtorEq, if_false,
        tokmatch_of_tok htb' htb2, hfb]
      rw [parse_powerrest]
      simp only [curtok_of_tok htd, bind_ok_step, htd2, reduceCtorEq, if_false]
      rw [parse_modulo_loop]
      simp only [curtok_of_tok htd, bind_ok_step, htd2, reduceCtorEq, if_false]
      rw [parse_product_loop]
      simp only [curtok_of_tok htd, bind_ok_step, htd2, reduceCtorEq, if_false]
      rw [parse_expression_loop]
      simp only [curtok_of_tok htd, bind_ok_step, htd2, if_true, hfd, hc, ho2,
        addsub_step _ _ ho2']
      rw [parse_expression_loop]
      simp only [curtok_of_tok htc', bind_ok_step, htc2, if_false]
  · have ea := reach_ext ((rules_reach _).product _ _ ha)
    have eb := reach_ext ((rules_reach _).product _ _ hb)
    have ec := reach_ext ((rules_reach _).product _ _ hc)
    obtain ⟨fp1, fp2⟩ := fetchtok_same hfp
    obtain ⟨fa1, fa2⟩ := fetchtok_same hfa
    obtain ⟨fb1, fb2⟩ := fetchtok_same hfb
    obtain ⟨fd1, fd2⟩ := fetchtok_same hfd
    have e0 : Ext s a1 := (ext_of_eq fp2 fp1).trans ea
    have y0 : emitted s a1 = emitted a0 a1 := (emitted_congr a1 fp1 fp2).symm
    obtain ⟨x1, y1⟩ := emitted_seg e0 fa1 fa2 eb hv
    have x1' := x1.trans (ext_append b1 (addsub_instr o1))
    obtain ⟨x2, y2⟩ := emitted_seg x1' (by rw [fd1, fb1]) (by rw [fd2, fb2]) ec hv
    rw [emitted_append_right _ x2 hv, y2, emitted_append_right _ x1 hv, y1, y0]

theorem c20_muldiv (k : Nat) (s a1 b0 b1 c0 c1 : buzzparser_s) (ta tb tc : buzztok_s)
    (o1 o2 : Char) (hv : s.chunk < s.chunks.length)
    (ha : parse_modulo (k + 2) s = .ok a1) (hta : a1.tok = some ta)
    (hta2 : ta.type = BUZZTOK_MULDIV) (ho1 : tokop ta = some o1) (ho1' : o1 = '*' ∨ o1 = '/')
    (hfa : fetchtok a1 = .ok b0)
    (hb : parse_modulo (k + 1) b0 = .ok b1) (htb : b1.tok = some tb)
    (htb2 : tb.type = BUZZTOK_MULDIV) (ho2 : tokop tb = some o2) (ho2' : o2 = '*' ∨ o2 = '/')
    (hfb : fetchtok (chunk_append b1 (muldiv_instr o1)) = .ok c0)
    (hc : parse_modulo k c0 = .ok c1) (htc : c1.tok = some tc)
    (htc2 : tc.type ≠ BUZZTOK_MULDIV) :
    parse_product (k + 3) s = .ok (chunk_append c1 (muldiv_instr o2)) ∧
    emitted s (chunk_append c1 (muldiv_instr o2)) =
      emitted s a1 ++ emitted b0 b1 ++ muldiv_instr o1 ++ emitted c0 c1 ++ muldiv_instr o2 := by
  constructor
  · cases k with
    | zero => rw [parse_modulo] at hc; cases hc
    | succ m =>
      have htb' : (chunk_append b1 (muldiv_instr o1)).tok = some tb := htb
      have htc' : (chunk_append c1 (muldiv_instr o2)).tok = some tc := htc
      rw [parse_product]
      simp only [bind_ok_step, ha]
      rw [parse_product_loop]
      simp only [curtok_of_tok hta, bind_ok_step, hta2, if_true, hfa, hb, ho1,
        muldiv_step _ _ ho1']
      rw [parse_product_loop]
      simp only [curtok_of_tok htb', bind_ok_step, htb2, if_true, hfb, hc, ho2,
        muldiv_step _ _ ho2']
      rw [parse_product_loop]
      simp only [curtok_of_tok htc', bind_ok_step, htc2, if_false]
  · have ea := reach_ext ((rules_reach _).modulo _ _ ha)
    have eb := reach_ext ((rules_reach _).modulo _ _ hb)
    have ec := reach_ext ((rules_reach _).modulo _ _ hc)
    obtain ⟨fa1, fa2⟩ := fetchtok_same hfa
    obtain ⟨fb1, fb2⟩ := fetchtok_same hfb
    obtain ⟨x1, y1⟩ := emitted_seg ea fa1 fa2 eb hv
    have x1' := x1.trans (ext_append b1 (muldiv_instr o1))
    obtain ⟨x2, y2⟩ := emitted_seg x1' fb1 fb2 ec hv
    rw [emitted_append_right _ x2 hv, y2, emitted_append_right _ x1 hv, y1]

theorem c20_muldiv_paren (k : Nat) (s a0 a1 b0 b1 d0 c0 c1 : buzzparser_s)
    (tp t0 ta tb td tc : buzztok_s) (o1 o2 : Char) (hv : s.chunk < s.chunks.length)
    (htp : s.tok = some tp) (htp2 : tp.type = BUZZTOK_PAROPEN) (hfp : fetchtok s = .ok a0)
    (ht0 : a0.tok = some t0) (ht02 : t0.type ≠ BUZZTOK_BLOCKOPEN)
    (ha : parse_modulo (k + 1) a0 = .ok a1) (hta : a1.tok = some ta)
    (hta2 : ta.type = BUZZTOK_MULDIV) (ho1 : tokop ta = some o1) (ho1' : o1 = '*' ∨ o1 = '/')
    (hfa : fetchtok a1 = .ok b0)
    (hb : parse_modulo k b0 = .ok b1) (htb : b1.tok = some tb)
    (htb2 : tb.type = BUZZTOK_PARCLOSE)
    (hfb : fetchtok (chunk_append b1 (muldiv_instr o1)) = .ok d0)
    (htd : d0.tok = some td) (htd2 : td.type = BUZZTOK_MULDIV) (ho2 : tokop td = some o2)
    (ho2' : o2 = '*' ∨ o2 = '/') (hfd : fetchtok d0 = .ok c0)
    (hc : parse_modulo (k + 5) c0 = .ok c1) (htc : c1.tok = some tc)
    (htc2 : tc.type ≠ BUZZTOK_MULDIV) :
    parse_product (k + 7) s = .ok (chunk_append c1 (muldiv_instr o2)) ∧
    emitted s (chunk_append c1 (muldiv_instr o2)) =
      emitted a0 a1 ++ emitted b0 b1 ++ muldiv_instr o1 ++ emitted c0 c1 ++ muldiv_instr o2 := by
  constructor
  · cases k with
    | zero => rw [parse_modulo] at hb; cases hb
    | succ m =>
      have htb' : (chunk_append b1 (muldiv_instr o1)).tok = some tb := htb
      have htc' : (chunk_append c1 (muldiv_instr o2)).tok = some tc := htc
      rw [parse_product, parse_modulo, parse_power, parse_operand]
      simp only [curtok_of_tok htp, bind_ok_step, htp2, reduceCtorEq, if_false, if_true, hfp]
      rw [parse_expression]
      simp only [curtok_of_tok ht0, bind_ok_step, ht02, if_false]
      rw [parse_product]
      simp only [bind_ok_step, ha]
      rw [parse_product_loop]
      simp only [curtok_of_tok hta, bind_ok_step, hta2, if_true, hfa, hb, ho1,
        muldiv_step _ _ ho1']
      rw [parse_product_loop]
      simp only [curtok_of_tok htb', bind_ok_step, htb2, reduceCtorEq, if_false]
      rw [parse_expression_loop]
      simp only [curtok_of_tok htb', bind_ok_step, htb2, reduceCtorEq, if_false,
        tokmatch_of_tok htb' htb2, hfb]
      rw [parse_powerrest]
      simp only [curtok_of_tok htd, bind_ok_step, htd2, reduceCtorEq, if_false]
      rw [parse_modulo_loop]
      simp only [curtok_of_tok htd, bind_ok_step, htd2, reduceCtorEq, if_false]
      rw [parse_product_loop]
      simp only [curtok_of_tok htd, bind_ok_step, htd2, if_true, hfd, hc, ho2,
        muldiv_step _ _ ho2']
      rw [parse_product_loop]
      simp only [curtok_of_tok htc', bind_ok_step, htc2, if_false]
  · have ea := reach_ext ((rules_reach _).modulo _ _ ha)
    have eb := reach_ext ((rules_reach _).modulo _ _ hb)
    have ec := reach_ext ((rules_reach _).modulo _ _ hc)
    obtain ⟨fp1, fp2⟩ := fetchtok_same hfp
    obtain ⟨fa1, fa2⟩ := fetchtok_same hfa
    obtain ⟨fb1, fb2⟩ := fetchtok_same hfb
    obtain ⟨fd1, fd2⟩ := fetchtok_same hfd
    have e0 : Ext s a1 := (ext_of_eq fp2 fp1).trans ea
    have y0 : emitted s a1 = emitted a0 a1 := (emitted_congr a1 fp1 fp2).symm
    obtain ⟨x1, y1⟩ := emitted_seg e0 fa1 fa2 eb hv
    have x1' := x1.trans (ext_append b1 (muldiv_instr o1))
    obtain ⟨x2, y2⟩ := emitted_seg x1' (by rw [fd1, fb1]) (by rw [fd2, fb2]) ec hv
    rw [emitted_append_right _ x2 hv, y2, emitted_append_right _ x1 hv, y1, y0]

theorem c20_mod (k : Nat) (s a1 b0 b1 c0 c1 : buzzparser_s) (ta tb tc : buzztok_s)
    (hv : s.chunk < s.chunks.length)
    (ha : parse_power (k + 2) s = .ok a1) (hta : a1.tok = some ta)
    (hta2 : ta.type = BUZZTOK_MOD) (hfa : fetchtok a1 = .ok b0)
    (hb : parse_power (k + 1) b0 = .ok b1) (htb : b1.tok = some tb)
    (htb2 : tb.type = BUZZTOK_MOD)
    (hfb : fetchtok (chunk_append b1 "\tmod\n".toList) = .ok c0)
    (hc : parse_power k c0 = .ok c1) (htc : c1.tok = some tc)
    (htc2 : tc.type ≠ BUZZTOK_MOD) :
    parse_modulo (k + 3) s = .ok (chunk_append c1 "\tmod\n".toList) ∧
    emitted s (chunk_append c1 "\tmod\n".toList) =
      emitted s a1 ++ emitted b0 b1 ++ "\tmod\n".toList ++ emitted c0 c1 ++ "\tmod\n".toList := by
  constructor
  · cases k with
    | zero => rw [parse_power] at hc; cases hc
    | succ m =>
      have htb' : (chunk_append b1 "\tmod\n".toList).tok = some tb := htb
      have htc' : (chunk_append c1 "\tmod\n".toList).tok = some tc := htc
      rw [parse_modulo]
      simp only [bind_ok_step, ha]
      rw [parse_modulo_loop]
      simp only [curtok_of_tok hta, bind_ok_step, hta2, if_true, hfa, hb]
      rw [parse_modulo_loop]
      simp only [curtok_of_tok htb', bind_ok_step, htb2, if_true, hfb, hc]
      rw [parse_modulo_loop]
      simp only [curtok_of_tok htc', bind_ok_step, htc2, if_false]
  · have ea := reach_ext ((rules_reach _).power _ _ ha)
    have eb := reach_ext ((rules_reach _).power _ _ hb)
    have ec := reach_ext ((rules_reach _).power _ _ hc)
    obtain ⟨fa1, fa2⟩ := fetchtok_same hfa
    obtain ⟨fb1, fb2⟩ := fetchtok_same hfb
    obtain ⟨x1, y1⟩ := emitted_seg ea fa1 fa2 eb hv
    have x1' := x1.trans (ext_append b1 "\tmod\n".toList)
    obtain ⟨x2, y2⟩ := emitted_seg x1' fb1 fb2 ec hv
    rw [emitted_append_right _ x2 hv, y2, emitted_append_right _ x1 hv, y1]

theorem c20_mod_paren (k : Nat) (s a0 a1 b0 b1 d0 c0 c1 : buzzparser_s)
    (tp t0 ta tb td tc : buzztok_s) (hv : s.chunk < s.chunks.length)
    (htp : s.tok = some tp) (htp2 : tp.type = BUZZTOK_PAROPEN) (hfp : fetchtok s = .ok a0)
    (ht0 : a0.tok = some t0) (ht02 : t0.type ≠ BUZZTOK_BLOCKOPEN)
    (ha : parse_power (k + 1) a0 = .ok a1) (hta : a1.tok = some ta)
    (hta2 : ta.type = BUZZTOK_MOD) (hfa : fetchtok a1 = .ok b0)
    (hb : parse_power k b0 = .ok b1) (htb : b1.tok = some tb)
    (htb2 : tb.type = BUZZTOK_PARCLOSE)
    (hfb : fetchtok (chunk_append b1 "\tmod\n".toList) = .ok d0)
    (htd : d0.tok = some td) (htd2 : td.type = BUZZTOK_MOD) (hfd : fetchtok d0 = .ok c0)
    (hc : parse_power (k + 5) c0 = .ok c1) (htc : c1.tok = some tc)
    (htc2 : tc.type ≠ BUZZTOK_MOD) :
    parse_modulo (k + 7) s = .ok (chunk_append c1 "\tmod\n".toList) ∧
    emitted s (chunk_append c1 "\tmod\n".toList) =
      emitted a0 a1 ++ emitted b0 b1 ++ "\tmod\n".toList ++ emitted c0 c1 ++ "\tmod\n".toList := by
  constructor
  · cases k with
    | zero => rw [parse_power] at hb; cases hb
    | succ m =>
      have htb' : (chunk_append b1 "\tmod\n".toList).tok = some tb := htb
      have htc' : (chunk_append c1 "\tmod\n".toList).tok = some tc := htc
      rw [parse_modulo, parse_power, parse_operand]
      simp only [curtok_of_tok htp, bind_ok_step, htp2, reduceCtorEq, if_false, if_true, hfp]
      rw [parse_expression]
      simp only [curtok_of_tok ht0, bind_ok_step, ht02, if_false]
      rw [parse_product, parse_modulo]
      simp only [bind_ok_step, ha]
      rw [parse_modulo_loop]
      simp only [curtok_of_tok hta, bind_ok_step, hta2, if_true, hfa, hb]
      rw [parse_modulo_loop]
      simp only [curtok_of_tok htb', bind_ok_step, htb2, reduceCtorEq, if_false]
      rw [parse_product_loop]
      simp only [curtok_of_tok htb', bind_ok_step, htb2, reduceCtorEq, if_false]
      rw [parse_expression_loop]
      simp only [curtok_of_tok htb', bind_ok_step, htb2, reduceCtorEq, if_false,
        tokmatch_of_tok htb' htb2, hfb]
      rw [parse_powerrest]
      simp only [curtok_of_tok htd, bind_ok_step, htd2, reduceCtorEq, if_false]
      rw [parse_modulo_loop]
      simp only [curtok_of_tok htd, bind_ok_step, htd2, if_true, hfd, hc]
      rw [parse_modulo_loop]
      simp only [curtok_of_tok htc', bind_ok_step, htc2, if_false]
  · have ea := reach_ext ((rules_reach _).power _ _ ha)
    have eb := reach_ext ((rules_reach _).power _ _ hb)
    have ec := reach_ext ((rules_reach _).power _ _ hc)
    obtain ⟨fp1, fp2⟩ := fetchtok_same hfp
    obtain ⟨fa1, fa2⟩ := fetchtok_same hfa
    obtain ⟨fb1, fb2⟩ := fetchtok_same hfb
    obtain ⟨fd1, fd2⟩ := fetchtok_same hfd
    have e0 : Ext s a1 := (ext_of_eq fp2 fp1).trans ea
    have y0 : emitted s a1 = emitted a0 a1 := (emitted_congr a1 fp1 fp2).symm
    obtain ⟨x1, y1⟩ := emitted_seg e0 fa1 fa2 eb hv
    have x1' := x1.trans (ext_append b1 "\tmod\n".toList)
    obtain ⟨x2, y2⟩ := emitted_seg x1' (by rw [fd1, fb1]) (by rw [fd2, fb2]) ec hv
    rw [emitted_append_right _ x2 hv, y2, emitted_append_right _ x1 hv, y1, y0]

theorem foldl_append_retok (txt : List cstr) (p : buzzparser_s) (t : Option buzztok_s)
    (l : List buzztok_s) :
    { txt.foldl chunk_append p with tok := t, lex := l } =
      txt.foldl chunk_append { p with tok := t, lex := l } := by
  induction txt generalizing p with
  | nil => rfl
  | cons x xs ih =>
    simp only [List.foldl_cons]
    rw [ih]
    rfl

theorem foldl_append_tok (txt : List cstr) (p : buzzparser_s) :
    (txt.foldl chunk_append p).tok = p.tok ∧ (txt.foldl chunk_append p).lex = p.lex ∧
    (txt.foldl chunk_append p).chunk = p.chunk ∧
    (txt.foldl chunk_append p).chunks.length = p.chunks.length := by
  induction txt generalizing p with
  | nil => exact ⟨rfl, rfl, rfl, rfl⟩
  | cons x xs ih =>
    simp only [List.foldl_cons]
    obtain ⟨a, b, c, d⟩ := ih (chunk_append p x)
    exact ⟨a, b, c, by rw [d]; simp [chunk_append]⟩

theorem ex_at_tok (t : buzztok_s) (rest : List buzztok_s) (txt : List cstr) :
    (ex_at (t :: rest) txt).tok = some t := (foldl_append_tok txt _).1

theorem ex_at_valid (toks : List buzztok_s) (txt : List cstr) :
    (ex_at toks txt).chunk < (ex_at toks txt).chunks.length := by
  obtain ⟨_, _, c, d⟩ := foldl_append_tok txt
    ⟨toks.tail, toks.head?, [[]], [chunk_new 0 none], 0, 1⟩
  unfold ex_at
  rw [c, d]
  simp

theorem ex_fetch (t1 t2 : buzztok_s) (rest : List buzztok_s) (txt : List cstr) :
    fetchtok (ex_at (t1 :: t2 :: rest) txt) = .ok (ex_at (t2 :: rest) txt) := by
  obtain ⟨a, b, _, _⟩ := foldl_append_tok txt
    ⟨(t1 :: t2 :: rest).tail, (t1 :: t2 :: rest).head?, [[]], [chunk_new 0 none], 0, 1⟩
  unfold fetchtok
  unfold ex_at
  rw [b]
  simp only [List.tail_cons, List.head?_cons]
  rw [foldl_append_retok]

theorem ex_append (toks : List buzztok_s) (txt : List cstr) (x : cstr) :
    chunk_append (ex_at toks txt) x = ex_at toks (txt ++ [x]) := by
  simp [ex_at, List.foldl_append]

theorem ex_operand (n : Nat) (v : String) (t : buzztok_s) (rest : List buzztok_s)
    (txt : List cstr) (hv : '.' ∉ v.toList) :
    parse_operand (n + 1) (ex_at (ex_const v :: t :: rest) txt) =
      .ok (ex_at (t :: rest) (txt ++ ["\tpushi ".toList ++ v.toList ++ "\n".toList])) := by
  rw [parse_operand]
  simp only [curtok_of_tok (ex_at_tok _ _ _), bind_ok_step, ex_const, reduceCtorEq, if_false,
    if_true, tokval, Option.getD_some, hv]
  rw [ex_append]
  exact ex_fetch _ _ _ _

theorem ex_power (n : Nat) (v : String) (t : buzztok_s) (rest : List buzztok_s)
    (txt : List cstr) (hv : '.' ∉ v.toList) (h1 : t.type ≠ BUZZTOK_POW) :
    parse_power (n + 2) (ex_at (ex_const v :: t :: rest) txt) =
      .ok (ex_at (t :: rest) (txt ++ ["\tpushi ".toList ++ v.toList ++ "\n".toList])) := by
  rw [parse_power]
  simp only [ex_operand n v t rest txt hv, bind_ok_step]
  rw [parse_powerrest]
  simp only [curtok_of_tok (ex_at_tok _ _ _), bind_ok_step, h1, if_false]

theorem ex_modulo (n : Nat) (v : String) (t : buzztok_s) (rest : List buzztok_s)
    (txt : List cstr) (hv : '.' ∉ v.toList) (h1 : t.type ≠ BUZZTOK_POW)
    (h2 : t.type ≠ BUZZTOK_MOD) :
    parse_modulo (n + 3) (ex_at (ex_const v :: t :: rest) txt) =
      .ok (ex_at (t :: rest) (txt ++ ["\tpushi ".toList ++ v.toList ++ "\n".toList])) := by
  rw [parse_modulo]
  simp only [ex_power n v t rest txt hv h1, bind_ok_step]
  rw [parse_modulo_loop]
  simp only [curtok_of_tok (ex_at_tok _ _ _), bind_ok_step, h2, if_false]

theorem ex_product (n : Nat) (v : String) (t : buzztok_s) (rest : List buzztok_s)
    (txt : List cstr) (hv : '.' ∉ v.toList) (h1 : t.type ≠ BUZZTOK_POW)
    (h2 : t.type ≠ BUZZTOK_MOD) (h3 : t.type ≠ BUZZTOK_MULDIV) :
    parse_product (n + 4) (ex_at (ex_const v :: t :: rest) txt) =
      .ok (ex_at (t :: rest) (txt ++ ["\tpushi ".toList ++ v.toList ++ "\n".toList])) := by
  rw [parse_product]
  simp only [ex_modulo n v t rest txt hv h1 h2, bind_ok_step]
  rw [parse_product_loop]
  simp only [curtok_of_tok (ex_at_tok _ _ _), bind_ok_step, h3, if_false]

/-! ## Invariants of the scope stack and the tokens of a reference -/

theorem fetchtok_symstack {p q : buzzparser_s} (h : fetchtok p = .ok q) :
    q.symstack = p.symstack := by
  obtain ⟨t, r, e1, e2⟩ := fetchtok_eq_ok h
  subst e2
  rfl

theorem buzzdict_set_mem {dt : buzzdict_t} {key : cstr} {data : sym_s} {e : cstr × sym_s}
    (h : e ∈ buzzdict_set dt key data) : e ∈ dt ∨ e = (key, data) := by
  unfold buzzdict_set at h
  split at h
  · obtain ⟨a, ha, rfl⟩ := List.mem_map.1 h
    by_cases hk : a.1 = key
    · simp [hk]
    · simp [hk, ha]
  · rcases List.mem_append.1 h with h | h
    · exact Or.inl h
    · exact Or.inr (by simpa using h)

theorem foldl_remove_mem (dl : List cstr) {dt : buzzdict_t} {e : cstr × sym_s}
    (h : e ∈ dl.foldl buzzdict_remove dt) : e ∈ dt := by
  induction dl generalizing dt with
  | nil => exact h
  | cons k dl ih =>
    have := ih h
    unfold buzzdict_remove at this
    exact (List.mem_filter.1 this).1

/-- The invariants of the scope stack that the four operations on it keep are
kept from the entry to the exit of every sequence of elementary steps. -/
theorem reach_symstack (I : List buzzdict_t → Prop)
    (hadd : ∀ p x, I p.symstack → I (sym_add p x).symstack)
    (hclean : ∀ p k, I p.symstack → I (block_cleanup p k).symstack)
    (hpush : ∀ s, I s → I ([] :: s)) (hpop : ∀ s, I s → I s.tail)
    {p q : buzzparser_s} (h : Reach p q) : I p.symstack → I q.symstack := by
  induction h with
  | refl p => exact id
  | trans _ _ ih1 ih2 => exact fun h => ih2 (ih1 h)
  | fetch hf => rw [fetchtok_symstack hf]; exact id
  | next p => exact id
  | bind p t _ => exact hadd p _
  | cleanup _ ih => exact fun h => hclean _ _ (ih h)
  | plain p txt _ => exact id
  | tokfmt t txt _ _ _ _ ih => exact ih
  | signed t1 t2 txt _ _ hf _ _ _ => rw [← fetchtok_symstack hf]; exact id
  | symt _ ih => exact fun h => hpop _ (ih (hpush _ h))
  | func t sym hf _ _ ih =>
    intro h
    rw [← fetchtok_symstack hf] at h
    exact ih (hadd _ _ h)
  | lam hf _ ih =>
    intro h
    rw [← fetchtok_symstack hf] at h
    exact ih h
  | @lambda p a q hf _ ih =>
    intro h
    have e : a.symstack = p.symstack := (fetchtok_symstack hf).trans rfl
    exact ih (show I a.symstack from e ▸ h)
  | if_then hf _ _ ih1 ih2 =>
    intro h
    exact ih2 (ih1 (by rw [fetchtok_symstack hf]; exact h))
  | if_else hf _ _ _ ih1 ih2 ih3 =>
    intro h
    exact ih3 (ih2 (ih1 (by rw [fetchtok_symstack hf]; exact h)))

theorem globalok_add (p : buzzparser_s) (x : cstr) (h : GlobalOK p.symstack) :
    GlobalOK (sym_add p x).symstack := by
  unfold sym_add
  split
  · exact h
  · rename_i syms rest hs
    rw [hs] at h
    cases rest with
    | nil =>
      intro e he
      rcases buzzdict_set_mem he with he | rfl
      · exact h e he
      · simp [hs]
    | cons r rest =>
      refine ⟨fun e he => ?_, h.2⟩
      rcases buzzdict_set_mem he with he | rfl
      · exact h.1 e he
      · simp [hs]

theorem globalok_clean (p : buzzparser_s) (k : Nat) (h : GlobalOK p.symstack) :
    GlobalOK (block_cleanup p k).symstack := by
  unfold block_cleanup
  split
  · exact h
  · rename_i syms rest hs
    rw [hs] at h
    cases rest with
    | nil => exact fun e he => h e (foldl_remove_mem _ he)
    | cons r rest => exact ⟨fun e he => h.1 e (foldl_remove_mem _ he), h.2⟩

theorem globalok_push (s : List buzzdict_t) (h : GlobalOK s) : GlobalOK ([] :: s) := by
  cases s with
  | nil => intro e he; cases he
  | cons t r => exact ⟨fun e he => (by cases he), h⟩

theorem globalok_pop (s : List buzzdict_t) (h : GlobalOK s) : GlobalOK s.tail := by
  cases s with
  | nil => exact h
  | cons t r =>
    cases r with
    | nil => trivial
    | cons r rest => exact h.2

theorem reach_globalok {p q : buzzparser_s} (h : Reach p q) :
    GlobalOK p.symstack → GlobalOK q.symstack :=
  reach_symstack GlobalOK globalok_add globalok_clean globalok_push globalok_pop h

theorem allrules_mono {P Q : buzzparser_s → buzzparser_s → Prop} (hPQ : ∀ p q, P p q → Q p q)
    {n : Nat} (h : AllRules P n) : AllRules Q n :=
  ⟨fun p q e => hPQ _ _ (h.statlist p q e), fun p q e => hPQ _ _ (h.statlist_loop p q e),
   fun p q e => hPQ _ _ (h.stat p q e), fun p q e => hPQ _ _ (h.block p q e),
   fun p q e => hPQ _ _ (h.func p q e), fun p q e => hPQ _ _ (h.cond_if p q e),
   fun p q e => hPQ _ _ (h.if_newlines p q e), fun p q e => hPQ _ _ (h.for_loop p q e),
   fun p q e => hPQ _ _ (h.while_loop p q e), fun p q k e => hPQ _ _ (h.conditionlist p q k e),
   fun p m q k e => hPQ _ _ (h.conditionlist_loop p m q k e),
   fun p q e => hPQ _ _ (h.condition p q e), fun p q e => hPQ _ _ (h.condition_loop p q e),
   fun p q e => hPQ _ _ (h.comparison p q e), fun p q e => hPQ _ _ (h.expression p q e),
   fun p q e => hPQ _ _ (h.expression_loop p q e), fun p q e => hPQ _ _ (h.product p q e),
   fun p q e => hPQ _ _ (h.product_loop p q e), fun p q e => hPQ _ _ (h.modulo p q e),
   fun p q e => hPQ _ _ (h.modulo_loop p q e), fun p q e => hPQ _ _ (h.power p q e),
   fun p q e => hPQ _ _ (h.powerrest p q e), fun p q e => hPQ _ _ (h.operand p q e),
   fun p q e => hPQ _ _ (h.command p q e), fun p q e => hPQ _ _ (h.idlist p q e),
   fun p q e => hPQ _ _ (h.idlist_loop p q e), fun p lv q i e => hPQ _ _ (h.idref p lv q i e),
   fun p s i q j e => hPQ _ _ (h.idref_loop p s i q j e), fun p q e => hPQ _ _ (h.lambda p q e)⟩

theorem script_globalok (n : Nat) (p q : buzzparser_s) (hp : GlobalOK p.symstack)
    (h : parse_script n p = .ok q) : GlobalOK q.symstack := by
  unfold parse_script at h
  simp only [] at h
  split at h
  · cases h
  · obtain ⟨a, ha, hq⟩ := bind_eq_ok.1 h
    cases hq
    exact @reach_globalok _ a ((rules_reach n).statlist _ a ha) (globalok_push _ hp)

theorem sym_add_flag (p : buzzparser_s) (x : cstr) (h : p.symstack ≠ []) :
    ∃ s, sym_lookup x (sym_add p x).symstack = some s ∧
      (s.global = true ↔ p.symstack.length = 1) := by
  unfold sym_add
  split
  · rename_i hs
    exact absurd hs h
  · rename_i syms rest hs
    refine ⟨⟨buzzdict_size syms, TYPE_BASIC, decide (p.symstack.length = 1)⟩, ?_, by simp⟩
    simp only [sym_lookup]
    rw [buzzdict_get_set_self]

theorem c15_run : parse_statlist 16 c15_state = .ok c15_final := by
  simp only [c15_state, c15_final, chunk_append]
  repeat
    (first
      | rw [parse_statlist] | rw [parse_statlist_loop] | rw [parse_stat] | rw [parse_block]
      | rw [parse_fun] | rw [parse_if] | rw [parse_if_newlines] | rw [parse_for]
      | rw [parse_while] | rw [parse_conditionlist] | rw [parse_conditionlist_loop]
      | rw [parse_condition] | rw [parse_condition_loop] | rw [parse_comparison]
      | rw [parse_expression] | rw [parse_expression_loop] | rw [parse_product]
      | rw [parse_product_loop] | rw [parse_modulo] | rw [parse_modulo_loop] | rw [parse_power]
      | rw [parse_powerrest] | rw [parse_operand] | rw [parse_command] | rw [parse_idlist]
      | rw [parse_idlist_loop] | rw [parse_idref] | rw [parse_idref_loop] | rw [parse_lambda])
    try simp [-presult_bind_ok, bind_ok_step, tokval, tokop, sym_add, sym_lookup, buzzdict_get, buzzdict_set, buzzdict_size,
      cur_syms, symt_push, symt_pop, chunk_push, chunk_pop, idref_flush, load_text,
      block_cleanup, buzzparser_symtodel, buzzdict_remove, TYPE_BASIC, TYPE_CLOSURE, TYPE_TABLE]
  all_goals rfl

theorem buzzdict_get_none {syms : buzzdict_t} {x : cstr} (h : buzzdict_get syms x = none) :
    x ∉ syms.map Prod.fst := by
  unfold buzzdict_get at h
  simp only [Option.map_eq_none', List.find?_eq_none, decide_eq_true_eq] at h
  intro hm
  obtain ⟨e, he, rfl⟩ := List.mem_map.1 hm
  exact h e he rfl

theorem sym_add_new (p : buzzparser_s) (x : cstr) (syms : buzzdict_t) (rest : List buzzdict_t)
    (hs : p.symstack = syms :: rest) (hx : buzzdict_get syms x = none) :
    (sym_add p x).symstack =
      (syms ++ [(x, ⟨buzzdict_size syms, TYPE_BASIC, decide (rest = [])⟩)]) :: rest := by
  unfold sym_add
  split
  · rename_i h
    rw [hs] at h
    cases h
  · rename_i s r h
    rw [hs] at h
    cases h
    simp only [buzzdict_set_new _ _ _ hx, hs, length_one_iff]

theorem wellnumbered_lt {syms : buzzdict_t} (h : WellNumbered syms) :
    ∀ e ∈ syms, e.2.pos < buzzdict_size syms := by
  intro e he
  have : e.2.pos ∈ syms.map (fun e => e.2.pos) := List.mem_map.2 ⟨e, he, rfl⟩
  rw [h.1] at this
  exact List.mem_range.1 this

theorem wellnumbered_add {syms : buzzdict_t} {x : cstr} (h : WellNumbered syms)
    (hx : x ∉ syms.map Prod.fst) (ty : Int) (g : Bool) :
    WellNumbered (syms ++ [(x, ⟨buzzdict_size syms, ty, g⟩)]) := by
  refine ⟨?_, ?_⟩
  · simp only [List.map_append, List.map_cons, List.map_nil, h.1, List.length_append,
      List.length_singleton, List.range_succ, buzzdict_size]
  · simp only [List.map_append, List.map_cons, List.map_nil]
    exact List.Nodup.append h.2 (List.nodup_singleton _) (by simpa using hx)

theorem symtodel_foldl (k : Nat) (syms : buzzdict_t) (acc : List cstr) :
    syms.foldl (buzzparser_symtodel k) acc =
      acc ++ (syms.filter (fun e => decide (e.2.pos ≥ k))).map Prod.fst := by
  induction syms generalizing acc with
  | nil => simp
  | cons e t ih =>
    rw [List.foldl_cons, ih]
    unfold buzzparser_symtodel
    by_cases he : e.2.pos ≥ k
    · simp [he, List.filter_cons]
    · simp [he, List.filter_cons]

theorem remove_foldl (dl : List cstr) (syms : buzzdict_t) :
    dl.foldl buzzdict_remove syms = syms.filter (fun e => decide (e.1 ∉ dl)) := by
  induction dl generalizing syms with
  | nil => simp
  | cons k dl ih =>
    rw [List.foldl_cons, ih]
    unfold buzzdict_remove
    rw [List.filter_filter]
    apply List.filter_congr
    intro e _
    by_cases h1 : e.1 = k <;> by_cases h2 : e.1 ∈ dl <;> simp [h1, h2]

theorem filter_range (k : Nat) (syms : buzzdict_t) (s : Nat)
    (h : syms.map (fun e => e.2.pos) = List.range' s syms.length) :
    syms.filter (fun e => decide (e.2.pos < k)) = syms.take (k - s) := by
  induction syms generalizing s with
  | nil => simp
  | cons e t ih =>
    simp only [List.map_cons, List.length_cons, List.range'_succ, List.cons.injEq] at h
    have iht := ih (s + 1) h.2
    by_cases hk : e.2.pos < k
    · rw [List.filter_cons_of_pos (by simpa using hk), iht]
      have : k - s = (k - (s + 1)) + 1 := by omega
      rw [this, List.take_succ_cons]
    · rw [List.filter_cons_of_neg (by simpa using hk), iht]
      have : k - s = 0 := by omega
      have h2 : k - (s + 1) = 0 := by omega
      rw [this, h2, List.take_zero, List.take_zero]

theorem cleanup_take (syms : buzzdict_t) (k : Nat) (h : WellNumbered syms) :
    (syms.foldl (buzzparser_symtodel k) []).foldl buzzdict_remove syms = syms.take k := by
  rw [symtodel_foldl, remove_foldl, List.nil_append]
  have e1 : syms.filter (fun e => decide (e.1 ∉
      (syms.filter (fun e => decide (e.2.pos ≥ k))).map Prod.fst)) =
      syms.filter (fun e => decide (e.2.pos < k)) := by
    apply List.filter_congr
    intro e he
    by_cases hk : e.2.pos < k
    · have : e.1 ∉ (syms.filter (fun e => decide (e.2.pos ≥ k))).map Prod.fst := by
        intro hm
        obtain ⟨e2, he2, hkey⟩ := List.mem_map.1 hm
        have hm2 := List.mem_filter.1 he2
        have := List.inj_on_of_nodup_map h.2 hm2.1 he hkey
        subst this
        have := hm2.2
        simp only [ge_iff_le, decide_eq_true_eq] at this
        omega
      simp [this, hk]
    · have : e.1 ∈ (syms.filter (fun e => decide (e.2.pos ≥ k))).map Prod.fst :=
        List.mem_map.2 ⟨e, List.mem_filter.2 ⟨he, by simpa using hk⟩, rfl⟩
      simp [this, hk]
  rw [e1, filter_range k syms 0 (by rw [h.1, List.range_eq_range'])]
  rfl

theorem wellnumbered_take {syms : buzzdict_t} (h : WellNumbered syms) (k : Nat) :
    WellNumbered (syms.take k) := by
  refine ⟨?_, ?_⟩
  · rw [List.map_take, h.1, List.length_take, List.take_range]
  · rw [List.map_take]
    exact List.Nodup.sublist (List.take_sublist _ _) h.2

theorem block_cleanup_take (p : buzzparser_s) (k : Nat) (syms : buzzdict_t)
    (rest : List buzzdict_t) (hs : p.symstack = syms :: rest) (h : WellNumbered syms) :
    (block_cleanup p k).symstack = syms.take k :: rest := by
  unfold block_cleanup
  split
  · rename_i h0
    rw [hs] at h0
    cases h0
  · rename_i s r h0
    rw [hs] at h0
    cases h0
    simp only [cleanup_take _ k h]

theorem c15_bind : parse_idref 1 c15_block true = .ok (c15_bound, ⟨0, true⟩) := by
  simp only [c15_block, c15_bound]
  repeat
    (first
      | rw [parse_statlist] | rw [parse_statlist_loop] | rw [parse_stat] | rw [parse_block]
      | rw [parse_fun] | rw [parse_if] | rw [parse_if_newlines] | rw [parse_for]
      | rw [parse_while] | rw [parse_conditionlist] | rw [parse_conditionlist_loop]
      | rw [parse_condition] | rw [parse_condition_loop] | rw [parse_comparison]
      | rw [parse_expression] | rw [parse_expression_loop] | rw [parse_product]
      | rw [parse_product_loop] | rw [parse_modulo] | rw [parse_modulo_loop] | rw [parse_power]
      | rw [parse_powerrest] | rw [parse_operand] | rw [parse_command] | rw [parse_idlist]
      | rw [parse_idlist_loop] | rw [parse_idref] | rw [parse_idref_loop] | rw [parse_lambda])
    try simp [-presult_bind_ok, bind_ok_step, tokval, tokop, sym_add, sym_lookup, buzzdict_get, buzzdict_set, buzzdict_size,
      cur_syms, symt_push, symt_pop, chunk_push, chunk_pop, idref_flush, load_text,
      block_cleanup, buzzparser_symtodel, buzzdict_remove, TYPE_BASIC, TYPE_CLOSURE, TYPE_TABLE]

theorem c15_text : text_at c15_final.chunks 0 =
    "\tpushi 1\n\tjumpz @__label_1\n\tpushi 1\n\tgstore 0\n@__label_1\n\tpushi 2\n\tgstore 0\n".toList := by
  decide

theorem toks_fetch_eq {p q : buzzparser_s} (h : fetchtok p = .ok q) :
    toks p = p.tok.toList ++ toks q := by
  obtain ⟨t, r, e1, e2⟩ := fetchtok_eq_ok h
  subst e2
  simp [toks, e1]

theorem toks_fetch_cons {p q : buzzparser_s} {t : buzztok_s} (h : fetchtok p = .ok q)
    (ht : p.tok = some t) : toks p = t :: toks q := by
  rw [toks_fetch_eq h, ht]
  rfl

theorem toks_sym_add (p : buzzparser_s) (x : cstr) : toks (sym_add p x) = toks p := by
  unfold toks
  rw [(sym_add_same p x).1, (sym_add_same p x).2.1]

theorem toks_block_cleanup (p : buzzparser_s) (k : Nat) : toks (block_cleanup p k) = toks p := by
  unfold toks
  rw [(block_cleanup_same p k).1, (block_cleanup_same p k).2.1]

theorem toks_idref_flush (p : buzzparser_s) (s : sym_s) (info : Int) :
    toks (idref_flush p s info) = toks p := by
  unfold idref_flush
  split
  · rfl
  · split
    · rfl
    · split <;> rfl

/-- The tokens still to be parsed at the exit of a sequence of elementary steps
are a final part of those at its entry. -/
theorem reach_toks {p q : buzzparser_s} (h : Reach p q) : ∃ pre, toks p = pre ++ toks q := by
  induction h with
  | refl p => exact ⟨[], rfl⟩
  | trans _ _ ih1 ih2 =>
    obtain ⟨a, ha⟩ := ih1
    obtain ⟨b, hb⟩ := ih2
    exact ⟨a ++ b, by rw [ha, hb, List.append_assoc]⟩
  | fetch hf => exact ⟨_, toks_fetch_eq hf⟩
  | next p =>
    refine ⟨p.tok.toList, ?_⟩
    unfold toks nexttok
    cases p.lex <;> simp
  | bind p t _ => exact ⟨[], by rw [toks_sym_add]; rfl⟩
  | cleanup _ ih =>
    obtain ⟨a, ha⟩ := ih
    exact ⟨a, by rw [toks_block_cleanup]; exact ha⟩
  | plain p txt _ => exact ⟨[], rfl⟩
  | tokfmt t txt _ _ _ _ ih => exact ih
  | signed t1 t2 txt _ _ hf _ _ _ => exact ⟨_, (toks_fetch_eq hf).trans rfl⟩
  | symt _ ih => exact ih
  | @func p a q t sym hf _ _ ih =>
    obtain ⟨x, hx⟩ := ih
    refine ⟨p.tok.toList ++ x, ?_⟩
    rw [toks_fetch_eq hf, List.append_assoc]
    congr 1
    exact (toks_sym_add _ _).symm.trans hx
  | @lam p a q hf _ ih =>
    obtain ⟨x, hx⟩ := ih
    refine ⟨p.tok.toList ++ x, ?_⟩
    rw [toks_fetch_eq hf, List.append_assoc]
    congr 1
  | @lambda p a q hf _ ih =>
    obtain ⟨x, hx⟩ := ih
    refine ⟨p.tok.toList ++ x, ?_⟩
    have e0 := toks_fetch_eq hf
    have e : toks p = p.tok.toList ++ toks a := e0
    rw [e, List.append_assoc]
    congr 1
  | @if_then p a c b hf _ _ ih1 ih2 =>
    obtain ⟨x, hx⟩ := ih1
    obtain ⟨y, hy⟩ := ih2
    refine ⟨p.tok.toList ++ (x ++ y), ?_⟩
    have e0 := toks_fetch_eq hf
    have e : toks p = p.tok.toList ++ toks a := e0
    have hy2 : toks c = y ++ toks b := hy
    rw [e, List.append_assoc, List.append_assoc, hx, hy2]
    rfl
  | @if_else p a c b e hf _ _ _ ih1 ih2 ih3 =>
    obtain ⟨x, hx⟩ := ih1
    obtain ⟨y, hy⟩ := ih2
    obtain ⟨z, hz⟩ := ih3
    refine ⟨p.tok.toList ++ (x ++ (y ++ z)), ?_⟩
    have e1 := toks_fetch_eq hf
    have e0 : toks p = p.tok.toList ++ toks a := e1
    have hy2 : toks c = y ++ toks b := hy
    have hz2 : toks b = z ++ toks e := hz
    rw [e0, List.append_assoc, List.append_assoc, List.append_assoc, hx, hy2, hz2]
    rfl

theorem last_tok_unique {pre pre2 : List buzztok_s} {tl tl2 : buzztok_s} {x : List buzztok_s}
    (h : pre ++ tl :: x = pre2 ++ tl2 :: x) : tl = tl2 := by
  have h2 : (pre ++ [tl]) ++ x = (pre2 ++ [tl2]) ++ x := by simpa using h
  have h3 := List.append_cancel_right h2
  have h4 := (List.append_inj' h3 rfl).2
  simpa using h4

/-- The loop of `parse_idref` either consumes nothing and leaves the record
alone, or consumes at least one token, and when the last token it consumed is
a closing parenthesis the record says `TYPE_CLOSURE`. -/
theorem idref_loop_last : ∀ (n : Nat) (p : buzzparser_s) (s : sym_s) (i : idrefinfo_s)
    (q : buzzparser_s) (j : idrefinfo_s), parse_idref_loop n p s i = .ok (q, j) →
    (toks q = toks p ∧ j = i) ∨
      ∃ pre tl, toks p = pre ++ tl :: toks q ∧
        (tl.type = BUZZTOK_PARCLOSE → j.info = TYPE_CLOSURE) := by
  intro n
  induction n with
  | zero =>
    intro p s i q j h
    rw [parse_idref_loop] at h
    cases h
  | succ n ih =>
    intro p s i q j h
    rw [parse_idref_loop] at h
    obtain ⟨t, ht, h⟩ := bind_eq_ok.mp h
    split at h
    · obtain ⟨⟨p1, i1⟩, h1, h⟩ := bind_eq_ok.mp h
      obtain ⟨t1, ht1, h⟩ := bind_eq_ok.mp h
      have e1 : (toks p1 = toks p ∧ i1 = i) ∨
          ∃ pre tl, toks p = pre ++ tl :: toks p1 ∧ tl.type = BUZZTOK_ID := by
        split at h1
        · obtain ⟨a1, g1, h1⟩ := bind_eq_ok.mp h1
          obtain ⟨u, hu, h1⟩ := bind_eq_ok.mp h1
          obtain ⟨t2, ht2, h1⟩ := bind_eq_ok.mp h1
          obtain ⟨a2, g2, h1⟩ := bind_eq_ok.mp h1
          cases h1
          obtain ⟨t3, ht3, hty3⟩ := tokmatch_eq_ok.mp hu
          right
          refine ⟨[t], t3, ?_, hty3⟩
          have x1 : toks (idref_flush p s i.info) = t :: toks a1 :=
            toks_fetch_cons g1 (by
              have := curtok_eq_ok.mp ht
              unfold idref_flush
              split
              · exact this
              · split
                · exact this
                · split <;> exact this)
          have x3 := toks_fetch_cons g2 (show (chunk_append a1 _).tok = some t3 from ht3)
          have x2 : toks a1 = t3 :: toks p1 := x3
          rw [← toks_idref_flush p s i.info, x1, x2]
          rfl
        · cases h1
          exact Or.inl ⟨toks_idref_flush _ _ _, rfl⟩
      -- the tokens from `p` to a state `r` reached after `p1`, ending with `tl`
      have glue : ∀ (r : buzzparser_s) (pre : List buzztok_s) (tl : buzztok_s),
          toks p1 = pre ++ tl :: toks r → ∃ pre2, toks p = pre2 ++ tl :: toks r := by
        intro r pre tl hr
        rcases e1 with ⟨e, _⟩ | ⟨pre0, tl0, e, _⟩
        · exact ⟨pre, by rw [← e, hr]⟩
        · exact ⟨pre0 ++ tl0 :: pre, by rw [e, hr]; simp⟩
      have step : ∀ (p4 : buzzparser_s) (i4 : idrefinfo_s) (pre : List buzztok_s)
          (tl : buzztok_s), toks p1 = pre ++ tl :: toks p4 →
          (tl.type = BUZZTOK_PARCLOSE → i4.info = TYPE_CLOSURE) →
          parse_idref_loop n p4 s i4 = .ok (q, j) →
          ∃ pre tl, toks p = pre ++ tl :: toks q ∧
            (tl.type = BUZZTOK_PARCLOSE → j.info = TYPE_CLOSURE) := by
        intro p4 i4 pre tl hp4 hi4 hl
        rcases ih _ _ _ _ _ hl with ⟨e, rfl⟩ | ⟨pre5, tl5, e, hj⟩
        · obtain ⟨pre2, h2⟩ := glue p4 pre tl hp4
          exact ⟨pre2, tl, by rw [h2, e], hi4⟩
        · obtain ⟨pre2, h2⟩ := glue q (pre ++ tl :: pre5) tl5 (by rw [hp4, e]; simp)
          exact ⟨pre2, tl5, h2, hj⟩
      split at h
      · obtain ⟨p2, h2, h⟩ := bind_eq_ok.mp h
        obtain ⟨p3, h3, h⟩ := bind_eq_ok.mp h
        obtain ⟨u3, hu3, h⟩ := bind_eq_ok.mp h
        obtain ⟨p4, h4, h⟩ := bind_eq_ok.mp h
        obtain ⟨t5, ht5, hty5⟩ := tokmatch_eq_ok.mp hu3
        obtain ⟨x, hx⟩ := reach_toks ((rules_reach n).expression _ _ h3)
        right
        refine step p4 _ (t1 :: x) t5 ?_ (fun hc => ?_) h
        · rw [toks_fetch_cons h2 (curtok_eq_ok.mp ht1), hx, toks_fetch_cons h4 ht5]
          rfl
        · rw [hty5] at hc
          cases hc
      · split at h
        · obtain ⟨p2, h2, h⟩ := bind_eq_ok.mp h
          obtain ⟨⟨p3, k3⟩, h3, h⟩ := bind_eq_ok.mp h
          obtain ⟨u3, hu3, h⟩ := bind_eq_ok.mp h
          obtain ⟨p4, h4, h⟩ := bind_eq_ok.mp h
          obtain ⟨t5, ht5, hty5⟩ := tokmatch_eq_ok.mp hu3
          obtain ⟨x, hx⟩ := reach_toks ((rules_reach n).conditionlist _ _ _ h3)
          right
          refine step _ _ (t1 :: x) t5 ?_ (fun _ => rfl) h
          rw [toks_fetch_cons h2 (curtok_eq_ok.mp ht1), hx, toks_fetch_cons h4 ht5]
          rfl
        · rcases ih _ _ _ _ _ h with ⟨e, rfl⟩ | ⟨pre5, tl5, e, hj⟩
          · rcases e1 with ⟨e0, rfl⟩ | ⟨pre0, tl0, e0, hid⟩
            · exact Or.inl ⟨e.trans e0, rfl⟩
            · right
              refine ⟨pre0, tl0, by rw [e0, e], fun hc => ?_⟩
              rw [hid] at hc
              cases hc
          · right
            obtain ⟨pre2, h2⟩ := glue q pre5 tl5 e
            exact ⟨pre2, tl5, h2, hj⟩
    · cases h
      exact Or.inl ⟨rfl, rfl⟩

/-- When the last token a reference in lvalue position consumed is a closing
parenthesis, the record of the reference says `TYPE_CLOSURE`. -/
theorem idref_call_last (n : Nat) (p q : buzzparser_s) (i : idrefinfo_s)
    (pre : List buzztok_s) (tl : buzztok_s) (h : parse_idref n p true = .ok (q, i))
    (hs : toks p = pre ++ tl :: toks q) (hc : tl.type = BUZZTOK_PARCLOSE) :
    i.info = TYPE_CLOSURE := by
  cases n with
  | zero =>
    rw [parse_idref] at h
    cases h
  | succ n =>
    rw [parse_idref] at h
    obtain ⟨u, hu, h⟩ := bind_eq_ok.mp h
    obtain ⟨t, ht, h⟩ := bind_eq_ok.mp h
    obtain ⟨t0, ht0, hty0⟩ := tokmatch_eq_ok.mp hu
    have htt := curtok_eq_ok.mp ht
    rw [ht0] at htt
    cases htt
    split at h
    · split at h
      · cases h
      · obtain ⟨p1, h1, h⟩ := bind_eq_ok.mp h
        cases h
        have e : toks p = t :: toks q := by
          rw [← toks_sym_add p (tokval t)]
          exact toks_fetch_cons h1 (by rw [(sym_add_same p _).2.1]; exact ht0)
        have := @last_tok_unique pre [] tl t (toks q) (hs.symm.trans e)
        rw [this, hty0] at hc
        cases hc
    · obtain ⟨p1, h1, h⟩ := bind_eq_ok.mp h
      obtain ⟨⟨p2, i2⟩, h2, h⟩ := bind_eq_ok.mp h
      simp only [Bool.true_eq_false, if_false, reduceCtorEq] at h
      cases h
      have e : toks p = t :: toks p1 := toks_fetch_cons h1 ht0
      rcases idref_loop_last _ _ _ _ _ _ h2 with ⟨e2, _⟩ | ⟨pre5, tl5, e2, hj⟩
      · have := @last_tok_unique pre [] tl t (toks q) (hs.symm.trans (e.trans (by rw [e2]; rfl)))
        rw [this, hty0] at hc
        cases hc
      · have := @last_tok_unique pre (t :: pre5) tl tl5 (toks q)
          (hs.symm.trans (e.trans (by rw [e2]; rfl)))
        exact hj (this ▸ hc)

theorem c12_ref : parse_idref 4 c12_state true = .ok (c12_after, ⟨TYPE_CLOSURE, true⟩) := by
  simp only [c12_state, c12_after, c3_syms, chunk_append]
  repeat
    (first
      | rw [parse_statlist] | rw [parse_statlist_loop] | rw [parse_stat] | rw [parse_block]
      | rw [parse_fun] | rw [parse_if] | rw [parse_if_newlines] | rw [parse_for]
      | rw [parse_while] | rw [parse_conditionlist] | rw [parse_conditionlist_loop]
      | rw [parse_condition] | rw [parse_condition_loop] | rw [parse_comparison]
      | rw [parse_expression] | rw [parse_expression_loop] | rw [parse_product]
      | rw [parse_product_loop] | rw [parse_modulo] | rw [parse_modulo_loop] | rw [parse_power]
      | rw [parse_powerrest] | rw [parse_operand] | rw [parse_command] | rw [parse_idlist]
      | rw [parse_idlist_loop] | rw [parse_idref] | rw [parse_idref_loop] | rw [parse_lambda])
    try simp [-presult_bind_ok, bind_ok_step, tokval, tokop, sym_add, sym_lookup, buzzdict_get, buzzdict_set, buzzdict_size,
      cur_syms, symt_push, symt_pop, chunk_push, chunk_pop, idref_flush, load_text,
      block_cleanup, buzzparser_symtodel, buzzdict_remove, TYPE_BASIC, TYPE_CLOSURE, TYPE_TABLE]
  all_goals rfl

theorem c12_rhs : parse_expression 8
    ⟨[], some ⟨BUZZTOK_PARCLOSE, none⟩, c3_syms, [chunk_new 0 none], 0, 1⟩ =
      .error (.expected BUZZTOK_ID BUZZTOK_PARCLOSE) := by
  simp only [c3_syms]
  repeat
    (first
      | rw [parse_statlist] | rw [parse_statlist_loop] | rw [parse_stat] | rw [parse_block]
      | rw [parse_fun] | rw [parse_if] | rw [parse_if_newlines] | rw [parse_for]
      | rw [parse_while] | rw [parse_conditionlist] | rw [parse_conditionlist_loop]
      | rw [parse_condition] | rw [parse_condition_loop] | rw [parse_comparison]
      | rw [parse_expression] | rw [parse_expression_loop] | rw [parse_product]
      | rw [parse_product_loop] | rw [parse_modulo] | rw [parse_modulo_loop] | rw [parse_power]
      | rw [parse_powerrest] | rw [parse_operand] | rw [parse_command] | rw [parse_idlist]
      | rw [parse_idlist_loop] | rw [parse_idref] | rw [parse_idref_loop] | rw [parse_lambda])
    try simp [-presult_bind_ok, bind_ok_step, tokval, tokop, sym_add, sym_lookup, buzzdict_get, buzzdict_set, buzzdict_size,
      cur_syms, symt_push, symt_pop, chunk_push, chunk_pop, idref_flush, load_text,
      block_cleanup, buzzparser_symtodel, buzzdict_remove, TYPE_BASIC, TYPE_CLOSURE, TYPE_TABLE]

/-! ## Operators, literals, lookup, the code buffer and the end of the script -/

theorem ex_expression (n : Nat) (v : String) (t : buzztok_s) (rest : List buzztok_s)
    (txt : List cstr) (hv : '.' ∉ v.toList) (h1 : t.type ≠ BUZZTOK_POW)
    (h2 : t.type ≠ BUZZTOK_MOD) (h3 : t.type ≠ BUZZTOK_MULDIV) (h4 : t.type ≠ BUZZTOK_ADDSUB) :
    parse_expression (n + 5) (ex_at (ex_const v :: t :: rest) txt) =
      .ok (ex_at (t :: rest) (txt ++ ["\tpushi ".toList ++ v.toList ++ "\n".toList])) := by
  rw [parse_expression]
  simp only [curtok_of_tok (ex_at_tok _ _ _), bind_ok_step, ex_const, reduceCtorEq, if_false]
  have := ex_product n v t rest txt hv h1 h2 h3
  simp only [ex_const] at this
  simp only [this, bind_ok_step]
  rw [parse_expression_loop]
  simp only [curtok_of_tok (ex_at_tok _ _ _), bind_ok_step, h4, if_false]

theorem ex_comparison (n : Nat) (v : String) (t : buzztok_s) (rest : List buzztok_s)
    (txt : List cstr) (hv : '.' ∉ v.toList) (h1 : t.type ≠ BUZZTOK_POW)
    (h2 : t.type ≠ BUZZTOK_MOD) (h3 : t.type ≠ BUZZTOK_MULDIV) (h4 : t.type ≠ BUZZTOK_ADDSUB)
    (h5 : t.type ≠ BUZZTOK_CMP) :
    parse_comparison (n + 6) (ex_at (ex_const v :: t :: rest) txt) =
      .ok (ex_at (t :: rest) (txt ++ ["\tpushi ".toList ++ v.toList ++ "\n".toList])) := by
  rw [parse_comparison]
  simp only [curtok_of_tok (ex_at_tok _ _ _), bind_ok_step, ex_const, reduceCtorEq, if_false]
  have := ex_expression n v t rest txt hv h1 h2 h3 h4
  simp only [ex_const] at this
  simp only [this, bind_ok_step, curtok_of_tok (ex_at_tok _ _ _), h5, if_false]

theorem c21_andor (k : Nat) (s a1 b0 b1 : buzzparser_s) (ta tb : buzztok_s)
    (hv : s.chunk < s.chunks.length)
    (ha : parse_comparison (k + 1) s = .ok a1) (hta : a1.tok = some ta)
    (hta2 : ta.type = BUZZTOK_ANDOR) (hfa : fetchtok a1 = .ok b0)
    (hb : parse_comparison k b0 = .ok b1) (htb : b1.tok = some tb)
    (htb2 : tb.type ≠ BUZZTOK_ANDOR) :
    parse_condition (k + 2) s =
      .ok (chunk_append b1 ("\t".toList ++ tokval ta ++ "\n".toList)) ∧
    emitted s (chunk_append b1 ("\t".toList ++ tokval ta ++ "\n".toList)) =
      emitted s a1 ++ emitted b0 b1 ++ ("\t".toList ++ tokval ta ++ "\n".toList) := by
  constructor
  · cases k with
    | zero => rw [parse_comparison] at hb; cases hb
    | succ m =>
      have htb' : (chunk_append b1 ("\t".toList ++ tokval ta ++ "\n".toList)).tok = some tb :=
        htb
      rw [parse_condition]
      simp only [ha, bind_ok_step]
      rw [parse_condition_loop]
      simp only [curtok_of_tok hta, bind_ok_step, hta2, if_true, hfa, hb]
      rw [parse_condition_loop]
      simp only [curtok_of_tok htb', bind_ok_step, htb2, if_false]
  · have ea := reach_ext ((rules_reach _).comparison _ _ ha)
    have eb := reach_ext ((rules_reach _).comparison _ _ hb)
    obtain ⟨fa1, fa2⟩ := fetchtok_same hfa
    obtain ⟨x1, y1⟩ := emitted_seg ea fa1 fa2 eb hv
    rw [emitted_append_right _ x1 hv, y1]

theorem c21_cmp (k : Nat) (s a1 b0 b1 : buzzparser_s) (t0 ta : buzztok_s)
    (hv : s.chunk < s.chunks.length)
    (ht0 : s.tok = some t0) (ht01 : t0.type ≠ BUZZTOK_PAROPEN) (ht02 : t0.type ≠ BUZZTOK_NOT)
    (ha : parse_expression k s = .ok a1) (hta : a1.tok = some ta)
    (hta2 : ta.type = BUZZTOK_CMP) (hfa : fetchtok a1 = .ok b0)
    (hb : parse_expression k b0 = .ok b1) :
    parse_comparison (k + 1) s =
      .ok (chunk_append b1 ("\t".toList ++ cmp_op (tokval ta) ++ "\n".toList)) ∧
    emitted s (chunk_append b1 ("\t".toList ++ cmp_op (tokval ta) ++ "\n".toList)) =
      emitted s a1 ++ emitted b0 b1 ++ ("\t".toList ++ cmp_op (tokval ta) ++ "\n".toList) := by
  constructor
  · rw [parse_comparison]
    simp only [curtok_of_tok ht0, bind_ok_step, ht01, ht02, if_false, ha, curtok_of_tok hta,
      hta2, if_true, hfa, hb]
  · have ea := reach_ext ((rules_reach _).expression _ _ ha)
    have eb := reach_ext ((rules_reach _).expression _ _ hb)
    obtain ⟨fa1, fa2⟩ := fetchtok_same hfa
    obtain ⟨x1, y1⟩ := emitted_seg ea fa1 fa2 eb hv
    rw [emitted_append_right _ x1 hv, y1]

theorem num_step (p : buzzparser_s) (sg v : cstr) :
    (if '.' ∈ v then chunk_append p ("\tpushf ".toList ++ sg ++ v ++ "\n".toList)
      else chunk_append p ("\tpushi ".toList ++ sg ++ v ++ "\n".toList)) =
      chunk_append p (num_instr sg v) := by
  unfold num_instr
  split <;> rfl

theorem num_step_nil (p : buzzparser_s) (v : cstr) :
    (if '.' ∈ v then chunk_append p ("\tpushf ".toList ++ v ++ "\n".toList)
      else chunk_append p ("\tpushi ".toList ++ v ++ "\n".toList)) =
      chunk_append p (num_instr [] v) := by
  unfold num_instr
  split <;> simp

theorem emitted_fetch_append {s a q : buzzparser_s} (txt : cstr) (h1 : a.chunks = s.chunks)
    (h2 : a.chunk = s.chunk) (hq : fetchtok (chunk_append a txt) = .ok q)
    (hv : s.chunk < s.chunks.length) : emitted s q = txt := by
  obtain ⟨f1, _⟩ := fetchtok_same hq
  rw [emitted_of_chunks f1, emitted_append_right txt (ext_of_eq h2 h1) hv,
    emitted_of_chunks h1, emitted_self]
  rfl

theorem c22_signed_literal (n : Nat) (s a q : buzzparser_s) (t t2 : buzztok_s) (sg : Char)
    (hv : s.chunk < s.chunks.length) (ht : s.tok = some t) (hty : t.type = BUZZTOK_ADDSUB)
    (hsg : tokop t = some sg) (hf : fetchtok s = .ok a) (ht2 : a.tok = some t2)
    (hty2 : t2.type = BUZZTOK_CONST)
    (hq : fetchtok (chunk_append a (num_instr [sg] (tokval t2))) = .ok q) :
    parse_operand (n + 1) s = .ok q ∧ emitted s q = num_instr [sg] (tokval t2) := by
  constructor
  · rw [parse_operand]
    simp only [curtok_of_tok ht, bind_ok_step, hty, reduceCtorEq, if_false, if_true, hf,
      curtok_of_tok ht2, hty2, hsg, Option.toList_some, num_step, hq]
  · obtain ⟨f1, f2⟩ := fetchtok_same hf
    exact emitted_fetch_append _ f1 f2 hq hv

theorem c22_minus (n : Nat) (s a b : buzzparser_s) (t t2 : buzztok_s)
    (hv : s.chunk < s.chunks.length) (ht : s.tok = some t) (hty : t.type = BUZZTOK_ADDSUB)
    (hsg : tokop t = some '-') (hf : fetchtok s = .ok a) (ht2 : a.tok = some t2)
    (hty2 : t2.type ≠ BUZZTOK_CONST) (hp : parse_power n a = .ok b) :
    parse_operand (n + 1) s = .ok (chunk_append b "\tunm\n".toList) ∧
      emitted s (chunk_append b "\tunm\n".toList) = emitted a b ++ "\tunm\n".toList := by
  obtain ⟨f1, f2⟩ := fetchtok_same hf
  have eb := reach_ext ((rules_reach _).power _ _ hp)
  have e2 : Ext s b := ext_congr f1 f2 eb
  constructor
  · rw [parse_operand]
    simp only [curtok_of_tok ht, bind_ok_step, hty, reduceCtorEq, if_false, if_true, hf,
      curtok_of_tok ht2, hty2, hsg, Option.toList_some, hp]
  · rw [emitted_append_right _ e2 hv, emitted_congr b f1 f2]

theorem c22_plus (n : Nat) (s a b : buzzparser_s) (t t2 : buzztok_s)
    (ht : s.tok = some t) (hty : t.type = BUZZTOK_ADDSUB)
    (hsg : tokop t = some '+') (hf : fetchtok s = .ok a) (ht2 : a.tok = some t2)
    (hty2 : t2.type ≠ BUZZTOK_CONST) (hp : parse_power n a = .ok b) :
    parse_operand (n + 1) s = .ok b ∧ emitted s b = emitted a b := by
  obtain ⟨f1, f2⟩ := fetchtok_same hf
  constructor
  · rw [parse_operand]
    simp only [curtok_of_tok ht, bind_ok_step, hty, reduceCtorEq, if_false, if_true, hf,
      curtok_of_tok ht2, hty2, hsg, Option.toList_some, hp]
    simp
  · rw [emitted_congr b f1 f2]

theorem c22_literal (n : Nat) (s q : buzzparser_s) (t : buzztok_s)
    (hv : s.chunk < s.chunks.length) (ht : s.tok = some t) (hty : t.type = BUZZTOK_CONST)
    (hq : fetchtok (chunk_append s (num_instr [] (tokval t))) = .ok q) :
    parse_operand (n + 1) s = .ok q ∧ emitted s q = num_instr [] (tokval t) := by
  constructor
  · rw [parse_operand]
    simp only [curtok_of_tok ht, bind_ok_step, hty, reduceCtorEq, if_false, if_true,
      num_step_nil, hq]
  · exact emitted_fetch_append _ rfl rfl hq hv

theorem c22_run_neg (txt : List cstr) :
    parse_power 3 (ex_at [ex_op BUZZTOK_ADDSUB "-", ex_const "1", ex_op BUZZTOK_STATEND ";"] txt) =
      .ok (ex_at [ex_op BUZZTOK_STATEND ";"] (txt ++ ["\tpushi -1\n".toList])) := by
  have e : chunk_append (ex_at [ex_const "1", ex_op BUZZTOK_STATEND ";"] txt)
      (num_instr ['-'] "1".toList) =
      ex_at [ex_const "1", ex_op BUZZTOK_STATEND ";"] (txt ++ ["\tpushi -1\n".toList]) := by
    rw [ex_append]
    rfl
  have h1 : parse_operand 2 (ex_at [ex_op BUZZTOK_ADDSUB "-", ex_const "1",
      ex_op BUZZTOK_STATEND ";"] txt) =
      .ok (ex_at [ex_op BUZZTOK_STATEND ";"] (txt ++ ["\tpushi -1\n".toList])) := by
    rw [parse_operand]
    simp only [curtok_of_tok (ex_at_tok _ _ _), bind_ok_step, ex_fetch]
    simp only [ex_op, ex_const, reduceCtorEq, if_false, if_true, num_step]
    have e2 := e
    simp only [ex_op, ex_const] at e2
    exact (congrArg fetchtok e2).trans (ex_fetch _ _ _ _)
  rw [parse_power]
  simp only [h1, bind_ok_step]
  rw [parse_powerrest]
  simp only [curtok_of_tok (ex_at_tok _ _ _), bind_ok_step, ex_op, reduceCtorEq, if_false]

theorem buzzdict_get_none_iff (t : buzzdict_t) (x : cstr) :
    buzzdict_get t x = none ↔ x ∉ t.map Prod.fst := by
  refine ⟨buzzdict_get_none, fun h => ?_⟩
  unfold buzzdict_get
  simp only [Option.map_eq_none', List.find?_eq_none, decide_eq_true_eq]
  intro e he hk
  exact h (List.mem_map.2 ⟨e, he, hk⟩)

theorem sym_lookup_cons_some {x : cstr} {t : buzzdict_t} {s : sym_s} (rest : List buzzdict_t)
    (h : buzzdict_get t x = some s) : sym_lookup x (t :: rest) = some s := by
  simp only [sym_lookup, h]

theorem sym_lookup_cons_none {x : cstr} {t : buzzdict_t} (rest : List buzzdict_t)
    (h : buzzdict_get t x = none) : sym_lookup x (t :: rest) = sym_lookup x rest := by
  simp only [sym_lookup, h]

theorem sym_lookup_none_iff (x : cstr) (stack : List buzzdict_t) :
    sym_lookup x stack = none ↔ ∀ t ∈ stack, buzzdict_get t x = none := by
  induction stack with
  | nil => simp [sym_lookup]
  | cons t rest ih =>
    cases h : buzzdict_get t x with
    | none =>
      rw [sym_lookup_cons_none rest h, ih]
      simp [h]
    | some s =>
      rw [sym_lookup_cons_some rest h]
      simp [h]

theorem sym_lookup_some_iff (x : cstr) (stack : List buzzdict_t) (s : sym_s) :
    sym_lookup x stack = some s ↔
      ∃ pre t post, stack = pre ++ t :: post ∧ (∀ u ∈ pre, buzzdict_get u x = none) ∧
        buzzdict_get t x = some s := by
  induction stack with
  | nil => simp [sym_lookup]
  | cons t rest ih =>
    cases h : buzzdict_get t x with
    | none =>
      rw [sym_lookup_cons_none rest h, ih]
      constructor
      · rintro ⟨pre, u, post, e, h1, h2⟩
        refine ⟨t :: pre, u, post, by rw [e]; rfl, ?_, h2⟩
        intro v hv
        rcases List.mem_cons.1 hv with rfl | hv
        · exact h
        · exact h1 v hv
      · rintro ⟨pre, u, post, e, h1, h2⟩
        cases pre with
        | nil =>
          simp only [List.nil_append, List.cons.injEq] at e
          rw [← e.1, h] at h2
          cases h2
        | cons v pre =>
          simp only [List.cons_append, List.cons.injEq] at e
          exact ⟨pre, u, post, e.2, fun w hw => h1 w (List.mem_cons_of_mem _ hw), h2⟩
    | some s2 =>
      rw [sym_lookup_cons_some rest h]
      constructor
      · intro e
        cases e
        exact ⟨[], t, rest, rfl, by simp, h⟩
      · rintro ⟨pre, u, post, e, h1, h2⟩
        cases pre with
        | nil =>
          simp only [List.nil_append, List.cons.injEq] at e
          rw [← e.1, h] at h2
          exact h2
        | cons v pre =>
          simp only [List.cons_append, List.cons.injEq] at e
          have := h1 v (List.mem_cons_self _ _)
          rw [← e.1, h] at this
          cases this

theorem chunk_grow_spec : ∀ (fuel need ccap : Nat), 0 < ccap → ccap ≤ need →
    need < ccap * 2 ^ fuel →
    ∃ k, 1 ≤ k ∧ chunk_grow fuel need ccap = ccap * 2 ^ k ∧ need < ccap * 2 ^ k ∧
      ∀ j, j < k → ccap * 2 ^ j ≤ need := by
  intro fuel
  induction fuel with
  | zero =>
    intro need ccap _ h1 h2
    simp at h2
    omega
  | succ fuel ih =>
    intro need ccap h0 h1 h2
    rw [chunk_grow]
    by_cases h : need ≥ ccap * 2
    · rw [if_pos h]
      have h3 : need < ccap * 2 * 2 ^ fuel := by
        rw [Nat.pow_succ] at h2
        calc need < ccap * (2 ^ fuel * 2) := h2
          _ = ccap * 2 * 2 ^ fuel := by ring
      obtain ⟨k, k1, k2, k3, k4⟩ := ih need (ccap * 2) (by omega) h h3
      have e : ccap * 2 * 2 ^ k = ccap * 2 ^ (k + 1) := by rw [Nat.pow_succ]; ring
      refine ⟨k + 1, by omega, by rw [k2, e], by rw [← e]; exact k3, ?_⟩
      intro j hj
      cases j with
      | zero => simpa using h1
      | succ j =>
        have := k4 j (by omega)
        calc ccap * 2 ^ (j + 1) = ccap * 2 * 2 ^ j := by rw [Nat.pow_succ]; ring
          _ ≤ need := this
    · rw [if_neg h]
      refine ⟨1, le_refl _, by simp, by simpa using Nat.lt_of_not_ge h, ?_⟩
      intro j hj
      have : j = 0 := by omega
      subst this
      simpa using h1

theorem fuel_enough (need ccap fuel : Nat) (h0 : 0 < ccap) (hf : need < fuel) :
    need < ccap * 2 ^ fuel := by
  have h1 : fuel < 2 ^ fuel := Nat.lt_two_pow fuel
  have h2 : 2 ^ fuel ≤ ccap * 2 ^ fuel := Nat.le_mul_of_pos_left _ h0
  omega

theorem least_pow_unique {ccap need k1 k2 : Nat}
    (a1 : need < ccap * 2 ^ k1) (a2 : ∀ j, j < k1 → ccap * 2 ^ j ≤ need)
    (b1 : need < ccap * 2 ^ k2) (b2 : ∀ j, j < k2 → ccap * 2 ^ j ≤ need) : k1 = k2 := by
  rcases Nat.lt_trichotomy k1 k2 with h | h | h
  · have := b2 k1 h
    omega
  · exact h
  · have := a2 k2 h
    omega

theorem chunk_addcode_spec (c : chunk_s) (txt : cstr) (h0 : 0 < c.ccap) (hw : chunk_wf c) :
    (chunk_addcode c txt).csize = c.csize + txt.length ∧
    (chunk_addcode c txt).csize < (chunk_addcode c txt).ccap ∧
    (∃ k, (chunk_addcode c txt).ccap = c.ccap * 2 ^ k ∧
      c.csize + txt.length < c.ccap * 2 ^ k ∧
      ∀ j, j < k → c.ccap * 2 ^ j ≤ c.csize + txt.length) ∧
    (chunk_addcode c txt).code.take c.csize = c.code.take c.csize ∧
    ((chunk_addcode c txt).code.drop c.csize).take txt.length = txt ∧
    (∀ fuel, c.csize + txt.length < fuel → c.ccap ≤ c.csize + txt.length →
      chunk_grow fuel (c.csize + txt.length) c.ccap = (chunk_addcode c txt).ccap) := by
  have hlen : (c.code.take c.csize).length = c.csize := by
    unfold chunk_wf at hw
    simp [hw]
  have hk : ∃ k, (chunk_addcode c txt).ccap = c.ccap * 2 ^ k ∧
      c.csize + txt.length < c.ccap * 2 ^ k ∧
      ∀ j, j < k → c.ccap * 2 ^ j ≤ c.csize + txt.length := by
    simp only [chunk_addcode]
    by_cases h : c.csize + txt.length ≥ c.ccap
    · rw [if_pos h]
      obtain ⟨k, _, k2, k3, k4⟩ := chunk_grow_spec (c.csize + txt.length + 1)
        (c.csize + txt.length) c.ccap h0 h (fuel_enough _ _ _ h0 (Nat.lt_succ_self _))
      exact ⟨k, k2, k3, k4⟩
    · rw [if_neg h]
      exact ⟨0, by simp, by simpa using Nat.lt_of_not_ge h, fun j hj => absurd hj (by omega)⟩
  obtain ⟨k, k2, k3, k4⟩ := hk
  refine ⟨rfl, ?_, ⟨k, k2, k3, k4⟩, ?_, ?_, ?_⟩
  · rw [k2]
    exact k3
  · simp only [chunk_addcode]
    exact List.take_left' hlen
  · simp only [chunk_addcode]
    rw [List.drop_left' hlen]
    exact List.take_length txt
  · intro fuel hf hge
    obtain ⟨m, _, m2, m3, m4⟩ := chunk_grow_spec fuel (c.csize + txt.length) c.ccap h0 hge
      (fuel_enough _ _ _ h0 hf)
    rw [m2, k2, least_pow_unique m3 m4 k3 k4]

theorem chunk_addcode_lt (c : chunk_s) (txt : cstr) (h : c.csize < c.ccap) :
    (chunk_addcode c txt).csize < (chunk_addcode c txt).ccap := by
  simp only [chunk_addcode]
  by_cases hge : c.csize + txt.length ≥ c.ccap
  · rw [if_pos hge]
    obtain ⟨k, _, k2, k3, _⟩ := chunk_grow_spec (c.csize + txt.length + 1)
      (c.csize + txt.length) c.ccap (by omega) hge
      (fuel_enough _ _ _ (by omega) (Nat.lt_succ_self _))
    rw [k2]
    exact k3
  · rw [if_neg hge]
    omega

theorem foldl_addcode (texts : List cstr) (c : chunk_s) (h : c.csize < c.ccap) :
    (texts.foldl chunk_addcode c).csize < (texts.foldl chunk_addcode c).ccap ∧
    chunk_text (texts.foldl chunk_addcode c) = chunk_text c ++ texts.flatten := by
  induction texts generalizing c with
  | nil => simp [h]
  | cons t ts ih =>
    obtain ⟨a, b⟩ := ih (chunk_addcode c t) (chunk_addcode_lt c t h)
    refine ⟨a, ?_⟩
    rw [List.foldl_cons, b, chunk_text_addcode, List.flatten_cons, List.append_assoc]

theorem mem_chunks_update {ch : List chunk_s} {i : Nat} {fn : chunk_s → chunk_s} {c : chunk_s}
    (h : c ∈ chunks_update ch i fn) : c ∈ ch ∨ ∃ c0 ∈ ch, c = fn c0 := by
  unfold chunks_update at h
  split at h
  · rename_i c0 h0
    have hi : i < ch.length := by
      by_contra hn
      rw [List.getElem?_eq_none (by omega)] at h0
      cases h0
    rcases List.mem_or_eq_of_mem_set h with h | h
    · exact Or.inl h
    · exact Or.inr ⟨c0, List.getElem?_mem h0, h⟩
  · exact Or.inl h

/-- A property of chunks that `chunk_new` gives and `chunk_addcode` and
`chunk_finalize` keep holds for every chunk at the exit of a sequence of
elementary steps when it holds for every chunk at its entry. -/
theorem reach_chunks (I : chunk_s → Prop) (hnew : ∀ l s, I (chunk_new l s))
    (hadd : ∀ c t, I c → I (chunk_addcode c t)) (hfin : ∀ c, I c → I (chunk_finalize c))
    {p q : buzzparser_s} (h : Reach p q) : (∀ c ∈ p.chunks, I c) → ∀ c ∈ q.chunks, I c := by
  have app : ∀ (r : buzzparser_s) (txt : cstr), (∀ c ∈ r.chunks, I c) →
      ∀ c ∈ (chunk_append r txt).chunks, I c := by
    intro r txt hr c hc
    rcases mem_chunks_update hc with hc | ⟨c0, hc0, rfl⟩
    · exact hr c hc
    · exact hadd _ _ (hr c0 hc0)
  have push : ∀ (r : buzzparser_s) (sym : Option sym_s), (∀ c ∈ r.chunks, I c) →
      ∀ c ∈ (chunk_push r sym).chunks, I c := by
    intro r sym hr c hc
    rcases List.mem_append.1 hc with hc | hc
    · exact hr c hc
    · rw [List.mem_singleton.1 hc]
      exact hnew _ _
  have pop : ∀ (r : buzzparser_s) (oldc : Nat), (∀ c ∈ r.chunks, I c) →
      ∀ c ∈ (chunk_pop r oldc).chunks, I c := by
    intro r oldc hr c hc
    rcases mem_chunks_update hc with hc | ⟨c0, hc0, rfl⟩
    · exact hr c hc
    · exact hfin _ (hr c0 hc0)
  induction h with
  | refl p => exact id
  | trans _ _ ih1 ih2 => exact fun h => ih2 (ih1 h)
  | fetch hf => rw [(fetchtok_same hf).1]; exact id
  | next p => exact id
  | bind p t _ => rw [(sym_add_same p _).2.2.2.1]; exact id
  | cleanup _ ih =>
    intro h
    rw [(block_cleanup_same _ _).2.2.2.1]
    exact ih h
  | plain p txt _ => exact app p txt
  | tokfmt t txt _ _ _ _ ih => exact fun h => app _ txt (ih h)
  | @signed p q t1 t2 txt _ _ hf _ _ _ =>
    intro h
    exact app _ txt (by rw [(fetchtok_same hf).1]; exact h)
  | symt _ ih => exact ih
  | @func p a q t sym hf _ _ ih =>
    intro h
    refine pop _ _ (ih (push _ _ ?_))
    rw [(sym_add_same a _).2.2.2.1, (fetchtok_same hf).1]
    exact h
  | @lam p a q hf _ ih =>
    intro h
    refine pop _ _ (ih (push _ _ ?_))
    rw [(fetchtok_same hf).1]
    exact h
  | @lambda p a q hf _ ih =>
    intro h
    refine pop _ _ (ih (push _ _ ?_))
    rw [(fetchtok_same hf).1]
    exact app _ _ (app _ _ h)
  | @if_then p a c b hf _ _ ih1 ih2 =>
    intro h
    refine app _ _ (ih2 (app _ _ (ih1 ?_)))
    rw [(fetchtok_same hf).1]
    exact h
  | @if_else p a c b e hf _ _ _ ih1 ih2 ih3 =>
    intro h
    refine app _ _ (ih3 (app _ _ (app _ _ (ih2 (app _ _ (ih1 ?_))))))
    rw [(fetchtok_same hf).1]
    exact h

theorem script_chunks (I : chunk_s → Prop) (hnew : ∀ l s, I (chunk_new l s))
    (hadd : ∀ c t, I c → I (chunk_addcode c t)) (hfin : ∀ c, I c → I (chunk_finalize c))
    (n : Nat) (toks : List buzztok_s) (q : buzzparser_s)
    (h : parse_script n (buzzparser_new toks) = .ok q) : ∀ c ∈ q.chunks, I c := by
  unfold parse_script at h
  simp only [] at h
  split at h
  · cases h
  · obtain ⟨a, ha, hq⟩ := bind_eq_ok.1 h
    cases hq
    have h1 := @reach_chunks I hnew hadd hfin _ a ((rules_reach n).statlist _ a ha) (by
      intro c hc
      simp only [chunk_push, nexttok, symt_push, buzzparser_new, List.nil_append,
        List.mem_singleton] at hc
      rw [hc]
      exact hnew _ _)
    intro c hc
    rcases mem_chunks_update hc with hc | ⟨c0, hc0, rfl⟩
    · rcases mem_chunks_update hc with hc | ⟨c1, hc1, rfl⟩
      · exact h1 c hc
      · exact hadd _ _ (h1 c1 hc1)
    · rcases mem_chunks_update hc0 with hc0 | ⟨c1, hc1, rfl⟩
      · exact hadd _ _ (h1 c0 hc0)
      · exact hadd _ _ (hadd _ _ (h1 c1 hc1))

theorem c26_run : parse_statlist 16 c26_state = .ok c26_final := by
  simp only [c26_state, c26_final, chunk_append]
  repeat
    (first
      | rw [parse_statlist] | rw [parse_statlist_loop] | rw [parse_stat] | rw [parse_block]
      | rw [parse_fun] | rw [parse_if] | rw [parse_if_newlines] | rw [parse_for]
      | rw [parse_while] | rw [parse_conditionlist] | rw [parse_conditionlist_loop]
      | rw [parse_condition] | rw [parse_condition_loop] | rw [parse_comparison]
      | rw [parse_expression] | rw [parse_expression_loop] | rw [parse_product]
      | rw [parse_product_loop] | rw [parse_modulo] | rw [parse_modulo_loop] | rw [parse_power]
      | rw [parse_powerrest] | rw [parse_operand] | rw [parse_command] | rw [parse_idlist]
      | rw [parse_idlist_loop] | rw [parse_idref] | rw [parse_idref_loop] | rw [parse_lambda])
    try simp [-presult_bind_ok, bind_ok_step, tokval, tokop, sym_add, sym_lookup, buzzdict_get, buzzdict_set, buzzdict_size,
      cur_syms, symt_push, symt_pop, chunk_push, chunk_pop, idref_flush, load_text,
      block_cleanup, buzzparser_symtodel, buzzdict_remove, TYPE_BASIC, TYPE_CLOSURE, TYPE_TABLE]
  all_goals rfl

theorem lit_operand (n : Nat) (lit nxt : buzztok_s) (rest : List buzztok_s)
    (ss : List buzzdict_t) (ch : List chunk_s) (ci lab : Nat)
    (hl : lit.type = BUZZTOK_STRING ∨ lit.type = BUZZTOK_BOOL) :
    parse_operand (n + 1) ⟨nxt :: rest, some lit, ss, ch, ci, lab⟩ =
      .ok ⟨rest, some nxt, ss, ch, ci, lab⟩ := by
  rw [parse_operand]
  rcases hl with hl | hl <;> simp [hl]

theorem lit_operand_eof (n : Nat) (lit : buzztok_s)
    (ss : List buzzdict_t) (ch : List chunk_s) (ci lab : Nat)
    (hl : lit.type = BUZZTOK_STRING ∨ lit.type = BUZZTOK_BOOL) :
    parse_operand (n + 1) ⟨[], some lit, ss, ch, ci, lab⟩ = .error .eof := by
  rw [parse_operand]
  rcases hl with hl | hl <;> simp [hl, fetchtok]

theorem lit_expression (n : Nat) (lit nxt : buzztok_s) (rest : List buzztok_s)
    (ss : List buzzdict_t) (ch : List chunk_s) (ci lab : Nat)
    (hl : lit.type = BUZZTOK_STRING ∨ lit.type = BUZZTOK_BOOL)
    (h1 : nxt.type ≠ BUZZTOK_POW) (h2 : nxt.type ≠ BUZZTOK_MOD)
    (h3 : nxt.type ≠ BUZZTOK_MULDIV) (h4 : nxt.type ≠ BUZZTOK_ADDSUB) :
    parse_expression (n + 5) ⟨nxt :: rest, some lit, ss, ch, ci, lab⟩ =
      .ok ⟨rest, some nxt, ss, ch, ci, lab⟩ := by
  have hb : lit.type ≠ BUZZTOK_BLOCKOPEN := by
    rcases hl with hl | hl <;> rw [hl] <;> decide
  rw [parse_expression]
  simp only [curtok_mk, bind_ok_step, hb, if_false]
  rw [parse_product, parse_modulo, parse_power]
  simp only [lit_operand n lit nxt rest ss ch ci lab hl, bind_ok_step]
  rw [parse_powerrest]
  simp only [curtok_mk, bind_ok_step, h1, if_false]
  rw [parse_modulo_loop]
  simp only [curtok_mk, bind_ok_step, h2, if_false]
  rw [parse_product_loop]
  simp only [curtok_mk, bind_ok_step, h3, if_false]
  rw [parse_expression_loop]
  simp only [curtok_mk, bind_ok_step, h4, if_false]

theorem lit_assign (n : Nat) (x : cstr) (va : Option cstr) (lit nxt : buzztok_s)
    (rest : List buzztok_s) (g : buzzdict_t) (ch : List chunk_s) (ci lab : Nat)
    (hx : buzzdict_get g x = none)
    (hl : lit.type = BUZZTOK_STRING ∨ lit.type = BUZZTOK_BOOL)
    (h1 : nxt.type ≠ BUZZTOK_POW) (h2 : nxt.type ≠ BUZZTOK_MOD)
    (h3 : nxt.type ≠ BUZZTOK_MULDIV) (h4 : nxt.type ≠ BUZZTOK_ADDSUB) :
    parse_command (n + 6)
      ⟨⟨BUZZTOK_ASSIGN, va⟩ :: lit :: nxt :: rest, some ⟨BUZZTOK_ID, some x⟩, [g], ch, ci, lab⟩ =
      .ok (chunk_append
        ⟨rest, some nxt, [g ++ [(x, ⟨buzzdict_size g, TYPE_BASIC, true⟩)]], ch, ci, lab⟩
        ("\tgstore ".toList ++ fmt_u (buzzdict_size g) ++ "\n".toList)) := by
  have hcl : ¬ ((g.length : Int) = TYPE_CLOSURE) := by
    unfold TYPE_CLOSURE; omega
  rw [parse_command]
  simp only [curtok_mk, bind_ok_step, reduceCtorEq, if_false]
  rw [parse_idref]
  simp [-presult_bind_ok, bind_ok_step, tokval, sym_lookup, hx, sym_add, cur_syms,
    buzzdict_set_new, buzzdict_size, hcl]
  have := lit_expression n lit nxt rest [g ++ [(x, ⟨g.length, TYPE_BASIC, true⟩)]] ch ci lab
    hl h1 h2 h3 h4
  simp only [this, bind_ok_step]
  rfl

theorem newlines_ok : ∀ (nls : List buzztok_s) (m : Nat) (t : buzztok_s)
    (rest : List buzztok_s) (ss : List buzzdict_t) (ch : List chunk_s) (ci lab : Nat),
    (∀ u ∈ nls, is_newline u) → ¬ is_newline t →
    ∀ (t0 : buzztok_s) (lex : List buzztok_s), t0 :: lex = nls ++ t :: rest →
    parse_if_newlines (nls.length + 1 + m) ⟨lex, some t0, ss, ch, ci, lab⟩ =
      .ok ⟨rest, some t, ss, ch, ci, lab⟩ := by
  intro nls
  induction nls with
  | nil =>
    intro m t rest ss ch ci lab _ ht t0 lex e
    simp only [List.nil_append, List.cons.injEq] at e
    obtain ⟨rfl, rfl⟩ := e
    rw [show ([] : List buzztok_s).length + 1 + m = m + 1 by simp; omega, parse_if_newlines]
    unfold is_newline at ht
    simp only [curtok_mk, bind_ok_step, ht, if_false]
  | cons u nls ih =>
    intro m t rest ss ch ci lab hn ht t0 lex e
    simp only [List.cons_append, List.cons.injEq] at e
    obtain ⟨rfl, rfl⟩ := e
    have hu := hn t0 (List.mem_cons_self _ _)
    unfold is_newline at hu
    obtain ⟨t1, lex1, e1⟩ : ∃ t1 lex1, t1 :: lex1 = nls ++ t :: rest := by
      cases nls with
      | nil => exact ⟨t, rest, rfl⟩
      | cons v w => exact ⟨v, w ++ t :: rest, rfl⟩
    rw [show (t0 :: nls).length + 1 + m = (nls.length + 1 + m) + 1 by simp; omega,
      parse_if_newlines]
    simp only [curtok_mk, bind_ok_step, hu, and_self, if_true, ← e1, fetchtok_mk]
    exact ih m t rest ss ch ci lab (fun v hv => hn v (List.mem_cons_of_mem _ hv)) ht t1 lex1 e1

theorem newlines_eof : ∀ (nls : List buzztok_s) (m : Nat)
    (ss : List buzzdict_t) (ch : List chunk_s) (ci lab : Nat),
    (∀ u ∈ nls, is_newline u) →
    ∀ (t0 : buzztok_s) (lex : List buzztok_s), t0 :: lex = nls →
    parse_if_newlines (nls.length + m) ⟨lex, some t0, ss, ch, ci, lab⟩ = .error .eof := by
  intro nls
  induction nls with
  | nil =>
    intro m ss ch ci lab _ t0 lex e
    cases e
  | cons u nls ih =>
    intro m ss ch ci lab hn t0 lex e
    simp only [List.cons.injEq] at e
    obtain ⟨rfl, rfl⟩ := e
    have hu := hn t0 (List.mem_cons_self _ _)
    unfold is_newline at hu
    rw [show (t0 :: lex).length + m = (lex.length + m) + 1 by simp; omega, parse_if_newlines]
    simp only [curtok_mk, bind_ok_step, hu, and_self, if_true]
    cases lex with
    | nil => rfl
    | cons t1 lex1 =>
      simp only [fetchtok_mk, bind_ok_step]
      exact ih m ss ch ci lab (fun v hv => hn v (List.mem_cons_of_mem _ hv)) t1 lex1 rfl

theorem c28_if (n m : Nat) (p a0 a1 c d : buzzparser_s) (ti tp tc t0 t : buzztok_s)
    (nls lex rest : List buzztok_s) (ss : List buzzdict_t) (ch : List chunk_s) (ci lab : Nat)
    (hti : p.tok = some ti) (hti2 : ti.type = BUZZTOK_IF)
    (hf0 : fetchtok (labels_bump p) = .ok a0)
    (htp : a0.tok = some tp) (htp2 : tp.type = BUZZTOK_PAROPEN)
    (hf1 : fetchtok a0 = .ok a1)
    (hc : parse_condition n a1 = .ok c)
    (htc : c.tok = some tc) (htc2 : tc.type = BUZZTOK_PARCLOSE)
    (hf2 : fetchtok c = .ok d)
    (hb : parse_block n (chunk_append d
      ("\tjumpz ".toList ++ LABELREF ++ fmt_u p.labels ++ "\n".toList)) =
      .ok ⟨lex, some t0, ss, ch, ci, lab⟩)
    (hnl : ∀ u ∈ nls, is_newline u) (hn : n = nls.length + 1 + m) :
    (t0 :: lex = nls ++ t :: rest → ¬ is_newline t → t.type ≠ BUZZTOK_ELSE →
      parse_if (n + 1) p = .ok (chunk_append ⟨rest, some t, ss, ch, ci, lab⟩
        (LABELREF ++ fmt_u p.labels ++ "\n".toList)) ∧
      (t.type ≠ BUZZTOK_STATEND → t.type ≠ BUZZTOK_BLOCKCLOSE →
        parse_statlist (n + 3) p = .error .statlist)) ∧
    (t0 :: lex = nls → parse_if (n + 1) p = .error .eof) := by
  have hti' : (labels_bump p).tok = some ti := hti
  have pre : parse_if (n + 1) p = (do
      let par ← parse_if_newlines n ⟨lex, some t0, ss, ch, ci, lab⟩
      let t ← curtok par
      if t.type = BUZZTOK_ELSE then do
        let par ← fetchtok par
        let par := chunk_append par
          ("\tjump ".toList ++ LABELREF ++ fmt_u ((p.labels + 1) % 2 ^ 32) ++ "\n".toList)
        let par := chunk_append par (LABELREF ++ fmt_u p.labels ++ "\n".toList)
        let par ← parse_block n par
        .ok (chunk_append par (LABELREF ++ fmt_u ((p.labels + 1) % 2 ^ 32) ++ "\n".toList))
      else
        .ok (chunk_append par (LABELREF ++ fmt_u p.labels ++ "\n".toList))) := by
    rw [parse_if]
    have hf0' : fetchtok { p with labels := (p.labels + 2) % 2 ^ 32 } = .ok a0 := hf0
    have hm : tokmatch { p with labels := (p.labels + 2) % 2 ^ 32 } BUZZTOK_IF = .ok () :=
      tokmatch_of_tok hti' hti2
    simp only [hm, bind_ok_step, hf0', tokmatch_of_tok htp htp2, hf1, hc,
      tokmatch_of_tok htc htc2, hf2, hb]
  refine ⟨fun e ht hte => ?_, fun e => ?_⟩
  · have h1 : parse_if (n + 1) p = .ok (chunk_append ⟨rest, some t, ss, ch, ci, lab⟩
        (LABELREF ++ fmt_u p.labels ++ "\n".toList)) := by
      rw [pre, hn, newlines_ok nls m t rest ss ch ci lab hnl ht t0 lex e]
      simp only [bind_ok_step, curtok_mk, hte, if_false]
    refine ⟨h1, fun hs hbc => ?_⟩
    rw [parse_statlist, parse_stat]
    simp only [curtok_of_tok hti, bind_ok_step, hti2, reduceCtorEq, or_self, if_false, if_true,
      h1]
    rw [parse_statlist_loop]
    simp only [chunk_append_mk, hs, if_false, bind_ok_step, hbc]
  · rw [pre, hn, show nls.length + 1 + m = nls.length + (1 + m) by omega,
      newlines_eof nls (1 + m) ss ch ci lab hnl t0 lex e]
    rfl

theorem c28_cond_run (tl : List buzztok_s) :
    parse_condition 8 ⟨[⟨BUZZTOK_PARCLOSE, none⟩, ⟨BUZZTOK_BLOCKOPEN, none⟩,
      ⟨BUZZTOK_BLOCKCLOSE, none⟩] ++ tl, some ⟨BUZZTOK_CONST, some "1".toList⟩, [[]],
      [chunk_new 0 none], 0, 3⟩ =
    .ok ⟨[⟨BUZZTOK_BLOCKOPEN, none⟩, ⟨BUZZTOK_BLOCKCLOSE, none⟩] ++ tl,
      some ⟨BUZZTOK_PARCLOSE, none⟩, [[]],
      [chunk_addcode (chunk_new 0 none) "\tpushi 1\n".toList], 0, 3⟩ := by
  repeat
    (first
      | rw [parse_statlist] | rw [parse_statlist_loop] | rw [parse_stat] | rw [parse_block]
      | rw [parse_fun] | rw [parse_if] | rw [parse_if_newlines] | rw [parse_for]
      | rw [parse_while] | rw [parse_conditionlist] | rw [parse_conditionlist_loop]
      | rw [parse_condition] | rw [parse_condition_loop] | rw [parse_comparison]
      | rw [parse_expression] | rw [parse_expression_loop] | rw [parse_product]
      | rw [parse_product_loop] | rw [parse_modulo] | rw [parse_modulo_loop] | rw [parse_power]
      | rw [parse_powerrest] | rw [parse_operand] | rw [parse_command] | rw [parse_idlist]
      | rw [parse_idlist_loop] | rw [parse_idref] | rw [parse_idref_loop] | rw [parse_lambda])
    try simp [-presult_bind_ok, bind_ok_step, tokval, tokop, sym_add, sym_lookup, buzzdict_get, buzzdict_set, buzzdict_size,
      cur_syms, symt_push, symt_pop, chunk_push, chunk_pop, idref_flush, load_text,
      block_cleanup, buzzparser_symtodel, buzzdict_remove, TYPE_BASIC, TYPE_CLOSURE, TYPE_TABLE]
  all_goals rfl

theorem c28_block_run (t0 : buzztok_s) (lex : List buzztok_s) :
    parse_block 8 (chunk_append ⟨[⟨BUZZTOK_BLOCKCLOSE, none⟩] ++ t0 :: lex,
      some ⟨BUZZTOK_BLOCKOPEN, none⟩, [[]],
      [chunk_addcode (chunk_new 0 none) "\tpushi 1\n".toList], 0, 3⟩
      ("\tjumpz ".toList ++ LABELREF ++ fmt_u 1 ++ "\n".toList)) =
    .ok ⟨lex, some t0, [[]], c28_chunks, 0, 3⟩ := by
  simp only [c28_chunks, chunk_append]
  repeat
    (first
      | rw [parse_statlist] | rw [parse_statlist_loop] | rw [parse_stat] | rw [parse_block]
      | rw [parse_fun] | rw [parse_if] | rw [parse_if_newlines] | rw [parse_for]
      | rw [parse_while] | rw [parse_conditionlist] | rw [parse_conditionlist_loop]
      | rw [parse_condition] | rw [parse_condition_loop] | rw [parse_comparison]
      | rw [parse_expression] | rw [parse_expression_loop] | rw [parse_product]
      | rw [parse_product_loop] | rw [parse_modulo] | rw [parse_modulo_loop] | rw [parse_power]
      | rw [parse_powerrest] | rw [parse_operand] | rw [parse_command] | rw [parse_idlist]
      | rw [parse_idlist_loop] | rw [parse_idref] | rw [parse_idref_loop] | rw [parse_lambda])
    try simp [-presult_bind_ok, bind_ok_step, tokval, tokop, sym_add, sym_lookup, buzzdict_get, buzzdict_set, buzzdict_size,
      cur_syms, symt_push, symt_pop, chunk_push, chunk_pop, idref_flush, load_text,
      block_cleanup, buzzparser_symtodel, buzzdict_remove, TYPE_BASIC, TYPE_CLOSURE, TYPE_TABLE]
  all_goals rfl

theorem c29_script : parse_script 8 (buzzparser_new c29_toks) = .ok c29_final := by
  simp only [parse_script, buzzparser_new, c29_toks, c29_final, nexttok, List.head?, List.tail,
    chunk_append]
  repeat
    (first
      | rw [parse_statlist] | rw [parse_statlist_loop] | rw [parse_stat] | rw [parse_block]
      | rw [parse_fun] | rw [parse_if] | rw [parse_if_newlines] | rw [parse_for]
      | rw [parse_while] | rw [parse_conditionlist] | rw [parse_conditionlist_loop]
      | rw [parse_condition] | rw [parse_condition_loop] | rw [parse_comparison]
      | rw [parse_expression] | rw [parse_expression_loop] | rw [parse_product]
      | rw [parse_product_loop] | rw [parse_modulo] | rw [parse_modulo_loop] | rw [parse_power]
      | rw [parse_powerrest] | rw [parse_operand] | rw [parse_command] | rw [parse_idlist]
      | rw [parse_idlist_loop] | rw [parse_idref] | rw [parse_idref_loop] | rw [parse_lambda])
    try simp [-presult_bind_ok, bind_ok_step, tokval, tokop, sym_add, sym_lookup, buzzdict_get, buzzdict_set, buzzdict_size,
      cur_syms, symt_push, symt_pop, chunk_push, chunk_pop, idref_flush, load_text,
      block_cleanup, buzzparser_symtodel, buzzdict_remove, TYPE_BASIC, TYPE_CLOSURE, TYPE_TABLE]
  all_goals rfl

/-- A property of the current token and the tokens still in the lexer that the
two ways of reading a token keep is kept by every sequence of elementary
steps. -/
theorem reach_tokens (I : Option buzztok_s → List buzztok_s → Prop)
    (hfetch : ∀ t r tok, I tok (t :: r) → I (some t) r)
    (hnext : ∀ tok lex, I tok lex → I lex.head? lex.tail)
    {p q : buzzparser_s} (h : Reach p q) : I p.tok p.lex → I q.tok q.lex := by
  have fe : ∀ {a b : buzzparser_s}, fetchtok a = .ok b → I a.tok a.lex → I b.tok b.lex := by
    intro a b hf ha
    obtain ⟨t, r, e1, e2⟩ := fetchtok_eq_ok hf
    subst e2
    rw [e1] at ha
    exact hfetch t r _ ha
  induction h with
  | refl p => exact id
  | trans _ _ ih1 ih2 => exact fun h => ih2 (ih1 h)
  | fetch hf => exact fe hf
  | next p => exact hnext _ _
  | bind p t _ =>
    rw [(sym_add_same p _).1, (sym_add_same p _).2.1]
    exact id
  | cleanup _ ih =>
    intro h
    rw [(block_cleanup_same _ _).1, (block_cleanup_same _ _).2.1]
    exact ih h
  | plain p txt _ => exact id
  | tokfmt t txt _ _ _ _ ih => exact ih
  | @signed p q t1 t2 txt _ _ hf _ _ _ => exact fun h => @fe p q hf h
  | symt _ ih => exact ih
  | @func p a q t sym hf _ _ ih =>
    intro h
    refine ih ?_
    have := @fe p a hf h
    rw [← (sym_add_same a (tokval t)).1, ← (sym_add_same a (tokval t)).2.1] at this
    exact this
  | @lam p a q hf _ ih => exact fun h => ih (@fe p a hf h)
  | @lambda p a q hf _ ih => exact fun h => ih (@fe _ a hf h)
  | @if_then p a c b hf _ _ ih1 ih2 => exact fun h => ih2 (ih1 (@fe _ a hf h))
  | @if_else p a c b e hf _ _ _ ih1 ih2 ih3 =>
    exact fun h => ih3 (ih2 (ih1 (@fe _ a hf h)))

theorem script_end (n : Nat) (p q : buzzparser_s) (h : parse_script n p = .ok q) :
    (q.tok = none ∧ q.lex = []) ∨ ∃ t, q.tok = some t ∧ t.type = BUZZTOK_BLOCKCLOSE := by
  unfold parse_script at h
  simp only [] at h
  split at h
  · cases h
  · obtain ⟨a, ha, hq⟩ := bind_eq_ok.1 h
    cases hq
    have inv : a.tok = none → a.lex = [] := by
      refine @reach_tokens (fun tok lex => tok = none → lex = []) ?_ ?_ _ a
        ((rules_reach n).statlist _ a ha) ?_
      · intro t r tok _ h0
        cases h0
      · intro tok lex _ h0
        cases lex with
        | nil => rfl
        | cons t r => cases h0
      · intro h0
        show p.lex.tail = []
        have h1 : p.lex.head? = none := h0
        cases hl : p.lex with
        | nil => rfl
        | cons t r =>
          rw [hl] at h1
          cases h1
    cases n with
    | zero =>
      rw [parse_statlist] at ha
      cases ha
    | succ n =>
      rw [parse_statlist] at ha
      obtain ⟨b, _, ha⟩ := bind_eq_ok.1 ha
      obtain ⟨c, _, ha⟩ := bind_eq_ok.1 ha
      split at ha
      · rename_i h0
        cases ha
        exact Or.inl ⟨h0, inv h0⟩
      · rename_i t h0
        split at ha
        · rename_i ht
          cases ha
          exact Or.inr ⟨t, h0, ht⟩
        · cases ha

/-! ## Labels marked in the code -/

theorem line_mark_label (m : Nat) : line_mark (LABELREF ++ fmt_u m) = some m := by
  unfold line_mark
  rw [if_pos (List.prefix_append _ _), List.drop_left, dec_val_fmt_u]

theorem line_mark_plain (l : cstr) (h : '@' ∉ l) : line_mark l = none := by
  unfold line_mark
  rw [if_neg]
  intro hp
  apply h
  exact hp.subset (by decide)

theorem line_mark_tab (l : cstr) : line_mark ('\t' :: l) = none := by
  unfold line_mark
  rw [if_neg]
  rintro ⟨s, hs⟩
  have := congrArg List.head? hs
  simp [LABELREF] at this

theorem split_lines_unlines_append (ls : List cstr) (b : cstr) (h : ∀ l ∈ ls, '\n' ∉ l) :
    split_lines (unlines ls ++ b) = ls ++ split_lines b := by
  induction ls with
  | nil => rfl
  | cons l ls ih =>
    simp only [unlines, List.append_assoc, List.cons_append]
    rw [split_lines_line l _ (h l (by simp)), ih (fun l hl => h l (by simp [hl]))]

theorem text_marks_nil : text_marks [] = [] := rfl

theorem LinesOK.whole {lo : Nat} {a : cstr} (h : LinesOK lo a) : Whole a := by
  obtain ⟨ls, e, hl⟩ := h
  exact ⟨ls, e, fun l h => (hl l h).1⟩

theorem Whole.join {a b : cstr} (ha : Whole a) (hb : Whole b) : Whole (a ++ b) := by
  obtain ⟨la, ea, ha⟩ := ha
  obtain ⟨lb, eb, hb⟩ := hb
  refine ⟨la ++ lb, by rw [unlines_append, ea, eb], fun l hl => ?_⟩
  rcases List.mem_append.1 hl with hl | hl
  · exact ha l hl
  · exact hb l hl

theorem text_marks_whole {a : cstr} (b : cstr) (ha : Whole a) :
    text_marks (a ++ b) = text_marks a ++ text_marks b := by
  obtain ⟨ls, e, hn⟩ := ha
  unfold text_marks
  rw [e, split_lines_unlines_append ls b hn, split_lines_unlines ls hn, List.filterMap_append]

theorem text_marks_append {lo : Nat} {a : cstr} (b : cstr) (ha : LinesOK lo a) :
    text_marks (a ++ b) = text_marks a ++ text_marks b :=
  text_marks_whole b ha.whole

theorem text_marks_line (l : cstr) (h : '\n' ∉ l) :
    text_marks (l ++ "\n".toList) = (line_mark l).toList := by
  unfold text_marks
  have : l ++ "\n".toList = unlines [l] := by simp [unlines]
  rw [this, split_lines_unlines [l] (by simpa using h)]
  cases hm : line_mark l <;> simp [List.filterMap_cons, hm]

theorem text_marks_label (m : Nat) : text_marks (LABELREF ++ fmt_u m ++ "\n".toList) = [m] := by
  rw [text_marks_line, line_mark_label]
  · rfl
  · intro hn
    rcases List.mem_append.mp hn with hn | hn
    · revert hn; decide
    · exact fmt_u_no_nl m hn

theorem text_marks_ref (pre : cstr) (m : Nat) (h1 : '\n' ∉ pre) (h2 : pre.head? = some '\t') :
    text_marks (pre ++ LABELREF ++ fmt_u m ++ "\n".toList) = [] := by
  rw [text_marks_line]
  · cases pre with
    | nil => simp at h2
    | cons c r =>
      simp only [List.head?_cons, Option.some.injEq] at h2
      subst h2
      simp only [List.cons_append]
      rw [line_mark_tab]
      rfl
  · intro hn
    rcases List.mem_append.mp hn with hn | hn
    · rcases List.mem_append.mp hn with hn | hn
      · exact h1 hn
      · revert hn; decide
    · exact fmt_u_no_nl m hn

theorem plain_marks (txt : cstr) (h : Plain txt) : text_marks txt = [] := by
  rcases h with h | ⟨v, h⟩ | ⟨pre, hpre, n, h⟩
  · obtain ⟨e, h1, h2⟩ := fixed_lines txt h
    rw [e, text_marks_line _ h1, line_mark_plain _ h2]
    rfl
  · have h1 : '\n' ∉ "\t".toList ++ cmp_op v := by
      intro hn
      rcases List.mem_append.mp hn with hn | hn
      · revert hn; decide
      · exact (cmp_op_plain v).1 hn
    have h2 : '@' ∉ "\t".toList ++ cmp_op v := by
      intro hn
      rcases List.mem_append.mp hn with hn | hn
      · revert hn; decide
      · exact (cmp_op_plain v).2 hn
    rw [h, text_marks_line _ h1, line_mark_plain _ h2]
    rfl
  · have h1 : '\n' ∉ pre ++ fmt_u n := by
      intro hn
      rcases List.mem_append.mp hn with hn | hn
      · exact (num_pre_plain pre hpre).1 hn
      · exact fmt_u_no_nl n hn
    have h2 : '@' ∉ pre ++ fmt_u n := by
      intro hn
      rcases List.mem_append.mp hn with hn | hn
      · exact (num_pre_plain pre hpre).2 hn
      · exact fmt_u_no_at n hn
    rw [h, text_marks_line _ h1, line_mark_plain _ h2]
    rfl

theorem tokfmt_marks (sg : cstr) (t : buzztok_s) (txt : cstr) (h : TokFmt sg t txt)
    (ht : tokval_ok t) (hs1 : '\n' ∉ sg) (hs2 : '@' ∉ sg) : text_marks txt = [] := by
  obtain ⟨pre, hpre, e⟩ := h
  have h1 : '\n' ∉ pre ++ sg ++ tokval t := by
    intro hn
    rcases List.mem_append.mp hn with hn | hn
    · rcases List.mem_append.mp hn with hn | hn
      · exact (tok_pre_plain pre hpre).1 hn
      · exact hs1 hn
    · exact ht.1 hn
  have h2 : '@' ∉ pre ++ sg ++ tokval t := by
    intro hn
    rcases List.mem_append.mp hn with hn | hn
    · rcases List.mem_append.mp hn with hn | hn
      · exact (tok_pre_plain pre hpre).2 hn
      · exact hs2 hn
    · exact ht.2 hn
  rw [e, text_marks_line _ h1, line_mark_plain _ h2]
  rfl

theorem ext_drop {q r : buzzparser_s} (e : Ext q r) (k : Nat) (hk : k ≤ q.chunks.length)
    (hc : q.chunk < k) :
    r.chunks.drop k = q.chunks.drop k ++ r.chunks.drop q.chunks.length := by
  obtain ⟨_, e2, e3, _, _⟩ := e
  apply List.ext_getElem?
  intro i
  rw [List.getElem?_drop]
  by_cases hi : i < q.chunks.length - k
  · rw [List.getElem?_append_left (by simp; omega), List.getElem?_drop]
    exact e3 (k + i) (by omega) (by omega)
  · rw [List.getElem?_append_right (by simp; omega), List.getElem?_drop]
    congr 1
    simp
    omega

theorem drop_update {ch : List chunk_s} {k : Nat} (f : chunk_s → chunk_s) {c : chunk_s}
    (h : ch[k]? = some c) : (chunks_update ch k f).drop k = f c :: ch.drop (k + 1) := by
  have hk : k < ch.length := by
    by_contra hn
    rw [List.getElem?_eq_none (by omega)] at h
    cases h
  apply List.ext_getElem?
  intro i
  rw [List.getElem?_drop]
  cases i with
  | zero => simpa using getElem?_chunks_update_self ch k f c h
  | succ i =>
    rw [getElem?_chunks_update_ne ch k (k + (i + 1)) f (by omega)]
    simp only [List.getElem?_cons_succ, List.getElem?_drop]
    congr 1
    omega

theorem drop_update_lt (ch : List chunk_s) (i k : Nat) (f : chunk_s → chunk_s) (h : i < k) :
    (chunks_update ch i f).drop k = ch.drop k := by
  apply List.ext_getElem?
  intro j
  rw [List.getElem?_drop, List.getElem?_drop, getElem?_chunks_update_ne ch i (k + j) f (by omega)]

theorem new_marks_congr {p p2 : buzzparser_s} (q : buzzparser_s) (h1 : p2.chunks = p.chunks)
    (h2 : p2.chunk = p.chunk) : new_marks p2 q = new_marks p q := by
  unfold new_marks
  rw [emitted_congr q h1 h2, h1]

theorem new_marks_silent {p q : buzzparser_s} (h : q.chunks = p.chunks) : new_marks p q = [] := by
  unfold new_marks
  rw [emitted_of_text (by rw [h]), h]
  simp [text_marks_nil]

theorem new_marks_append {lo : Nat} {p q : buzzparser_s} (txt : cstr) (e : Ext p q)
    (hv : p.chunk < p.chunks.length) (hl : LinesOK lo (emitted p q)) :
    new_marks p (chunk_append q txt) =
      text_marks (emitted p q) ++ text_marks txt ++
        (q.chunks.drop p.chunks.length).flatMap chunk_marks := by
  unfold new_marks
  rw [emitted_append_right txt e hv, text_marks_append txt hl]
  congr 1
  show ((chunks_update q.chunks q.chunk _).drop p.chunks.length).flatMap chunk_marks = _
  rw [drop_update_lt _ _ _ _ (by rw [e.1]; exact hv)]

theorem new_marks_trans {lo : Nat} {p q r : buzzparser_s} (e1 : Ext p q) (e2 : Ext q r)
    (hv : p.chunk < p.chunks.length) (hl : LinesOK lo (emitted p q)) :
    new_marks p r = text_marks (emitted p q) ++ text_marks (emitted q r) ++
      ((q.chunks.drop p.chunks.length).flatMap chunk_marks ++
        (r.chunks.drop q.chunks.length).flatMap chunk_marks) := by
  unfold new_marks
  rw [emitted_trans e1 e2 hv, text_marks_append _ hl,
    ext_drop e2 p.chunks.length e1.2.1 (by rw [e1.1]; exact hv), List.flatMap_append]

theorem perm_four (X1 X2 Y1 Y2 : List Nat) :
    (X1 ++ X2 ++ (Y1 ++ Y2)).Perm ((X1 ++ Y1) ++ (X2 ++ Y2)) := by
  rw [List.perm_iff_count]
  intro a
  simp only [List.count_append]
  omega

theorem perm_three (X M Y : List Nat) : (X ++ M ++ Y).Perm ((X ++ Y) ++ M) := by
  rw [List.perm_iff_count]
  intro a
  simp only [List.count_append]
  omega

theorem fresh_silent (S : Nat → Prop) {p q : buzzparser_s} (h : q.chunks = p.chunks) :
    Fresh S p q := by
  intro _ _ _
  rw [new_marks_silent h, h]
  simp

theorem Fresh.mono {S T : Nat → Prop} {p q : buzzparser_s} (h : Fresh S p q)
    (hST : NoWrap p → ∀ m, S m → T m) : Fresh T p q := by
  intro hv hw hn
  obtain ⟨a, b, c, d⟩ := h hv hw hn
  exact ⟨a, fun m hm => ⟨hST hn m (b m hm).1, (b m hm).2⟩, c, d⟩

/-- Two runs in a row: the labels of the second are taken from the counter the
first one left. -/
theorem Fresh.seq {S T : Nat → Prop} {p q r : buzzparser_s} (h1 : Fresh S p q)
    (h2 : Fresh T q r) (e1 : Ext p q) (e2 : Ext q r) (l1 : Lab p q) (l2 : Lab q r)
    (hT : NoWrap p → ∀ m, T m → q.labels ≤ m) : Fresh (fun m => S m ∨ T m) p r := by
  intro hv hw hn
  have hvq := ext_valid e1 hv
  have hwq := l1.tokwf hw
  have hnq := l1.nowrap hn
  obtain ⟨a1, b1, c1, d1⟩ := h1 hv hw hn
  obtain ⟨a2, b2, c2, d2⟩ := h2 hvq hwq hnq
  have hqr := (l2.labels_le hnq).1
  have hl := l1.lines hv hw hn
  have e := new_marks_trans e1 e2 hv hl
  have hp := perm_four (text_marks (emitted p q)) (text_marks (emitted q r))
    ((q.chunks.drop p.chunks.length).flatMap chunk_marks)
    ((r.chunks.drop q.chunks.length).flatMap chunk_marks)
  have hmem : ∀ m, m ∈ new_marks p r ↔ m ∈ new_marks p q ∨ m ∈ new_marks q r := by
    intro m
    rw [e, hp.mem_iff, List.mem_append]
    rfl
  have hdrop := ext_drop e2 p.chunks.length e1.2.1 (by rw [e1.1]; exact hv)
  refine ⟨?_, ?_, ?_, ?_⟩
  · rw [e, hp.nodup_iff, List.nodup_append]
    refine ⟨a1, a2, ?_⟩
    intro m hm1 hm2
    have x1 := (b1 m hm1).2
    have x2 := hT hn m (b2 m hm2).1
    omega
  · intro m hm
    rcases (hmem m).1 hm with hm | hm
    · exact ⟨Or.inl (b1 m hm).1, Nat.lt_of_lt_of_le (b1 m hm).2 hqr⟩
    · exact ⟨Or.inr (b2 m hm).1, (b2 m hm).2⟩
  · rw [hdrop, List.map_append, List.pairwise_append]
    refine ⟨c1, c2, ?_⟩
    intro x hx y hy
    obtain ⟨cx, hcx, rfl⟩ := List.mem_map.1 hx
    obtain ⟨cy, hcy, rfl⟩ := List.mem_map.1 hy
    have x1 := (b1 cx.label (by
      unfold new_marks
      exact List.mem_append_right _ (List.mem_flatMap.2 ⟨cx, hcx, by simp [chunk_marks]⟩))).2
    have x2 := hT hn _ (b2 cy.label (by
      unfold new_marks
      exact List.mem_append_right _ (List.mem_flatMap.2 ⟨cy, hcy, by simp [chunk_marks]⟩))).1
    show cx.label < cy.label
    omega
  · intro c hc
    rw [hdrop] at hc
    rcases List.mem_append.1 hc with hc | hc
    · exact d1 c hc
    · exact d2 c hc

/-- A step that appends the text `txt`, which marks the labels `ms`. -/
theorem Fresh.add_text {S : Nat → Prop} {p q : buzzparser_s} (txt : cstr) (ms : List Nat)
    (h : Fresh S p q) (e : Ext p q) (l : Lab p q)
    (ht : TokWF p → NoWrap p → text_marks txt = ms ∧ ms.Nodup ∧
      ∀ m ∈ ms, ¬ S m ∧ m < q.labels) :
    Fresh (fun m => S m ∨ m ∈ ms) p (chunk_append q txt) := by
  intro hv hw hn
  obtain ⟨a1, b1, c1, d1⟩ := h hv hw hn
  obtain ⟨t1, t2, t3⟩ := ht hw hn
  have hl := l.lines hv hw hn
  have e2 := new_marks_append txt e hv hl
  rw [t1] at e2
  have hp := perm_three (text_marks (emitted p q)) ms
    ((q.chunks.drop p.chunks.length).flatMap chunk_marks)
  have hd : (chunk_append q txt).chunks.drop p.chunks.length = q.chunks.drop p.chunks.length :=
    drop_update_lt _ _ _ _ (by rw [e.1]; exact hv)
  refine ⟨?_, ?_, ?_, ?_⟩
  · rw [e2, hp.nodup_iff, List.nodup_append]
    refine ⟨a1, t2, ?_⟩
    intro m hm1 hm2
    exact (t3 m hm2).1 (b1 m hm1).1
  · intro m hm
    rw [e2, hp.mem_iff, List.mem_append] at hm
    rcases hm with hm | hm
    · exact ⟨Or.inl (b1 m hm).1, (b1 m hm).2⟩
    · exact ⟨Or.inr hm, (t3 m hm).2⟩
  · rw [hd]
    exact c1
  · rw [hd]
    exact d1

theorem Fresh.plain {S : Nat → Prop} {p q : buzzparser_s} (txt : cstr)
    (h : Fresh S p q) (e : Ext p q) (l : Lab p q)
    (ht : TokWF p → NoWrap p → text_marks txt = []) : Fresh S p (chunk_append q txt) :=
  (h.add_text txt [] e l (fun hw hn => ⟨ht hw hn, List.nodup_nil, by simp⟩)).mono
    (fun _ m hm => by simpa using hm)

theorem Fresh.congr_right {S : Nat → Prop} {p q q2 : buzzparser_s} (h : Fresh S p q)
    (h1 : q2.chunks = q.chunks) (h2 : q2.labels = q.labels) : Fresh S p q2 := by
  intro hv hw hn
  have := h hv hw hn
  unfold new_marks at *
  rw [emitted_of_chunks h1, h1, h2]
  exact this

theorem Fresh.from_left {S : Nat → Prop} {p p2 q : buzzparser_s} (h : Fresh S p2 q)
    (h1 : p2.chunks = p.chunks) (h2 : p2.chunk = p.chunk) (h3 : ∀ t ∈ toks p2, t ∈ toks p)
    (h4 : NoWrap p → NoWrap p2) : Fresh S p q := by
  intro hv hw hn
  have := h (by rw [h2, h1]; exact hv) (fun t ht => hw t (h3 t ht)) (h4 hn)
  rw [new_marks_congr q h1 h2, h1] at this
  exact this

theorem new_marks_bracket {p a q : buzzparser_s} (sym : Option sym_s) (oldc : Nat)
    (e : Ext (chunk_push a sym) q) (h1 : a.chunks = p.chunks)
    (hv : p.chunk < p.chunks.length) :
    new_marks p (chunk_pop q oldc) = a.labels :: new_marks (chunk_push a sym) q ∧
    ∃ c, (chunk_pop q oldc).chunks.drop p.chunks.length =
        chunk_finalize c :: q.chunks.drop (p.chunks.length + 1) ∧
      c.label = a.labels ∧ chunk_text (chunk_finalize c) = emitted (chunk_push a sym) q := by
  obtain ⟨_, f2, c, f3, _, f5, _, _, f8⟩ := bracket_frame sym e
  have hem : emitted (chunk_push a sym) q = text_at q.chunks a.chunks.length := by
    unfold emitted
    have : text_at (chunk_push a sym).chunks (chunk_push a sym).chunk = [] := by
      simp [chunk_push, text_at, chunk_text, chunk_new]
    rw [this]
    rfl
  have hd : (chunk_pop q oldc).chunks.drop p.chunks.length =
      chunk_finalize c :: q.chunks.drop (p.chunks.length + 1) := by
    show (chunks_update q.chunks q.chunk chunk_finalize).drop p.chunks.length = _
    rw [f2, h1]
    rw [h1] at f3
    exact drop_update chunk_finalize f3
  refine ⟨?_, c, hd, f5, by rw [f8, hem]⟩
  unfold new_marks
  rw [emitted_bracket sym oldc e h1 hv, hd, text_marks_nil, List.nil_append, List.flatMap_cons]
  have hl : (chunk_push a sym).chunks.length = p.chunks.length + 1 := by
    simp [chunk_push, h1]
  rw [hl]
  show (chunk_finalize c).label :: text_marks (chunk_text (chunk_finalize c)) ++ _ = _
  rw [f8, ← hem]
  show c.label :: _ = _
  rw [f5]
  rfl

theorem fresh_bracket {S : Nat → Prop} {p a q : buzzparser_s} (sym : Option sym_s) (oldc : Nat)
    (ih : Fresh S (chunk_push a sym) q) (e : Ext (chunk_push a sym) q)
    (l : Lab (chunk_push a sym) q) (h1 : a.chunks = p.chunks)
    (h3 : ∀ t ∈ toks a, t ∈ toks p) (h4 : a.labels = p.labels)
    (h5 : a.lex.length + 1 ≤ p.lex.length)
    (hS : NoWrap p → ∀ m, S m → p.labels + 1 ≤ m) :
    Fresh (fun m => S m ∨ m = p.labels) p (chunk_pop q oldc) := by
  intro hv hw hn
  have hl : (chunk_push a sym).labels = p.labels + 1 := by
    show (a.labels + 1) % 2 ^ 32 = p.labels + 1
    rw [h4]
    apply Nat.mod_eq_of_lt
    unfold NoWrap at hn
    omega
  have hx : (chunk_push a sym).lex = a.lex := rfl
  have hn2 : NoWrap (chunk_push a sym) := by
    unfold NoWrap at *
    rw [hl, hx]
    omega
  have hw2 : TokWF (chunk_push a sym) := fun t ht => hw t (h3 t ht)
  have hv2 : (chunk_push a sym).chunk < (chunk_push a sym).chunks.length := by
    simp [chunk_push]
  obtain ⟨a1, b1, c1, d1⟩ := ih hv2 hw2 hn2
  have hq := (l.labels_le hn2).1
  rw [hl] at hq
  have hlines := l.lines hv2 hw2 hn2
  obtain ⟨g1, c, g2, g3, g4⟩ := new_marks_bracket sym oldc e h1 hv
  have hlen : (chunk_push a sym).chunks.length = p.chunks.length + 1 := by
    simp [chunk_push, h1]
  rw [hlen] at c1 d1
  rw [h4] at g1 g3
  refine ⟨?_, ?_, ?_, ?_⟩
  · rw [g1, List.nodup_cons]
    refine ⟨fun hm => ?_, a1⟩
    have := hS hn _ (b1 _ hm).1
    omega
  · intro m hm
    rw [g1, List.mem_cons] at hm
    rcases hm with hm | hm
    · exact ⟨Or.inr hm, by show m < q.labels; omega⟩
    · exact ⟨Or.inl (b1 m hm).1, (b1 m hm).2⟩
  · rw [g2, List.map_cons, List.pairwise_cons]
    refine ⟨fun x hx => ?_, c1⟩
    obtain ⟨cx, hcx, rfl⟩ := List.mem_map.1 hx
    have := hS hn _ (b1 cx.label (by
      unfold new_marks
      rw [hlen]
      exact List.mem_append_right _ (List.mem_flatMap.2 ⟨cx, hcx, by simp [chunk_marks]⟩))).1
    show (chunk_finalize c).label < cx.label
    show c.label < cx.label
    omega
  · intro x hx
    rw [g2, List.mem_cons] at hx
    rcases hx with hx | hx
    · rw [hx, g4]
      exact hlines.whole
    · exact d1 x hx

theorem tab_head : ("\tjumpz ".toList).head? = some '\t' ∧ ("\tjump ".toList).head? = some '\t' ∧
    ("\tpushi ".toList).head? = some '\t' := by decide

/-- The labels marked by any sequence of elementary steps are taken from the
counter on the way: they are pairwise different and lie between the counter at
the start and the counter at the end. -/
theorem reach_fresh {p q : buzzparser_s} (h : Reach p q) :
    Fresh (fun m => p.labels ≤ m) p q := by
  induction h with
  | refl p => exact fresh_silent _ rfl
  | @trans p q r h1 h2 ih1 ih2 =>
    refine (ih1.seq ih2 (reach_ext h1) (reach_ext h2) (reach_lab h1) (reach_lab h2)
      (fun _ m hm => hm)).mono (fun hn m hm => ?_)
    rcases hm with hm | hm
    · exact hm
    · have := ((reach_lab h1).labels_le hn).1
      show p.labels ≤ m
      have hm2 : q.labels ≤ m := hm
      omega
  | fetch hf => exact fresh_silent _ (fetchtok_same hf).1
  | next p => exact fresh_silent _ rfl
  | bind p t _ => exact fresh_silent _ (sym_add_same p _).2.2.2.1
  | @cleanup p q hr ih =>
    obtain ⟨_, _, c, d, _⟩ := block_cleanup_same q (buzzdict_size (cur_syms p))
    exact ih.congr_right d c
  | plain p txt hpl =>
    exact (fresh_silent _ rfl : Fresh _ p p).plain txt (Ext.refl p) (Lab.same p)
      (fun _ _ => plain_marks _ hpl)
  | tokfmt t txt htok hty hr htf ih =>
    exact ih.plain txt (reach_ext hr) (reach_lab hr) (fun hw _ =>
      tokfmt_marks [] t txt htf (hw t (toks_cur htok) hty) (by simp) (by simp))
  | @signed p q t1 t2 txt h1 hty1 hf h2 hty2 htf =>
    exact (fresh_silent _ (fetchtok_same hf).1 : Fresh _ p q).plain txt (ext_fetch hf)
      (lab_fetch hf) (fun hw _ =>
        tokfmt_marks _ t2 txt htf (hw t2 ((toks_fetch hf).1 t2 (toks_cur h2)) hty2)
          (tokop_plain t1 (hw t1 (toks_cur h1) hty1)).1
          (tokop_plain t1 (hw t1 (toks_cur h1) hty1)).2)
  | @symt p q hr ih =>
    have f1 : Fresh (fun m => p.labels ≤ m) p q :=
      Fresh.from_left ih rfl rfl (fun _ h => h) (fun hn => hn)
    exact f1.congr_right rfl rfl
  | @func p a q t sym hf ht hr ih =>
    obtain ⟨x1, x2, x3, x4, x5⟩ := toks_fetch hf
    obtain ⟨y1, y2, y3, y4, y5⟩ := sym_add_same a (tokval t)
    have hS : NoWrap p → ∀ m, (chunk_push (sym_add a (tokval t)) sym).labels ≤ m →
        p.labels + 1 ≤ m := by
      intro hn m hm
      have : (chunk_push (sym_add a (tokval t)) sym).labels = p.labels + 1 := by
        show ((sym_add a (tokval t)).labels + 1) % 2 ^ 32 = p.labels + 1
        rw [y3, x2]
        apply Nat.mod_eq_of_lt
        unfold NoWrap at hn
        omega
      omega
    refine (fresh_bracket sym p.chunk ih (reach_ext hr) (reach_lab hr) (by rw [y4, x4])
      (by intro x hx; apply x1; simpa [toks, y1, y2] using hx) (by rw [y3, x2])
      (by rw [y1]; omega) hS).mono (fun hn m hm => ?_)
    rcases hm with hm | hm
    · have := hS hn m hm
      show p.labels ≤ m
      omega
    · exact Nat.le_of_eq hm.symm
  | @lam p a q hf hr ih =>
    obtain ⟨x1, x2, x3, x4, x5⟩ := toks_fetch hf
    have hS : NoWrap p → ∀ m, (chunk_push a none).labels ≤ m → p.labels + 1 ≤ m := by
      intro hn m hm
      have : (chunk_push a none).labels = p.labels + 1 := by
        show (a.labels + 1) % 2 ^ 32 = p.labels + 1
        rw [x2]
        apply Nat.mod_eq_of_lt
        unfold NoWrap at hn
        omega
      omega
    refine (fresh_bracket none p.chunk ih (reach_ext hr) (reach_lab hr) x4 x1 x2 (by omega)
      hS).mono (fun hn m hm => ?_)
    rcases hm with hm | hm
    · have := hS hn m hm
      show p.labels ≤ m
      omega
    · exact Nat.le_of_eq hm.symm
  | @lambda p a q hf hr ih =>
    obtain ⟨x1, x2, x3, x4, x5⟩ := toks_fetch hf
    have l1 := (Lab.same p).emit
      ("\tpushi ".toList ++ LABELREF ++ fmt_u p.labels ++ "\n".toList) (Ext.refl p)
      (fun _ _ => LinesOK.line (lineOK_label p.labels p.labels _ nl_not_mem_jumpz.2.2.1
        (Nat.le_refl _)))
    have l2 := l1.emit "\tpushcn\n".toList (ext_append _ _)
      (fun _ _ => plain_lines _ _ (Or.inl (by simp [fixed_instrs])))
    have e2 := (ext_append p
      ("\tpushi ".toList ++ LABELREF ++ fmt_u p.labels ++ "\n".toList)).trans (ext_append _
        "\tpushcn\n".toList)
    have f1 := (fresh_silent (fun m => p.labels ≤ m) rfl : Fresh _ p p).plain
      ("\tpushi ".toList ++ LABELREF ++ fmt_u p.labels ++ "\n".toList) (Ext.refl p) (Lab.same p)
      (fun _ _ => text_marks_ref _ _ nl_not_mem_jumpz.2.2.1 tab_head.2.2)
    have f2 := f1.plain "\tpushcn\n".toList (ext_append _ _) l1
      (fun _ _ => plain_marks _ (Or.inl (by simp [fixed_instrs])))
    have hS : NoWrap (chunk_append (chunk_append p
        ("\tpushi ".toList ++ LABELREF ++ fmt_u p.labels ++ "\n".toList)) "\tpushcn\n".toList) →
        ∀ m, (chunk_push a none).labels ≤ m → p.labels + 1 ≤ m := by
      intro hn m hm
      have : (chunk_push a none).labels = p.labels + 1 := by
        show (a.labels + 1) % 2 ^ 32 = p.labels + 1
        rw [x2]
        show (p.labels + 1) % 2 ^ 32 = p.labels + 1
        apply Nat.mod_eq_of_lt
        have hn2 : p.labels + 2 * p.lex.length < 2 ^ 32 := hn
        have x3b : a.lex.length + 1 = p.lex.length := x3
        omega
      omega
    have f3 := fresh_bracket none p.chunk ih (reach_ext hr) (reach_lab hr) x4 x1 x2
      (by omega) hS
    have l3 := lab_bracket none p.chunk (reach_lab hr) (reach_ext hr) x4 x1 x2 (by omega)
    have e3 := ext_bracket none (reach_ext hr)
    have hc : a.chunk = p.chunk := x5
    rw [hc] at e3
    refine (f2.seq f3 e2 (ext_congr x4 x5 e3) l2 l3 (fun hn m hm => ?_)).mono
      (fun hn m hm => ?_)
    · rcases hm with hm | hm
      · have := hS hn m hm
        show p.labels ≤ m
        omega
      · exact Nat.le_of_eq hm.symm
    · rcases hm with hm | hm | hm
      · exact hm
      · have := hS hn m hm
        show p.labels ≤ m
        omega
      · exact Nat.le_of_eq hm.symm
  | @if_then p a c b hf hr1 hr2 ih1 ih2 =>
    obtain ⟨x1, x2, x3, x4⟩ := lab_bump hf
    have l1 : Lab p c := (reach_lab hr1).congr_left x1 x2 x3
      (fun hw => ⟨(x4 hw).1, by have := (x4 hw).2.1; omega, (x4 hw).2.2.1⟩)
    have e1 : Ext p c := ext_congr x1 x2 (reach_ext hr1)
    have l2 := l1.emit ("\tjumpz ".toList ++ LABELREF ++ fmt_u p.labels ++ "\n".toList) e1
      (fun _ _ => LinesOK.line (lineOK_label p.labels p.labels _ nl_not_mem_jumpz.1
        (Nat.le_refl _)))
    have e2 := e1.trans (ext_append c
      ("\tjumpz ".toList ++ LABELREF ++ fmt_u p.labels ++ "\n".toList))
    have l3 := l2.comp (reach_lab hr2) e2 (reach_ext hr2)
    have e3 := e2.trans (reach_ext hr2)
    have f1 : Fresh (fun m => a.labels ≤ m) p c :=
      Fresh.from_left ih1 x1 x2 x3 (fun hn => (x4 hn).1)
    have f2 := f1.plain ("\tjumpz ".toList ++ LABELREF ++ fmt_u p.labels ++ "\n".toList) e1 l1
      (fun _ _ => text_marks_ref _ _ nl_not_mem_jumpz.1 tab_head.1)
    have hac : NoWrap p → a.labels ≤ c.labels := fun hn =>
      ((reach_lab hr1).labels_le (x4 hn).1).1
    have hcb : NoWrap p → c.labels ≤ b.labels := fun hn =>
      ((reach_lab hr2).labels_le (l2.nowrap hn)).1
    have f3 := (f2.seq ih2 e2 (reach_ext hr2) l2 (reach_lab hr2) (fun _ m hm => hm)).mono
      (T := fun m => a.labels ≤ m) (fun hn m hm => by
        rcases hm with hm | hm
        · exact hm
        · have := hac hn
          have hm2 : c.labels ≤ m := hm
          show a.labels ≤ m
          omega)
    refine (f3.add_text (LABELREF ++ fmt_u p.labels ++ "\n".toList) [p.labels] e3 l3
      (fun _ hn => ⟨text_marks_label _, List.nodup_singleton _, fun m hm => ?_⟩)).mono
      (fun hn m hm => ?_)
    · rw [List.mem_singleton] at hm
      subst hm
      have h1 := (x4 hn).2.1
      have h2 := hac hn
      have h3 := hcb hn
      constructor
      · show ¬ a.labels ≤ p.labels
        omega
      · omega
    · rcases hm with hm | hm
      · have h1 := (x4 hn).2.1
        have hm2 : a.labels ≤ m := hm
        show p.labels ≤ m
        omega
      · rw [List.mem_singleton] at hm
        exact Nat.le_of_eq hm.symm
  | @if_else p a c b e hf hr1 hr2 hr3 ih1 ih2 ih3 =>
    obtain ⟨x1, x2, x3, x4⟩ := lab_bump hf
    have l1 : Lab p c := (reach_lab hr1).congr_left x1 x2 x3
      (fun hw => ⟨(x4 hw).1, by have := (x4 hw).2.1; omega, (x4 hw).2.2.1⟩)
    have e1 : Ext p c := ext_congr x1 x2 (reach_ext hr1)
    have l2 := l1.emit ("\tjumpz ".toList ++ LABELREF ++ fmt_u p.labels ++ "\n".toList) e1
      (fun _ _ => LinesOK.line (lineOK_label p.labels p.labels _ nl_not_mem_jumpz.1
        (Nat.le_refl _)))
    have e2 := e1.trans (ext_append c
      ("\tjumpz ".toList ++ LABELREF ++ fmt_u p.labels ++ "\n".toList))
    have l3 := l2.comp (reach_lab hr2) e2 (reach_ext hr2)
    have e3 := e2.trans (reach_ext hr2)
    have l4 := l3.emit
      ("\tjump ".toList ++ LABELREF ++ fmt_u ((p.labels + 1) % 2 ^ 32) ++ "\n".toList) e3
      (fun _ hn => LinesOK.line (lineOK_label p.labels _ _ nl_not_mem_jumpz.2.1
        (by rw [(x4 hn).2.2.2]; omega)))
    have e4 := e3.trans (ext_append b
      ("\tjump ".toList ++ LABELREF ++ fmt_u ((p.labels + 1) % 2 ^ 32) ++ "\n".toList))
    have l5 := l4.emit (LABELREF ++ fmt_u p.labels ++ "\n".toList) e4
      (fun _ _ => by
        have := LinesOK.line (lineOK_label p.labels p.labels [] nl_not_mem_jumpz.2.2.2
          (Nat.le_refl _))
        simpa using this)
    have e5 := e4.trans (ext_append _ (LABELREF ++ fmt_u p.labels ++ "\n".toList))
    have l6 := l5.comp (reach_lab hr3) e5 (reach_ext hr3)
    have e6 := e5.trans (reach_ext hr3)
    have hac : NoWrap p → a.labels ≤ c.labels := fun hn =>
      ((reach_lab hr1).labels_le (x4 hn).1).1
    have hcb : NoWrap p → c.labels ≤ b.labels := fun hn =>
      ((reach_lab hr2).labels_le (l2.nowrap hn)).1
    have hbe : NoWrap p → b.labels ≤ e.labels := fun hn =>
      ((reach_lab hr3).labels_le (l5.nowrap hn)).1
    have f1 : Fresh (fun m => a.labels ≤ m) p c :=
      Fresh.from_left ih1 x1 x2 x3 (fun hn => (x4 hn).1)
    have f2 := f1.plain ("\tjumpz ".toList ++ LABELREF ++ fmt_u p.labels ++ "\n".toList) e1 l1
      (fun _ _ => text_marks_ref _ _ nl_not_mem_jumpz.1 tab_head.1)
    have f3 := (f2.seq ih2 e2 (reach_ext hr2) l2 (reach_lab hr2) (fun _ m hm => hm)).mono
      (T := fun m => a.labels ≤ m) (fun hn m hm => by
        rcases hm with hm | hm
        · exact hm
        · have := hac hn
          have hm2 : c.labels ≤ m := hm
          show a.labels ≤ m
          omega)
    have f4 := f3.plain
      ("\tjump ".toList ++ LABELREF ++ fmt_u ((p.labels + 1) % 2 ^ 32) ++ "\n".toList) e3 l3
      (fun _ _ => text_marks_ref _ _ nl_not_mem_jumpz.2.1 tab_head.2.1)
    have f5 := f4.add_text (LABELREF ++ fmt_u p.labels ++ "\n".toList) [p.labels] e4 l4
      (fun _ hn => ⟨text_marks_label _, List.nodup_singleton _, fun m hm => by
        rw [List.mem_singleton] at hm
        subst hm
        have h1 := (x4 hn).2.1
        have h2 := hac hn
        have h3 := hcb hn
        constructor
        · show ¬ a.labels ≤ p.labels
          omega
        · show p.labels < b.labels
          omega⟩)
    have f6 := (f5.seq ih3 e5 (reach_ext hr3) l5 (reach_lab hr3) (fun _ m hm => hm)).mono
      (T := fun m => a.labels ≤ m ∨ m = p.labels) (fun hn m hm => by
        rcases hm with (hm | hm) | hm
        · exact Or.inl hm
        · rw [List.mem_singleton] at hm
          exact Or.inr hm
        · have h2 := hac hn
          have h3 := hcb hn
          have hm2 : b.labels ≤ m := hm
          left
          show a.labels ≤ m
          omega)
    refine (f6.add_text (LABELREF ++ fmt_u ((p.labels + 1) % 2 ^ 32) ++ "\n".toList)
      [(p.labels + 1) % 2 ^ 32] e6 l6
      (fun _ hn => ⟨text_marks_label _, List.nodup_singleton _, fun m hm => ?_⟩)).mono
      (fun hn m hm => ?_)
    · rw [List.mem_singleton] at hm
      subst hm
      have h1 := (x4 hn).2.1
      have h2 := hac hn
      have h3 := hcb hn
      have h4 := hbe hn
      rw [(x4 hn).2.2.2]
      constructor
      · show ¬ (a.labels ≤ p.labels + 1 ∨ p.labels + 1 = p.labels)
        omega
      · omega
    · have h1 := (x4 hn).2.1
      rcases hm with (hm | hm) | hm
      · have hm2 : a.labels ≤ m := hm
        show p.labels ≤ m
        omega
      · exact Nat.le_of_eq hm.symm
      · rw [List.mem_singleton] at hm
        rw [(x4 hn).2.2.2] at hm
        show p.labels ≤ m
        omega

theorem inc_silent (lo : Nat) {p q : buzzparser_s} (h : q.chunks = p.chunks) : Inc lo p q := by
  intro _ _
  rw [h]
  simp

theorem inc_mono {lo lo2 : Nat} {p q : buzzparser_s} (h : Inc lo p q)
    (hl : NoWrap p → lo2 ≤ lo) : Inc lo2 p q := by
  intro hv hn
  obtain ⟨a, b⟩ := h hv hn
  exact ⟨a, fun c hc => ⟨Nat.le_trans (hl hn) (b c hc).1, (b c hc).2⟩⟩

theorem inc_seq {lo lo2 : Nat} {p q r : buzzparser_s} (h1 : Inc lo p q) (h2 : Inc lo2 q r)
    (e1 : Ext p q) (e2 : Ext q r) (l1 : Lab p q) (l2 : Lab q r)
    (hq : NoWrap p → q.labels ≤ lo2) (hlo : NoWrap p → lo ≤ lo2) : Inc lo p r := by
  intro hv hn
  have hvq := ext_valid e1 hv
  have hnq := l1.nowrap hn
  obtain ⟨a1, b1⟩ := h1 hv hn
  obtain ⟨a2, b2⟩ := h2 hvq hnq
  have hqr := (l2.labels_le hnq).1
  rw [ext_drop e2 p.chunks.length e1.2.1 (by rw [e1.1]; exact hv)]
  constructor
  · rw [List.map_append, List.pairwise_append]
    refine ⟨a1, a2, fun x hx y hy => ?_⟩
    obtain ⟨cx, hcx, rfl⟩ := List.mem_map.1 hx
    obtain ⟨cy, hcy, rfl⟩ := List.mem_map.1 hy
    have := (b1 cx hcx).2
    have := (b2 cy hcy).1
    have := hq hn
    show cx.label < cy.label
    omega
  · intro c hc
    rcases List.mem_append.1 hc with hc | hc
    · exact ⟨(b1 c hc).1, by have := (b1 c hc).2; omega⟩
    · exact ⟨by have := (b2 c hc).1; have := hlo hn; omega, (b2 c hc).2⟩

theorem inc_append {lo : Nat} {p q : buzzparser_s} (txt : cstr) (h : Inc lo p q) (e : Ext p q) :
    Inc lo p (chunk_append q txt) := by
  intro hv hn
  have hd : (chunk_append q txt).chunks.drop p.chunks.length =
      q.chunks.drop p.chunks.length := by
    show (chunks_update q.chunks q.chunk _).drop p.chunks.length = _
    exact drop_update_lt _ _ _ _ (by rw [e.1]; exact hv)
  rw [hd]
  exact h hv hn

theorem inc_right {lo : Nat} {p q q2 : buzzparser_s} (h : Inc lo p q)
    (h1 : q2.chunks = q.chunks) (h2 : q2.labels = q.labels) : Inc lo p q2 := by
  intro hv hn
  rw [h1, h2]
  exact h hv hn

theorem inc_left {lo : Nat} {p p2 q : buzzparser_s} (h : Inc lo p2 q)
    (h1 : p2.chunks = p.chunks) (h2 : p2.chunk = p.chunk) (h4 : NoWrap p → NoWrap p2) :
    Inc lo p q := by
  intro hv hn
  have := h (by rw [h2, h1]; exact hv) (h4 hn)
  rw [h1] at this
  exact this

theorem inc_bracket {lo : Nat} {p a q : buzzparser_s} (sym : Option sym_s) (oldc : Nat)
    (ih : Inc lo (chunk_push a sym) q) (e : Ext (chunk_push a sym) q)
    (l : Lab (chunk_push a sym) q) (h1 : a.chunks = p.chunks) (h4 : a.labels = p.labels)
    (h5 : a.lex.length + 1 ≤ p.lex.length) (hlo : NoWrap p → p.labels + 1 ≤ lo) :
    Inc p.labels p (chunk_pop q oldc) := by
  intro hv hn
  have hl : (chunk_push a sym).labels = p.labels + 1 := by
    show (a.labels + 1) % 2 ^ 32 = p.labels + 1
    rw [h4]
    apply Nat.mod_eq_of_lt
    unfold NoWrap at hn
    omega
  have hx : (chunk_push a sym).lex = a.lex := rfl
  have hn2 : NoWrap (chunk_push a sym) := by
    unfold NoWrap at *
    rw [hl, hx]
    omega
  have hv2 : (chunk_push a sym).chunk < (chunk_push a sym).chunks.length := by
    simp [chunk_push]
  obtain ⟨a1, b1⟩ := ih hv2 hn2
  have hq := (l.labels_le hn2).1
  rw [hl] at hq
  obtain ⟨_, c, hd, hc, _⟩ := new_marks_bracket sym oldc e h1 hv
  have hlen : (chunk_push a sym).chunks.length = p.chunks.length + 1 := by
    simp [chunk_push, h1]
  rw [hlen] at a1 b1
  rw [hd]
  have hlo2 := hlo hn
  constructor
  · rw [List.map_cons, List.pairwise_cons]
    refine ⟨fun y hy => ?_, a1⟩
    obtain ⟨cy, hcy, rfl⟩ := List.mem_map.1 hy
    have := (b1 cy hcy).1
    show c.label < cy.label
    omega
  · intro x hx
    rcases List.mem_cons.1 hx with rfl | hx
    · show p.labels ≤ c.label ∧ c.label < q.labels
      omega
    · have := b1 x hx
      exact ⟨by omega, this.2⟩

/-- The chunks created while an `if` without `else` is parsed take their labels
after the two labels of the `if`. -/
theorem inc_if_then {p a c b : buzzparser_s} (hf : fetchtok (labels_bump p) = .ok a)
    (hr1 : Reach a c)
    (hr2 : Reach (chunk_append c
      ("\tjumpz ".toList ++ LABELREF ++ fmt_u p.labels ++ "\n".toList)) b)
    (ih1 : Inc a.labels a c) (ih2 : Inc c.labels (chunk_append c
      ("\tjumpz ".toList ++ LABELREF ++ fmt_u p.labels ++ "\n".toList)) b) :
    Inc (p.labels + 2) p (chunk_append b (LABELREF ++ fmt_u p.labels ++ "\n".toList)) ∧
    (NoWrap p → p.labels + 2 ≤ b.labels) := by
  obtain ⟨x1, x2, x3, x4⟩ := lab_bump hf
  have l1 : Lab p c := (reach_lab hr1).congr_left x1 x2 x3
    (fun hw => ⟨(x4 hw).1, by have := (x4 hw).2.1; omega, (x4 hw).2.2.1⟩)
  have e1 : Ext p c := ext_congr x1 x2 (reach_ext hr1)
  have l2 := l1.emit ("\tjumpz ".toList ++ LABELREF ++ fmt_u p.labels ++ "\n".toList) e1
    (fun _ _ => LinesOK.line (lineOK_label p.labels p.labels _ nl_not_mem_jumpz.1
      (Nat.le_refl _)))
  have e2 := e1.trans (ext_append c
    ("\tjumpz ".toList ++ LABELREF ++ fmt_u p.labels ++ "\n".toList))
  have e3 := e2.trans (reach_ext hr2)
  have hac : NoWrap p → a.labels ≤ c.labels := fun hn =>
    ((reach_lab hr1).labels_le (x4 hn).1).1
  have i1 : Inc a.labels p c := inc_left ih1 x1 x2 (fun hn => (x4 hn).1)
  have i2 := inc_append ("\tjumpz ".toList ++ LABELREF ++ fmt_u p.labels ++ "\n".toList) i1 e1
  have i3 : Inc a.labels p b := inc_seq i2 ih2 e2 (reach_ext hr2) l2 (reach_lab hr2)
    (fun _ => Nat.le_refl _) hac
  have hcb : NoWrap p → c.labels ≤ b.labels := fun hn =>
    ((reach_lab hr2).labels_le (l2.nowrap hn)).1
  refine ⟨inc_mono (inc_append _ i3 e3) (fun hn => by rw [(x4 hn).2.1]), fun hn => ?_⟩
  have := hac hn
  have := hcb hn
  have := (x4 hn).2.1
  omega

/-- The chunks created while an `if` with `else` is parsed take their labels
after the two labels of the `if`. -/
theorem inc_if_else {p a c b e : buzzparser_s} (hf : fetchtok (labels_bump p) = .ok a)
    (hr1 : Reach a c)
    (hr2 : Reach (chunk_append c
      ("\tjumpz ".toList ++ LABELREF ++ fmt_u p.labels ++ "\n".toList)) b)
    (hr3 : Reach (chunk_append
        (chunk_append b
          ("\tjump ".toList ++ LABELREF ++ fmt_u ((p.labels + 1) % 2 ^ 32) ++ "\n".toList))
        (LABELREF ++ fmt_u p.labels ++ "\n".toList)) e)
    (ih1 : Inc a.labels a c) (ih2 : Inc c.labels (chunk_append c
      ("\tjumpz ".toList ++ LABELREF ++ fmt_u p.labels ++ "\n".toList)) b)
    (ih3 : Inc b.labels (chunk_append
        (chunk_append b
          ("\tjump ".toList ++ LABELREF ++ fmt_u ((p.labels + 1) % 2 ^ 32) ++ "\n".toList))
        (LABELREF ++ fmt_u p.labels ++ "\n".toList)) e) :
    Inc (p.labels + 2) p
      (chunk_append e (LABELREF ++ fmt_u ((p.labels + 1) % 2 ^ 32) ++ "\n".toList)) ∧
    (NoWrap p → p.labels + 2 ≤ e.labels) := by
  obtain ⟨x1, x2, x3, x4⟩ := lab_bump hf
  have l1 : Lab p c := (reach_lab hr1).congr_left x1 x2 x3
    (fun hw => ⟨(x4 hw).1, by have := (x4 hw).2.1; omega, (x4 hw).2.2.1⟩)
  have e1 : Ext p c := ext_congr x1 x2 (reach_ext hr1)
  have l2 := l1.emit ("\tjumpz ".toList ++ LABELREF ++ fmt_u p.labels ++ "\n".toList) e1
    (fun _ _ => LinesOK.line (lineOK_label p.labels p.labels _ nl_not_mem_jumpz.1
      (Nat.le_refl _)))
  have e2 := e1.trans (ext_append c
    ("\tjumpz ".toList ++ LABELREF ++ fmt_u p.labels ++ "\n".toList))
  have l3 := l2.comp (reach_lab hr2) e2 (reach_ext hr2)
  have e3 := e2.trans (reach_ext hr2)
  have l4 := l3.emit
    ("\tjump ".toList ++ LABELREF ++ fmt_u ((p.labels + 1) % 2 ^ 32) ++ "\n".toList) e3
    (fun _ hn => LinesOK.line (lineOK_label p.labels _ _ nl_not_mem_jumpz.2.1
      (by rw [(x4 hn).2.2.2]; omega)))
  have e4 := e3.trans (ext_append b
    ("\tjump ".toList ++ LABELREF ++ fmt_u ((p.labels + 1) % 2 ^ 32) ++ "\n".toList))
  have l5 := l4.emit (LABELREF ++ fmt_u p.labels ++ "\n".toList) e4
    (fun _ _ => by
      have := LinesOK.line (lineOK_label p.labels p.labels [] nl_not_mem_jumpz.2.2.2
        (Nat.le_refl _))
      simpa using this)
  have e5 := e4.trans (ext_append _ (LABELREF ++ fmt_u p.labels ++ "\n".toList))
  have e6 := e5.trans (reach_ext hr3)
  have hac : NoWrap p → a.labels ≤ c.labels := fun hn =>
    ((reach_lab hr1).labels_le (x4 hn).1).1
  have hcb : NoWrap p → c.labels ≤ b.labels := fun hn =>
    ((reach_lab hr2).labels_le (l2.nowrap hn)).1
  have i1 : Inc a.labels p c := inc_left ih1 x1 x2 (fun hn => (x4 hn).1)
  have i2 := inc_append ("\tjumpz ".toList ++ LABELREF ++ fmt_u p.labels ++ "\n".toList) i1 e1
  have i3 : Inc a.labels p b := inc_seq i2 ih2 e2 (reach_ext hr2) l2 (reach_lab hr2)
    (fun _ => Nat.le_refl _) hac
  have i4 := inc_append
    ("\tjump ".toList ++ LABELREF ++ fmt_u ((p.labels + 1) % 2 ^ 32) ++ "\n".toList) i3 e3
  have i5 := inc_append (LABELREF ++ fmt_u p.labels ++ "\n".toList) i4 e4
  have i6 : Inc a.labels p e := inc_seq i5 ih3 e5 (reach_ext hr3) l5 (reach_lab hr3)
    (fun _ => Nat.le_refl _) (fun hn => Nat.le_trans (hac hn) (hcb hn))
  have hbe : NoWrap p → b.labels ≤ e.labels := fun hn =>
    ((reach_lab hr3).labels_le (l5.nowrap hn)).1
  refine ⟨inc_mono (inc_append _ i6 e6) (fun hn => by rw [(x4 hn).2.1]), fun hn => ?_⟩
  have := hac hn
  have := hcb hn
  have := hbe hn
  have := (x4 hn).2.1
  omega

/-- The chunks created by any sequence of elementary steps carry labels taken
from the counter, in the order of their creation. -/
theorem reach_inc {p q : buzzparser_s} (h : Reach p q) : Inc p.labels p q := by
  induction h with
  | refl p => exact inc_silent _ rfl
  | @trans p q r h1 h2 ih1 ih2 =>
    exact inc_seq ih1 ih2 (reach_ext h1) (reach_ext h2) (reach_lab h1) (reach_lab h2)
      (fun _ => Nat.le_refl _) (fun hn => ((reach_lab h1).labels_le hn).1)
  | fetch hf => exact inc_silent _ (fetchtok_same hf).1
  | next p => exact inc_silent _ rfl
  | bind p t _ => exact inc_silent _ (sym_add_same p _).2.2.2.1
  | @cleanup p q hr ih =>
    obtain ⟨_, _, c, d, _⟩ := block_cleanup_same q (buzzdict_size (cur_syms p))
    exact inc_right ih d c
  | plain p txt hpl => exact inc_append txt (inc_silent _ rfl) (Ext.refl p)
  | tokfmt t txt htok hty hr htf ih => exact inc_append txt ih (reach_ext hr)
  | @signed p q t1 t2 txt h1 hty1 hf h2 hty2 htf =>
    exact inc_append txt (inc_silent _ (fetchtok_same hf).1) (ext_fetch hf)
  | @symt p q hr ih =>
    have f1 : Inc p.labels p q := inc_left ih rfl rfl (fun hn => hn)
    exact inc_right f1 rfl rfl
  | @func p a q t sym hf ht hr ih =>
    obtain ⟨x1, x2, x3, x4, x5⟩ := toks_fetch hf
    obtain ⟨y1, y2, y3, y4, y5⟩ := sym_add_same a (tokval t)
    refine inc_bracket sym p.chunk ih (reach_ext hr) (reach_lab hr) (by rw [y4, x4])
      (by rw [y3, x2]) (by rw [y1]; omega) (fun hn => ?_)
    have : (chunk_push (sym_add a (tokval t)) sym).labels = p.labels + 1 := by
      show ((sym_add a (tokval t)).labels + 1) % 2 ^ 32 = p.labels + 1
      rw [y3, x2]
      apply Nat.mod_eq_of_lt
      unfold NoWrap at hn
      omega
    omega
  | @lam p a q hf hr ih =>
    obtain ⟨x1, x2, x3, x4, x5⟩ := toks_fetch hf
    refine inc_bracket none p.chunk ih (reach_ext hr) (reach_lab hr) x4 x2 (by omega)
      (fun hn => ?_)
    have : (chunk_push a none).labels = p.labels + 1 := by
      show (a.labels + 1) % 2 ^ 32 = p.labels + 1
      rw [x2]
      apply Nat.mod_eq_of_lt
      unfold NoWrap at hn
      omega
    omega
  | @lambda p a q hf hr ih =>
    obtain ⟨x1, x2, x3, x4, x5⟩ := toks_fetch hf
    have l1 := (Lab.same p).emit
      ("\tpushi ".toList ++ LABELREF ++ fmt_u p.labels ++ "\n".toList) (Ext.refl p)
      (fun _ _ => LinesOK.line (lineOK_label p.labels p.labels _ nl_not_mem_jumpz.2.2.1
        (Nat.le_refl _)))
    have l2 := l1.emit "\tpushcn\n".toList (ext_append _ _)
      (fun _ _ => plain_lines _ _ (Or.inl (by simp [fixed_instrs])))
    have e2 := (ext_append p
      ("\tpushi ".toList ++ LABELREF ++ fmt_u p.labels ++ "\n".toList)).trans (ext_append _
        "\tpushcn\n".toList)
    have i1 := inc_append ("\tpushi ".toList ++ LABELREF ++ fmt_u p.labels ++ "\n".toList)
      (inc_silent p.labels rfl : Inc _ p p) (Ext.refl p)
    have i2 := inc_append "\tpushcn\n".toList i1 (ext_append _ _)
    have i3 := inc_bracket none p.chunk ih (reach_ext hr) (reach_lab hr) x4 x2
      (by omega) (fun hn => by
        have : (chunk_push a none).labels = p.labels + 1 := by
          show (a.labels + 1) % 2 ^ 32 = p.labels + 1
          rw [x2]
          show (p.labels + 1) % 2 ^ 32 = p.labels + 1
          apply Nat.mod_eq_of_lt
          have hn2 : p.labels + 2 * p.lex.length < 2 ^ 32 := hn
          have x3b : a.lex.length + 1 = p.lex.length := x3
          omega
        rw [this]
        exact Nat.le_refl _)
    have l3 := lab_bracket none p.chunk (reach_lab hr) (reach_ext hr) x4 x1 x2 (by omega)
    have e3 := ext_bracket none (reach_ext hr)
    have hc : a.chunk = p.chunk := x5
    rw [hc] at e3
    exact inc_seq i2 i3 e2 (ext_congr x4 x5 e3) l2 l3 (fun _ => Nat.le_refl _)
      (fun _ => Nat.le_refl _)
  | @if_then p a c b hf hr1 hr2 ih1 ih2 =>
    exact inc_mono (inc_if_then hf hr1 hr2 ih1 ih2).1 (fun _ => by omega)
  | @if_else p a c b e hf hr1 hr2 hr3 ih1 ih2 ih3 =>
    exact inc_mono (inc_if_else hf hr1 hr2 hr3 ih1 ih2 ih3).1 (fun _ => by omega)

theorem ext_labels {p q : buzzparser_s} (e : Ext p q) :
    (q.chunks.take p.chunks.length).map (fun c => c.label) =
      p.chunks.map (fun c => c.label) := by
  obtain ⟨_, e2, e3, e4, _⟩ := e
  apply List.ext_getElem?
  intro i
  rw [List.getElem?_map, List.getElem?_map, List.getElem?_take]
  by_cases hi : i < p.chunks.length
  · rw [if_pos hi]
    by_cases hc : i = p.chunk
    · subst hc
      have hp : p.chunks[p.chunk]? = some p.chunks[p.chunk] := List.getElem?_eq_getElem hi
      obtain ⟨c', t, h1, h2, _⟩ := e4 _ hp
      rw [h1, hp]
      simp [h2]
    · rw [e3 i hi hc]
  · rw [if_neg hi, List.getElem?_eq_none (by omega)]

theorem inc_labels {lo : Nat} {p q : buzzparser_s} (i : Inc lo p q) (e : Ext p q)
    (hv : p.chunk < p.chunks.length) (hn : NoWrap p)
    (hb : ∀ c ∈ p.chunks, c.label < p.labels) :
    ∀ c ∈ q.chunks, c.label < p.labels ∨ (lo ≤ c.label ∧ c.label < q.labels) := by
  intro c hc
  rw [← List.take_append_drop p.chunks.length q.chunks] at hc
  rcases List.mem_append.1 hc with hc | hc
  · left
    have : c.label ∈ (q.chunks.take p.chunks.length).map (fun c => c.label) :=
      List.mem_map.2 ⟨c, hc, rfl⟩
    rw [ext_labels e] at this
    obtain ⟨c0, h0, e0⟩ := List.mem_map.1 this
    rw [← e0]
    exact hb c0 h0
  · right
    exact (i hv hn).2 c hc

/-- Rule `parse_if`: the chunks created inside take their labels after the two
labels of the `if`, and the counter ends beyond both. -/
theorem if_inc {n : Nat} {p q : buzzparser_s} (h : parse_if n p = .ok q) :
    Inc (p.labels + 2) p q ∧ (NoWrap p → p.labels + 2 ≤ q.labels) := by
  cases n with
  | zero =>
    rw [parse_if] at h
    cases h
  | succ n =>
    have ih := rules_reach n
    rw [parse_if] at h
    obtain ⟨u, hu, h⟩ := bind_eq_ok.mp h
    obtain ⟨p1, h1, h⟩ := bind_eq_ok.mp h
    obtain ⟨u1, hu1, h⟩ := bind_eq_ok.mp h
    obtain ⟨p2, h2, h⟩ := bind_eq_ok.mp h
    obtain ⟨p3, h3, h⟩ := bind_eq_ok.mp h
    obtain ⟨u3, hu3, h⟩ := bind_eq_ok.mp h
    obtain ⟨p4, h4, h⟩ := bind_eq_ok.mp h
    obtain ⟨p5, h5, h⟩ := bind_eq_ok.mp h
    obtain ⟨p6, h6, h⟩ := bind_eq_ok.mp h
    obtain ⟨t, ht, h⟩ := bind_eq_ok.mp h
    have ec : Reach p1 p4 :=
      (Reach.fetch h2).trans ((ih.condition _ _ h3).trans (Reach.fetch h4))
    have eb := (ih.block _ _ h5).trans (ih.if_newlines _ _ h6)
    split at h
    · obtain ⟨p7, h7, h⟩ := bind_eq_ok.mp h
      obtain ⟨p8, h8, h⟩ := bind_eq_ok.mp h
      cases h
      exact inc_if_else h1 ec (eb.trans (Reach.fetch h7)) (ih.block _ _ h8) (reach_inc ec)
        (reach_inc (eb.trans (Reach.fetch h7))) (reach_inc (ih.block _ _ h8))
    · cases h
      exact inc_if_then h1 ec eb (reach_inc ec) (reach_inc eb)

theorem script_start (toks : List buzztok_s) :
    (chunk_push (symt_push (nexttok (buzzparser_new toks))) none).chunks = [chunk_new 0 none] ∧
    (chunk_push (symt_push (nexttok (buzzparser_new toks))) none).chunk = 0 ∧
    (chunk_push (symt_push (nexttok (buzzparser_new toks))) none).labels = 1 ∧
    (NoWrap (buzzparser_new toks) →
      NoWrap (chunk_push (symt_push (nexttok (buzzparser_new toks))) none)) ∧
    (TokWF (buzzparser_new toks) →
      TokWF (chunk_push (symt_push (nexttok (buzzparser_new toks))) none)) := by
  refine ⟨rfl, rfl, rfl, fun hn => ?_, fun hw t ht => ?_⟩
  · have h1 : (chunk_push (symt_push (nexttok (buzzparser_new toks))) none).labels = 1 := rfl
    have h2 : (chunk_push (symt_push (nexttok (buzzparser_new toks))) none).lex = toks.tail := rfl
    have h3 : (buzzparser_new toks).labels = 0 := rfl
    have h4 : (buzzparser_new toks).lex = toks := rfl
    unfold NoWrap at *
    rw [h1, h2]
    rw [h3, h4] at hn
    cases toks with
    | nil => simp
    | cons t r =>
      simp only [List.tail_cons, List.length_cons] at *
      omega
  · apply hw
    have h1 : Buzz.toks (chunk_push (symt_push (nexttok (buzzparser_new toks))) none) =
        toks.head?.toList ++ toks.tail := rfl
    have h2 : Buzz.toks (buzzparser_new toks) = toks := rfl
    rw [h1] at ht
    rw [h2]
    cases toks with
    | nil => simp at ht
    | cons t r => simpa using ht

/-- The chunks at the end of `parse_script`: the global chunk, closed by the exit
code, and the chunks created by the statement list. -/
theorem script_shape {n : Nat} {toks : List buzztok_s} {q : buzzparser_s}
    (h : parse_script n (buzzparser_new toks) = .ok q) :
    ∃ p1 c', Reach (chunk_push (symt_push (nexttok (buzzparser_new toks))) none) p1 ∧
      c'.label = 0 ∧
      chunk_text c' = emitted (chunk_push (symt_push (nexttok (buzzparser_new toks))) none) p1 ∧
      q.labels = p1.labels ∧
      q.chunks = chunk_addcode (chunk_addcode c' "\n@__exitpoint\n".toList) "\tdone\n".toList ::
        p1.chunks.drop 1 := by
  obtain ⟨p1, hs, rfl⟩ := parse_script_ok h
  have hr := (rules_reach n).statlist _ _ hs
  have e := reach_ext hr
  have h0 : (chunk_push (symt_push (nexttok (buzzparser_new toks))) none).chunks[
      (chunk_push (symt_push (nexttok (buzzparser_new toks))) none).chunk]? =
      some (chunk_new 0 none) := rfl
  obtain ⟨c', t, g1, g2, _, g4, _⟩ := e.2.2.2.1 _ h0
  have g1' : p1.chunks[0]? = some c' := g1
  have hc : p1.chunk = 0 := e.1
  refine ⟨p1, c', hr, g2, ?_, rfl, ?_⟩
  · unfold emitted text_at
    rw [g1, h0]
    rfl
  · show chunks_update (chunks_update p1.chunks p1.chunk _) p1.chunk _ = _
    rw [hc]
    cases hp : p1.chunks with
    | nil =>
      rw [hp] at g1'
      simp at g1'
    | cons x xs =>
      rw [hp] at g1'
      simp only [List.getElem?_cons_zero, Option.some.injEq] at g1'
      subst g1'
      simp [chunks_update]

theorem exit_marks : text_marks ("\n@__exitpoint\n".toList ++ "\tdone\n".toList) = [] ∧
    Whole ("\n@__exitpoint\n".toList ++ "\tdone\n".toList) := by
  have e : "\n@__exitpoint\n".toList ++ "\tdone\n".toList =
      unlines [[], "@__exitpoint".toList, "\tdone".toList] := by decide
  have hn : ∀ l ∈ [[], "@__exitpoint".toList, "\tdone".toList], '\n' ∉ l := by decide
  refine ⟨?_, _, e, hn⟩
  unfold text_marks
  rw [e, split_lines_unlines _ hn]
  have h1 : line_mark [] = none := line_mark_plain _ (by simp)
  have h2 : line_mark "@__exitpoint".toList = none := by
    unfold line_mark
    rw [if_neg]
    rintro ⟨s, hs⟩
    have := congrArg (fun l => l.take 9) hs
    revert this
    simp [LABELREF]
  have h3 : line_mark "\tdone".toList = none := line_mark_plain _ (by decide)
  simp only [List.filterMap_cons, h1, h2, h3, List.filterMap_nil]

/-- The labels marked by the chunks at the end of `parse_script` are pairwise
different, and every chunk holds whole lines. -/
theorem script_marks {n : Nat} {toks : List buzztok_s} {q : buzzparser_s}
    (h : parse_script n (buzzparser_new toks) = .ok q) (hn : NoWrap (buzzparser_new toks))
    (hw : TokWF (buzzparser_new toks)) :
    (q.chunks.flatMap chunk_marks).Nodup ∧ ∀ c ∈ q.chunks, Whole (chunk_text c) := by
  obtain ⟨p1, c', hr, g1, g2, g3, g4⟩ := script_shape h
  obtain ⟨s1, s2, s3, s4, s5⟩ := script_start toks
  have hv : (chunk_push (symt_push (nexttok (buzzparser_new toks))) none).chunk <
      (chunk_push (symt_push (nexttok (buzzparser_new toks))) none).chunks.length := by
    rw [s1, s2]
    simp
  obtain ⟨a, b, _, d⟩ := reach_fresh hr hv (s5 hw) (s4 hn)
  have hl := ((reach_lab hr).lines hv (s5 hw) (s4 hn)).whole
  rw [← g2] at hl
  have ht : chunk_text (chunk_addcode (chunk_addcode c' "\n@__exitpoint\n".toList)
      "\tdone\n".toList) = chunk_text c' ++ ("\n@__exitpoint\n".toList ++ "\tdone\n".toList) := by
    rw [chunk_text_addcode, chunk_text_addcode, List.append_assoc]
  have hlen : (chunk_push (symt_push (nexttok (buzzparser_new toks))) none).chunks.length = 1 := by
    rw [s1]
    rfl
  rw [hlen] at d
  have hm : q.chunks.flatMap chunk_marks =
      0 :: new_marks (chunk_push (symt_push (nexttok (buzzparser_new toks))) none) p1 := by
    rw [g4, List.flatMap_cons]
    unfold new_marks
    rw [hlen, ← g2]
    show (chunk_addcode (chunk_addcode c' _) _).label :: text_marks (chunk_text _) ++ _ = _
    rw [ht, text_marks_whole _ hl, exit_marks.1, List.append_nil]
    show c'.label :: _ ++ _ = _
    rw [g1]
    rfl
  constructor
  · rw [hm, List.nodup_cons]
    refine ⟨fun h0 => ?_, a⟩
    have := (b 0 h0).1
    rw [s3] at this
    omega
  · intro c hc
    rw [g4] at hc
    rcases List.mem_cons.1 hc with rfl | hc
    · rw [ht]
      exact hl.join exit_marks.2
    · exact d c hc

/-- The labels of the chunks at the end of `parse_script` grow along the chunk
list, from 0 for the global chunk, and stay below the counter. -/
theorem script_labels {n : Nat} {toks : List buzztok_s} {q : buzzparser_s}
    (h : parse_script n (buzzparser_new toks) = .ok q) (hn : NoWrap (buzzparser_new toks)) :
    (q.chunks.map (fun c => c.label)).Pairwise (· < ·) ∧
    (∃ g rest, q.chunks = g :: rest ∧ g.label = 0) ∧
    ∀ c ∈ q.chunks, c.label < q.labels := by
  obtain ⟨p1, c', hr, g1, g2, g3, g4⟩ := script_shape h
  obtain ⟨s1, s2, s3, s4, s5⟩ := script_start toks
  have hv : (chunk_push (symt_push (nexttok (buzzparser_new toks))) none).chunk <
      (chunk_push (symt_push (nexttok (buzzparser_new toks))) none).chunks.length := by
    rw [s1, s2]
    simp
  obtain ⟨a, b⟩ := reach_inc hr hv (s4 hn)
  have hlen : (chunk_push (symt_push (nexttok (buzzparser_new toks))) none).chunks.length = 1 := by
    rw [s1]
    rfl
  rw [hlen] at a b
  rw [s3] at b
  have hq := ((reach_lab hr).labels_le (s4 hn)).1
  rw [s3] at hq
  refine ⟨?_, ⟨_, _, g4, g1⟩, fun c hc => ?_⟩
  · rw [g4, List.map_cons, List.pairwise_cons]
    refine ⟨fun y hy => ?_, a⟩
    obtain ⟨cy, hcy, rfl⟩ := List.mem_map.1 hy
    have := (b cy hcy).1
    show c'.label < cy.label
    omega
  · rw [g4] at hc
    rw [g3]
    rcases List.mem_cons.1 hc with rfl | hc
    · show c'.label < p1.labels
      omega
    · exact (b c hc).2

theorem whole_line (l : cstr) (h : '\n' ∉ l) : Whole (l ++ "\n".toList) :=
  ⟨[l], by simp [unlines], by simpa using h⟩

theorem tab_line (l : cstr) (h : '\n' ∉ l) :
    Whole ('\t' :: l ++ "\n".toList) ∧ text_marks ('\t' :: l ++ "\n".toList) = [] := by
  have h1 : '\n' ∉ '\t' :: l := by
    intro hm
    rcases List.mem_cons.1 hm with hm | hm
    · revert hm; decide
    · exact h hm
  refine ⟨whole_line _ h1, ?_⟩
  rw [text_marks_line _ h1, line_mark_tab]
  rfl

theorem count_filterMap_le {α β : Type} [BEq α] [LawfulBEq α] [DecidableEq β] (f : α → Option β)
    (l : α) (v : β) (h : f l = some v) (ls : List α) :
    ls.count l ≤ (ls.filterMap f).count v := by
  induction ls with
  | nil => simp
  | cons x xs ih =>
    by_cases hx : x = l
    · subst hx
      rw [List.filterMap_cons, h]
      simp only [List.count_cons_self]
      omega
    · rw [List.count_cons_of_ne (fun e => hx e.symm), List.filterMap_cons]
      cases hfx : f x with
      | none => exact ih
      | some w =>
        simp only
        exact Nat.le_trans ih (List.count_le_count_cons _ _ _)

/-! ## The text written at the end -/

theorem done_silent {p q : buzzparser_s} (h : q.chunks = p.chunks) : Done p q := by
  intro _
  rw [h]
  simp

theorem done_seq {p q r : buzzparser_s} (h1 : Done p q) (h2 : Done q r) (e1 : Ext p q)
    (e2 : Ext q r) : Done p r := by
  intro hv c hc
  rw [ext_drop e2 p.chunks.length e1.2.1 (by rw [e1.1]; exact hv)] at hc
  rcases List.mem_append.1 hc with hc | hc
  · exact h1 hv c hc
  · exact h2 (ext_valid e1 hv) c hc

theorem done_append {p q : buzzparser_s} (txt : cstr) (h : Done p q) (e : Ext p q) :
    Done p (chunk_append q txt) := by
  intro hv
  have hd : (chunk_append q txt).chunks.drop p.chunks.length =
      q.chunks.drop p.chunks.length := by
    show (chunks_update q.chunks q.chunk _).drop p.chunks.length = _
    exact drop_update_lt _ _ _ _ (by rw [e.1]; exact hv)
  rw [hd]
  exact h hv

theorem done_right {p q q2 : buzzparser_s} (h : Done p q) (h1 : q2.chunks = q.chunks) :
    Done p q2 := by
  intro hv
  rw [h1]
  exact h hv

theorem done_left {p p2 q : buzzparser_s} (h : Done p2 q) (h1 : p2.chunks = p.chunks)
    (h2 : p2.chunk = p.chunk) : Done p q := by
  intro hv
  have := h (by rw [h2, h1]; exact hv)
  rw [h1] at this
  exact this

theorem done_bracket {p a q : buzzparser_s} (sym : Option sym_s) (oldc : Nat)
    (ih : Done (chunk_push a sym) q) (e : Ext (chunk_push a sym) q) (h1 : a.chunks = p.chunks) :
    Done p (chunk_pop q oldc) := by
  intro hv
  obtain ⟨_, f2, c, f3, _, _, _, f7, _⟩ := bracket_frame sym e
  have hd : (chunk_pop q oldc).chunks.drop p.chunks.length =
      chunk_finalize c :: q.chunks.drop (p.chunks.length + 1) := by
    show (chunks_update q.chunks q.chunk chunk_finalize).drop p.chunks.length = _
    rw [f2, h1]
    rw [h1] at f3
    exact drop_update chunk_finalize f3
  have hv2 : (chunk_push a sym).chunk < (chunk_push a sym).chunks.length := by
    simp [chunk_push]
  have hlen : (chunk_push a sym).chunks.length = p.chunks.length + 1 := by
    simp [chunk_push, h1]
  have i1 := ih hv2
  rw [hlen] at i1
  rw [hd]
  intro x hx
  rcases List.mem_cons.1 hx with rfl | hx
  · exact finalize_tail c f7
  · exact i1 x hx

/-- Every chunk created by a sequence of elementary steps was finalized by its
end. -/
theorem reach_done {p q : buzzparser_s} (h : Reach p q) : Done p q := by
  induction h with
  | refl p => exact done_silent rfl
  | @trans p q r h1 h2 ih1 ih2 => exact done_seq ih1 ih2 (reach_ext h1) (reach_ext h2)
  | fetch hf => exact done_silent (fetchtok_same hf).1
  | next p => exact done_silent rfl
  | bind p t _ => exact done_silent (sym_add_same p _).2.2.2.1
  | @cleanup p q hr ih =>
    obtain ⟨_, _, _, d, _⟩ := block_cleanup_same q (buzzdict_size (cur_syms p))
    exact done_right ih d
  | plain p txt hpl => exact done_append txt (done_silent rfl) (Ext.refl p)
  | tokfmt t txt htok hty hr htf ih => exact done_append txt ih (reach_ext hr)
  | @signed p q t1 t2 txt h1 hty1 hf h2 hty2 htf =>
    exact done_append txt (done_silent (fetchtok_same hf).1) (ext_fetch hf)
  | @symt p q hr ih =>
    have f1 : Done p q := done_left ih rfl rfl
    exact done_right f1 rfl
  | @func p a q t sym hf ht hr ih =>
    obtain ⟨x1, x2, x3, x4, x5⟩ := toks_fetch hf
    obtain ⟨y1, y2, y3, y4, y5⟩ := sym_add_same a (tokval t)
    exact done_bracket sym p.chunk ih (reach_ext hr) (by rw [y4, x4])
  | @lam p a q hf hr ih =>
    obtain ⟨x1, x2, x3, x4, x5⟩ := toks_fetch hf
    exact done_bracket none p.chunk ih (reach_ext hr) x4
  | @lambda p a q hf hr ih =>
    obtain ⟨x1, x2, x3, x4, x5⟩ := toks_fetch hf
    have e2 := (ext_append p
      ("\tpushi ".toList ++ LABELREF ++ fmt_u p.labels ++ "\n".toList)).trans (ext_append _
        "\tpushcn\n".toList)
    have i1 := done_append ("\tpushi ".toList ++ LABELREF ++ fmt_u p.labels ++ "\n".toList)
      (done_silent rfl : Done p p) (Ext.refl p)
    have i2 := done_append "\tpushcn\n".toList i1 (ext_append _ _)
    have i3 := done_bracket none p.chunk ih (reach_ext hr) x4
    have e3 := ext_bracket none (reach_ext hr)
    have hc : a.chunk = p.chunk := x5
    rw [hc] at e3
    exact done_seq i2 i3 e2 (ext_congr x4 x5 e3)
  | @if_then p a c b hf hr1 hr2 ih1 ih2 =>
    obtain ⟨x1, x2, x3, x4⟩ := lab_bump hf
    have e1 : Ext p c := ext_congr x1 x2 (reach_ext hr1)
    have e2 := e1.trans (ext_append c
      ("\tjumpz ".toList ++ LABELREF ++ fmt_u p.labels ++ "\n".toList))
    have e3 := e2.trans (reach_ext hr2)
    have i1 : Done p c := done_left ih1 x1 x2
    have i2 := done_append ("\tjumpz ".toList ++ LABELREF ++ fmt_u p.labels ++ "\n".toList)
      i1 e1
    have i3 : Done p b := done_seq i2 ih2 e2 (reach_ext hr2)
    exact done_append _ i3 e3
  | @if_else p a c b e hf hr1 hr2 hr3 ih1 ih2 ih3 =>
    obtain ⟨x1, x2, x3, x4⟩ := lab_bump hf
    have e1 : Ext p c := ext_congr x1 x2 (reach_ext hr1)
    have e2 := e1.trans (ext_append c
      ("\tjumpz ".toList ++ LABELREF ++ fmt_u p.labels ++ "\n".toList))
    have e3 := e2.trans (reach_ext hr2)
    have e4 := e3.trans (ext_append b
      ("\tjump ".toList ++ LABELREF ++ fmt_u ((p.labels + 1) % 2 ^ 32) ++ "\n".toList))
    have e5 := e4.trans (ext_append _ (LABELREF ++ fmt_u p.labels ++ "\n".toList))
    have e6 := e5.trans (reach_ext hr3)
    have i1 : Done p c := done_left ih1 x1 x2
    have i2 := done_append ("\tjumpz ".toList ++ LABELREF ++ fmt_u p.labels ++ "\n".toList)
      i1 e1
    have i3 : Done p b := done_seq i2 ih2 e2 (reach_ext hr2)
    have i4 := done_append
      ("\tjump ".toList ++ LABELREF ++ fmt_u ((p.labels + 1) % 2 ^ 32) ++ "\n".toList) i3 e3
    have i5 := done_append (LABELREF ++ fmt_u p.labels ++ "\n".toList) i4 e4
    have i6 : Done p e := done_seq i5 ih3 e5 (reach_ext hr3)
    exact done_append _ i6 e6

/-- The chunks at the end of `parse_script` on a parser without chunks: the
global chunk, which received the exit code last and was not finalized, and the
chunks created by the statement list, all finalized. -/
theorem script_layout {n : Nat} {par q : buzzparser_s} (hpar : par.chunks = [])
    (h : parse_script n par = .ok q) :
    ∃ c' rest body, q.chunks = chunk_addcode (chunk_addcode c' "\n@__exitpoint\n".toList)
        "\tdone\n".toList :: rest ∧
      c'.label = par.labels ∧ c'.sym = none ∧ chunk_text c' = body ∧
      ∀ c ∈ rest, c.code.drop c.csize = [Char.ofNat 0] := by
  obtain ⟨p1, hs, rfl⟩ := parse_script_ok h
  have hr := (rules_reach n).statlist _ _ hs
  have e := reach_ext hr
  have hch : (chunk_push (symt_push (nexttok par)) none).chunks = [chunk_new par.labels none] := by
    show par.chunks ++ [chunk_new par.labels none] = _
    rw [hpar]
    rfl
  have hci : (chunk_push (symt_push (nexttok par)) none).chunk = 0 := by
    show par.chunks.length = 0
    rw [hpar]
    rfl
  have h0 : (chunk_push (symt_push (nexttok par)) none).chunks[
      (chunk_push (symt_push (nexttok par)) none).chunk]? = some (chunk_new par.labels none) := by
    rw [hch, hci]
    rfl
  obtain ⟨c', t, g1, g2, g3, _, _⟩ := e.2.2.2.1 _ h0
  rw [hci] at g1
  have hc : p1.chunk = 0 := by rw [e.1, hci]
  have hv : (chunk_push (symt_push (nexttok par)) none).chunk <
      (chunk_push (symt_push (nexttok par)) none).chunks.length := by
    rw [hch, hci]
    simp
  have hd := reach_done hr hv
  rw [hch] at hd
  refine ⟨c', p1.chunks.drop 1, chunk_text c', ?_, g2, g3, rfl, hd⟩
  show chunks_update (chunks_update p1.chunks p1.chunk _) p1.chunk _ = _
  rw [hc]
  cases hp : p1.chunks with
  | nil =>
    rw [hp] at g1
    simp at g1
  | cons x xs =>
    rw [hp] at g1
    simp only [List.getElem?_cons_zero, Option.some.injEq] at g1
    subst g1
    simp [chunks_update]

theorem fmt_lld_no_nl (z : Int) : '\n' ∉ fmt_lld z := by
  unfold fmt_lld
  split
  · intro h
    rcases List.mem_cons.1 h with h | h
    · revert h; decide
    · exact fmt_u_no_nl _ h
  · exact fmt_u_no_nl _

theorem c24_script : parse_script 10 (buzzparser_new c24_toks) = .ok c24_final := by
  simp only [parse_script, buzzparser_new, c24_toks, c24_final, c24_chunk, nexttok, List.head?,
    List.tail, symt_push, chunk_push, chunk_append]
  repeat
    (first
      | rw [parse_statlist] | rw [parse_statlist_loop] | rw [parse_stat] | rw [parse_block]
      | rw [parse_fun] | rw [parse_if] | rw [parse_if_newlines] | rw [parse_for]
      | rw [parse_while] | rw [parse_conditionlist] | rw [parse_conditionlist_loop]
      | rw [parse_condition] | rw [parse_condition_loop] | rw [parse_comparison]
      | rw [parse_expression] | rw [parse_expression_loop] | rw [parse_product]
      | rw [parse_product_loop] | rw [parse_modulo] | rw [parse_modulo_loop] | rw [parse_power]
      | rw [parse_powerrest] | rw [parse_operand] | rw [parse_command] | rw [parse_idlist]
      | rw [parse_idlist_loop] | rw [parse_idref] | rw [parse_idref_loop] | rw [parse_lambda])
    try simp [-presult_bind_ok, bind_ok_step, tokval, tokop, sym_add, sym_lookup, buzzdict_get, buzzdict_set, buzzdict_size,
      cur_syms, symt_push, symt_pop, chunk_push, chunk_pop, idref_flush, load_text,
      block_cleanup, buzzparser_symtodel, buzzdict_remove, TYPE_BASIC, TYPE_CLOSURE, TYPE_TABLE]
  all_goals rfl

theorem c2_block_script :
    parse_script 10 (buzzparser_new c2_block_toks) = .ok c2_block_final := by
  simp only [parse_script, buzzparser_new, c2_block_toks, c2_block_final, c24_chunk,
    c2_block_chunk, nexttok, List.head?, List.tail, symt_push, chunk_push, chunk_append]
  repeat
    (first
      | rw [parse_statlist] | rw [parse_statlist_loop] | rw [parse_stat] | rw [parse_block]
      | rw [parse_fun] | rw [parse_if] | rw [parse_if_newlines] | rw [parse_for]
      | rw [parse_while] | rw [parse_conditionlist] | rw [parse_conditionlist_loop]
      | rw [parse_condition] | rw [parse_condition_loop] | rw [parse_comparison]
      | rw [parse_expression] | rw [parse_expression_loop] | rw [parse_product]
      | rw [parse_product_loop] | rw [parse_modulo] | rw [parse_modulo_loop] | rw [parse_power]
      | rw [parse_powerrest] | rw [parse_operand] | rw [parse_command] | rw [parse_idlist]
      | rw [parse_idlist_loop] | rw [parse_idref] | rw [parse_idref_loop] | rw [parse_lambda])
    try simp [-presult_bind_ok, bind_ok_step, tokval, tokop, sym_add, sym_lookup, buzzdict_get, buzzdict_set, buzzdict_size,
      cur_syms, symt_push, symt_pop, chunk_push, chunk_pop, idref_flush, load_text,
      block_cleanup, buzzparser_symtodel, buzzdict_remove, TYPE_BASIC, TYPE_CLOSURE, TYPE_TABLE]
  all_goals rfl

theorem c2_redef_script :
    parse_script 8 (buzzparser_new c2_redef_toks) = .ok c2_redef_final := by
  simp only [parse_script, buzzparser_new, c2_redef_toks, c2_redef_final, exit_chunk, nexttok,
    List.head?, List.tail, symt_push, chunk_push, chunk_append]
  repeat
    (first
      | rw [parse_statlist] | rw [parse_statlist_loop] | rw [parse_stat] | rw [parse_block]
      | rw [parse_fun] | rw [parse_if] | rw [parse_if_newlines] | rw [parse_for]
      | rw [parse_while] | rw [parse_conditionlist] | rw [parse_conditionlist_loop]
      | rw [parse_condition] | rw [parse_condition_loop] | rw [parse_comparison]
      | rw [parse_expression] | rw [parse_expression_loop] | rw [parse_product]
      | rw [parse_product_loop] | rw [parse_modulo] | rw [parse_modulo_loop] | rw [parse_power]
      | rw [parse_powerrest] | rw [parse_operand] | rw [parse_command] | rw [parse_idlist]
      | rw [parse_idlist_loop] | rw [parse_idref] | rw [parse_idref_loop] | rw [parse_lambda])
    try simp [-presult_bind_ok, bind_ok_step, tokval, tokop, sym_add, sym_lookup, buzzdict_get, buzzdict_set, buzzdict_size,
      cur_syms, symt_push, symt_pop, chunk_push, chunk_pop, idref_flush, load_text,
      block_cleanup, buzzparser_symtodel, buzzdict_remove, TYPE_BASIC, TYPE_CLOSURE, TYPE_TABLE]
  all_goals rfl

/-- The registration code written by `chunk_register` marks no label. -/
theorem register_marks (heap : chunk_s → Bool × Int) (chs : List chunk_s) (f : cstr)
    (hf : Whole f) (hm : text_marks f = []) :
    Whole (buzzdarray_foreach chs (chunk_register heap) f) ∧
      text_marks (buzzdarray_foreach chs (chunk_register heap) f) = [] := by
  unfold buzzdarray_foreach
  induction chs generalizing f with
  | nil => exact ⟨hf, hm⟩
  | cons c r ih =>
    rw [List.foldl_cons]
    have step : ∀ (g l : cstr), Whole g → text_marks g = [] → '\n' ∉ l →
        Whole (g ++ ('\t' :: l ++ "\n".toList)) ∧
        text_marks (g ++ ('\t' :: l ++ "\n".toList)) = [] := by
      intro g l hg hgm hl
      obtain ⟨a, b⟩ := tab_line l hl
      exact ⟨hg.join a, by rw [text_marks_whole _ hg, hgm, b]; rfl⟩
    have nl1 : '\n' ∉ "pushi ".toList ++ LABELREF ++ fmt_u c.label := by
      intro hx
      rcases List.mem_append.mp hx with hx | hx
      · revert hx; decide
      · exact fmt_u_no_nl _ hx
    have nl2 : '\n' ∉ "pushcn".toList := by decide
    have nl3 : ∀ k, '\n' ∉ "gstore ".toList ++ fmt_lld k := by
      intro k hx
      rcases List.mem_append.mp hx with hx | hx
      · revert hx; decide
      · exact fmt_lld_no_nl _ hx
    have nl4 : ∀ k, '\n' ∉ "lstore ".toList ++ fmt_lld k := by
      intro k hx
      rcases List.mem_append.mp hx with hx | hx
      · revert hx; decide
      · exact fmt_lld_no_nl _ hx
    apply ih
    all_goals
      unfold chunk_register
      cases hs : c.sym with
      | none => simp only; first | exact hf | exact hm
      | some sym =>
        simp only
        obtain ⟨a1, b1⟩ := step f _ hf hm nl1
        obtain ⟨a2, b2⟩ := step _ _ a1 b1 nl2
        have a3 := step _ _ a2 b2 (nl3 (heap c).2)
        have a4 := step _ _ a2 b2 (nl4 (heap c).2)
        split
        · first | exact a3.1 | exact a3.2
        · first | exact a4.1 | exact a4.2

/-- The labels marked in the text written by `chunk_print` for a list of chunks
whose code is followed by no stray byte are those marked by the chunks. -/
theorem print_marks (mem : chunk_s → cstr) (chs : List chunk_s)
    (h : ∀ c ∈ chs, Whole (chunk_text c)) (hs : ∀ c ∈ chs, stray_bytes c (mem c) = []) :
    Whole (buzzdarray_foreach chs (chunk_print mem) []) ∧
      text_marks (buzzdarray_foreach chs (chunk_print mem) []) = chs.flatMap chunk_marks := by
  induction chs with
  | nil => exact ⟨⟨[], rfl, by simp⟩, rfl⟩
  | cons c r ih =>
    obtain ⟨i1, i2⟩ := ih (fun x hx => h x (by simp [hx])) (fun x hx => hs x (by simp [hx]))
    have hc := h c (by simp)
    rw [foreach_print_cons]
    have e : chunk_print mem [] c =
        "\n".toList ++ ((LABELREF ++ fmt_u c.label ++ "\n".toList) ++ chunk_text c) := by
      simp [chunk_print, hs c (by simp)]
    have w0 : Whole "\n".toList := ⟨[[]], rfl, by simp⟩
    have nl : '\n' ∉ LABELREF ++ fmt_u c.label := by
      intro hx
      rcases List.mem_append.mp hx with hx | hx
      · revert hx; decide
      · exact fmt_u_no_nl _ hx
    have w1 : Whole (LABELREF ++ fmt_u c.label ++ "\n".toList) := whole_line _ nl
    have wp : Whole (chunk_print mem [] c) := by
      rw [e]
      exact w0.join (w1.join hc)
    refine ⟨wp.join i1, ?_⟩
    rw [text_marks_whole _ wp, i2, List.flatMap_cons, e, text_marks_whole _ w0,
      text_marks_whole _ w1, text_marks_label]
    rfl

/-- No label is marked twice in the text written by `buzzparser_parse` when
nothing is printed after the code of the global chunk, that is, when the byte
that follows this code in memory is a NUL. -/
theorem output_marks (heap : chunk_s → Bool × Int) (mem : chunk_s → cstr) {n : Nat}
    {toks : List buzztok_s} {q : buzzparser_s}
    (h : parse_script n (buzzparser_new toks) = .ok q) (hn : NoWrap (buzzparser_new toks))
    (hw : TokWF (buzzparser_new toks))
    (hg : ∀ g, q.chunks.head? = some g → stray_bytes g (mem g) = []) (N : Nat) :
    (split_lines (buzzparser_parse heap mem n (buzzparser_new toks)).2).count
      (LABELREF ++ fmt_u N) ≤ 1 := by
  obtain ⟨m1, m2⟩ := script_marks h hn hw
  obtain ⟨r1, r2⟩ := register_marks heap q.chunks [] ⟨[], rfl, by simp⟩ rfl
  have hs : ∀ c ∈ q.chunks, stray_bytes c (mem c) = [] := by
    obtain ⟨c', rest, body, e1, _, _, _, e5⟩ :=
      script_layout (rfl : (buzzparser_new toks).chunks = []) h
    intro c hc
    rw [e1] at hc
    rcases List.mem_cons.1 hc with rfl | hc
    · exact hg _ (by rw [e1]; rfl)
    · exact stray_final _ _ (e5 c hc)
  obtain ⟨p1, p2⟩ := print_marks mem q.chunks m2 hs
  have e : (buzzparser_parse heap mem n (buzzparser_new toks)).2 =
      buzzdarray_foreach q.chunks (chunk_register heap) [] ++
        buzzdarray_foreach q.chunks (chunk_print mem) [] := by
    unfold buzzparser_parse
    rw [h]
    simp only
    rw [foreach_print_eq]
  have hm : text_marks (buzzparser_parse heap mem n (buzzparser_new toks)).2 =
      q.chunks.flatMap chunk_marks := by
    rw [e, text_marks_whole _ r1, r2, p2]
    rfl
  have hc := count_filterMap_le line_mark _ N (line_mark_label N)
    (split_lines (buzzparser_parse heap mem n (buzzparser_new toks)).2)
  have hn1 := List.nodup_iff_count_le_one.1 m1 N
  have hm2 : (split_lines (buzzparser_parse heap mem n (buzzparser_new toks)).2).filterMap line_mark =
      q.chunks.flatMap chunk_marks := hm
  rw [hm2] at hc
  omega

/-- Labels are never reused by the parser, as long as the 32-bit counter does
not wrap (`NoWrap`: the counter plus twice the number of tokens left is below
2^32; every rule takes at most two labels per token it reads).
(1) From the entry to the successful exit of every grammar rule the label
counter does not decrease.
(2) From the entry to the successful exit of every grammar rule, the labels
marked in the code appended to the current chunk and by the chunks created
(their own label and the labels marked in their code) are pairwise different,
and each was taken from the counter on the way: it is at least the counter at
entry and below the counter at exit (`TokWF`: the text of a token holds neither
a newline nor `@`).
(3) After a successful `parse_script` on a new parser the chunk labels grow
strictly along the chunk list, so they are pairwise different, the first chunk,
the global one, has label 0, and every label is below the counter.
(4) A successful `parse_if` entered with the counter at `L`, which reserves `L`
and `L + 1`, leaves the counter at `L + 2` or more, and when the labels of the
chunks were below `L` at entry, every chunk at exit has a label below `L` or at
least `L + 2`: no chunk has one of the two labels of the `if`.
(5) In the text written by `buzzparser_parse` after a successful parse no line
`@__label_<N>` occurs twice, provided nothing is printed after the code of the
global chunk, which `parse_script` does not finalize. -/
theorem labels_never_reused :
    (∀ n, AllRules (fun p q => NoWrap p → p.labels ≤ q.labels) n) ∧
    (∀ n, AllRules (fun p q => p.chunk < p.chunks.length → TokWF p → NoWrap p →
      (new_marks p q).Nodup ∧ ∀ m ∈ new_marks p q, p.labels ≤ m ∧ m < q.labels) n) ∧
    (∀ n toks q, NoWrap (buzzparser_new toks) → parse_script n (buzzparser_new toks) = .ok q →
      (q.chunks.map (fun c => c.label)).Pairwise (· < ·) ∧
      (q.chunks.map (fun c => c.label)).Nodup ∧
      (∃ g rest, q.chunks = g :: rest ∧ g.label = 0) ∧
      ∀ c ∈ q.chunks, c.label < q.labels) ∧
    (∀ n p q, p.chunk < p.chunks.length → NoWrap p →
      (∀ c ∈ p.chunks, c.label < p.labels) → parse_if n p = .ok q →
      p.labels + 2 ≤ q.labels ∧
      (∀ c ∈ q.chunks, c.label < p.labels ∨ p.labels + 2 ≤ c.label) ∧
      ∀ c ∈ q.chunks, c.label < q.labels) ∧
    (∀ (heap : chunk_s → Bool × Int) (mem : chunk_s → cstr) n toks q,
      NoWrap (buzzparser_new toks) → TokWF (buzzparser_new toks) →
      parse_script n (buzzparser_new toks) = .ok q →
      (∀ g, q.chunks.head? = some g → stray_bytes g (mem g) = []) →
      ∀ N, (split_lines (buzzparser_parse heap mem n (buzzparser_new toks)).2).count
        (LABELREF ++ fmt_u N) ≤ 1) := by
  refine ⟨fun n => ?_, fun n => ?_, fun n toks q hn h => ?_, fun n p q hv hn hb h => ?_,
    fun heap mem n toks q hn hw h hg N => output_marks heap mem h hn hw hg N⟩
  · exact allrules_mono (fun p q h hn => ((reach_lab h).labels_le hn).1) (rules_reach n)
  · refine allrules_mono (fun p q h hv hw hn => ?_) (rules_reach n)
    obtain ⟨a, b, _, _⟩ := reach_fresh h hv hw hn
    exact ⟨a, b⟩
  · obtain ⟨a, b, c⟩ := script_labels h hn
    exact ⟨a, a.imp (fun h => Nat.ne_of_lt h), b, c⟩
  · obtain ⟨i, hl⟩ := if_inc h
    have hq := hl hn
    have := inc_labels i (reach_ext ((rules_reach n).cond_if _ _ h)) hv hn hb
    refine ⟨hq, fun c hc => ?_, fun c hc => ?_⟩
    · rcases this c hc with h1 | h1
      · exact Or.inl h1
      · exact Or.inr h1.1
    · rcases this c hc with h1 | h1
      · omega
      · exact h1.2

/-- Example for `labels_never_reused`: the script `function f() {}` has the
chunks 0 and 1, and the statement `if (1) { if (2) {} ; } ;` is entered with
the counter at 1. -/
theorem labels_example :
    c6_state.labels ≤ c6_final.labels ∧
    ((new_marks c6_state c6_final).Nodup ∧
      ∀ m ∈ new_marks c6_state c6_final, c6_state.labels ≤ m ∧ m < c6_final.labels) ∧
    ((c9_final.chunks.map (fun c => c.label)).Pairwise (· < ·) ∧
      (c9_final.chunks.map (fun c => c.label)).Nodup ∧
      (∃ g rest, c9_final.chunks = g :: rest ∧ g.label = 0) ∧
      ∀ c ∈ c9_final.chunks, c.label < c9_final.labels) ∧
    (c6_state.labels + 2 ≤ c6_final.labels ∧
      (∀ c ∈ c6_final.chunks, c.label < c6_state.labels ∨ c6_state.labels + 2 ≤ c.label) ∧
      ∀ c ∈ c6_final.chunks, c.label < c6_final.labels) ∧
    ∀ (heap : chunk_s → Bool × Int) (N : Nat),
      (split_lines (buzzparser_parse heap (fun _ => []) 8 (buzzparser_new c9_toks)).2).count
        (LABELREF ++ fmt_u N) ≤ 1 :=
  ⟨(labels_never_reused.1 20).cond_if c6_state c6_final c6_run c6_nowrap.1,
    (labels_never_reused.2.1 20).cond_if c6_state c6_final c6_run (by decide) c6_tokwf.1
      c6_nowrap.1,
    labels_never_reused.2.2.1 8 c9_toks c9_final (by unfold NoWrap; decide) c9_script,
    labels_never_reused.2.2.2.1 20 c6_state c6_final (by decide) c6_nowrap.1 (by decide)
      c6_run,
    fun heap N => labels_never_reused.2.2.2.2 heap (fun _ => []) 8 c9_toks c9_final
      (by unfold NoWrap; decide) (by unfold TokWF tokval_ok; decide) c9_script
      (fun g hg => by
        have e : g = chunk_addcode (chunk_addcode (chunk_new 0 none) "\n@__exitpoint\n".toList)
            "\tdone\n".toList := by
          have : c9_final.chunks.head? = some (chunk_addcode (chunk_addcode (chunk_new 0 none)
            "\n@__exitpoint\n".toList) "\tdone\n".toList) := rfl
          rw [this] at hg
          exact (Option.some.inj hg).symm
        rw [e, stray_open _ _ (addcode_tail _ _)]
        rfl) N⟩

theorem c24_out (heap : chunk_s → Bool × Int) (mem : chunk_s → cstr) :
    (buzzparser_parse heap mem 10 (buzzparser_new c24_toks)).2 =
      "\n@__label_0\n".toList ++ chunk_text c24_chunk ++
        (mem c24_chunk).takeWhile (fun b => b ≠ Char.ofNat 0) := by
  unfold buzzparser_parse
  rw [c24_script]
  simp only [c24_final, buzzdarray_foreach, List.foldl_cons, List.foldl_nil]
  rw [chunk_register_nil heap [] c24_chunk rfl, print_open mem [] c24_chunk (by decide)]
  have l0 : c24_chunk.label = 0 := rfl
  have f0 : fmt_u 0 = "0".toList := by decide
  rw [l0, f0]
  simp [LABELREF]

theorem c24_text : chunk_text c24_chunk =
    "\tpushi 1\n\tjumpz @__label_1\n@__label_1\n\n@__exitpoint\n\tdone\n".toList := by
  decide

theorem c2_block_out (heap : chunk_s → Bool × Int) (mem : chunk_s → cstr) :
    (buzzparser_parse heap mem 10 (buzzparser_new c2_block_toks)).2 =
      "\tpushi @__label_3\n\tpushcn\n".toList ++ store_line (heap c2_block_chunk) ++
        "\n@__label_0\n".toList ++ chunk_text c24_chunk ++
        (mem c24_chunk).takeWhile (fun b => b ≠ Char.ofNat 0) ++ "\n@__label_3\n".toList := by
  unfold buzzparser_parse
  rw [c2_block_script]
  simp only [c2_block_final, buzzdarray_foreach, List.foldl_cons, List.foldl_nil]
  rw [chunk_register_nil heap [] c24_chunk rfl,
    register_owned heap [] c2_block_chunk _ rfl,
    print_open mem _ c24_chunk (by decide), print_final mem _ c2_block_chunk (by decide)]
  have t2 : chunk_text c2_block_chunk = [] := by decide
  have l0 : c24_chunk.label = 0 := rfl
  have l3 : c2_block_chunk.label = 3 := rfl
  have f0 : fmt_u 0 = "0".toList := by decide
  have f3 : fmt_u 3 = "3".toList := by decide
  rw [t2, l0, l3, f0, f3]
  simp [LABELREF]

theorem c2_redef_out (heap : chunk_s → Bool × Int) (mem : chunk_s → cstr) :
    (buzzparser_parse heap mem 8 (buzzparser_new c2_redef_toks)).2 =
      "\tpushi @__label_1\n\tpushcn\n".toList ++
        store_line (heap (chunk_finalize (chunk_new 1 (some ⟨0, TYPE_BASIC, true⟩)))) ++
        "\tpushi @__label_2\n\tpushcn\n".toList ++
        store_line (heap (chunk_finalize (chunk_new 2 (some ⟨1, TYPE_BASIC, true⟩)))) ++
        "\n@__label_0\n\n@__exitpoint\n\tdone\n".toList ++
        (mem exit_chunk).takeWhile (fun b => b ≠ Char.ofNat 0) ++
        "\n@__label_1\n\n@__label_2\n".toList := by
  unfold buzzparser_parse
  rw [c2_redef_script]
  simp only [c2_redef_final, buzzdarray_foreach, List.foldl_cons, List.foldl_nil]
  rw [chunk_register_nil heap [] exit_chunk rfl,
    register_owned heap [] (chunk_finalize (chunk_new 1 (some ⟨0, TYPE_BASIC, true⟩))) _ rfl,
    register_owned heap _ (chunk_finalize (chunk_new 2 (some ⟨1, TYPE_BASIC, true⟩))) _ rfl,
    print_open mem _ exit_chunk (by decide),
    print_final mem _ (chunk_finalize (chunk_new 1 (some ⟨0, TYPE_BASIC, true⟩))) (by decide),
    print_final mem _ (chunk_finalize (chunk_new 2 (some ⟨1, TYPE_BASIC, true⟩))) (by decide)]
  have t0 : chunk_text exit_chunk = "\n@__exitpoint\n\tdone\n".toList := by decide
  have t1 : chunk_text (chunk_finalize (chunk_new 1 (some ⟨0, TYPE_BASIC, true⟩))) = [] := by
    decide
  have t2 : chunk_text (chunk_finalize (chunk_new 2 (some ⟨1, TYPE_BASIC, true⟩))) = [] := by
    decide
  have l0 : exit_chunk.label = 0 := rfl
  have l1 : (chunk_finalize (chunk_new 1 (some ⟨0, TYPE_BASIC, true⟩))).label = 1 := rfl
  have l2 : (chunk_finalize (chunk_new 2 (some ⟨1, TYPE_BASIC, true⟩))).label = 2 := rfl
  have f0 : fmt_u 0 = "0".toList := by decide
  have f1 : fmt_u 1 = "1".toList := by decide
  have f2 : fmt_u 2 = "2".toList := by decide
  rw [t0, t1, t2, l0, l1, l2, f0, f1, f2]
  simp [LABELREF]

/-! ## The claims -/

/-- Claim C1.  At top level (one symbol table `g`), for an identifier `x` that
is not bound and integer literals `a`, `b`, `c` (no decimal point), the
statement `x = a + b * c` followed by a statement end parses successfully with
any fuel of at least 9, binds `x` to the slot `buzzdict_size g` of the global
table, and appends to the current chunk exactly `pushi a`, `pushi b`,
`pushi c`, `mul`, `add`, `gstore k` with `k = buzzdict_size g`; no other chunk
changes. -/
theorem C1_assign_sum_product (k : Nat) (x a b c : cstr) (va ve : Option cstr)
    (rest : List buzztok_s) (g : buzzdict_t) (chunks : List chunk_s) (ci lab : Nat)
    (hx : buzzdict_get g x = none)
    (ha : '.' ∉ a) (hb : '.' ∉ b) (hc : '.' ∉ c)
    (hci : ci < chunks.length) :
    ∃ q, parse_stat (k + 9)
      { lex := ⟨BUZZTOK_ASSIGN, va⟩ :: ⟨BUZZTOK_CONST, some a⟩ ::
          ⟨BUZZTOK_ADDSUB, some "+".toList⟩ :: ⟨BUZZTOK_CONST, some b⟩ ::
          ⟨BUZZTOK_MULDIV, some "*".toList⟩ :: ⟨BUZZTOK_CONST, some c⟩ ::
          ⟨BUZZTOK_STATEND, ve⟩ :: rest
        tok := some ⟨BUZZTOK_ID, some x⟩
        symstack := [g], chunks := chunks, chunk := ci, labels := lab } = .ok q ∧
      q.tok = some ⟨BUZZTOK_STATEND, ve⟩ ∧ q.lex = rest ∧
      q.symstack = [g ++ [(x, ⟨buzzdict_size g, TYPE_BASIC, true⟩)]] ∧
      q.chunk = ci ∧ q.labels = lab ∧
      text_at q.chunks ci = text_at chunks ci ++
        ("\tpushi ".toList ++ a ++ "\n".toList ++ ("\tpushi ".toList ++ b ++ "\n".toList) ++
         ("\tpushi ".toList ++ c ++ "\n".toList) ++ "\tmul\n".toList ++ "\tadd\n".toList ++
         ("\tgstore ".toList ++ fmt_u (buzzdict_size g) ++ "\n".toList)) ∧
      ∀ j, j ≠ ci → q.chunks[j]? = chunks[j]? := by
  have hcl : ¬ ((g.length : Int) = TYPE_CLOSURE) := by
    unfold TYPE_CLOSURE; omega
  rw [parse_stat]; simp
  rw [parse_command]; simp
  rw [parse_idref]; simp [tokval, sym_lookup, hx, sym_add, cur_syms, buzzdict_set_new, buzzdict_size]
  rw [parse_expression]; simp
  rw [parse_product, parse_modulo, parse_power, parse_operand]; simp [tokval, ha]
  rw [parse_powerrest]; simp
  rw [parse_modulo_loop]; simp
  rw [parse_product_loop]; simp
  rw [parse_expression_loop]; simp [tokop, tokval]
  rw [parse_product, parse_modulo, parse_power, parse_operand]; simp [tokval, hb]
  rw [parse_powerrest]; simp
  rw [parse_modulo_loop]; simp
  rw [parse_product_loop]; simp [tokop, tokval]
  rw [parse_modulo, parse_power, parse_operand]; simp [tokval, hc]
  rw [parse_powerrest]; simp
  rw [parse_modulo_loop]; simp
  rw [parse_product_loop]; simp
  rw [parse_expression_loop]; simp [hcl]
  refine ⟨?_, ?_⟩
  · simp [text_at_update, hci]
  · intro j hj
    simp [getElem?_chunks_update_ne _ _ _ _ hj]

/-- Witness for C1: `x = 1 + 2 * 3` on an empty global table, right after
`parse_script` has opened the global chunk. -/
theorem C1_witness :
    ∃ q, parse_stat 9
      { lex := [⟨BUZZTOK_ASSIGN, some "=".toList⟩, ⟨BUZZTOK_CONST, some "1".toList⟩,
          ⟨BUZZTOK_ADDSUB, some "+".toList⟩, ⟨BUZZTOK_CONST, some "2".toList⟩,
          ⟨BUZZTOK_MULDIV, some "*".toList⟩, ⟨BUZZTOK_CONST, some "3".toList⟩,
          ⟨BUZZTOK_STATEND, none⟩]
        tok := some ⟨BUZZTOK_ID, some "x".toList⟩
        symstack := [[]], chunks := [chunk_new 0 none], chunk := 0, labels := 1 } = .ok q ∧
      text_at q.chunks 0 =
        "\tpushi 1\n\tpushi 2\n\tpushi 3\n\tmul\n\tadd\n\tgstore 0\n".toList := by
  obtain ⟨q, h1, _, _, _, _, _, h7, _⟩ :=
    C1_assign_sum_product 0 "x".toList "1".toList "2".toList "3".toList (some "=".toList) none []
      [] [chunk_new 0 none] 0 1 (by decide) (by decide) (by decide) (by decide) (by decide)
  exact ⟨q, h1, by rw [h7]; decide⟩

/-- Claim C2 (the code departs from it).  First script,
`if (1) { function g() {} } ;`: it compiles; the chunk of `g` has label 3 and
its owner pointer was set to the entry of `g`, global slot 0; at the end of the
parse no table holds `g`, the cleanup of the block has removed that entry; the
registration written for the chunk is `pushi @__label_3`, `pushcn` and a store
line whose flag and slot are whatever memory holds where the entry was.
Second script, `function f() {} ; function f() {} ;`: it compiles; the chunk of
the first definition has label 1 and its owner pointer was set to the entry of
`f` with slot 0; the second definition has bound `f` again, the table now holds
`f` with slot 1; the registration written for the first chunk has a store line
read where the replaced entry was. -/
theorem C2_owner_pointer_dangles :
    (parse_script 10 (buzzparser_new c2_block_toks) = .ok c2_block_final ∧
      c2_block_final.symstack = [[]] ∧
      sym_lookup "g".toList c2_block_final.symstack = none ∧
      c2_block_final.chunks = [c24_chunk, c2_block_chunk] ∧
      c2_block_chunk.label = 3 ∧ c2_block_chunk.sym = some ⟨0, TYPE_BASIC, true⟩ ∧
      ∀ (heap : chunk_s → Bool × Int) (mem : chunk_s → cstr),
        (buzzparser_parse heap mem 10 (buzzparser_new c2_block_toks)).2 =
          "\tpushi @__label_3\n\tpushcn\n".toList ++ store_line (heap c2_block_chunk) ++
            "\n@__label_0\n".toList ++ chunk_text c24_chunk ++
            (mem c24_chunk).takeWhile (fun b => b ≠ Char.ofNat 0) ++
            "\n@__label_3\n".toList) ∧
    (parse_script 8 (buzzparser_new c2_redef_toks) = .ok c2_redef_final ∧
      sym_lookup "f".toList c2_redef_final.symstack = some ⟨1, TYPE_BASIC, true⟩ ∧
      c2_redef_final.chunks = [exit_chunk,
        chunk_finalize (chunk_new 1 (some ⟨0, TYPE_BASIC, true⟩)),
        chunk_finalize (chunk_new 2 (some ⟨1, TYPE_BASIC, true⟩))] ∧
      ∀ (heap : chunk_s → Bool × Int) (mem : chunk_s → cstr),
        (buzzparser_parse heap mem 8 (buzzparser_new c2_redef_toks)).2 =
          "\tpushi @__label_1\n\tpushcn\n".toList ++
            store_line (heap (chunk_finalize (chunk_new 1 (some ⟨0, TYPE_BASIC, true⟩)))) ++
            "\tpushi @__label_2\n\tpushcn\n".toList ++
            store_line (heap (chunk_finalize (chunk_new 2 (some ⟨1, TYPE_BASIC, true⟩)))) ++
            "\n@__label_0\n\n@__exitpoint\n\tdone\n".toList ++
            (mem exit_chunk).takeWhile (fun b => b ≠ Char.ofNat 0) ++
            "\n@__label_1\n\n@__label_2\n".toList) :=
  ⟨⟨c2_block_script, rfl, by decide, rfl, rfl, rfl, c2_block_out⟩,
    ⟨c2_redef_script, by decide, rfl, c2_redef_out⟩⟩

/-- Rule `parse_fun` at top level (one symbol table `g`): whenever it succeeds,
the token after `function` is an identifier and the chunk list has a new chunk
at the position of its former length, whose label is the value of the label
counter at entry and whose owner pointer was set to the symbol just bound to
the name (slot `buzzdict_size g`, global).  The registration text of that
chunk is `pushi @__label_<L>`, `pushcn` and a store line whose flag and slot
are read through the owner pointer at the end of the parse.  Its body is
exactly what `parse_block` appended to it, starting from an empty chunk; the
chunks that existed before are untouched and the current chunk is restored. -/
theorem fun_chunk (n : Nat) (s q : buzzparser_s) (g : buzzdict_t)
    (hs : s.symstack = [g]) (h : parse_fun (n + 1) s = .ok q) :
    ∃ (name : buzztok_s) (cf : chunk_s) (sb se : buzzparser_s),
      s.lex.head? = some name ∧ name.type = BUZZTOK_ID ∧
      q.chunks[s.chunks.length]? = some cf ∧
      cf.label = s.labels ∧
      cf.sym = some ⟨buzzdict_size g, TYPE_BASIC, true⟩ ∧
      cf.sym = sym_lookup (tokval name) (sym_add { s with tok := some name } (tokval name)).symstack ∧
      (∀ heap : chunk_s → Bool × Int, chunk_register heap [] cf =
        "\tpushi ".toList ++ LABELREF ++ fmt_u s.labels ++ "\n".toList ++ "\tpushcn\n".toList ++
          ((if (heap cf).1 then "\tgstore ".toList else "\tlstore ".toList) ++
            fmt_lld (heap cf).2 ++ "\n".toList)) ∧
      parse_block n sb = .ok se ∧ sb.chunk = s.chunks.length ∧
      text_at sb.chunks s.chunks.length = [] ∧
      chunk_text cf = text_at se.chunks s.chunks.length ∧
      q.chunk = s.chunk ∧ ∀ i, i < s.chunks.length → q.chunks[i]? = s.chunks[i]? := by
  rw [parse_fun] at h
  obtain ⟨u, hu, h⟩ := bind_eq_ok.mp h
  obtain ⟨p1, h1, h⟩ := bind_eq_ok.mp h
  obtain ⟨u1, hu1, h⟩ := bind_eq_ok.mp h
  obtain ⟨t, ht, h⟩ := bind_eq_ok.mp h
  obtain ⟨p4, h4, h⟩ := bind_eq_ok.mp h
  obtain ⟨u4, hu4, h⟩ := bind_eq_ok.mp h
  obtain ⟨p5, h5, h⟩ := bind_eq_ok.mp h
  obtain ⟨p7, h7, h⟩ := bind_eq_ok.mp h
  obtain ⟨u7, hu7, h⟩ := bind_eq_ok.mp h
  obtain ⟨p8, h8, h⟩ := bind_eq_ok.mp h
  obtain ⟨p9, h9, h⟩ := bind_eq_ok.mp h
  cases h
  obtain ⟨a1, r1, hl1, rfl⟩ := fetchtok_eq_ok h1
  obtain ⟨a4, r4, hl4, rfl⟩ := fetchtok_eq_ok h4
  obtain ⟨a5, r5, hl5, rfl⟩ := fetchtok_eq_ok h5
  obtain ⟨a8, r8, hl8, rfl⟩ := fetchtok_eq_ok h8
  have hta : t = a1 := by
    have := curtok_eq_ok.mp ht
    simpa using this.symm
  subst hta
  obtain ⟨t', ht', hty⟩ := tokmatch_eq_ok.mp hu1
  have hty : t.type = BUZZTOK_ID := by
    simp at ht'; rw [ht']; exact hty
  have hadd : sym_add ⟨r1, some t, s.symstack, s.chunks, s.chunk, s.labels⟩ (tokval t) =
      ⟨r1, some t, [buzzdict_set g (tokval t) ⟨buzzdict_size g, TYPE_BASIC, true⟩],
        s.chunks, s.chunk, s.labels⟩ := by
    simp [sym_add, hs]
  have hsym : sym_lookup (tokval t)
      [buzzdict_set g (tokval t) ⟨buzzdict_size g, TYPE_BASIC, true⟩] =
      some ⟨buzzdict_size g, TYPE_BASIC, true⟩ := by
    simp [sym_lookup, buzzdict_get_set_self]
  rw [hadd] at h7 hl4 hl5
  simp only [hsym] at h7 hl4 hl5
  obtain ⟨c7, k7⟩ := idlist_chunks _ _ _ h7
  simp only [symt_push, chunk_push] at c7 k7
  have e9 := reach_ext ((rules_reach n).block _ _ h9)
  obtain ⟨b1, b2, b3, b4, b5⟩ := e9
  simp only [k7, c7, List.length_append, List.length_singleton] at b1 b2 b3 b4 b5
  have hnew : (s.chunks ++ [chunk_new s.labels (some ⟨buzzdict_size g, TYPE_BASIC, true⟩)])[
      s.chunks.length]? =
      some (chunk_new s.labels (some ⟨buzzdict_size g, TYPE_BASIC, true⟩)) := by simp
  obtain ⟨c', tx, g1, g2, g3, g4, g5⟩ := b4 _ hnew
  have hwf : chunk_wf c' := g5 (by simp [chunk_wf, chunk_new])
  refine ⟨t, chunk_finalize c', _, p9, by simp [hl1], hty, ?_, ?_, ?_, ?_, ?_, h9, ?_, ?_, ?_, ?_, ?_⟩
  · simp only [chunk_pop, symt_pop, b1]
    exact getElem?_chunks_update_self _ _ _ _ g1
  · simp [chunk_finalize, g2, chunk_new]
  · simp [chunk_finalize, g3, chunk_new]
  · simp only [hadd, hs, hsym]
    simp [chunk_finalize, g3, chunk_new, sym_add, hsym]
  · intro heap
    have e3 : (chunk_finalize c').sym = some ⟨buzzdict_size g, TYPE_BASIC, true⟩ := by
      simp [chunk_finalize, g3, chunk_new]
    have e2 : (chunk_finalize c').label = s.labels := by simp [chunk_finalize, g2, chunk_new]
    simp only [chunk_register, e3, e2]
    by_cases hh : (heap (chunk_finalize c')).1 = true <;> simp [hh]
  · simp [k7]
  · simp [c7, text_at, chunk_text, chunk_new]
  · rw [chunk_text_finalize _ hwf]
    simp [text_at, g1]
  · simp [chunk_pop, symt_pop, hadd]
  · intro i hi
    simp only [chunk_pop, symt_pop, b1]
    rw [getElem?_chunks_update_ne _ _ _ _ (by omega), b3 i (by omega) (by omega)]
    exact List.getElem?_append_left hi

/-- The definition `function f(a,b) { return a + b }` on an empty global table
gives the chunk with label 1 and body `lload 0`, `lload 1`, `add`, `ret1`. -/
theorem fun_chunk_example :
    ∃ cf, parse_fun 14 c2_state = .ok c2_final ∧ c2_final.chunks[1]? = some cf ∧
      cf.label = 1 ∧
      chunk_text cf = "\tlload 0\n\tlload 1\n\tadd\n\tret1\n".toList := by
  have h : parse_fun 14 c2_state = .ok c2_final := by
    simp only [c2_state, c2_final, c2_chunk]
    repeat
      (first
        | rw [parse_statlist] | rw [parse_statlist_loop] | rw [parse_stat] | rw [parse_block]
        | rw [parse_fun] | rw [parse_if] | rw [parse_if_newlines] | rw [parse_for]
        | rw [parse_while] | rw [parse_conditionlist] | rw [parse_conditionlist_loop]
        | rw [parse_condition] | rw [parse_condition_loop] | rw [parse_comparison]
        | rw [parse_expression] | rw [parse_expression_loop] | rw [parse_product]
        | rw [parse_product_loop] | rw [parse_modulo] | rw [parse_modulo_loop] | rw [parse_power]
        | rw [parse_powerrest] | rw [parse_operand] | rw [parse_command] | rw [parse_idlist]
        | rw [parse_idlist_loop] | rw [parse_idref] | rw [parse_idref_loop] | rw [parse_lambda])
      try simp [tokval, tokop, sym_add, sym_lookup, buzzdict_get, buzzdict_set, buzzdict_size,
        cur_syms, symt_push, symt_pop, chunk_push, chunk_pop, idref_flush, load_text,
        block_cleanup, buzzparser_symtodel, buzzdict_remove, TYPE_BASIC, TYPE_CLOSURE, TYPE_TABLE]
    rfl
  obtain ⟨name, cf, sb, se, _, _, h3, h4, _, _, h7, _⟩ :=
    fun_chunk 13 c2_state c2_final [] rfl h
  have h3' : c2_final.chunks[1]? = some cf := h3
  have h3'' : c2_final.chunks[1]? = some c2_chunk := by decide
  rw [h3''] at h3'
  cases h3'
  exact ⟨c2_chunk, h, h3, h4, by decide⟩

/-- Claim C5.  For an assignment whose target is a resolved identifier `t`
followed by one field suffix (`t.k = e`, first part) or one index suffix
(`t[i] = e`, second part), `parse_command` succeeds as soon as the expressions
`i` and `e` parse, and the text it appends to the current chunk is, in order,
the load of `t`, the key code (`pushs k`, or the code of `i`), the code of `e`
and `tset`.  Apart from the code of `i` and `e` nothing else is appended: no
`gstore`, `lstore` or `tget` for the target. -/
theorem C5_table_assignment :
    (∀ (k : Nat) (t key : cstr) (vd va : Option cstr) (te : buzztok_s)
      (le : List buzztok_s) (ss : List buzzdict_t) (ch : List chunk_s) (ci lab : Nat)
      (sy : sym_s) (s3 : buzzparser_s),
      sym_lookup t ss = some sy → ci < ch.length →
      parse_expression (k + 3)
        (chunk_append (chunk_append ⟨le, some te, ss, ch, ci, lab⟩ (load_text sy))
          ("\tpushs ".toList ++ key ++ "\n".toList)) = .ok s3 →
      parse_command (k + 4)
        ⟨⟨BUZZTOK_DOT, vd⟩ :: ⟨BUZZTOK_ID, some key⟩ :: ⟨BUZZTOK_ASSIGN, va⟩ :: te :: le,
          some ⟨BUZZTOK_ID, some t⟩, ss, ch, ci, lab⟩ =
          .ok (chunk_append s3 "\ttset\n".toList) ∧
      text_at (chunk_append s3 "\ttset\n".toList).chunks ci =
        text_at ch ci ++ load_text sy ++ ("\tpushs ".toList ++ key ++ "\n".toList) ++
          emitted (chunk_append (chunk_append ⟨le, some te, ss, ch, ci, lab⟩ (load_text sy))
            ("\tpushs ".toList ++ key ++ "\n".toList)) s3 ++ "\ttset\n".toList) ∧
    (∀ (k : Nat) (t : cstr) (vo vc va : Option cstr) (ti te : buzztok_s)
      (li le : List buzztok_s) (ss : List buzzdict_t) (ch : List chunk_s) (ci lab : Nat)
      (sy : sym_s) (s2 s4 : buzzparser_s),
      sym_lookup t ss = some sy → ci < ch.length →
      parse_expression (k + 1)
        (chunk_append ⟨li, some ti, ss, ch, ci, lab⟩ (load_text sy)) = .ok s2 →
      s2.tok = some ⟨BUZZTOK_IDXCLOSE, vc⟩ →
      s2.lex = ⟨BUZZTOK_ASSIGN, va⟩ :: te :: le →
      parse_expression (k + 3) { s2 with tok := some te, lex := le } = .ok s4 →
      parse_command (k + 4)
        ⟨⟨BUZZTOK_IDXOPEN, vo⟩ :: ti :: li, some ⟨BUZZTOK_ID, some t⟩, ss, ch, ci, lab⟩ =
          .ok (chunk_append s4 "\ttset\n".toList) ∧
      text_at (chunk_append s4 "\ttset\n".toList).chunks ci =
        text_at ch ci ++ load_text sy ++
          emitted (chunk_append ⟨li, some ti, ss, ch, ci, lab⟩ (load_text sy)) s2 ++
          emitted { s2 with tok := some te, lex := le } s4 ++ "\ttset\n".toList) :=
  ⟨fun k t key vd va te le ss ch ci lab sy s3 h1 h2 h3 =>
      c5_field k t key vd va te le ss ch ci lab sy s3 h1 h2 h3,
   fun k t vo vc va ti te li le ss ch ci lab sy s2 s4 h1 h2 h3 h4 h5 h6 =>
      c5_index k t vo vc va ti te li le ss ch ci lab sy s2 s4 h1 h2 h3 h4 h5 h6⟩

/-- Witness for C5: `t.k = 5` and `t[1] = 5` with `t` at global slot 0. -/
theorem C5_witness :
    (∃ q, parse_command 6
        ⟨[⟨BUZZTOK_DOT, none⟩, ⟨BUZZTOK_ID, some "k".toList⟩, ⟨BUZZTOK_ASSIGN, none⟩,
          ⟨BUZZTOK_CONST, some "5".toList⟩, ⟨BUZZTOK_STATEND, none⟩],
          some ⟨BUZZTOK_ID, some "t".toList⟩, c5_syms, [chunk_new 0 none], 0, 1⟩ = .ok q ∧
      text_at q.chunks 0 = "\tgload 0\n\tpushs k\n\tpushi 5\n\ttset\n".toList) ∧
    (∃ q, parse_command 8
        ⟨[⟨BUZZTOK_IDXOPEN, none⟩, ⟨BUZZTOK_CONST, some "1".toList⟩, ⟨BUZZTOK_IDXCLOSE, none⟩,
          ⟨BUZZTOK_ASSIGN, none⟩, ⟨BUZZTOK_CONST, some "5".toList⟩, ⟨BUZZTOK_STATEND, none⟩],
          some ⟨BUZZTOK_ID, some "t".toList⟩, c5_syms, [chunk_new 0 none], 0, 1⟩ = .ok q ∧
      text_at q.chunks 0 = "\tgload 0\n\tpushi 1\n\tpushi 5\n\ttset\n".toList) := by
  have he : parse_expression 5
      (chunk_append (chunk_append ⟨[⟨BUZZTOK_STATEND, none⟩],
        some ⟨BUZZTOK_CONST, some "5".toList⟩, c5_syms, [chunk_new 0 none], 0, 1⟩
        (load_text ⟨0, TYPE_BASIC, true⟩)) ("\tpushs ".toList ++ "k".toList ++ "\n".toList)) =
      .ok (chunk_append ⟨[], some ⟨BUZZTOK_STATEND, none⟩, c5_syms,
        (chunk_append (chunk_append ⟨[], none, c5_syms, [chunk_new 0 none], 0, 1⟩
          (load_text ⟨0, TYPE_BASIC, true⟩))
          ("\tpushs ".toList ++ "k".toList ++ "\n".toList)).chunks, 0, 1⟩
        "\tpushi 5\n".toList) := by
    simp only [chunk_append]
    repeat
      (first
        | rw [parse_statlist] | rw [parse_statlist_loop] | rw [parse_stat] | rw [parse_block]
        | rw [parse_fun] | rw [parse_if] | rw [parse_if_newlines] | rw [parse_for]
        | rw [parse_while] | rw [parse_conditionlist] | rw [parse_conditionlist_loop]
        | rw [parse_condition] | rw [parse_condition_loop] | rw [parse_comparison]
        | rw [parse_expression] | rw [parse_expression_loop] | rw [parse_product]
        | rw [parse_product_loop] | rw [parse_modulo] | rw [parse_modulo_loop] | rw [parse_power]
        | rw [parse_powerrest] | rw [parse_operand] | rw [parse_command] | rw [parse_idlist]
        | rw [parse_idlist_loop] | rw [parse_idref] | rw [parse_idref_loop] | rw [parse_lambda])
      try simp [tokval, tokop, sym_add, sym_lookup, buzzdict_get, buzzdict_set, buzzdict_size,
        cur_syms, symt_push, symt_pop, chunk_push, chunk_pop, idref_flush, load_text,
        block_cleanup, buzzparser_symtodel, buzzdict_remove, TYPE_BASIC, TYPE_CLOSURE, TYPE_TABLE]
    all_goals rfl
  have hi : parse_expression 5
      (chunk_append ⟨[⟨BUZZTOK_IDXCLOSE, none⟩, ⟨BUZZTOK_ASSIGN, none⟩,
        ⟨BUZZTOK_CONST, some "5".toList⟩, ⟨BUZZTOK_STATEND, none⟩],
        some ⟨BUZZTOK_CONST, some "1".toList⟩, c5_syms, [chunk_new 0 none], 0, 1⟩
        (load_text ⟨0, TYPE_BASIC, true⟩)) =
      .ok (chunk_append ⟨[⟨BUZZTOK_ASSIGN, none⟩,
        ⟨BUZZTOK_CONST, some "5".toList⟩, ⟨BUZZTOK_STATEND, none⟩],
        some ⟨BUZZTOK_IDXCLOSE, none⟩, c5_syms,
        (chunk_append ⟨[], none, c5_syms, [chunk_new 0 none], 0, 1⟩
          (load_text ⟨0, TYPE_BASIC, true⟩)).chunks, 0, 1⟩ "\tpushi 1\n".toList) := by
    simp only [chunk_append]
    repeat
      (first
        | rw [parse_statlist] | rw [parse_statlist_loop] | rw [parse_stat] | rw [parse_block]
        | rw [parse_fun] | rw [parse_if] | rw [parse_if_newlines] | rw [parse_for]
        | rw [parse_while] | rw [parse_conditionlist] | rw [parse_conditionlist_loop]
        | rw [parse_condition] | rw [parse_condition_loop] | rw [parse_comparison]
        | rw [parse_expression] | rw [parse_expression_loop] | rw [parse_product]
        | rw [parse_product_loop] | rw [parse_modulo] | rw [parse_modulo_loop] | rw [parse_power]
        | rw [parse_powerrest] | rw [parse_operand] | rw [parse_command] | rw [parse_idlist]
        | rw [parse_idlist_loop] | rw [parse_idref] | rw [parse_idref_loop] | rw [parse_lambda])
      try simp [tokval, tokop, sym_add, sym_lookup, buzzdict_get, buzzdict_set, buzzdict_size,
        cur_syms, symt_push, symt_pop, chunk_push, chunk_pop, idref_flush, load_text,
        block_cleanup, buzzparser_symtodel, buzzdict_remove, TYPE_BASIC, TYPE_CLOSURE, TYPE_TABLE]
    all_goals rfl
  have he2 : parse_expression 7
      ⟨[⟨BUZZTOK_STATEND, none⟩], some ⟨BUZZTOK_CONST, some "5".toList⟩, c5_syms,
        (chunk_append ⟨[], none, c5_syms, (chunk_append ⟨[], none, c5_syms, [chunk_new 0 none], 0, 1⟩
          (load_text ⟨0, TYPE_BASIC, true⟩)).chunks, 0, 1⟩ "\tpushi 1\n".toList).chunks, 0, 1⟩ =
      .ok (chunk_append ⟨[], some ⟨BUZZTOK_STATEND, none⟩, c5_syms,
        (chunk_append ⟨[], none, c5_syms, (chunk_append ⟨[], none, c5_syms, [chunk_new 0 none], 0, 1⟩
          (load_text ⟨0, TYPE_BASIC, true⟩)).chunks, 0, 1⟩ "\tpushi 1\n".toList).chunks, 0, 1⟩
        "\tpushi 5\n".toList) := by
    simp only [chunk_append]
    repeat
      (first
        | rw [parse_statlist] | rw [parse_statlist_loop] | rw [parse_stat] | rw [parse_block]
        | rw [parse_fun] | rw [parse_if] | rw [parse_if_newlines] | rw [parse_for]
        | rw [parse_while] | rw [parse_conditionlist] | rw [parse_conditionlist_loop]
        | rw [parse_condition] | rw [parse_condition_loop] | rw [parse_comparison]
        | rw [parse_expression] | rw [parse_expression_loop] | rw [parse_product]
        | rw [parse_product_loop] | rw [parse_modulo] | rw [parse_modulo_loop] | rw [parse_power]
        | rw [parse_powerrest] | rw [parse_operand] | rw [parse_command] | rw [parse_idlist]
        | rw [parse_idlist_loop] | rw [parse_idref] | rw [parse_idref_loop] | rw [parse_lambda])
      try simp [tokval, tokop, sym_add, sym_lookup, buzzdict_get, buzzdict_set, buzzdict_size,
        cur_syms, symt_push, symt_pop, chunk_push, chunk_pop, idref_flush, load_text,
        block_cleanup, buzzparser_symtodel, buzzdict_remove, TYPE_BASIC, TYPE_CLOSURE, TYPE_TABLE]
    all_goals rfl
  have w1 := C5_table_assignment.1 2 "t".toList "k".toList none none ⟨BUZZTOK_CONST, some "5".toList⟩
    [⟨BUZZTOK_STATEND, none⟩] c5_syms [chunk_new 0 none] 0 1 ⟨0, TYPE_BASIC, true⟩ _
    (by decide) (by decide) he
  have w2 := C5_table_assignment.2 4 "t".toList none none none ⟨BUZZTOK_CONST, some "1".toList⟩
    ⟨BUZZTOK_CONST, some "5".toList⟩
    [⟨BUZZTOK_IDXCLOSE, none⟩, ⟨BUZZTOK_ASSIGN, none⟩, ⟨BUZZTOK_CONST, some "5".toList⟩,
      ⟨BUZZTOK_STATEND, none⟩] [⟨BUZZTOK_STATEND, none⟩] c5_syms [chunk_new 0 none] 0 1
    ⟨0, TYPE_BASIC, true⟩ _ _ (by decide) (by decide) hi rfl rfl he2
  refine ⟨⟨_, w1.1, ?_⟩, ⟨_, w2.1, ?_⟩⟩
  · rw [w1.2]; decide
  · rw [w2.2]; decide

/-- Claim C3 (the code departs from it).  The bare call statement `f(1)`, with
`f` bound at global slot 0, parses successfully, and the text appended to the
current chunk is `gload 0`, `pushi 1`, `pushi 1` and nothing else: the load of
`f`, the code of the argument and the argument count are there, the call
instruction `callc` is not. -/
theorem C3_bare_call_emits_no_callc :
    ∃ q, parse_command 14
        ⟨[⟨BUZZTOK_PAROPEN, none⟩, ⟨BUZZTOK_CONST, some "1".toList⟩, ⟨BUZZTOK_PARCLOSE, none⟩,
          ⟨BUZZTOK_STATEND, none⟩],
          some ⟨BUZZTOK_ID, some "f".toList⟩, c3_syms, [chunk_new 0 none], 0, 1⟩ = .ok q ∧
      q.tok = some ⟨BUZZTOK_STATEND, none⟩ ∧
      text_at q.chunks 0 = "\tgload 0\n\tpushi 1\n\tpushi 1\n".toList := by
  refine ⟨chunk_append (chunk_append (chunk_append
    ⟨[], some ⟨BUZZTOK_STATEND, none⟩, c3_syms, [chunk_new 0 none], 0, 1⟩
    "\tgload 0\n".toList) "\tpushi 1\n".toList) "\tpushi 1\n".toList, ?h, rfl, by decide⟩
  case h =>
    simp only [c3_syms, chunk_append]
    repeat
      (first
        | rw [parse_statlist] | rw [parse_statlist_loop] | rw [parse_stat] | rw [parse_block]
        | rw [parse_fun] | rw [parse_if] | rw [parse_if_newlines] | rw [parse_for]
        | rw [parse_while] | rw [parse_conditionlist] | rw [parse_conditionlist_loop]
        | rw [parse_condition] | rw [parse_condition_loop] | rw [parse_comparison]
        | rw [parse_expression] | rw [parse_expression_loop] | rw [parse_product]
        | rw [parse_product_loop] | rw [parse_modulo] | rw [parse_modulo_loop] | rw [parse_power]
        | rw [parse_powerrest] | rw [parse_operand] | rw [parse_command] | rw [parse_idlist]
        | rw [parse_idlist_loop] | rw [parse_idref] | rw [parse_idref_loop] | rw [parse_lambda])
      try simp [tokval, tokop, sym_add, sym_lookup, buzzdict_get, buzzdict_set, buzzdict_size,
        cur_syms, symt_push, symt_pop, chunk_push, chunk_pop, idref_flush, load_text,
        block_cleanup, buzzparser_symtodel, buzzdict_remove, TYPE_BASIC, TYPE_CLOSURE, TYPE_TABLE]
    all_goals rfl

/-- Claim C4 (the code departs from it).  The rvalue chain `t.f(1)`, with `t`
bound at global slot 0, parses successfully and appends `gload 0`, `pushs f`,
`pushi 1`, `pushi 1`, `callc`: the call suffix that follows the field suffix is
not preceded by the flush `tget` of the table classification. -/
theorem C4_field_then_call_skips_tget :
    ∃ q i, parse_idref 14
        ⟨[⟨BUZZTOK_DOT, none⟩, ⟨BUZZTOK_ID, some "f".toList⟩, ⟨BUZZTOK_PAROPEN, none⟩,
          ⟨BUZZTOK_CONST, some "1".toList⟩, ⟨BUZZTOK_PARCLOSE, none⟩, ⟨BUZZTOK_STATEND, none⟩],
          some ⟨BUZZTOK_ID, some "t".toList⟩, c5_syms, [chunk_new 0 none], 0, 1⟩ false = .ok (q, i) ∧
      q.tok = some ⟨BUZZTOK_STATEND, none⟩ ∧
      text_at q.chunks 0 = "\tgload 0\n\tpushs f\n\tpushi 1\n\tpushi 1\n\tcallc\n".toList := by
  refine ⟨chunk_append (chunk_append (chunk_append (chunk_append (chunk_append
    ⟨[], some ⟨BUZZTOK_STATEND, none⟩, c5_syms, [chunk_new 0 none], 0, 1⟩
    "\tgload 0\n".toList) "\tpushs f\n".toList) "\tpushi 1\n".toList) "\tpushi 1\n".toList)
    "\tcallc\n".toList, ⟨TYPE_CLOSURE, true⟩, ?h, rfl, by decide⟩
  case h =>
    simp only [c5_syms, chunk_append]
    repeat
      (first
        | rw [parse_statlist] | rw [parse_statlist_loop] | rw [parse_stat] | rw [parse_block]
        | rw [parse_fun] | rw [parse_if] | rw [parse_if_newlines] | rw [parse_for]
        | rw [parse_while] | rw [parse_conditionlist] | rw [parse_conditionlist_loop]
        | rw [parse_condition] | rw [parse_condition_loop] | rw [parse_comparison]
        | rw [parse_expression] | rw [parse_expression_loop] | rw [parse_product]
        | rw [parse_product_loop] | rw [parse_modulo] | rw [parse_modulo_loop] | rw [parse_power]
        | rw [parse_powerrest] | rw [parse_operand] | rw [parse_command] | rw [parse_idlist]
        | rw [parse_idlist_loop] | rw [parse_idref] | rw [parse_idref_loop] | rw [parse_lambda])
      try simp [tokval, tokop, sym_add, sym_lookup, buzzdict_get, buzzdict_set, buzzdict_size,
        cur_syms, symt_push, symt_pop, chunk_push, chunk_pop, idref_flush, load_text,
        block_cleanup, buzzparser_symtodel, buzzdict_remove, TYPE_BASIC, TYPE_CLOSURE, TYPE_TABLE]
    all_goals rfl

/-- Claim C8.  When `parse_operand` succeeds on a lambda (current token
`function`) with `L` the value of the label counter at entry, the current chunk
received exactly `pushi @__label_<L>` and `pushcn`, the chunk created for the
lambda stands at the end of the former chunk list, has label `L` and no owner,
and the current chunk has a smaller position.  Hence in the text printed for
the chunk list the instruction `pushi @__label_<L>` comes before the label and
the whole body of the lambda's chunk, whatever memory holds after the code of
the chunks (`mem`). -/
theorem C8_lambda_label_before_body (n : Nat) (s q : buzzparser_s) (t : buzztok_s)
    (ht : s.tok = some t) (hty : t.type = BUZZTOK_FUN) (hv : s.chunk < s.chunks.length)
    (h : parse_operand (n + 1) s = .ok q) :
    ∃ cu cl, q.chunks[s.chunk]? = some cu ∧ q.chunks[s.chunks.length]? = some cl ∧
      chunk_text cu = text_at s.chunks s.chunk ++
        ("\tpushi ".toList ++ LABELREF ++ fmt_u s.labels ++ "\n".toList) ++
        "\tpushcn\n".toList ∧
      cl.label = s.labels ∧ cl.sym = none ∧ s.chunk < s.chunks.length ∧ q.chunk = s.chunk ∧
      ∀ mem : chunk_s → cstr, ∃ A B C, buzzdarray_foreach q.chunks (chunk_print mem) [] =
        A ++ ("\tpushi ".toList ++ LABELREF ++ fmt_u s.labels ++ "\n".toList) ++ B ++
          ("\n".toList ++ LABELREF ++ fmt_u cl.label ++ "\n".toList ++ chunk_text cl) ++ C := by
  rw [parse_operand] at h
  simp only [curtok, ht, presult_bind_ok, hty, if_true] at h
  cases n with
  | zero => simp [parse_lambda] at h
  | succ m =>
    rw [parse_lambda] at h
    obtain ⟨u, hu, h⟩ := bind_eq_ok.mp h
    obtain ⟨p1, h1, h⟩ := bind_eq_ok.mp h
    obtain ⟨u1, hu1, h⟩ := bind_eq_ok.mp h
    obtain ⟨p2, h2, h⟩ := bind_eq_ok.mp h
    obtain ⟨p3, h3, h⟩ := bind_eq_ok.mp h
    obtain ⟨u3, hu3, h⟩ := bind_eq_ok.mp h
    obtain ⟨p4, h4, h⟩ := bind_eq_ok.mp h
    obtain ⟨p5, h5, h⟩ := bind_eq_ok.mp h
    cases h
    have hx : Ext (chunk_push p1 none) p5 :=
      reach_ext ((Reach.fetch h2).trans <| ((rules_reach m).idlist _ _ h3).trans <|
        (Reach.fetch h4).trans <| (rules_reach m).block _ _ h5)
    obtain ⟨a, r, hl, rfl⟩ := fetchtok_eq_ok h1
    obtain ⟨f1, f2, cl, g1, g2, g3, g4, g5, g6⟩ := bracket_frame none hx
    simp only [chunk_append, length_chunks_update] at f1 f2 g1 g2 g3 g4 g6 ⊢
    have hc : s.chunks[s.chunk]? = some s.chunks[s.chunk] := List.getElem?_eq_getElem hv
    have hu : (chunks_update (chunks_update s.chunks s.chunk fun c => chunk_addcode c
        ("\tpushi ".toList ++ LABELREF ++ fmt_u s.labels ++ "\n".toList)) s.chunk
        fun c => chunk_addcode c "\tpushcn\n".toList)[s.chunk]? =
        some (chunk_addcode (chunk_addcode s.chunks[s.chunk]
          ("\tpushi ".toList ++ LABELREF ++ fmt_u s.labels ++ "\n".toList))
          "\tpushcn\n".toList) :=
      getElem?_chunks_update_self _ _ _ _ (getElem?_chunks_update_self _ _ _ _ hc)
    have hcu := f1 s.chunk hv
    rw [hu] at hcu
    have htxt : chunk_text (chunk_addcode (chunk_addcode s.chunks[s.chunk]
          ("\tpushi ".toList ++ LABELREF ++ fmt_u s.labels ++ "\n".toList))
          "\tpushcn\n".toList) = text_at s.chunks s.chunk ++
        ("\tpushi ".toList ++ LABELREF ++ fmt_u s.labels ++ "\n".toList) ++
        "\tpushcn\n".toList := by
      rw [chunk_text_addcode, chunk_text_addcode]
      simp [text_at, hc]
    have hlab : (chunk_addcode (chunk_addcode s.chunks[s.chunk]
          ("\tpushi ".toList ++ LABELREF ++ fmt_u s.labels ++ "\n".toList))
          "\tpushcn\n".toList).label = (s.chunks[s.chunk]).label := rfl
    generalize chunk_addcode (chunk_addcode s.chunks[s.chunk]
          ("\tpushi ".toList ++ LABELREF ++ fmt_u s.labels ++ "\n".toList))
          "\tpushcn\n".toList = cu at hcu htxt hlab
    refine ⟨cu, chunk_finalize cl, hcu, g2, htxt, by simp [chunk_finalize, g3],
      by simp [chunk_finalize, g4], hv, rfl, fun mem => ?_⟩
    obtain ⟨A, B, C, e⟩ := print_order mem _ _ _ _ _ hv hcu g2
    refine ⟨A ++ ("\n".toList ++ LABELREF ++ fmt_u (s.chunks[s.chunk]).label ++ "\n".toList ++
      text_at s.chunks s.chunk), "\tpushcn\n".toList ++ stray_bytes cu (mem cu) ++ B,
      stray_bytes (chunk_finalize cl) (mem (chunk_finalize cl)) ++ C, ?_⟩
    rw [e]
    simp only [chunk_print, htxt, hlab, List.nil_append, List.append_assoc]

/-- Witness for C8: the operand `function() {}` met with the label counter
at 1. -/
theorem C8_witness :
    ∃ cu cl, c8_final.chunks[0]? = some cu ∧ c8_final.chunks[1]? = some cl ∧
      chunk_text cu = "\tpushi @__label_1\n\tpushcn\n".toList ∧ cl.label = 1 ∧
      cl.sym = none := by
  obtain ⟨cu, cl, h1, h2, h3, h4, h5, _⟩ :=
    C8_lambda_label_before_body 4 c8_state c8_final ⟨BUZZTOK_FUN, none⟩ rfl rfl (by decide)
      c8_run
  exact ⟨cu, cl, h1, h2, by rw [h3]; decide, h4, h5⟩

/-- Claim C10.  The call `buzzparser_parse` writes text to the output stream
if and only if `parse_script` succeeds, and it returns the outcome of
`parse_script`: on every failure of a grammar rule it returns that failure and
neither `chunk_register` nor `chunk_print` has written anything.  This holds
for every content of the memory that the two functions read (`heap`, `mem`). -/
theorem C10_output_iff_success (heap : chunk_s → Bool × Int) (mem : chunk_s → cstr)
    (fuel : Nat) (par : buzzparser_s) :
    ((buzzparser_parse heap mem fuel par).2 ≠ [] ↔ ∃ q, parse_script fuel par = .ok q) ∧
    (buzzparser_parse heap mem fuel par).1 = parse_script fuel par := by
  unfold buzzparser_parse
  cases hs : parse_script fuel par with
  | ok q =>
    simp only [ne_eq, presult.ok.injEq, exists_eq', iff_true, and_true]
    obtain ⟨p, h1, rfl⟩ := parse_script_ok hs
    have hlen := (statlist_ext h1).2.1
    simp only [chunk_push, List.length_append, List.length_singleton] at hlen
    have hlen2 : 1 ≤ (chunk_append (chunk_append p "\n@__exitpoint\n".toList)
        "\tdone\n".toList).chunks.length := by
      simp only [chunk_append, length_chunks_update]; omega
    cases hq : (chunk_append (chunk_append p "\n@__exitpoint\n".toList)
        "\tdone\n".toList).chunks with
    | nil => rw [hq] at hlen2; simp at hlen2
    | cons g rest =>
      rw [foreach_print_eq, foreach_print_cons]
      simp [chunk_print]
  | error e => simp
  | nofuel => simp

/-- Witness for C10: the script `x` fails at the end of input and nothing is
written; the script `function f() {}` succeeds and text is written. -/
theorem C10_witness :
    (buzzparser_parse (fun _ => (true, 0)) (fun _ => []) 8 (buzzparser_new c10_toks)).2 = [] ∧
    (buzzparser_parse (fun _ => (true, 0)) (fun _ => []) 8 (buzzparser_new c10_toks)).1 =
      .error .eof ∧
    (buzzparser_parse (fun _ => (true, 0)) (fun _ => []) 8 (buzzparser_new c9_toks)).2 ≠ [] := by
  have h1 := C10_output_iff_success (fun _ => (true, 0)) (fun _ => []) 8
    (buzzparser_new c10_toks)
  have h2 := C10_output_iff_success (fun _ => (true, 0)) (fun _ => []) 8
    (buzzparser_new c9_toks)
  refine ⟨?_, ?_, ?_⟩
  · by_contra hne
    obtain ⟨q, hq⟩ := h1.1.mp hne
    rw [c10_script] at hq
    cases hq
  · rw [h1.2, c10_script]
  · exact h2.1.mpr ⟨c9_final, c9_script⟩

/-- Claim C11 (the code departs from it).  For the statement `x.y = 1` with
`x` not bound, the reference in lvalue position does not fail: it succeeds,
binds `x` at global slot 0 and stops before the dot, and so it does whatever
token follows `x` (a dot, a bracket, a parenthesis); the statement then fails
with the message for a statement that is neither a call nor an assignment.
Only in rvalue position does the reference fail with the undefined-symbol
message. -/
theorem C11_unresolved_lvalue_base_is_bound :
    parse_idref 5 c11_state true = .ok (c11_final, ⟨0, true⟩) ∧
    sym_lookup "x".toList c11_state.symstack = none ∧
    sym_lookup "x".toList c11_final.symstack = some ⟨0, TYPE_BASIC, true⟩ ∧
    parse_command 6 c11_state = .error .not_call_or_assignment ∧
    parse_idref 5 c11_state false = .error (.undefined "x".toList) ∧
    ∀ (t : buzztok_s) (rest : List buzztok_s),
      parse_idref 1
        ⟨t :: rest, some ⟨BUZZTOK_ID, some "x".toList⟩, [[]], [chunk_new 0 none], 0, 1⟩ true =
        .ok (c11_after t rest, ⟨0, true⟩) :=
  ⟨c11_lvalue, by decide, by decide, c11_command, c11_rvalue, c11_any⟩

/-- Claim C14 (the code departs from it).  The block
`{ function a() {} ; if (1) { y = 1 } ; z = 2 }`, entered at top level with `a`
bound at global slot 0, parses successfully; `z` is not bound before the block,
is first bound inside it, and after the block `sym_lookup` still returns the
symbol bound inside the block (global slot 0). -/
theorem C14_block_binding_survives :
    parse_block 24 c14_state = .ok c14_final ∧
    sym_lookup "z".toList c14_state.symstack = none ∧
    sym_lookup "z".toList c14_final.symstack = some ⟨0, TYPE_BASIC, true⟩ :=
  ⟨c14_run, by decide, by decide⟩

/-- Claim C17 (the code departs from it).  The lambda `function(p) {}` at top
level parses successfully without opening a scope table: afterwards the scope
stack still has one table and that enclosing table holds the parameter `p`,
whereas after the named function `function f(p) {}` the enclosing table holds
`f` only and `p` is not bound. -/
theorem C17_lambda_opens_no_table :
    parse_lambda 8 c17_state = .ok c17_final ∧
    c17_state.symstack = [[]] ∧
    c17_final.symstack = [[("p".toList, ⟨0, TYPE_BASIC, true⟩)]] ∧
    parse_fun 8 c17_fun_state = .ok c17_fun_final ∧
    c17_fun_state.symstack = [[]] ∧
    c17_fun_final.symstack = [[("f".toList, ⟨0, TYPE_BASIC, true⟩)]] ∧
    sym_lookup "p".toList c17_fun_final.symstack = none :=
  ⟨c17_run, rfl, rfl, c17_fun_run, rfl, rfl, by decide⟩

/-- Claim C18 (the code departs from it).  The parameter `p` of the lambda
`function(p) { return p }` at top level is not resolved before the lambda; the
symbol created for it is global (flag true, slot 0 of the bottom table) and the
body reads it with `gload 0`, whereas the parameter of the named function
`function f(p) { return p }` is read with `lload 0`. -/
theorem C18_lambda_parameter_is_global :
    parse_lambda 20 c18_state = .ok c18_final ∧
    sym_lookup "p".toList c18_state.symstack = none ∧
    sym_lookup "p".toList c18_final.symstack = some ⟨0, TYPE_BASIC, true⟩ ∧
    text_at c18_final.chunks 1 = "\tgload 0\n\tret1\n".toList ∧
    parse_fun 20 c18_fun_state = .ok c18_fun_final ∧
    text_at c18_fun_final.chunks 1 = "\tlload 0\n\tret1\n".toList :=
  ⟨c18_run, by decide, by decide, by decide, c18_fun_run, by decide⟩

/-- Claim C13.  Let `x` be an identifier that `sym_lookup` does not resolve,
used as the target of `x = e` in a state whose scope stack is `syms :: rest`,
and let the expression `e` parse.  Then the reference succeeds and binds `x` in
the innermost table only, at the slot equal to the size of that table before
the binding, the other tables being unchanged; the new symbol is global exactly
when the stack holds one table (`rest = []`); and `parse_command` succeeds and
ends the statement with `gstore <slot>` at top level and with `lstore <slot>`
inside a function body (`rest` not empty). -/
theorem C13_first_assignment (n : Nat) (x : cstr) (va : Option cstr) (e0 : buzztok_s)
    (lex : List buzztok_s) (syms : buzzdict_t) (rest : List buzzdict_t) (ch : List chunk_s)
    (ci lab : Nat) (p3 : buzzparser_s)
    (hx : sym_lookup x (syms :: rest) = none)
    (he : parse_expression n
      ⟨lex, some e0, (syms ++ [(x, ⟨buzzdict_size syms, TYPE_BASIC, decide (rest = [])⟩)]) :: rest,
        ch, ci, lab⟩ = .ok p3) :
    parse_idref n
      ⟨⟨BUZZTOK_ASSIGN, va⟩ :: e0 :: lex, some ⟨BUZZTOK_ID, some x⟩, syms :: rest, ch, ci, lab⟩
      true =
      .ok (⟨e0 :: lex, some ⟨BUZZTOK_ASSIGN, va⟩,
          (syms ++ [(x, ⟨buzzdict_size syms, TYPE_BASIC, decide (rest = [])⟩)]) :: rest, ch, ci, lab⟩,
        ⟨(buzzdict_size syms : Nat), decide (rest = [])⟩) ∧
    sym_lookup x ((syms ++ [(x, ⟨buzzdict_size syms, TYPE_BASIC, decide (rest = [])⟩)]) :: rest) =
      some ⟨buzzdict_size syms, TYPE_BASIC, decide (rest = [])⟩ ∧
    parse_command (n + 1)
      ⟨⟨BUZZTOK_ASSIGN, va⟩ :: e0 :: lex, some ⟨BUZZTOK_ID, some x⟩, syms :: rest, ch, ci, lab⟩ =
      .ok (chunk_append p3
        ((if rest = [] then "\tgstore ".toList else "\tlstore ".toList) ++
          fmt_u (buzzdict_size syms) ++ "\n".toList)) := by
  have hg := sym_lookup_none_head hx
  have hset := buzzdict_set_new syms x ⟨buzzdict_size syms, TYPE_BASIC, decide (rest = [])⟩ hg
  have hl := length_one_iff syms rest
  have hid : parse_idref n
      ⟨⟨BUZZTOK_ASSIGN, va⟩ :: e0 :: lex, some ⟨BUZZTOK_ID, some x⟩, syms :: rest, ch, ci, lab⟩
      true =
      .ok (⟨e0 :: lex, some ⟨BUZZTOK_ASSIGN, va⟩,
          (syms ++ [(x, ⟨buzzdict_size syms, TYPE_BASIC, decide (rest = [])⟩)]) :: rest, ch, ci, lab⟩,
        ⟨(buzzdict_size syms : Nat), decide (rest = [])⟩) := by
    cases n with
    | zero => rw [parse_expression] at he; cases he
    | succ m =>
      rw [parse_idref]
      simp only [tokmatch_mk, curtok_mk, tokval, Option.getD_some, sym_add, cur_syms,
        List.headD_cons]
      simp [hl, hset]
      rw [hx]
  refine ⟨hid, ?_, ?_⟩
  · have := buzzdict_get_set_self syms x ⟨buzzdict_size syms, TYPE_BASIC, decide (rest = [])⟩
    rw [hset] at this
    simp [sym_lookup, this]
  · rw [parse_command]
    simp [hid, he, TYPE_CLOSURE]
    split <;> rfl

/-- Witness for C13: `x = 1` at top level ends with `gstore 0`, and in the body
of a function with one parameter it ends with `lstore 1`. -/
theorem C13_witness :
    parse_command 7
      ⟨[⟨BUZZTOK_ASSIGN, none⟩, ⟨BUZZTOK_CONST, some "1".toList⟩,
        ⟨BUZZTOK_STATEND, some ";".toList⟩], some ⟨BUZZTOK_ID, some "x".toList⟩, [[]],
        [chunk_new 0 none], 0, 1⟩ = .ok (chunk_append c13_top "\tgstore 0\n".toList) ∧
    parse_command 7
      ⟨[⟨BUZZTOK_ASSIGN, none⟩, ⟨BUZZTOK_CONST, some "1".toList⟩,
        ⟨BUZZTOK_STATEND, some ";".toList⟩], some ⟨BUZZTOK_ID, some "x".toList⟩,
        [[("p".toList, ⟨0, TYPE_BASIC, false⟩)], []],
        [chunk_new 0 none, chunk_new 1 none], 1, 2⟩ =
      .ok (chunk_append c13_body "\tlstore 1\n".toList) :=
  ⟨(C13_first_assignment 6 "x".toList none ⟨BUZZTOK_CONST, some "1".toList⟩
      [⟨BUZZTOK_STATEND, some ";".toList⟩] [] [] [chunk_new 0 none] 0 1 c13_top
      (by decide) c13_top_rhs).2.2,
   (C13_first_assignment 6 "x".toList none ⟨BUZZTOK_CONST, some "1".toList⟩
      [⟨BUZZTOK_STATEND, some ";".toList⟩] [("p".toList, ⟨0, TYPE_BASIC, false⟩)] [[]]
      [chunk_new 0 none, chunk_new 1 none] 1 2 c13_body (by decide) c13_body_rhs).2.2⟩

/-- Claim C19.  The power operator is right-associative.  First part: when the
three operands of `a ^ b ^ c` parse, `parse_power` succeeds and appends the code
of `a`, the code of `b`, the code of `c`, `pow`, `pow`.  Second part: when the
operands of `a ^ (b ^ c)` parse, `parse_power` succeeds and appends the code of
`a`, the code of `b`, the code of `c`, `pow`, `pow` as well.  The code of an
operand is the text `parse_operand` appended for it. -/
theorem C19_power_right_assoc :
    (∀ (k : Nat) (s a1 b0 b1 c0 c1 : buzzparser_s) (ta tb tc : buzztok_s),
      s.chunk < s.chunks.length →
      parse_operand (k + 4) s = .ok a1 →
      a1.tok = some ta →
      ta.type = BUZZTOK_POW →
      fetchtok a1 = .ok b0 →
      parse_operand (k + 2) b0 = .ok b1 →
      b1.tok = some tb →
      tb.type = BUZZTOK_POW →
      fetchtok b1 = .ok c0 →
      parse_operand k c0 = .ok c1 →
      c1.tok = some tc →
      tc.type ≠ BUZZTOK_POW →
      parse_power (k + 5) s = .ok (chunk_append (chunk_append c1 "\tpow\n".toList)
        "\tpow\n".toList) ∧ emitted s (chunk_append (chunk_append c1 "\tpow\n".toList)
        "\tpow\n".toList) = emitted s a1 ++ emitted b0 b1 ++ emitted c0 c1 ++ "\tpow\n".toList ++
        "\tpow\n".toList) ∧
    (∀ (k : Nat) (s a1 p0 b0 b1 c0 c1 d0 : buzzparser_s) (ta tp t0 tb tc td : buzztok_s),
      s.chunk < s.chunks.length →
      parse_operand (k + 9) s = .ok a1 →
      a1.tok = some ta →
      ta.type = BUZZTOK_POW →
      fetchtok a1 = .ok p0 →
      p0.tok = some tp →
      tp.type = BUZZTOK_PAROPEN →
      fetchtok p0 = .ok b0 →
      b0.tok = some t0 →
      t0.type ≠ BUZZTOK_BLOCKOPEN →
      parse_operand (k + 2) b0 = .ok b1 →
      b1.tok = some tb →
      tb.type = BUZZTOK_POW →
      fetchtok b1 = .ok c0 →
      parse_operand k c0 = .ok c1 →
      c1.tok = some tc →
      tc.type = BUZZTOK_PARCLOSE →
      fetchtok c1 = .ok d0 →
      d0.tok = some td →
      td.type ≠ BUZZTOK_POW →
      parse_power (k + 10) s = .ok (chunk_append (chunk_append d0 "\tpow\n".toList)
        "\tpow\n".toList) ∧ emitted s (chunk_append (chunk_append d0 "\tpow\n".toList)
        "\tpow\n".toList) = emitted s a1 ++ emitted b0 b1 ++ emitted c0 c1 ++ "\tpow\n".toList ++
        "\tpow\n".toList) :=
  ⟨c19_chain, c19_paren⟩

/-- Witness for C19: `2 ^ 3 ^ 2` and `2 ^ (3 ^ 2)` both give `pushi 2`,
`pushi 3`, `pushi 2`, `pow`, `pow`. -/
theorem C19_witness :
    (∃ q, parse_power 6 (ex_at [ex_const "2", ex_op BUZZTOK_POW "^", ex_const "3",
        ex_op BUZZTOK_POW "^", ex_const "2", ex_op BUZZTOK_STATEND ";"] []) = .ok q ∧
      emitted (ex_at [ex_const "2", ex_op BUZZTOK_POW "^", ex_const "3",
        ex_op BUZZTOK_POW "^", ex_const "2", ex_op BUZZTOK_STATEND ";"] []) q =
        "\tpushi 2\n\tpushi 3\n\tpushi 2\n\tpow\n\tpow\n".toList) ∧
    (∃ q, parse_power 11 (ex_at [ex_const "2", ex_op BUZZTOK_POW "^", ⟨BUZZTOK_PAROPEN, none⟩,
        ex_const "3", ex_op BUZZTOK_POW "^", ex_const "2", ⟨BUZZTOK_PARCLOSE, none⟩,
        ex_op BUZZTOK_STATEND ";"] []) = .ok q ∧
      emitted (ex_at [ex_const "2", ex_op BUZZTOK_POW "^", ⟨BUZZTOK_PAROPEN, none⟩,
        ex_const "3", ex_op BUZZTOK_POW "^", ex_const "2", ⟨BUZZTOK_PARCLOSE, none⟩,
        ex_op BUZZTOK_STATEND ";"] []) q =
        "\tpushi 2\n\tpushi 3\n\tpushi 2\n\tpow\n\tpow\n".toList) := by
  constructor
  · obtain ⟨h1, h2⟩ := C19_power_right_assoc.1 1
      (ex_at [ex_const "2", ex_op BUZZTOK_POW "^", ex_const "3",
        ex_op BUZZTOK_POW "^", ex_const "2", ex_op BUZZTOK_STATEND ";"] [])
      (ex_at [ex_op BUZZTOK_POW "^", ex_const "3",
        ex_op BUZZTOK_POW "^", ex_const "2", ex_op BUZZTOK_STATEND ";"] ["\tpushi 2\n".toList])
      (ex_at [ex_const "3",
        ex_op BUZZTOK_POW "^", ex_const "2", ex_op BUZZTOK_STATEND ";"] ["\tpushi 2\n".toList])
      (ex_at [ex_op BUZZTOK_POW "^", ex_const "2", ex_op BUZZTOK_STATEND ";"]
        ["\tpushi 2\n".toList, "\tpushi 3\n".toList])
      (ex_at [ex_const "2", ex_op BUZZTOK_STATEND ";"]
        ["\tpushi 2\n".toList, "\tpushi 3\n".toList])
      (ex_at [ex_op BUZZTOK_STATEND ";"]
        ["\tpushi 2\n".toList, "\tpushi 3\n".toList, "\tpushi 2\n".toList])
      (ex_op BUZZTOK_POW "^") (ex_op BUZZTOK_POW "^") (ex_op BUZZTOK_STATEND ";")
      (ex_at_valid _ _) (ex_operand 4 "2" _ _ [] (by decide)) (ex_at_tok _ _ _) rfl
      (ex_fetch _ _ _ _) (ex_operand 2 "3" _ _ _ (by decide)) (ex_at_tok _ _ _) rfl
      (ex_fetch _ _ _ _) (ex_operand 0 "2" _ _ _ (by decide)) (ex_at_tok _ _ _) (by decide)
    refine ⟨_, h1, ?_⟩
    rw [h2]
    decide
  · obtain ⟨h1, h2⟩ := C19_power_right_assoc.2 1
      (ex_at [ex_const "2", ex_op BUZZTOK_POW "^", ⟨BUZZTOK_PAROPEN, none⟩,
        ex_const "3", ex_op BUZZTOK_POW "^", ex_const "2", ⟨BUZZTOK_PARCLOSE, none⟩,
        ex_op BUZZTOK_STATEND ";"] [])
      (ex_at [ex_op BUZZTOK_POW "^", ⟨BUZZTOK_PAROPEN, none⟩,
        ex_const "3", ex_op BUZZTOK_POW "^", ex_const "2", ⟨BUZZTOK_PARCLOSE, none⟩,
        ex_op BUZZTOK_STATEND ";"] ["\tpushi 2\n".toList])
      (ex_at [⟨BUZZTOK_PAROPEN, none⟩,
        ex_const "3", ex_op BUZZTOK_POW "^", ex_const "2", ⟨BUZZTOK_PARCLOSE, none⟩,
        ex_op BUZZTOK_STATEND ";"] ["\tpushi 2\n".toList])
      (ex_at [ex_const "3", ex_op BUZZTOK_POW "^", ex_const "2", ⟨BUZZTOK_PARCLOSE, none⟩,
        ex_op BUZZTOK_STATEND ";"] ["\tpushi 2\n".toList])
      (ex_at [ex_op BUZZTOK_POW "^", ex_const "2", ⟨BUZZTOK_PARCLOSE, none⟩,
        ex_op BUZZTOK_STATEND ";"] ["\tpushi 2\n".toList, "\tpushi 3\n".toList])
      (ex_at [ex_const "2", ⟨BUZZTOK_PARCLOSE, none⟩,
        ex_op BUZZTOK_STATEND ";"] ["\tpushi 2\n".toList, "\tpushi 3\n".toList])
      (ex_at [⟨BUZZTOK_PARCLOSE, none⟩, ex_op BUZZTOK_STATEND ";"]
        ["\tpushi 2\n".toList, "\tpushi 3\n".toList, "\tpushi 2\n".toList])
      (ex_at [ex_op BUZZTOK_STATEND ";"]
        ["\tpushi 2\n".toList, "\tpushi 3\n".toList, "\tpushi 2\n".toList])
      (ex_op BUZZTOK_POW "^") ⟨BUZZTOK_PAROPEN, none⟩ (ex_const "3") (ex_op BUZZTOK_POW "^")
      ⟨BUZZTOK_PARCLOSE, none⟩ (ex_op BUZZTOK_STATEND ";")
      (ex_at_valid _ _) (ex_operand 9 "2" _ _ [] (by decide)) (ex_at_tok _ _ _) rfl
      (ex_fetch _ _ _ _) (ex_at_tok _ _ _) rfl (ex_fetch _ _ _ _) (ex_at_tok _ _ _) (by decide)
      (ex_operand 2 "3" _ _ _ (by decide)) (ex_at_tok _ _ _) rfl
      (ex_fetch _ _ _ _) (ex_operand 0 "2" _ _ _ (by decide)) (ex_at_tok _ _ _) rfl
      (ex_fetch _ _ _ _) (ex_at_tok _ _ _) (by decide)
    refine ⟨_, h1, ?_⟩
    rw [h2]
    decide

/-- Claim C20.  The operators `+`, `-`, `*`, `/` and `%` are left-associative.
For each of the three precedence levels (`+` `-` in `parse_expression`, `*` `/`
in `parse_product`, `%` in `parse_modulo`) there are two parts: when the operands
of `a op1 b op2 c` parse, the rule succeeds and appends the code of `a`, the code
of `b`, the instruction of `op1`, the code of `c`, the instruction of `op2`; and
when the operands of `(a op1 b) op2 c` parse, the rule succeeds and appends the
same sequence.  The code of an operand is the text appended by the rule of the
next level (`parse_product`, `parse_modulo`, `parse_power`), and the instructions
are `add`, `sub`, `mul`, `div`, `mod`. -/
theorem C20_left_assoc :
    (∀ (k : Nat) (s a1 b0 b1 c0 c1 : buzzparser_s) (t0 ta tb tc : buzztok_s) (o1 o2 : Char),
      s.chunk < s.chunks.length →
      s.tok = some t0 →
      t0.type ≠ BUZZTOK_BLOCKOPEN →
      parse_product (k + 2) s = .ok a1 →
      a1.tok = some ta →
      ta.type = BUZZTOK_ADDSUB →
      tokop ta = some o1 →
      o1 = '+' ∨ o1 = '-' →
      fetchtok a1 = .ok b0 →
      parse_product (k + 1) b0 = .ok b1 →
      b1.tok = some tb →
      tb.type = BUZZTOK_ADDSUB →
      tokop tb = some o2 →
      o2 = '+' ∨ o2 = '-' →
      fetchtok (chunk_append b1 (addsub_instr o1)) = .ok c0 →
      parse_product k c0 = .ok c1 →
      c1.tok = some tc →
      tc.type ≠ BUZZTOK_ADDSUB →
      parse_expression (k + 3) s = .ok (chunk_append c1 (addsub_instr o2)) ∧ emitted s
        (chunk_append c1 (addsub_instr o2)) = emitted s a1 ++ emitted b0 b1 ++ addsub_instr o1 ++
        emitted c0 c1 ++ addsub_instr o2) ∧
    (∀ (k : Nat) (s a0 a1 b0 b1 d0 c0 c1 : buzzparser_s) (tp t0 ta tb td tc : buzztok_s) (o1 o2 :
        Char),
      s.chunk < s.chunks.length →
      s.tok = some tp →
      tp.type = BUZZTOK_PAROPEN →
      fetchtok s = .ok a0 →
      a0.tok = some t0 →
      t0.type ≠ BUZZTOK_BLOCKOPEN →
      parse_product (k + 1) a0 = .ok a1 →
      a1.tok = some ta →
      ta.type = BUZZTOK_ADDSUB →
      tokop ta = some o1 →
      o1 = '+' ∨ o1 = '-' →
      fetchtok a1 = .ok b0 →
      parse_product k b0 = .ok b1 →
      b1.tok = some tb →
      tb.type = BUZZTOK_PARCLOSE →
      fetchtok (chunk_append b1 (addsub_instr o1)) = .ok d0 →
      d0.tok = some td →
      td.type = BUZZTOK_ADDSUB →
      tokop td = some o2 →
      o2 = '+' ∨ o2 = '-' →
      fetchtok d0 = .ok c0 →
      parse_product (k + 5) c0 = .ok c1 →
      c1.tok = some tc →
      tc.type ≠ BUZZTOK_ADDSUB →
      parse_expression (k + 7) s = .ok (chunk_append c1 (addsub_instr o2)) ∧ emitted s
        (chunk_append c1 (addsub_instr o2)) = emitted a0 a1 ++ emitted b0 b1 ++ addsub_instr o1
        ++ emitted c0 c1 ++ addsub_instr o2) ∧
    (∀ (k : Nat) (s a1 b0 b1 c0 c1 : buzzparser_s) (ta tb tc : buzztok_s) (o1 o2 : Char),
      s.chunk < s.chunks.length →
      parse_modulo (k + 2) s = .ok a1 →
      a1.tok = some ta →
      ta.type = BUZZTOK_MULDIV →
      tokop ta = some o1 →
      o1 = '*' ∨ o1 = '/' →
      fetchtok a1 = .ok b0 →
      parse_modulo (k + 1) b0 = .ok b1 →
      b1.tok = some tb →
      tb.type = BUZZTOK_MULDIV →
      tokop tb = some o2 →
      o2 = '*' ∨ o2 = '/' →
      fetchtok (chunk_append b1 (muldiv_instr o1)) = .ok c0 →
      parse_modulo k c0 = .ok c1 →
      c1.tok = some tc →
      tc.type ≠ BUZZTOK_MULDIV →
      parse_product (k + 3) s = .ok (chunk_append c1 (muldiv_instr o2)) ∧ emitted s (chunk_append
        c1 (muldiv_instr o2)) = emitted s a1 ++ emitted b0 b1 ++ muldiv_instr o1 ++ emitted c0 c1
        ++ muldiv_instr o2) ∧
    (∀ (k : Nat) (s a0 a1 b0 b1 d0 c0 c1 : buzzparser_s) (tp t0 ta tb td tc : buzztok_s) (o1 o2 :
        Char),
      s.chunk < s.chunks.length →
      s.tok = some tp →
      tp.type = BUZZTOK_PAROPEN →
      fetchtok s = .ok a0 →
      a0.tok = some t0 →
      t0.type ≠ BUZZTOK_BLOCKOPEN →
      parse_modulo (k + 1) a0 = .ok a1 →
      a1.tok = some ta →
      ta.type = BUZZTOK_MULDIV →
      tokop ta = some o1 →
      o1 = '*' ∨ o1 = '/' →
      fetchtok a1 = .ok b0 →
      parse_modulo k b0 = .ok b1 →
      b1.tok = some tb →
      tb.type = BUZZTOK_PARCLOSE →
      fetchtok (chunk_append b1 (muldiv_instr o1)) = .ok d0 →
      d0.tok = some td →
      td.type = BUZZTOK_MULDIV →
      tokop td = some o2 →
      o2 = '*' ∨ o2 = '/' →
      fetchtok d0 = .ok c0 →
      parse_modulo (k + 5) c0 = .ok c1 →
      c1.tok = some tc →
      tc.type ≠ BUZZTOK_MULDIV →
      parse_product (k + 7) s = .ok (chunk_append c1 (muldiv_instr o2)) ∧ emitted s (chunk_append
        c1 (muldiv_instr o2)) = emitted a0 a1 ++ emitted b0 b1 ++ muldiv_instr o1 ++ emitted c0
        c1 ++ muldiv_instr o2) ∧
    (∀ (k : Nat) (s a1 b0 b1 c0 c1 : buzzparser_s) (ta tb tc : buzztok_s),
      s.chunk < s.chunks.length →
      parse_power (k + 2) s = .ok a1 →
      a1.tok = some ta →
      ta.type = BUZZTOK_MOD →
      fetchtok a1 = .ok b0 →
      parse_power (k + 1) b0 = .ok b1 →
      b1.tok = some tb →
      tb.type = BUZZTOK_MOD →
      fetchtok (chunk_append b1 "\tmod\n".toList) = .ok c0 →
      parse_power k c0 = .ok c1 →
      c1.tok = some tc →
      tc.type ≠ BUZZTOK_MOD →
      parse_modulo (k + 3) s = .ok (chunk_append c1 "\tmod\n".toList) ∧ emitted s (chunk_append
        c1 "\tmod\n".toList) = emitted s a1 ++ emitted b0 b1 ++ "\tmod\n".toList ++ emitted c0 c1
        ++ "\tmod\n".toList) ∧
    (∀ (k : Nat) (s a0 a1 b0 b1 d0 c0 c1 : buzzparser_s) (tp t0 ta tb td tc : buzztok_s),
      s.chunk < s.chunks.length →
      s.tok = some tp →
      tp.type = BUZZTOK_PAROPEN →
      fetchtok s = .ok a0 →
      a0.tok = some t0 →
      t0.type ≠ BUZZTOK_BLOCKOPEN →
      parse_power (k + 1) a0 = .ok a1 →
      a1.tok = some ta →
      ta.type = BUZZTOK_MOD →
      fetchtok a1 = .ok b0 →
      parse_power k b0 = .ok b1 →
      b1.tok = some tb →
      tb.type = BUZZTOK_PARCLOSE →
      fetchtok (chunk_append b1 "\tmod\n".toList) = .ok d0 →
      d0.tok = some td →
      td.type = BUZZTOK_MOD →
      fetchtok d0 = .ok c0 →
      parse_power (k + 5) c0 = .ok c1 →
      c1.tok = some tc →
      tc.type ≠ BUZZTOK_MOD →
      parse_modulo (k + 7) s = .ok (chunk_append c1 "\tmod\n".toList) ∧ emitted s (chunk_append
        c1 "\tmod\n".toList) = emitted a0 a1 ++ emitted b0 b1 ++ "\tmod\n".toList ++ emitted c0
        c1 ++ "\tmod\n".toList) :=
  ⟨c20_addsub, c20_addsub_paren, c20_muldiv, c20_muldiv_paren, c20_mod, c20_mod_paren⟩

/-- Witness for C20: `1 + 2 - 3` and `(1 + 2) - 3` give `pushi 1`, `pushi 2`,
`add`, `pushi 3`, `sub`; likewise `1 * 2 / 3` with `mul`, `div` and `1 % 2 % 3`
with `mod`, `mod`, each with and without the parentheses. -/
theorem C20_witness :
    (∃ q, parse_expression 7 (ex_at [ex_const "1", ex_op BUZZTOK_ADDSUB "+", ex_const "2", ex_op
    BUZZTOK_ADDSUB "-", ex_const "3", ex_op BUZZTOK_STATEND ";"] []) = .ok q ∧ emitted (ex_at
    [ex_const "1", ex_op BUZZTOK_ADDSUB "+", ex_const "2", ex_op BUZZTOK_ADDSUB "-", ex_const "3",
    ex_op BUZZTOK_STATEND ";"] []) q = "\tpushi 1\n\tpushi 2\n\tadd\n\tpushi 3\n\tsub\n".toList) ∧
    (∃ q, parse_expression 11 (ex_at [⟨BUZZTOK_PAROPEN, none⟩, ex_const "1", ex_op BUZZTOK_ADDSUB
    "+", ex_const "2", ⟨BUZZTOK_PARCLOSE, none⟩, ex_op BUZZTOK_ADDSUB "-", ex_const "3", ex_op
    BUZZTOK_STATEND ";"] []) = .ok q ∧ emitted (ex_at [⟨BUZZTOK_PAROPEN, none⟩, ex_const "1",
    ex_op BUZZTOK_ADDSUB "+", ex_const "2", ⟨BUZZTOK_PARCLOSE, none⟩, ex_op BUZZTOK_ADDSUB "-",
    ex_const "3", ex_op BUZZTOK_STATEND ";"] []) q =
    "\tpushi 1\n\tpushi 2\n\tadd\n\tpushi 3\n\tsub\n".toList) ∧
    (∃ q, parse_product 6 (ex_at [ex_const "1", ex_op BUZZTOK_MULDIV "*", ex_const "2", ex_op
    BUZZTOK_MULDIV "/", ex_const "3", ex_op BUZZTOK_STATEND ";"] []) = .ok q ∧ emitted (ex_at
    [ex_const "1", ex_op BUZZTOK_MULDIV "*", ex_const "2", ex_op BUZZTOK_MULDIV "/", ex_const "3",
    ex_op BUZZTOK_STATEND ";"] []) q = "\tpushi 1\n\tpushi 2\n\tmul\n\tpushi 3\n\tdiv\n".toList) ∧
    (∃ q, parse_product 10 (ex_at [⟨BUZZTOK_PAROPEN, none⟩, ex_const "1", ex_op BUZZTOK_MULDIV
    "*", ex_const "2", ⟨BUZZTOK_PARCLOSE, none⟩, ex_op BUZZTOK_MULDIV "/", ex_const "3", ex_op
    BUZZTOK_STATEND ";"] []) = .ok q ∧ emitted (ex_at [⟨BUZZTOK_PAROPEN, none⟩, ex_const "1",
    ex_op BUZZTOK_MULDIV "*", ex_const "2", ⟨BUZZTOK_PARCLOSE, none⟩, ex_op BUZZTOK_MULDIV "/",
    ex_const "3", ex_op BUZZTOK_STATEND ";"] []) q =
    "\tpushi 1\n\tpushi 2\n\tmul\n\tpushi 3\n\tdiv\n".toList) ∧
    (∃ q, parse_modulo 5 (ex_at [ex_const "1", ex_op BUZZTOK_MOD "%", ex_const "2", ex_op
    BUZZTOK_MOD "%", ex_const "3", ex_op BUZZTOK_STATEND ";"] []) = .ok q ∧ emitted (ex_at
    [ex_const "1", ex_op BUZZTOK_MOD "%", ex_const "2", ex_op BUZZTOK_MOD "%", ex_const "3", ex_op
    BUZZTOK_STATEND ";"] []) q = "\tpushi 1\n\tpushi 2\n\tmod\n\tpushi 3\n\tmod\n".toList) ∧
    (∃ q, parse_modulo 9 (ex_at [⟨BUZZTOK_PAROPEN, none⟩, ex_const "1", ex_op BUZZTOK_MOD "%",
    ex_const "2", ⟨BUZZTOK_PARCLOSE, none⟩, ex_op BUZZTOK_MOD "%", ex_const "3", ex_op
    BUZZTOK_STATEND ";"] []) = .ok q ∧ emitted (ex_at [⟨BUZZTOK_PAROPEN, none⟩, ex_const "1",
    ex_op BUZZTOK_MOD "%", ex_const "2", ⟨BUZZTOK_PARCLOSE, none⟩, ex_op BUZZTOK_MOD "%", ex_const
    "3", ex_op BUZZTOK_STATEND ";"] []) q =
    "\tpushi 1\n\tpushi 2\n\tmod\n\tpushi 3\n\tmod\n".toList) := by
  refine ⟨?_, ?_, ?_, ?_, ?_, ?_⟩
  · obtain ⟨h1, h2⟩ := C20_left_assoc.1
      4 (ex_at [ex_const "1", ex_op BUZZTOK_ADDSUB "+", ex_const "2", ex_op BUZZTOK_ADDSUB "-",
      ex_const "3", ex_op BUZZTOK_STATEND ";"] []) (ex_at [ex_op BUZZTOK_ADDSUB "+", ex_const "2",
      ex_op BUZZTOK_ADDSUB "-", ex_const "3", ex_op BUZZTOK_STATEND ";"] ["\tpushi 1\n".toList])
      (ex_at [ex_const "2", ex_op BUZZTOK_ADDSUB "-", ex_const "3", ex_op BUZZTOK_STATEND ";"]
      ["\tpushi 1\n".toList]) (ex_at [ex_op BUZZTOK_ADDSUB "-", ex_const "3", ex_op
      BUZZTOK_STATEND ";"] ["\tpushi 1\n".toList, "\tpushi 2\n".toList]) (ex_at [ex_const "3",
      ex_op BUZZTOK_STATEND ";"] ["\tpushi 1\n".toList, "\tpushi 2\n".toList, "\tadd\n".toList])
      (ex_at [ex_op BUZZTOK_STATEND ";"] ["\tpushi 1\n".toList, "\tpushi 2\n".toList,
      "\tadd\n".toList, "\tpushi 3\n".toList]) (ex_const "1") (ex_op BUZZTOK_ADDSUB "+") (ex_op
      BUZZTOK_ADDSUB "-") (ex_op BUZZTOK_STATEND ";") '+' '-' (ex_at_valid _ _) (ex_at_tok _ _ _)
      (by decide) (ex_product 2 "1" _ _ _ (by decide) (by decide) (by decide) (by decide))
      (ex_at_tok _ _ _) rfl rfl (by decide) (ex_fetch _ _ _ _) (ex_product 1 "2" _ _ _ (by decide)
      (by decide) (by decide) (by decide)) (ex_at_tok _ _ _) rfl rfl (by decide) (by rfl)
      (ex_product 0 "3" _ _ _ (by decide) (by decide) (by decide) (by decide)) (ex_at_tok _ _ _)
      (by decide)
    refine ⟨_, h1, ?_⟩
    rw [h2]
    decide
  · obtain ⟨h1, h2⟩ := C20_left_assoc.2.1
      4 (ex_at [⟨BUZZTOK_PAROPEN, none⟩, ex_const "1", ex_op BUZZTOK_ADDSUB "+", ex_const "2",
      ⟨BUZZTOK_PARCLOSE, none⟩, ex_op BUZZTOK_ADDSUB "-", ex_const "3", ex_op BUZZTOK_STATEND ";"]
      []) (ex_at [ex_const "1", ex_op BUZZTOK_ADDSUB "+", ex_const "2", ⟨BUZZTOK_PARCLOSE, none⟩,
      ex_op BUZZTOK_ADDSUB "-", ex_const "3", ex_op BUZZTOK_STATEND ";"] []) (ex_at [ex_op
      BUZZTOK_ADDSUB "+", ex_const "2", ⟨BUZZTOK_PARCLOSE, none⟩, ex_op BUZZTOK_ADDSUB "-",
      ex_const "3", ex_op BUZZTOK_STATEND ";"] ["\tpushi 1\n".toList]) (ex_at [ex_const "2",
      ⟨BUZZTOK_PARCLOSE, none⟩, ex_op BUZZTOK_ADDSUB "-", ex_const "3", ex_op BUZZTOK_STATEND ";"]
      ["\tpushi 1\n".toList]) (ex_at [⟨BUZZTOK_PARCLOSE, none⟩, ex_op BUZZTOK_ADDSUB "-", ex_const
      "3", ex_op BUZZTOK_STATEND ";"] ["\tpushi 1\n".toList, "\tpushi 2\n".toList]) (ex_at [ex_op
      BUZZTOK_ADDSUB "-", ex_const "3", ex_op BUZZTOK_STATEND ";"] ["\tpushi 1\n".toList,
      "\tpushi 2\n".toList, "\tadd\n".toList]) (ex_at [ex_const "3", ex_op BUZZTOK_STATEND ";"]
      ["\tpushi 1\n".toList, "\tpushi 2\n".toList, "\tadd\n".toList]) (ex_at [ex_op
      BUZZTOK_STATEND ";"] ["\tpushi 1\n".toList, "\tpushi 2\n".toList, "\tadd\n".toList,
      "\tpushi 3\n".toList]) ⟨BUZZTOK_PAROPEN, none⟩ (ex_const "1") (ex_op BUZZTOK_ADDSUB "+")
      ⟨BUZZTOK_PARCLOSE, none⟩ (ex_op BUZZTOK_ADDSUB "-") (ex_op BUZZTOK_STATEND ";") '+' '-'
      (ex_at_valid _ _) (ex_at_tok _ _ _) rfl (ex_fetch _ _ _ _) (ex_at_tok _ _ _) (by decide)
      (ex_product 1 "1" _ _ _ (by decide) (by decide) (by decide) (by decide)) (ex_at_tok _ _ _)
      rfl rfl (by decide) (ex_fetch _ _ _ _) (ex_product 0 "2" _ _ _ (by decide) (by decide) (by
      decide) (by decide)) (ex_at_tok _ _ _) rfl (by rfl) (ex_at_tok _ _ _) rfl rfl (by decide)
      (ex_fetch _ _ _ _) (ex_product 5 "3" _ _ _ (by decide) (by decide) (by decide) (by decide))
      (ex_at_tok _ _ _) (by decide)
    refine ⟨_, h1, ?_⟩
    rw [h2]
    decide
  · obtain ⟨h1, h2⟩ := C20_left_assoc.2.2.1
      3 (ex_at [ex_const "1", ex_op BUZZTOK_MULDIV "*", ex_const "2", ex_op BUZZTOK_MULDIV "/",
      ex_const "3", ex_op BUZZTOK_STATEND ";"] []) (ex_at [ex_op BUZZTOK_MULDIV "*", ex_const "2",
      ex_op BUZZTOK_MULDIV "/", ex_const "3", ex_op BUZZTOK_STATEND ";"] ["\tpushi 1\n".toList])
      (ex_at [ex_const "2", ex_op BUZZTOK_MULDIV "/", ex_const "3", ex_op BUZZTOK_STATEND ";"]
      ["\tpushi 1\n".toList]) (ex_at [ex_op BUZZTOK_MULDIV "/", ex_const "3", ex_op
      BUZZTOK_STATEND ";"] ["\tpushi 1\n".toList, "\tpushi 2\n".toList]) (ex_at [ex_const "3",
      ex_op BUZZTOK_STATEND ";"] ["\tpushi 1\n".toList, "\tpushi 2\n".toList, "\tmul\n".toList])
      (ex_at [ex_op BUZZTOK_STATEND ";"] ["\tpushi 1\n".toList, "\tpushi 2\n".toList,
      "\tmul\n".toList, "\tpushi 3\n".toList]) (ex_op BUZZTOK_MULDIV "*") (ex_op BUZZTOK_MULDIV
      "/") (ex_op BUZZTOK_STATEND ";") '*' '/' (ex_at_valid _ _) (ex_modulo 2 "1" _ _ _ (by
      decide) (by decide) (by decide)) (ex_at_tok _ _ _) rfl rfl (by decide) (ex_fetch _ _ _ _)
      (ex_modulo 1 "2" _ _ _ (by decide) (by decide) (by decide)) (ex_at_tok _ _ _) rfl rfl (by
      decide) (by rfl) (ex_modulo 0 "3" _ _ _ (by decide) (by decide) (by decide)) (ex_at_tok _ _
      _) (by decide)
    refine ⟨_, h1, ?_⟩
    rw [h2]
    decide
  · obtain ⟨h1, h2⟩ := C20_left_assoc.2.2.2.1
      3 (ex_at [⟨BUZZTOK_PAROPEN, none⟩, ex_const "1", ex_op BUZZTOK_MULDIV "*", ex_const "2",
      ⟨BUZZTOK_PARCLOSE, none⟩, ex_op BUZZTOK_MULDIV "/", ex_const "3", ex_op BUZZTOK_STATEND ";"]
      []) (ex_at [ex_const "1", ex_op BUZZTOK_MULDIV "*", ex_const "2", ⟨BUZZTOK_PARCLOSE, none⟩,
      ex_op BUZZTOK_MULDIV "/", ex_const "3", ex_op BUZZTOK_STATEND ";"] []) (ex_at [ex_op
      BUZZTOK_MULDIV "*", ex_const "2", ⟨BUZZTOK_PARCLOSE, none⟩, ex_op BUZZTOK_MULDIV "/",
      ex_const "3", ex_op BUZZTOK_STATEND ";"] ["\tpushi 1\n".toList]) (ex_at [ex_const "2",
      ⟨BUZZTOK_PARCLOSE, none⟩, ex_op BUZZTOK_MULDIV "/", ex_const "3", ex_op BUZZTOK_STATEND ";"]
      ["\tpushi 1\n".toList]) (ex_at [⟨BUZZTOK_PARCLOSE, none⟩, ex_op BUZZTOK_MULDIV "/", ex_const
      "3", ex_op BUZZTOK_STATEND ";"] ["\tpushi 1\n".toList, "\tpushi 2\n".toList]) (ex_at [ex_op
      BUZZTOK_MULDIV "/", ex_const "3", ex_op BUZZTOK_STATEND ";"] ["\tpushi 1\n".toList,
      "\tpushi 2\n".toList, "\tmul\n".toList]) (ex_at [ex_const "3", ex_op BUZZTOK_STATEND ";"]
      ["\tpushi 1\n".toList, "\tpushi 2\n".toList, "\tmul\n".toList]) (ex_at [ex_op
      BUZZTOK_STATEND ";"] ["\tpushi 1\n".toList, "\tpushi 2\n".toList, "\tmul\n".toList,
      "\tpushi 3\n".toList]) ⟨BUZZTOK_PAROPEN, none⟩ (ex_const "1") (ex_op BUZZTOK_MULDIV "*")
      ⟨BUZZTOK_PARCLOSE, none⟩ (ex_op BUZZTOK_MULDIV "/") (ex_op BUZZTOK_STATEND ";") '*' '/'
      (ex_at_valid _ _) (ex_at_tok _ _ _) rfl (ex_fetch _ _ _ _) (ex_at_tok _ _ _) (by decide)
      (ex_modulo 1 "1" _ _ _ (by decide) (by decide) (by decide)) (ex_at_tok _ _ _) rfl rfl (by
      decide) (ex_fetch _ _ _ _) (ex_modulo 0 "2" _ _ _ (by decide) (by decide) (by decide))
      (ex_at_tok _ _ _) rfl (by rfl) (ex_at_tok _ _ _) rfl rfl (by decide) (ex_fetch _ _ _ _)
      (ex_modulo 5 "3" _ _ _ (by decide) (by decide) (by decide)) (ex_at_tok _ _ _) (by decide)
    refine ⟨_, h1, ?_⟩
    rw [h2]
    decide
  · obtain ⟨h1, h2⟩ := C20_left_assoc.2.2.2.2.1
      2 (ex_at [ex_const "1", ex_op BUZZTOK_MOD "%", ex_const "2", ex_op BUZZTOK_MOD "%", ex_const
      "3", ex_op BUZZTOK_STATEND ";"] []) (ex_at [ex_op BUZZTOK_MOD "%", ex_const "2", ex_op
      BUZZTOK_MOD "%", ex_const "3", ex_op BUZZTOK_STATEND ";"] ["\tpushi 1\n".toList]) (ex_at
      [ex_const "2", ex_op BUZZTOK_MOD "%", ex_const "3", ex_op BUZZTOK_STATEND ";"]
      ["\tpushi 1\n".toList]) (ex_at [ex_op BUZZTOK_MOD "%", ex_const "3", ex_op BUZZTOK_STATEND
      ";"] ["\tpushi 1\n".toList, "\tpushi 2\n".toList]) (ex_at [ex_const "3", ex_op
      BUZZTOK_STATEND ";"] ["\tpushi 1\n".toList, "\tpushi 2\n".toList, "\tmod\n".toList]) (ex_at
      [ex_op BUZZTOK_STATEND ";"] ["\tpushi 1\n".toList, "\tpushi 2\n".toList, "\tmod\n".toList,
      "\tpushi 3\n".toList]) (ex_op BUZZTOK_MOD "%") (ex_op BUZZTOK_MOD "%") (ex_op
      BUZZTOK_STATEND ";") (ex_at_valid _ _) (ex_power 2 "1" _ _ _ (by decide) (by decide))
      (ex_at_tok _ _ _) rfl (ex_fetch _ _ _ _) (ex_power 1 "2" _ _ _ (by decide) (by decide))
      (ex_at_tok _ _ _) rfl (by rfl) (ex_power 0 "3" _ _ _ (by decide) (by decide)) (ex_at_tok _ _
      _) (by decide)
    refine ⟨_, h1, ?_⟩
    rw [h2]
    decide
  · obtain ⟨h1, h2⟩ := C20_left_assoc.2.2.2.2.2
      2 (ex_at [⟨BUZZTOK_PAROPEN, none⟩, ex_const "1", ex_op BUZZTOK_MOD "%", ex_const "2",
      ⟨BUZZTOK_PARCLOSE, none⟩, ex_op BUZZTOK_MOD "%", ex_const "3", ex_op BUZZTOK_STATEND ";"]
      []) (ex_at [ex_const "1", ex_op BUZZTOK_MOD "%", ex_const "2", ⟨BUZZTOK_PARCLOSE, none⟩,
      ex_op BUZZTOK_MOD "%", ex_const "3", ex_op BUZZTOK_STATEND ";"] []) (ex_at [ex_op
      BUZZTOK_MOD "%", ex_const "2", ⟨BUZZTOK_PARCLOSE, none⟩, ex_op BUZZTOK_MOD "%", ex_const
      "3", ex_op BUZZTOK_STATEND ";"] ["\tpushi 1\n".toList]) (ex_at [ex_const "2",
      ⟨BUZZTOK_PARCLOSE, none⟩, ex_op BUZZTOK_MOD "%", ex_const "3", ex_op BUZZTOK_STATEND ";"]
      ["\tpushi 1\n".toList]) (ex_at [⟨BUZZTOK_PARCLOSE, none⟩, ex_op BUZZTOK_MOD "%", ex_const
      "3", ex_op BUZZTOK_STATEND ";"] ["\tpushi 1\n".toList, "\tpushi 2\n".toList]) (ex_at [ex_op
      BUZZTOK_MOD "%", ex_const "3", ex_op BUZZTOK_STATEND ";"] ["\tpushi 1\n".toList,
      "\tpushi 2\n".toList, "\tmod\n".toList]) (ex_at [ex_const "3", ex_op BUZZTOK_STATEND ";"]
      ["\tpushi 1\n".toList, "\tpushi 2\n".toList, "\tmod\n".toList]) (ex_at [ex_op
      BUZZTOK_STATEND ";"] ["\tpushi 1\n".toList, "\tpushi 2\n".toList, "\tmod\n".toList,
      "\tpushi 3\n".toList]) ⟨BUZZTOK_PAROPEN, none⟩ (ex_const "1") (ex_op BUZZTOK_MOD "%")
      ⟨BUZZTOK_PARCLOSE, none⟩ (ex_op BUZZTOK_MOD "%") (ex_op BUZZTOK_STATEND ";") (ex_at_valid _
      _) (ex_at_tok _ _ _) rfl (ex_fetch _ _ _ _) (ex_at_tok _ _ _) (by decide) (ex_power 1 "1" _
      _ _ (by decide) (by decide)) (ex_at_tok _ _ _) rfl (ex_fetch _ _ _ _) (ex_power 0 "2" _ _ _
      (by decide) (by decide)) (ex_at_tok _ _ _) rfl (by rfl) (ex_at_tok _ _ _) rfl (ex_fetch _ _
      _ _) (ex_power 5 "3" _ _ _ (by decide) (by decide)) (ex_at_tok _ _ _) (by decide)
    refine ⟨_, h1, ?_⟩
    rw [h2]
    decide

/-- Claim C16.  The scope stack of the state built by `buzzparser_new` has its
global flags in order (`GlobalOK`: the symbols of the bottom table are global,
those of every other table are not).  The symbol bound by `sym_add` is global
exactly when the scope stack holds one table at that moment.  Each of the four
operations on the scope stack (`sym_add`, `symt_push`, `symt_pop`, the removal
of the variables of a block) keeps the flags in order, and so does every
grammar rule from its entry to its successful exit, whatever the fuel: the
rules of function definitions, of parameter lists and of references that bind
on first assignment among them.  Hence the flags are in order in the state a
successful `parse_script` returns. -/
theorem C16_global_flag :
    (∀ toks : List buzztok_s, GlobalOK (buzzparser_new toks).symstack) ∧
    (∀ (p : buzzparser_s) (x : cstr), p.symstack ≠ [] →
      ∃ s, sym_lookup x (sym_add p x).symstack = some s ∧
        (s.global = true ↔ p.symstack.length = 1)) ∧
    (∀ (p : buzzparser_s) (x : cstr), GlobalOK p.symstack → GlobalOK (sym_add p x).symstack) ∧
    (∀ p : buzzparser_s, GlobalOK p.symstack → GlobalOK (symt_push p).symstack) ∧
    (∀ p : buzzparser_s, GlobalOK p.symstack → GlobalOK (symt_pop p).symstack) ∧
    (∀ (p : buzzparser_s) (k : Nat),
      GlobalOK p.symstack → GlobalOK (block_cleanup p k).symstack) ∧
    (∀ n : Nat, AllRules (fun p q => GlobalOK p.symstack → GlobalOK q.symstack) n) ∧
    (∀ (n : Nat) (toks : List buzztok_s) (q : buzzparser_s),
      parse_script n (buzzparser_new toks) = .ok q → GlobalOK q.symstack) :=
  ⟨fun _ => trivial, sym_add_flag, globalok_add, fun _ h => globalok_push _ h,
   fun _ h => globalok_pop _ h, globalok_clean,
   fun n => allrules_mono (fun _ _ h => reach_globalok h) (rules_reach n),
   fun n toks q h => script_globalok n (buzzparser_new toks) q trivial h⟩

/-- Witness for C16: the flags are in order after the script of `c9_toks`,
after the definition `function f(p) {}` and after the block of `c14_state`;
a name bound in the body of a function is not global. -/
theorem C16_witness :
    GlobalOK c9_final.symstack ∧
    (GlobalOK c17_fun_state.symstack → GlobalOK c17_fun_final.symstack) ∧
    (GlobalOK c14_state.symstack → GlobalOK c14_final.symstack) ∧
    GlobalOK (sym_add c16_body "p".toList).symstack ∧
    ∃ s, sym_lookup "p".toList (sym_add c16_body "p".toList).symstack = some s ∧
      (s.global = true ↔ c16_body.symstack.length = 1) :=
  ⟨C16_global_flag.2.2.2.2.2.2.2 8 c9_toks c9_final c9_script,
   (C16_global_flag.2.2.2.2.2.2.1 8).func c17_fun_state c17_fun_final c17_fun_run,
   (C16_global_flag.2.2.2.2.2.2.1 24).block c14_state c14_final c14_run,
   C16_global_flag.2.2.1 c16_body "p".toList (by simp [c16_body, GlobalOK]),
   C16_global_flag.2.1 c16_body "p".toList (by simp [c16_body])⟩

/-- Claim C15 (counterexample).  In `if (1) { x = 1 } ; y = 2 ;` at top level
the name `x` is bound at slot 0 of the global table inside the block, and after
the block the name `y` is bound at slot 0 of the same table, which never left
the scope stack: both assignments end with `gstore 0`. -/
theorem C15_counterexample :
    parse_statlist 16 c15_state = .ok c15_final ∧
    c15_state.symstack = [[]] ∧
    parse_idref 1 c15_block true = .ok (c15_bound, ⟨0, true⟩) ∧
    c15_bound.symstack = [[("x".toList, ⟨0, TYPE_BASIC, true⟩)]] ∧
    c15_final.symstack = [[("y".toList, ⟨0, TYPE_BASIC, true⟩)]] ∧
    text_at c15_final.chunks 0 =
      "\tpushi 1\n\tjumpz @__label_1\n\tpushi 1\n\tgstore 0\n@__label_1\n\tpushi 2\n\tgstore 0\n".toList :=
  ⟨c15_run, rfl, c15_bind, rfl, rfl, c15_text⟩

/-- Claim C15 (amended).  Let the innermost table `syms` be numbered in order
(`WellNumbered`: its entries carry the slots 0, 1, 2, ... under different
keys).  Binding a name `x` that the table does not hold appends `x` to it with
the slot equal to the size of the table, every slot of the table is below that
slot, and the table stays numbered in order.  The removal of the variables of
a block that started at size `k` leaves the first `k` entries, again numbered
in order: the slots from `k` on are free and are the next ones to be given. -/
theorem C15_slot_is_table_size (p : buzzparser_s) (x : cstr) (syms : buzzdict_t)
    (rest : List buzzdict_t) (k : Nat) (hs : p.symstack = syms :: rest)
    (hw : WellNumbered syms) (hx : buzzdict_get syms x = none) :
    (sym_add p x).symstack =
      (syms ++ [(x, ⟨buzzdict_size syms, TYPE_BASIC, decide (rest = [])⟩)]) :: rest ∧
    (∀ e ∈ syms, e.2.pos < buzzdict_size syms) ∧
    WellNumbered (syms ++ [(x, ⟨buzzdict_size syms, TYPE_BASIC, decide (rest = [])⟩)]) ∧
    (block_cleanup p k).symstack = syms.take k :: rest ∧
    WellNumbered (syms.take k) ∧
    buzzdict_size (syms.take k) = min k (buzzdict_size syms) :=
  ⟨sym_add_new p x syms rest hs hx, wellnumbered_lt hw,
   wellnumbered_add hw (buzzdict_get_none hx) _ _, block_cleanup_take p k syms rest hs hw,
   wellnumbered_take hw k, List.length_take _ _⟩

/-- Witness for C15: in the table that holds `a` at slot 0 and `b` at slot 1,
the new name `c` gets slot 2, and the end of a block that started at size 1
leaves `a` only. -/
theorem C15_witness :
    (sym_add c15_two "c".toList).symstack =
      [[("a".toList, ⟨0, TYPE_BASIC, true⟩), ("b".toList, ⟨1, TYPE_BASIC, true⟩),
        ("c".toList, ⟨2, TYPE_BASIC, true⟩)]] ∧
    (block_cleanup c15_two 1).symstack = [[("a".toList, ⟨0, TYPE_BASIC, true⟩)]] :=
  ⟨(C15_slot_is_table_size c15_two "c".toList
      [("a".toList, ⟨0, TYPE_BASIC, true⟩), ("b".toList, ⟨1, TYPE_BASIC, true⟩)] [] 1 rfl
      ⟨rfl, by decide⟩ (by decide)).1,
   (C15_slot_is_table_size c15_two "c".toList
      [("a".toList, ⟨0, TYPE_BASIC, true⟩), ("b".toList, ⟨1, TYPE_BASIC, true⟩)] [] 1 rfl
      ⟨rfl, by decide⟩ (by decide)).2.2.2.1⟩

/-- Claim C12.  Let a reference parsed in lvalue position consume the tokens
`pre` and then `tl`, the last one, and let `tl` be a closing parenthesis (the
reference ends with a call suffix) and the token that follows be `=`.  Then
`parse_command` fails with the error `call_lvalue` ("can't have a function call
as lvalue").  The tokens after `=` are not constrained: the error is returned
before the right-hand side is read. -/
theorem C12_call_lvalue (n : Nat) (p q : buzzparser_s) (i : idrefinfo_s)
    (pre : List buzztok_s) (tl ta : buzztok_s) (h : parse_idref n p true = .ok (q, i))
    (hs : toks p = pre ++ tl :: toks q) (hc : tl.type = BUZZTOK_PARCLOSE)
    (hq : q.tok = some ta) (ha : ta.type = BUZZTOK_ASSIGN) :
    parse_command (n + 1) p = .error .call_lvalue := by
  have hi := idref_call_last n p q i pre tl h hs hc
  have hid : ∃ t, p.tok = some t ∧ t.type = BUZZTOK_ID := by
    cases n with
    | zero =>
      rw [parse_idref] at h
      cases h
    | succ n =>
      rw [parse_idref] at h
      obtain ⟨u, hu, _⟩ := bind_eq_ok.mp h
      exact tokmatch_eq_ok.mp hu
  obtain ⟨t, ht, hty⟩ := hid
  rw [parse_command]
  simp only [curtok_of_tok ht, bind_ok_step, hty, reduceCtorEq, if_false, h, curtok_of_tok hq,
    ha, if_true, hi]

/-- Witness for C12: `f() = )` with `f` bound fails with `call_lvalue`, though
what follows `=` is not an expression. -/
theorem C12_witness :
    parse_command 5 c12_state = .error .call_lvalue ∧
    parse_expression 8
      ⟨[], some ⟨BUZZTOK_PARCLOSE, none⟩, c3_syms, [chunk_new 0 none], 0, 1⟩ =
        .error (.expected BUZZTOK_ID BUZZTOK_PARCLOSE) :=
  ⟨C12_call_lvalue 4 c12_state c12_after ⟨TYPE_CLOSURE, true⟩
    [⟨BUZZTOK_ID, some "f".toList⟩, ⟨BUZZTOK_PAROPEN, none⟩] ⟨BUZZTOK_PARCLOSE, none⟩
    ⟨BUZZTOK_ASSIGN, none⟩ c12_ref rfl rfl rfl rfl, c12_rhs⟩

/-- Claim C21.  Logical operators and comparisons are strict.  First part: when
the comparison `c1` parses, an `and` / `or` token follows, the comparison `c2`
parses and no further `and` / `or` follows, `parse_condition` succeeds and the
text it appends is the code of `c1`, the code of `c2` and the one line that
holds the text of the operator token (`and` or `or`), nothing else: no `jump`
or `jumpz` of its own.  Second part: when the expression `e1` parses (it starts
neither with `(` nor with `not`), a comparison token follows and the expression
`e2` parses, `parse_comparison` succeeds and the text it appends is the code of
`e1`, the code of `e2` and the one line given by `cmp_op`.  Third part:
`cmp_op` maps `==`, `!=`, `<`, `<=`, `>`, `>=` to `eq`, `neq`, `lt`, `lte`,
`gt`, `gte`. -/
theorem C21_strict_operators :
    (∀ (k : Nat) (s a1 b0 b1 : buzzparser_s) (ta tb : buzztok_s),
      s.chunk < s.chunks.length →
      parse_comparison (k + 1) s = .ok a1 →
      a1.tok = some ta →
      ta.type = BUZZTOK_ANDOR →
      fetchtok a1 = .ok b0 →
      parse_comparison k b0 = .ok b1 →
      b1.tok = some tb →
      tb.type ≠ BUZZTOK_ANDOR →
      parse_condition (k + 2) s =
        .ok (chunk_append b1 ("\t".toList ++ tokval ta ++ "\n".toList)) ∧
      emitted s (chunk_append b1 ("\t".toList ++ tokval ta ++ "\n".toList)) =
        emitted s a1 ++ emitted b0 b1 ++ ("\t".toList ++ tokval ta ++ "\n".toList)) ∧
    (∀ (k : Nat) (s a1 b0 b1 : buzzparser_s) (t0 ta : buzztok_s),
      s.chunk < s.chunks.length →
      s.tok = some t0 →
      t0.type ≠ BUZZTOK_PAROPEN →
      t0.type ≠ BUZZTOK_NOT →
      parse_expression k s = .ok a1 →
      a1.tok = some ta →
      ta.type = BUZZTOK_CMP →
      fetchtok a1 = .ok b0 →
      parse_expression k b0 = .ok b1 →
      parse_comparison (k + 1) s =
        .ok (chunk_append b1 ("\t".toList ++ cmp_op (tokval ta) ++ "\n".toList)) ∧
      emitted s (chunk_append b1 ("\t".toList ++ cmp_op (tokval ta) ++ "\n".toList)) =
        emitted s a1 ++ emitted b0 b1 ++
          ("\t".toList ++ cmp_op (tokval ta) ++ "\n".toList)) ∧
    cmp_op "==".toList = "eq".toList ∧ cmp_op "!=".toList = "neq".toList ∧
    cmp_op "<".toList = "lt".toList ∧ cmp_op "<=".toList = "lte".toList ∧
    cmp_op ">".toList = "gt".toList ∧ cmp_op ">=".toList = "gte".toList :=
  ⟨c21_andor, c21_cmp, by decide, by decide, by decide, by decide, by decide, by decide⟩

/-- Witness for C21: `1 and 2` gives `pushi 1`, `pushi 2`, `and`; `1 or 2`
gives `pushi 1`, `pushi 2`, `or`; `1 <= 2` gives `pushi 1`, `pushi 2`, `lte`. -/
theorem C21_witness :
    (∃ q, parse_condition 8 (ex_at [ex_const "1", ex_op BUZZTOK_ANDOR "and", ex_const "2",
        ex_op BUZZTOK_STATEND ";"] []) = .ok q ∧
      emitted (ex_at [ex_const "1", ex_op BUZZTOK_ANDOR "and", ex_const "2",
        ex_op BUZZTOK_STATEND ";"] []) q = "\tpushi 1\n\tpushi 2\n\tand\n".toList) ∧
    (∃ q, parse_condition 8 (ex_at [ex_const "1", ex_op BUZZTOK_ANDOR "or", ex_const "2",
        ex_op BUZZTOK_STATEND ";"] []) = .ok q ∧
      emitted (ex_at [ex_const "1", ex_op BUZZTOK_ANDOR "or", ex_const "2",
        ex_op BUZZTOK_STATEND ";"] []) q = "\tpushi 1\n\tpushi 2\n\tor\n".toList) ∧
    (∃ q, parse_comparison 6 (ex_at [ex_const "1", ex_op BUZZTOK_CMP "<=", ex_const "2",
        ex_op BUZZTOK_STATEND ";"] []) = .ok q ∧
      emitted (ex_at [ex_const "1", ex_op BUZZTOK_CMP "<=", ex_const "2",
        ex_op BUZZTOK_STATEND ";"] []) q = "\tpushi 1\n\tpushi 2\n\tlte\n".toList) := by
  refine ⟨?_, ?_, ?_⟩
  · obtain ⟨h1, h2⟩ := C21_strict_operators.1 6
      (ex_at [ex_const "1", ex_op BUZZTOK_ANDOR "and", ex_const "2",
        ex_op BUZZTOK_STATEND ";"] [])
      (ex_at [ex_op BUZZTOK_ANDOR "and", ex_const "2", ex_op BUZZTOK_STATEND ";"]
        ["\tpushi 1\n".toList])
      (ex_at [ex_const "2", ex_op BUZZTOK_STATEND ";"] ["\tpushi 1\n".toList])
      (ex_at [ex_op BUZZTOK_STATEND ";"] ["\tpushi 1\n".toList, "\tpushi 2\n".toList])
      (ex_op BUZZTOK_ANDOR "and") (ex_op BUZZTOK_STATEND ";")
      (ex_at_valid _ _)
      (ex_comparison 1 "1" _ _ [] (by decide) (by decide) (by decide) (by decide) (by decide)
        (by decide))
      (ex_at_tok _ _ _) rfl (ex_fetch _ _ _ _)
      (ex_comparison 0 "2" _ _ _ (by decide) (by decide) (by decide) (by decide) (by decide)
        (by decide))
      (ex_at_tok _ _ _) (by decide)
    refine ⟨_, h1, ?_⟩
    rw [h2]
    decide
  · obtain ⟨h1, h2⟩ := C21_strict_operators.1 6
      (ex_at [ex_const "1", ex_op BUZZTOK_ANDOR "or", ex_const "2",
        ex_op BUZZTOK_STATEND ";"] [])
      (ex_at [ex_op BUZZTOK_ANDOR "or", ex_const "2", ex_op BUZZTOK_STATEND ";"]
        ["\tpushi 1\n".toList])
      (ex_at [ex_const "2", ex_op BUZZTOK_STATEND ";"] ["\tpushi 1\n".toList])
      (ex_at [ex_op BUZZTOK_STATEND ";"] ["\tpushi 1\n".toList, "\tpushi 2\n".toList])
      (ex_op BUZZTOK_ANDOR "or") (ex_op BUZZTOK_STATEND ";")
      (ex_at_valid _ _)
      (ex_comparison 1 "1" _ _ [] (by decide) (by decide) (by decide) (by decide) (by decide)
        (by decide))
      (ex_at_tok _ _ _) rfl (ex_fetch _ _ _ _)
      (ex_comparison 0 "2" _ _ _ (by decide) (by decide) (by decide) (by decide) (by decide)
        (by decide))
      (ex_at_tok _ _ _) (by decide)
    refine ⟨_, h1, ?_⟩
    rw [h2]
    decide
  · obtain ⟨h1, h2⟩ := C21_strict_operators.2.1 5
      (ex_at [ex_const "1", ex_op BUZZTOK_CMP "<=", ex_const "2",
        ex_op BUZZTOK_STATEND ";"] [])
      (ex_at [ex_op BUZZTOK_CMP "<=", ex_const "2", ex_op BUZZTOK_STATEND ";"]
        ["\tpushi 1\n".toList])
      (ex_at [ex_const "2", ex_op BUZZTOK_STATEND ";"] ["\tpushi 1\n".toList])
      (ex_at [ex_op BUZZTOK_STATEND ";"] ["\tpushi 1\n".toList, "\tpushi 2\n".toList])
      (ex_const "1") (ex_op BUZZTOK_CMP "<=")
      (ex_at_valid _ _) (ex_at_tok _ _ _) (by decide) (by decide)
      (ex_expression 0 "1" _ _ [] (by decide) (by decide) (by decide) (by decide) (by decide))
      (ex_at_tok _ _ _) rfl (ex_fetch _ _ _ _)
      (ex_expression 0 "2" _ _ _ (by decide) (by decide) (by decide) (by decide) (by decide))
    refine ⟨_, h1, ?_⟩
    rw [h2]
    decide

/-- Claim C22.  Signs and numeric literals in `parse_operand`.  First part: on
a sign token with sign character `sg` followed by a numeric literal with text
`v`, `parse_operand` succeeds and appends exactly the one instruction
`num_instr [sg] v`: `pushf <sg><v>` when `v` holds a decimal point and
`pushi <sg><v>` otherwise, so no `unm`.  Second part: on `-` followed by a
token that is not a numeric literal, when the power expression after the sign
parses, `parse_operand` appends the code of that expression and then `unm`.
Third part: on `+` followed by such a power expression it appends the code of
the expression only.  Fourth part: on an unsigned numeric literal with text `v`
it appends exactly `num_instr [] v`, that is `pushf <v>` or `pushi <v>` by the
same test. -/
theorem C22_signed_operands :
    (∀ (n : Nat) (s a q : buzzparser_s) (t t2 : buzztok_s) (sg : Char),
      s.chunk < s.chunks.length →
      s.tok = some t →
      t.type = BUZZTOK_ADDSUB →
      tokop t = some sg →
      fetchtok s = .ok a →
      a.tok = some t2 →
      t2.type = BUZZTOK_CONST →
      fetchtok (chunk_append a (num_instr [sg] (tokval t2))) = .ok q →
      parse_operand (n + 1) s = .ok q ∧ emitted s q = num_instr [sg] (tokval t2)) ∧
    (∀ (n : Nat) (s a b : buzzparser_s) (t t2 : buzztok_s),
      s.chunk < s.chunks.length →
      s.tok = some t →
      t.type = BUZZTOK_ADDSUB →
      tokop t = some '-' →
      fetchtok s = .ok a →
      a.tok = some t2 →
      t2.type ≠ BUZZTOK_CONST →
      parse_power n a = .ok b →
      parse_operand (n + 1) s = .ok (chunk_append b "\tunm\n".toList) ∧ emitted s (chunk_append b
        "\tunm\n".toList) = emitted a b ++ "\tunm\n".toList) ∧
    (∀ (n : Nat) (s a b : buzzparser_s) (t t2 : buzztok_s),
      s.tok = some t →
      t.type = BUZZTOK_ADDSUB →
      tokop t = some '+' →
      fetchtok s = .ok a →
      a.tok = some t2 →
      t2.type ≠ BUZZTOK_CONST →
      parse_power n a = .ok b →
      parse_operand (n + 1) s = .ok b ∧ emitted s b = emitted a b) ∧
    (∀ (n : Nat) (s q : buzzparser_s) (t : buzztok_s),
      s.chunk < s.chunks.length →
      s.tok = some t →
      t.type = BUZZTOK_CONST →
      fetchtok (chunk_append s (num_instr [] (tokval t))) = .ok q →
      parse_operand (n + 1) s = .ok q ∧ emitted s q = num_instr [] (tokval t)) :=
  ⟨c22_signed_literal, c22_minus, c22_plus, c22_literal⟩

/-- Witness for C22: `-1.5` gives `pushf -1.5`, `- -1` gives `pushi -1`, `unm`,
`+ -1` gives `pushi -1`, and `2` gives `pushi 2`. -/
theorem C22_witness :
    (∃ q, parse_operand 1 (ex_at [ex_op BUZZTOK_ADDSUB "-", ex_const "1.5",
        ex_op BUZZTOK_STATEND ";"] []) = .ok q ∧
      emitted (ex_at [ex_op BUZZTOK_ADDSUB "-", ex_const "1.5",
        ex_op BUZZTOK_STATEND ";"] []) q = "\tpushf -1.5\n".toList) ∧
    (∃ q, parse_operand 4 (ex_at [ex_op BUZZTOK_ADDSUB "-", ex_op BUZZTOK_ADDSUB "-",
        ex_const "1", ex_op BUZZTOK_STATEND ";"] []) = .ok q ∧
      emitted (ex_at [ex_op BUZZTOK_ADDSUB "-", ex_op BUZZTOK_ADDSUB "-",
        ex_const "1", ex_op BUZZTOK_STATEND ";"] []) q = "\tpushi -1\n\tunm\n".toList) ∧
    (∃ q, parse_operand 4 (ex_at [ex_op BUZZTOK_ADDSUB "+", ex_op BUZZTOK_ADDSUB "-",
        ex_const "1", ex_op BUZZTOK_STATEND ";"] []) = .ok q ∧
      emitted (ex_at [ex_op BUZZTOK_ADDSUB "+", ex_op BUZZTOK_ADDSUB "-",
        ex_const "1", ex_op BUZZTOK_STATEND ";"] []) q = "\tpushi -1\n".toList) ∧
    (∃ q, parse_operand 1 (ex_at [ex_const "2", ex_op BUZZTOK_STATEND ";"] []) = .ok q ∧
      emitted (ex_at [ex_const "2", ex_op BUZZTOK_STATEND ";"] []) q =
        "\tpushi 2\n".toList) := by
  refine ⟨?_, ?_, ?_, ?_⟩
  · obtain ⟨h1, h2⟩ := C22_signed_operands.1 0
      (ex_at [ex_op BUZZTOK_ADDSUB "-", ex_const "1.5", ex_op BUZZTOK_STATEND ";"] [])
      (ex_at [ex_const "1.5", ex_op BUZZTOK_STATEND ";"] [])
      (ex_at [ex_op BUZZTOK_STATEND ";"] ["\tpushf -1.5\n".toList])
      (ex_op BUZZTOK_ADDSUB "-") (ex_const "1.5") '-'
      (ex_at_valid _ _) (ex_at_tok _ _ _) rfl rfl (ex_fetch _ _ _ _) (ex_at_tok _ _ _) rfl
      (by rfl)
    exact ⟨_, h1, h2.trans (by decide)⟩
  · obtain ⟨h1, h2⟩ := C22_signed_operands.2.1 3
      (ex_at [ex_op BUZZTOK_ADDSUB "-", ex_op BUZZTOK_ADDSUB "-", ex_const "1",
        ex_op BUZZTOK_STATEND ";"] [])
      (ex_at [ex_op BUZZTOK_ADDSUB "-", ex_const "1", ex_op BUZZTOK_STATEND ";"] [])
      (ex_at [ex_op BUZZTOK_STATEND ";"] ["\tpushi -1\n".toList])
      (ex_op BUZZTOK_ADDSUB "-") (ex_op BUZZTOK_ADDSUB "-")
      (ex_at_valid _ _) (ex_at_tok _ _ _) rfl rfl (ex_fetch _ _ _ _) (ex_at_tok _ _ _)
      (by decide) (c22_run_neg [])
    exact ⟨_, h1, h2.trans (by decide)⟩
  · obtain ⟨h1, h2⟩ := C22_signed_operands.2.2.1 3
      (ex_at [ex_op BUZZTOK_ADDSUB "+", ex_op BUZZTOK_ADDSUB "-", ex_const "1",
        ex_op BUZZTOK_STATEND ";"] [])
      (ex_at [ex_op BUZZTOK_ADDSUB "-", ex_const "1", ex_op BUZZTOK_STATEND ";"] [])
      (ex_at [ex_op BUZZTOK_STATEND ";"] ["\tpushi -1\n".toList])
      (ex_op BUZZTOK_ADDSUB "+") (ex_op BUZZTOK_ADDSUB "-")
      (ex_at_tok _ _ _) rfl rfl (ex_fetch _ _ _ _) (ex_at_tok _ _ _)
      (by decide) (c22_run_neg [])
    exact ⟨_, h1, h2.trans (by decide)⟩
  · obtain ⟨h1, h2⟩ := C22_signed_operands.2.2.2 0
      (ex_at [ex_const "2", ex_op BUZZTOK_STATEND ";"] [])
      (ex_at [ex_op BUZZTOK_STATEND ";"] ["\tpushi 2\n".toList])
      (ex_const "2") (ex_at_valid _ _) (ex_at_tok _ _ _) rfl (by rfl)
    exact ⟨_, h1, h2.trans (by decide)⟩

/-- Claim C23.  Function `sym_lookup` scans the scope stack from the innermost
table (the head of the list) outwards.  It returns `none` exactly when no table
of the stack holds the name; it returns `some s` exactly when the stack splits
into tables `pre` that do not hold the name, a table `t` in which `s` is the
record stored under the name, and the tables `post` further out; in particular
a name held by the innermost table resolves to the record of that table,
whatever the outer tables hold.  The function only returns a value: the stack
and the tables are arguments it reads. -/
theorem C23_lookup_innermost (x : cstr) (stack : List buzzdict_t) :
    (sym_lookup x stack = none ↔ ∀ t ∈ stack, x ∉ t.map Prod.fst) ∧
    (∀ s : sym_s, sym_lookup x stack = some s ↔
      ∃ pre t post, stack = pre ++ t :: post ∧ (∀ u ∈ pre, x ∉ u.map Prod.fst) ∧
        buzzdict_get t x = some s) ∧
    (∀ (t : buzzdict_t) (s : sym_s), buzzdict_get t x = some s →
      sym_lookup x (t :: stack) = some s) := by
  refine ⟨?_, fun s => ?_, fun t s h => sym_lookup_cons_some stack h⟩
  · rw [sym_lookup_none_iff]
    exact forall_congr' fun t => imp_congr_right fun _ => buzzdict_get_none_iff t x
  · rw [sym_lookup_some_iff]
    constructor
    · rintro ⟨pre, t, post, e, h1, h2⟩
      exact ⟨pre, t, post, e, fun u hu => (buzzdict_get_none_iff u x).1 (h1 u hu), h2⟩
    · rintro ⟨pre, t, post, e, h1, h2⟩
      exact ⟨pre, t, post, e, fun u hu => (buzzdict_get_none_iff u x).2 (h1 u hu), h2⟩

/-- Witness for C23: with `x` bound in the table of a function and in the
global table, the lookup gives the symbol of the function's table. -/
theorem C23_witness :
    sym_lookup "x".toList [[("x".toList, ⟨0, TYPE_BASIC, false⟩)],
      [("y".toList, ⟨0, TYPE_BASIC, true⟩), ("x".toList, ⟨1, TYPE_BASIC, true⟩)]] =
      some ⟨0, TYPE_BASIC, false⟩ :=
  (C23_lookup_innermost "x".toList
    [[("y".toList, ⟨0, TYPE_BASIC, true⟩), ("x".toList, ⟨1, TYPE_BASIC, true⟩)]]).2.2
    [("x".toList, ⟨0, TYPE_BASIC, false⟩)] ⟨0, TYPE_BASIC, false⟩ (by decide)

/-- Claim C24 (the code departs from it).  The script `if (1) {} ;` compiles
into the global chunk alone, whose code marks the label 1 once and ends with
the exit sequence.  `parse_script` never finalizes this chunk, so no NUL
follows its code in the buffer and `chunk_print`, which prints the buffer as a
C string, goes on with the bytes that memory holds after the code: the text
written is the label line of the chunk, its code and those bytes.  When there
are none, no line `@__label_<N>` occurs twice in the text written; when they
are `@__label_1` and a newline, the line `@__label_1` occurs twice. -/
theorem C24_stray_marker :
    parse_script 10 (buzzparser_new c24_toks) = .ok c24_final ∧
    c24_final.chunks = [c24_chunk] ∧
    chunk_text c24_chunk =
      "\tpushi 1\n\tjumpz @__label_1\n@__label_1\n\n@__exitpoint\n\tdone\n".toList ∧
    c24_chunk.code.drop c24_chunk.csize = [] ∧
    (∀ (heap : chunk_s → Bool × Int) (mem : chunk_s → cstr),
      (buzzparser_parse heap mem 10 (buzzparser_new c24_toks)).2 =
        "\n@__label_0\n".toList ++ chunk_text c24_chunk ++
          (mem c24_chunk).takeWhile (fun b => b ≠ Char.ofNat 0)) ∧
    (∀ (heap : chunk_s → Bool × Int) (N : Nat),
      (split_lines (buzzparser_parse heap (fun _ => []) 10 (buzzparser_new c24_toks)).2).count
        (LABELREF ++ fmt_u N) ≤ 1) ∧
    (∀ heap : chunk_s → Bool × Int,
      (split_lines (buzzparser_parse heap (fun _ => "@__label_1\n".toList) 10
        (buzzparser_new c24_toks)).2).count (LABELREF ++ fmt_u 1) = 2) := by
  refine ⟨c24_script, rfl, c24_text, by decide, c24_out, fun heap N => ?_, fun heap => ?_⟩
  · refine output_marks heap (fun _ => []) c24_script (by unfold NoWrap; decide)
      (by unfold TokWF tokval_ok; decide) (fun g hg => ?_) N
    have e : g = c24_chunk := by
      have : c24_final.chunks.head? = some c24_chunk := rfl
      rw [this] at hg
      exact (Option.some.inj hg).symm
    rw [e, stray_open _ _ (by decide)]
    rfl
  · rw [c24_out, c24_text]
    decide

/-- Claim C25.  Let `c` be a chunk with `0 < ccap` whose `csize` bytes are in
its buffer, and `txt` a text of length `l`.  Then `chunk_addcode c txt` has
`csize + l` as its size, which is below its capacity; its capacity is
`ccap * 2 ^ k` for the least `k` with `csize + l < ccap * 2 ^ k`; its first
`csize` bytes are those of `c` and the next `l` bytes are `txt`; and the
doubling loop ends on that capacity with any fuel above `csize + l`, so it
terminates.  Hence a chunk made by `chunk_new` to which texts are appended in
order has its size below its capacity and holds the concatenation of the
texts; `chunk_finalize` keeps the size below the capacity; every grammar rule
keeps `csize < ccap` for every chunk of the chunk list, and it holds for every
chunk when `parse_script` succeeds. -/
theorem C25_addcode_in_bounds :
    (∀ (c : chunk_s) (txt : cstr), 0 < c.ccap → chunk_wf c →
      (chunk_addcode c txt).csize = c.csize + txt.length ∧
      (chunk_addcode c txt).csize < (chunk_addcode c txt).ccap ∧
      (∃ k, (chunk_addcode c txt).ccap = c.ccap * 2 ^ k ∧
        c.csize + txt.length < c.ccap * 2 ^ k ∧
        ∀ j, j < k → c.ccap * 2 ^ j ≤ c.csize + txt.length) ∧
      (chunk_addcode c txt).code.take c.csize = c.code.take c.csize ∧
      ((chunk_addcode c txt).code.drop c.csize).take txt.length = txt ∧
      (∀ fuel, c.csize + txt.length < fuel → c.ccap ≤ c.csize + txt.length →
        chunk_grow fuel (c.csize + txt.length) c.ccap = (chunk_addcode c txt).ccap)) ∧
    (∀ (label : Nat) (sym : Option sym_s) (texts : List cstr),
      (texts.foldl chunk_addcode (chunk_new label sym)).csize <
        (texts.foldl chunk_addcode (chunk_new label sym)).ccap ∧
      chunk_text (texts.foldl chunk_addcode (chunk_new label sym)) = texts.flatten) ∧
    (∀ c : chunk_s, (chunk_finalize c).csize < (chunk_finalize c).ccap) ∧
    (∀ n : Nat, AllRules (fun p q =>
      (∀ c ∈ p.chunks, c.csize < c.ccap) → ∀ c ∈ q.chunks, c.csize < c.ccap) n) ∧
    (∀ (n : Nat) (toks : List buzztok_s) (q : buzzparser_s),
      parse_script n (buzzparser_new toks) = .ok q → ∀ c ∈ q.chunks, c.csize < c.ccap) := by
  have hnew : ∀ (l : Nat) (s : Option sym_s), (chunk_new l s).csize < (chunk_new l s).ccap :=
    fun _ _ => show 0 < 10 from by decide
  have hfin : ∀ c : chunk_s, (chunk_finalize c).csize < (chunk_finalize c).ccap :=
    fun c => Nat.lt_succ_self _
  refine ⟨chunk_addcode_spec, fun label sym texts => ?_, hfin, fun n => ?_, fun n toks q h => ?_⟩
  · have := foldl_addcode texts (chunk_new label sym) (hnew _ _)
    exact ⟨this.1, this.2.trans (by simp [chunk_text, chunk_new])⟩
  · exact allrules_mono (fun _ _ h =>
      reach_chunks (fun c => c.csize < c.ccap) hnew chunk_addcode_lt (fun c _ => hfin c) h)
      (rules_reach n)
  · exact script_chunks (fun c => c.csize < c.ccap) hnew chunk_addcode_lt (fun c _ => hfin c)
      n toks q h

/-- Witness for C25: the eleven bytes of `gstore 10` appended to a new chunk
(capacity 10) double the capacity once; and every chunk of the script
`function f() {}` has its size below its capacity. -/
theorem C25_witness :
    (chunk_addcode (chunk_new 0 none) "\tgstore 10\n".toList).csize = 0 + 11 ∧
    (chunk_addcode (chunk_new 0 none) "\tgstore 10\n".toList).ccap = 20 ∧
    ∀ c ∈ c9_final.chunks, c.csize < c.ccap :=
  ⟨(C25_addcode_in_bounds.1 (chunk_new 0 none) "\tgstore 10\n".toList (by decide)
      (Nat.zero_le _)).1,
   by decide,
   C25_addcode_in_bounds.2.2.2.2 8 c9_toks c9_final c9_script⟩

/-- Claim C26 (the code departs from it).  After the statements
`function f() {} ; function f() {} ; x = 1 ;` at top level the global table
holds the two names `f` and `x` at the same slot 1: the second definition of
`f` gave it the slot 1, the size of the table, without the table growing, and
the first assignment to `x` took the size of the table again. -/
theorem C26_rebinding_shares_slot :
    parse_statlist 16 c26_state = .ok c26_final ∧
    c26_state.symstack = [[]] ∧
    c26_final.symstack =
      [[("f".toList, ⟨1, TYPE_BASIC, true⟩), ("x".toList, ⟨1, TYPE_BASIC, true⟩)]] ∧
    sym_lookup "f".toList c26_final.symstack = some ⟨1, TYPE_BASIC, true⟩ ∧
    sym_lookup "x".toList c26_final.symstack = some ⟨1, TYPE_BASIC, true⟩ ∧
    text_at c26_final.chunks 0 = "\tpushi 1\n\tgstore 1\n".toList :=
  ⟨c26_run, rfl, rfl, by decide, by decide, by decide⟩

/-- Claim C27.  On a string-literal or boolean-literal token that is followed
by a token, `parse_operand` succeeds, makes the following token the current one
and changes nothing else: it appends nothing to any chunk.  When no token
follows it fails with the end-of-input error of `fetchtok`.  Consequently, at
top level (one table `g`) with `x` not bound, the statement `x = lit` with such
a literal, followed by a token that continues no expression, parses with any
fuel of at least 6, binds `x` at slot `buzzdict_size g` and appends to the
current chunk the instruction `gstore <slot>` and nothing before it. -/
theorem C27_literal_pushes_nothing (n : Nat) (x : cstr) (va : Option cstr)
    (lit nxt : buzztok_s) (rest : List buzztok_s) (ss : List buzzdict_t) (g : buzzdict_t)
    (ch : List chunk_s) (ci lab : Nat)
    (hl : lit.type = BUZZTOK_STRING ∨ lit.type = BUZZTOK_BOOL) :
    parse_operand (n + 1) ⟨nxt :: rest, some lit, ss, ch, ci, lab⟩ =
      .ok ⟨rest, some nxt, ss, ch, ci, lab⟩ ∧
    parse_operand (n + 1) ⟨[], some lit, ss, ch, ci, lab⟩ = .error .eof ∧
    (buzzdict_get g x = none → nxt.type ≠ BUZZTOK_POW → nxt.type ≠ BUZZTOK_MOD →
      nxt.type ≠ BUZZTOK_MULDIV → nxt.type ≠ BUZZTOK_ADDSUB → ci < ch.length →
      parse_command (n + 6)
        ⟨⟨BUZZTOK_ASSIGN, va⟩ :: lit :: nxt :: rest, some ⟨BUZZTOK_ID, some x⟩, [g], ch, ci,
          lab⟩ =
        .ok (chunk_append
          ⟨rest, some nxt, [g ++ [(x, ⟨buzzdict_size g, TYPE_BASIC, true⟩)]], ch, ci, lab⟩
          ("\tgstore ".toList ++ fmt_u (buzzdict_size g) ++ "\n".toList)) ∧
      emitted
        ⟨⟨BUZZTOK_ASSIGN, va⟩ :: lit :: nxt :: rest, some ⟨BUZZTOK_ID, some x⟩, [g], ch, ci,
          lab⟩
        (chunk_append
          ⟨rest, some nxt, [g ++ [(x, ⟨buzzdict_size g, TYPE_BASIC, true⟩)]], ch, ci, lab⟩
          ("\tgstore ".toList ++ fmt_u (buzzdict_size g) ++ "\n".toList)) =
        "\tgstore ".toList ++ fmt_u (buzzdict_size g) ++ "\n".toList) := by
  refine ⟨lit_operand n lit nxt rest ss ch ci lab hl, lit_operand_eof n lit ss ch ci lab hl,
    fun hx h1 h2 h3 h4 hci => ⟨lit_assign n x va lit nxt rest g ch ci lab hx hl h1 h2 h3 h4, ?_⟩⟩
  have e : Ext (⟨⟨BUZZTOK_ASSIGN, va⟩ :: lit :: nxt :: rest, some ⟨BUZZTOK_ID, some x⟩, [g], ch,
      ci, lab⟩ : buzzparser_s)
      ⟨rest, some nxt, [g ++ [(x, ⟨buzzdict_size g, TYPE_BASIC, true⟩)]], ch, ci, lab⟩ :=
    ext_of_eq rfl rfl
  rw [emitted_append_right _ e hci]
  simp [emitted]

/-- Witness for C27: `x = "s"` and `x = true` at top level append `gstore 0`
only. -/
theorem C27_witness :
    emitted
      ⟨[⟨BUZZTOK_ASSIGN, none⟩, ⟨BUZZTOK_STRING, some "s".toList⟩,
        ⟨BUZZTOK_STATEND, some ";".toList⟩], some ⟨BUZZTOK_ID, some "x".toList⟩, [[]],
        [chunk_new 0 none], 0, 1⟩
      (chunk_append ⟨[], some ⟨BUZZTOK_STATEND, some ";".toList⟩,
        [[("x".toList, ⟨0, TYPE_BASIC, true⟩)]], [chunk_new 0 none], 0, 1⟩
        "\tgstore 0\n".toList) =
      "\tgstore 0\n".toList ∧
    parse_command 6
      ⟨[⟨BUZZTOK_ASSIGN, none⟩, ⟨BUZZTOK_BOOL, some "true".toList⟩,
        ⟨BUZZTOK_STATEND, some ";".toList⟩], some ⟨BUZZTOK_ID, some "x".toList⟩, [[]],
        [chunk_new 0 none], 0, 1⟩ =
      .ok (chunk_append ⟨[], some ⟨BUZZTOK_STATEND, some ";".toList⟩,
        [[("x".toList, ⟨0, TYPE_BASIC, true⟩)]], [chunk_new 0 none], 0, 1⟩
        "\tgstore 0\n".toList) :=
  ⟨((C27_literal_pushes_nothing 0 "x".toList none ⟨BUZZTOK_STRING, some "s".toList⟩
      ⟨BUZZTOK_STATEND, some ";".toList⟩ [] [] [] [chunk_new 0 none] 0 1 (Or.inl rfl)).2.2
      (by decide) (by decide) (by decide) (by decide) (by decide) (by decide)).2,
   ((C27_literal_pushes_nothing 0 "x".toList none ⟨BUZZTOK_BOOL, some "true".toList⟩
      ⟨BUZZTOK_STATEND, some ";".toList⟩ [] [] [] [chunk_new 0 none] 0 1 (Or.inr rfl)).2.2
      (by decide) (by decide) (by decide) (by decide) (by decide) (by decide)).1⟩

/-- Claim C28.  Let `parse_if` run on an `if` whose condition and true block
parse, and let the tokens that follow the true block start with the newlines
`nls` (statement-end tokens whose text is absent), the fuel `n` being above
their number.  First part: when the newlines are followed by a token `t` that
is neither a newline nor `else`, `parse_if` succeeds and returns with `t` as
the current token, all the newlines consumed; and when `t` is neither a
statement end nor a block close (it starts another statement),
`parse_statlist` on the `if` fails with the error of a statement list that
does not end.  Second part: when the input ends with the newlines, `parse_if`
fails with the end-of-input error. -/
theorem C28_if_eats_newlines (n m : Nat) (p a0 a1 c d : buzzparser_s) (ti tp tc t0 t : buzztok_s)
    (nls lex rest : List buzztok_s) (ss : List buzzdict_t) (ch : List chunk_s) (ci lab : Nat)
    (hti : p.tok = some ti) (hti2 : ti.type = BUZZTOK_IF)
    (hf0 : fetchtok (labels_bump p) = .ok a0)
    (htp : a0.tok = some tp) (htp2 : tp.type = BUZZTOK_PAROPEN)
    (hf1 : fetchtok a0 = .ok a1)
    (hc : parse_condition n a1 = .ok c)
    (htc : c.tok = some tc) (htc2 : tc.type = BUZZTOK_PARCLOSE)
    (hf2 : fetchtok c = .ok d)
    (hb : parse_block n (chunk_append d
      ("\tjumpz ".toList ++ LABELREF ++ fmt_u p.labels ++ "\n".toList)) =
      .ok ⟨lex, some t0, ss, ch, ci, lab⟩)
    (hnl : ∀ u ∈ nls, is_newline u) (hn : n = nls.length + 1 + m) :
    (t0 :: lex = nls ++ t :: rest → ¬ is_newline t → t.type ≠ BUZZTOK_ELSE →
      parse_if (n + 1) p = .ok (chunk_append ⟨rest, some t, ss, ch, ci, lab⟩
        (LABELREF ++ fmt_u p.labels ++ "\n".toList)) ∧
      (t.type ≠ BUZZTOK_STATEND → t.type ≠ BUZZTOK_BLOCKCLOSE →
        parse_statlist (n + 3) p = .error .statlist)) ∧
    (t0 :: lex = nls → parse_if (n + 1) p = .error .eof) :=
  c28_if n m p a0 a1 c d ti tp tc t0 t nls lex rest ss ch ci lab hti hti2 hf0 htp htp2 hf1 hc htc
    htc2 hf2 hb hnl hn

/-- Witness for C28: in `if (1) {}`, two newlines, `x = 1 ;` the statement list
fails although `parse_if` succeeds, and `if (1) {}` followed by two newlines
and the end of the input fails in `parse_if`. -/
theorem C28_witness :
    parse_if 9 (c28_state c28_tail) =
      .ok (chunk_append ⟨[⟨BUZZTOK_ASSIGN, none⟩, ⟨BUZZTOK_CONST, some "1".toList⟩,
        ⟨BUZZTOK_STATEND, some ";".toList⟩], some ⟨BUZZTOK_ID, some "x".toList⟩, [[]],
        c28_chunks, 0, 3⟩ "@__label_1\n".toList) ∧
    parse_statlist 11 (c28_state c28_tail) = .error .statlist ∧
    parse_if 9 (c28_state [⟨BUZZTOK_STATEND, none⟩, ⟨BUZZTOK_STATEND, none⟩]) = .error .eof := by
  have h1 := (C28_if_eats_newlines 8 5 (c28_state c28_tail) _ _ _ _ ⟨BUZZTOK_IF, none⟩
    ⟨BUZZTOK_PAROPEN, none⟩ ⟨BUZZTOK_PARCLOSE, none⟩ ⟨BUZZTOK_STATEND, none⟩
    ⟨BUZZTOK_ID, some "x".toList⟩ [⟨BUZZTOK_STATEND, none⟩, ⟨BUZZTOK_STATEND, none⟩]
    _ [⟨BUZZTOK_ASSIGN, none⟩, ⟨BUZZTOK_CONST, some "1".toList⟩,
      ⟨BUZZTOK_STATEND, some ";".toList⟩] [[]] c28_chunks 0 3
    rfl rfl (fetchtok_mk _ _ _ _ _ _ _) rfl rfl (fetchtok_mk _ _ _ _ _ _ _)
    (c28_cond_run c28_tail) rfl rfl (fetchtok_mk _ _ _ _ _ _ _)
    (c28_block_run ⟨BUZZTOK_STATEND, none⟩ c28_tail.tail)
    (by simp [is_newline]) rfl).1 rfl (by simp [is_newline]) (by decide)
  have h2 := (C28_if_eats_newlines 8 5
    (c28_state [⟨BUZZTOK_STATEND, none⟩, ⟨BUZZTOK_STATEND, none⟩]) _ _ _ _ ⟨BUZZTOK_IF, none⟩
    ⟨BUZZTOK_PAROPEN, none⟩ ⟨BUZZTOK_PARCLOSE, none⟩ ⟨BUZZTOK_STATEND, none⟩
    ⟨BUZZTOK_STATEND, none⟩ [⟨BUZZTOK_STATEND, none⟩, ⟨BUZZTOK_STATEND, none⟩]
    _ [] [[]] c28_chunks 0 3
    rfl rfl (fetchtok_mk _ _ _ _ _ _ _) rfl rfl (fetchtok_mk _ _ _ _ _ _ _)
    (c28_cond_run _) rfl rfl (fetchtok_mk _ _ _ _ _ _ _)
    (c28_block_run ⟨BUZZTOK_STATEND, none⟩ [⟨BUZZTOK_STATEND, none⟩])
    (by simp [is_newline]) rfl).2 rfl
  exact ⟨h1.1, h1.2 (by decide) (by decide), h2⟩

/-- Claim C29 (counterexample).  The script `x = 1 } y = 2` compiles: when
`parse_script` returns successfully the current token is the unmatched `}` and
the tokens `y = 2` are still in the lexer, unparsed. -/
theorem C29_counterexample :
    parse_script 8 (buzzparser_new c29_toks) = .ok c29_final ∧
    c29_final.tok = some ⟨BUZZTOK_BLOCKCLOSE, none⟩ ∧
    c29_final.lex = [⟨BUZZTOK_ID, some "y".toList⟩, ⟨BUZZTOK_ASSIGN, none⟩,
      ⟨BUZZTOK_CONST, some "2".toList⟩] ∧
    text_at c29_final.chunks 0 = "\tpushi 1\n\tgstore 0\n\n@__exitpoint\n\tdone\n".toList :=
  ⟨c29_script, rfl, rfl, by decide⟩

/-- Claim C29 (amended).  Whenever `parse_script` succeeds, either the whole
token stream has been consumed (there is no current token and no token is left
in the lexer), or the current token is a block close `}`: an unmatched `}` at
top level ends the script, whatever follows it. -/
theorem C29_script_end (n : Nat) (p q : buzzparser_s) (h : parse_script n p = .ok q) :
    (q.tok = none ∧ q.lex = []) ∨ ∃ t, q.tok = some t ∧ t.type = BUZZTOK_BLOCKCLOSE :=
  script_end n p q h

/-- Witness for C29: the script `function f() {}` followed by a statement end
is consumed to its end. -/
theorem C29_witness :
    (c9_final.tok = none ∧ c9_final.lex = []) ∨
      ∃ t, c9_final.tok = some t ∧ t.type = BUZZTOK_BLOCKCLOSE :=
  C29_script_end 8 (buzzparser_new c9_toks) c9_final c9_script

end Buzz
